import Mathlib

/-!
# The protocol scanner and the server dispatch core

A shallow embedding of `scanner.c` (description parser, signature and
types-vector emitter), of `wayland-server.c` (request dispatcher, resource
creation and destruction, registry and globals, clients, listening sockets)
and of `wayland-os.c` (the close-on-exec wrappers), followed by the properties
established about them.

Conventions of the embedding.

* C `int` values are `Int`; `uint32_t` values are `Nat` reduced modulo `2 ^ 32`
  where the source can overflow them.  The scanner's counters (`arg_count`,
  `type_index`, `null_run_length`) count elements of the parsed document and are
  left unreduced: signed overflow has no defined wrap-around in C.
* A `wl_list` is a `List`: inserting at `list.prev` appends, inserting at the
  list head prepends, and `wl_list_for_each` walks from the front.
* A nullable pointer is an `Option`.
* Calls into code outside the embedded files (handlers, listeners, the
  connection, libc text formatting, system calls) are recorded in a call log;
  their effect on the state is supplied by an environment record.
* A C string is the list of its bytes before the terminating NUL.
-/

namespace Scanner

/-! ## Description model (`scanner.c`, lines 51-145) -/

/-- The `enum arg_type` of the scanner. -/
inductive arg_type where
  | NEW_ID
  | INT
  | UNSIGNED
  | FIXED
  | STRING
  | OBJECT
  | ARRAY
  | FD
  deriving DecidableEq, Repr

/-- The `struct arg` of the scanner. -/
structure arg where
  name : String
  type : arg_type
  nullable : Int
  interface_name : Option String
  summary : Option String
  deriving DecidableEq, Repr

/-- The `struct message` of the scanner. -/
structure message where
  name : String
  arg_list : List arg
  arg_count : Int
  new_id_count : Int
  type_index : Int
  all_null : Int
  destructor : Int
  since : Int
  deriving DecidableEq, Repr

/-- The `struct entry` of the scanner. -/
structure entry where
  name : String
  value : String
  summary : Option String
  deriving DecidableEq, Repr

/-- The `struct enumeration` of the scanner. -/
structure enumeration where
  name : String
  entry_list : List entry
  deriving DecidableEq, Repr

/-- The `struct interface` of the scanner. -/
structure interface where
  name : String
  version : Int
  since : Int
  request_list : List message
  event_list : List message
  enumeration_list : List enumeration
  deriving DecidableEq, Repr

/-- The `struct protocol` of the scanner. -/
structure protocol where
  name : Option String
  interface_list : List interface
  type_index : Int
  null_run_length : Int
  deriving DecidableEq, Repr

/-- The function `is_nullable_type`: strings, objects, new ids and arrays. -/
def is_nullable_type (a : arg) : Int :=
  match a.type with
  | .STRING => 1
  | .OBJECT => 1
  | .NEW_ID => 1
  | .ARRAY => 1
  | _ => 0

/-! ## libc helpers used by the parser -/

/-- The C locale `isspace`. -/
def isspace (c : Char) : Bool :=
  c = ' ' || c = '\t' || c = '\n' || c = '\x0b' || c = '\x0c' || c = '\r'

/-- Value of a digit character in bases up to 36. -/
def digit_value (c : Char) : Option Nat :=
  if '0' ≤ c ∧ c ≤ '9' then some (c.toNat - '0'.toNat)
  else if 'a' ≤ c ∧ c ≤ 'z' then some (c.toNat - 'a'.toNat + 10)
  else if 'A' ≤ c ∧ c ≤ 'Z' then some (c.toNat - 'A'.toNat + 10)
  else none

/-- Whether `c` is a digit of base `b`. -/
def is_digit_of (b : Nat) (c : Char) : Bool :=
  match digit_value c with
  | some d => decide (d < b)
  | none => false

/-- Accumulate the digits of a number written in base `b`. -/
def digits_value (b : Nat) (ds : List Char) : Nat :=
  ds.foldl (fun acc c => acc * b + (digit_value c).getD 0) 0

/-- The bounds of a 64-bit `long`. -/
def LONG_MAX : Int := 2 ^ 63 - 1

/-- The lower bound of a 64-bit `long`. -/
def LONG_MIN : Int := -(2 ^ 63)

/-- Conversion of a `long` to a 32-bit `int` (assignment `version = strtol(..)`). -/
def to_int32 (v : Int) : Int :=
  (v + 2 ^ 31) % 2 ^ 32 - 2 ^ 31

/-- The libc function `strtol (s, &end, base)`: the converted value and the
unconverted rest of the string.  When no digits can be converted the value is 0
and the rest is the whole input.  Values out of range are clamped. -/
def strtol (s : List Char) (base : Nat) : Int × List Char :=
  let s1 := s.dropWhile isspace
  let signed : Bool × List Char :=
    match s1 with
    | '-' :: t => (true, t)
    | '+' :: t => (false, t)
    | _ => (false, s1)
  let neg := signed.1
  let s2 := signed.2
  let based : Nat × List Char :=
    match s2 with
    | '0' :: x :: h :: t =>
      if (base = 0 ∨ base = 16) ∧ (x = 'x' ∨ x = 'X') ∧ is_digit_of 16 h then (16, h :: t)
      else if base = 0 then (8, s2) else (base, s2)
    | '0' :: _ => if base = 0 then (8, s2) else (base, s2)
    | _ => if base = 0 then (10, s2) else (base, s2)
  let b := based.1
  let s3 := based.2
  let ds := s3.takeWhile (is_digit_of b)
  let rest := s3.dropWhile (is_digit_of b)
  if ds = [] then (0, s)
  else
    let v : Int := digits_value b ds
    if neg then (max (-v) LONG_MIN, rest) else (min v LONG_MAX, rest)

/-- The libc function `atoi`, i.e. `(int) strtol (s, NULL, 10)`. -/
def atoi (s : String) : Int :=
  to_int32 (strtol s.data 10).1

/-- The text written by `printf ("%d", n)`. -/
def printf_d (n : Int) : String :=
  if n < 0 then "-" ++ Nat.repr (-n).toNat else Nat.repr n.toNat

/-! ## Description parser (`start_element`, `end_element`, `main`) -/

/-- How a parse ends early: `fail` prints a located message and exits,
`character_data` exits when its buffer is full, and a dereference of a NULL
pointer ends the process. -/
inductive parse_error where
  | fatal (line_number : Int) (msg : String)
  | too_much_character_data
  | null_dereference
  deriving DecidableEq, Repr

/-- The `struct parse_context`.  The pointer `ctx->interface` is the index of the
interface in the protocol's list; `ctx->message` is the index of the interface,
the list it was appended to (`true` for the request list) and its index there;
`ctx->enumeration` is the index of the interface and of the enumeration in it.
The text written by `warn` is collected in `warnings`. -/
structure parse_context where
  line_number : Int
  protocol : protocol
  interface : Option Nat
  message : Option (Nat × Bool × Nat)
  enumeration : Option (Nat × Nat)
  has_description : Bool
  character_data_length : Nat
  warnings : List (Int × String)
  deriving DecidableEq, Repr

/-- The locals of `start_element` that the attribute loop fills in. -/
structure attributes where
  name : Option String
  type : Option String
  version : Int
  interface_name : Option String
  value : Option String
  summary : Option String
  since : Option String
  allow_null : Option String
  deriving DecidableEq, Repr

/-- One round of the attribute loop of `start_element`. -/
def scan_attribute (a : attributes) (kv : String × String) : attributes :=
  let a := if kv.1 = "name" then { a with name := some kv.2 } else a
  let a := if kv.1 = "version" then { a with version := atoi kv.2 } else a
  let a := if kv.1 = "type" then { a with type := some kv.2 } else a
  let a := if kv.1 = "value" then { a with value := some kv.2 } else a
  let a := if kv.1 = "interface" then { a with interface_name := some kv.2 } else a
  let a := if kv.1 = "summary" then { a with summary := some kv.2 } else a
  let a := if kv.1 = "since" then { a with since := some kv.2 } else a
  let a := if kv.1 = "allow-null" then { a with allow_null := some kv.2 } else a
  a

/-- The attribute loop of `start_element`. -/
def scan_attributes (atts : List (String × String)) : attributes :=
  atts.foldl scan_attribute
    { name := none, type := none, version := 0, interface_name := none,
      value := none, summary := none, since := none, allow_null := none }

/-- Apply `f` to the element at index `n` of a list. -/
def modify_at {α : Type} (f : α → α) : Nat → List α → List α
  | _, [] => []
  | 0, x :: xs => f x :: xs
  | n + 1, x :: xs => x :: modify_at f n xs

/-- Update through the pointer `ctx->message`. -/
def update_message (p : protocol) (ptr : Nat × Bool × Nat) (f : message → message) :
    protocol :=
  let in_interface : interface → interface := fun i =>
    if ptr.2.1 then { i with request_list := modify_at f ptr.2.2 i.request_list }
    else { i with event_list := modify_at f ptr.2.2 i.event_list }
  { p with interface_list := modify_at in_interface ptr.1 p.interface_list }

/-- The conversion of the `since` attribute in the `request` / `event` branch:
`strtol` with base 0, refused unless the whole attribute converts; 1 when the
attribute is absent. -/
def parse_since (line_number : Int) : Option String → Except parse_error Int
  | some since =>
    let r := strtol since.data 0
    if r.2 = since.data ∨ r.2 ≠ [] then
      .error (.fatal line_number ("invalid integer (" ++ since ++ ")\n"))
    else .ok (to_int32 r.1)
  | none => .ok 1

/-- The message the `request` / `event` branch allocates and fills in. -/
def new_message (name : String) (destructor version : Int) : message :=
  { name := name, arg_list := [], arg_count := 0, new_id_count := 0,
    type_index := 0, all_null := 0, destructor := destructor, since := version }

/-- The `request` / `event` branch of `start_element`. -/
def start_message (ctx : parse_context) (element_name : String) (a : attributes) :
    Except parse_error parse_context :=
  match a.name with
  | none => .error (.fatal ctx.line_number "no request name given")
  | some name =>
    match ctx.interface with
    | none => .error .null_dereference
    | some k =>
      match ctx.protocol.interface_list[k]? with
      | none => .error .null_dereference
      | some i =>
        let destructor : Int := if a.type = some "destructor" then 1 else 0
        match parse_since ctx.line_number a.since with
        | .error e => .error e
        | .ok version =>
          let warnings :=
            if version < i.since then
              ctx.warnings ++ [(ctx.line_number, "since version not increasing\n")]
            else ctx.warnings
          let m := new_message name destructor version
          let is_request := decide (element_name = "request")
          let position := if is_request then i.request_list.length else i.event_list.length
          let i1 : interface :=
            if is_request then { i with request_list := i.request_list ++ [m], since := version }
            else { i with event_list := i.event_list ++ [m], since := version }
          if name = "destroy" ∧ destructor = 0 then
            .error (.fatal ctx.line_number "destroy request should be destructor type")
          else
            let interfaces := modify_at (fun _ => i1) k ctx.protocol.interface_list
            .ok { ctx with
              protocol := { ctx.protocol with interface_list := interfaces }
              message := some (k, is_request, position)
              warnings := warnings }

/-- The type switch of the `arg` branch of `start_element`. -/
def parse_arg_type (type : String) : Option arg_type :=
  if type = "int" then some .INT
  else if type = "uint" then some .UNSIGNED
  else if type = "fixed" then some .FIXED
  else if type = "string" then some .STRING
  else if type = "array" then some .ARRAY
  else if type = "fd" then some .FD
  else if type = "new_id" then some .NEW_ID
  else if type = "object" then some .OBJECT
  else none

/-- The `arg` branch of `start_element` up to the insertion into the message:
the argument it builds, or the failure.  `has_message` tells whether
`ctx->message` is set, which the `NEW_ID` case of the switch dereferences. -/
def build_arg (line_number : Int) (has_message : Bool) (a : attributes) :
    Except parse_error arg :=
  match a.name with
  | none => .error (.fatal line_number "no argument name given")
  | some name =>
    match a.type with
    | none => .error .null_dereference
    | some type =>
      match parse_arg_type type with
      | none => .error (.fatal line_number ("unknown type (" ++ type ++ ")"))
      | some t =>
        if t = .NEW_ID ∧ has_message = false then .error .null_dereference
        else if t ≠ .NEW_ID ∧ t ≠ .OBJECT ∧ a.interface_name ≠ none then
          .error (.fatal line_number ("interface attribute not allowed for type " ++ type))
        else
          let nullable : Except parse_error Int :=
            if a.allow_null = none ∨ a.allow_null = some "false" then .ok 0
            else if a.allow_null = some "true" then .ok 1
            else .error (.fatal line_number
              ("invalid value for allow-null attribute (" ++ a.allow_null.getD "" ++ ")"))
          match nullable with
          | .error e => .error e
          | .ok n =>
            let built : arg :=
              { name := name, type := t, nullable := n,
                interface_name := a.interface_name, summary := a.summary }
            if a.allow_null ≠ none ∧ is_nullable_type built = 0 then
              .error (.fatal line_number
                "allow-null is only valid for objects, strings, and arrays")
            else .ok built

/-- The `arg` branch of `start_element`. -/
def start_arg (ctx : parse_context) (a : attributes) : Except parse_error parse_context :=
  match build_arg ctx.line_number ctx.message.isSome a with
  | .error e => .error e
  | .ok built =>
    match ctx.message with
    | none => .error .null_dereference
    | some ptr =>
      let add_arg : message → message := fun m =>
        { m with
          new_id_count := if built.type = .NEW_ID then m.new_id_count + 1 else m.new_id_count
          arg_list := m.arg_list ++ [built]
          arg_count := m.arg_count + 1 }
      .ok { ctx with protocol := update_message ctx.protocol ptr add_arg }

/-- The function `start_element`. -/
def start_element (ctx : parse_context) (line_number : Int) (element_name : String)
    (atts : List (String × String)) : Except parse_error parse_context :=
  let ctx := { ctx with line_number := line_number, character_data_length := 0 }
  let a := scan_attributes atts
  if element_name = "protocol" then
    match a.name with
    | none => .error (.fatal ctx.line_number "no protocol name given")
    | some name => .ok { ctx with protocol := { ctx.protocol with name := some name } }
  else if element_name = "copyright" then .ok ctx
  else if element_name = "interface" then
    match a.name with
    | none => .error (.fatal ctx.line_number "no interface name given")
    | some name =>
      if a.version = 0 then .error (.fatal ctx.line_number "no interface version given")
      else
        let i : interface :=
          { name := name, version := a.version, since := 1, request_list := [],
            event_list := [], enumeration_list := [] }
        let interfaces := ctx.protocol.interface_list ++ [i]
        .ok { ctx with
          protocol := { ctx.protocol with interface_list := interfaces }
          interface := some ctx.protocol.interface_list.length }
  else if element_name = "request" ∨ element_name = "event" then
    start_message ctx element_name a
  else if element_name = "arg" then start_arg ctx a
  else if element_name = "enum" then
    match a.name with
    | none => .error (.fatal ctx.line_number "no enum name given")
    | some name =>
      match ctx.interface with
      | none => .error .null_dereference
      | some k =>
        match ctx.protocol.interface_list[k]? with
        | none => .error .null_dereference
        | some i =>
          let added : enumeration := { name := name, entry_list := [] }
          let add_enum : interface → interface := fun i =>
            { i with enumeration_list := i.enumeration_list ++ [added] }
          let interfaces := modify_at add_enum k ctx.protocol.interface_list
          .ok { ctx with
            protocol := { ctx.protocol with interface_list := interfaces }
            enumeration := some (k, i.enumeration_list.length) }
  else if element_name = "entry" then
    match a.name with
    | none => .error (.fatal ctx.line_number "no entry name given")
    | some name =>
      match a.value, ctx.enumeration with
      | some value, some ptr =>
        let added : entry := { name := name, value := value, summary := a.summary }
        let add_entry : enumeration → enumeration := fun e =>
          { e with entry_list := e.entry_list ++ [added] }
        let in_interface : interface → interface := fun i =>
          { i with enumeration_list := modify_at add_entry ptr.2 i.enumeration_list }
        let interfaces := modify_at in_interface ptr.1 ctx.protocol.interface_list
        .ok { ctx with protocol := { ctx.protocol with interface_list := interfaces } }
      | _, _ => .error .null_dereference
  else if element_name = "description" then
    match a.summary with
    | none => .error (.fatal ctx.line_number "description without summary")
    | some _ => .ok { ctx with has_description := true }
  else .ok ctx

/-- The function `end_element`. -/
def end_element (ctx : parse_context) (name : String) : Except parse_error parse_context :=
  if name = "copyright" then .ok ctx
  else if name = "description" then
    if ctx.has_description then .ok { ctx with has_description := false }
    else .error .null_dereference
  else if name = "request" ∨ name = "event" then .ok { ctx with message := none }
  else if name = "enum" then .ok { ctx with enumeration := none }
  else .ok ctx

/-- What the XML parser reports to the handlers installed by `main`. -/
inductive xml_event where
  | start_tag (line_number : Int) (element_name : String) (atts : List (String × String))
  | end_tag (name : String)
  | text (len : Nat)
  deriving DecidableEq, Repr

/-- The function `character_data` on `len` bytes of text: they are appended to
the buffer of 8192 bytes, and the run ends when they do not fit. -/
def character_data (ctx : parse_context) (len : Nat) : Except parse_error parse_context :=
  if ctx.character_data_length + len > 8192 then .error .too_much_character_data
  else .ok { ctx with character_data_length := ctx.character_data_length + len }

/-- Handle one XML event. -/
def handle_event (ctx : parse_context) : xml_event → Except parse_error parse_context
  | .start_tag line element_name atts => start_element ctx line element_name atts
  | .end_tag name => end_element ctx name
  | .text len => character_data ctx len

/-- The context set up by `main` before parsing: an empty interface list, both
counters 0 and a zeroed context. -/
def initial_context : parse_context :=
  { line_number := 0
    protocol := { name := none, interface_list := [], type_index := 0, null_run_length := 0 }
    interface := none, message := none, enumeration := none
    has_description := false, character_data_length := 0, warnings := [] }

/-- The parse loop of `main`: the handlers run over the events of the document. -/
def parse_events : parse_context → List xml_event → Except parse_error parse_context
  | ctx, [] => .ok ctx
  | ctx, e :: rest =>
    match handle_event ctx e with
    | .error err => .error err
    | .ok ctx1 => parse_events ctx1 rest

/-- The document parsed from the initial context. -/
def parse (events : List xml_event) : Except parse_error parse_context :=
  parse_events initial_context events

/-! ## Emitter of the `code` mode (`scanner.c`, lines 1039-1247) -/

/-- The argument loop of `emit_types_forward_declarations` for one message; the
state is the local `length`, the field `m->all_null` and the `types` array. -/
def forward_args : List arg → Int × Int × List String → Int × Int × List String
  | [], st => st
  | a :: rest, (length, all_null, types) =>
    match a.type, a.interface_name with
    | .NEW_ID, some n => forward_args rest (length + 1, 0, types ++ [n])
    | .OBJECT, some n => forward_args rest (length + 1, 0, types ++ [n])
    | _, _ => forward_args rest (length + 1, all_null, types)

/-- The function `emit_types_forward_declarations`: it sets `all_null` in every
message of the list, raises `protocol->null_run_length` and collects the names
of the referenced interfaces. -/
def emit_types_forward_declarations :
    Int → List message → List String → Int × List message × List String
  | null_run_length, [], types => (null_run_length, [], types)
  | null_run_length, m :: rest, types =>
    let r := forward_args m.arg_list (0, 1, types)
    let m1 := { m with all_null := r.2.1 }
    let null_run_length :=
      if r.2.1 ≠ 0 ∧ r.1 > null_run_length then r.1 else null_run_length
    let out := emit_types_forward_declarations null_run_length rest r.2.2
    (out.1, m1 :: out.2.1, out.2.2)

/-- The output of `emit_null_run`: `null_run_length` lines `NULL,`. -/
def emit_null_run (null_run_length : Int) : List (Option String) :=
  List.replicate null_run_length.toNat none

/-- The line printed by `emit_types` for one argument: the name of the interface
in `&name_interface,` or `none` for `NULL,`. -/
def emit_type_slot (a : arg) : Option String :=
  match a.type with
  | .NEW_ID => a.interface_name
  | .OBJECT => a.interface_name
  | _ => none

/-- The function `emit_types` on one message list: the state is
`protocol->type_index`; the result also has the messages with `type_index` set
and the lines printed. -/
def emit_types (null_run_length : Int) :
    Int → List message → Int × List message × List (Option String)
  | type_index, [] => (type_index, [], [])
  | type_index, m :: rest =>
    if m.all_null ≠ 0 then
      let out := emit_types null_run_length type_index rest
      (out.1, { m with type_index := 0 } :: out.2.1, out.2.2)
    else
      let m1 := { m with type_index := null_run_length + type_index }
      let out := emit_types null_run_length (type_index + m.arg_count) rest
      (out.1, m1 :: out.2.1, m.arg_list.map emit_type_slot ++ out.2.2)

/-- One initialiser of a `wl_message` table printed by `emit_messages`: the
name, the signature string and the offset in `types + offset`. -/
structure message_row where
  name : String
  signature : String
  offset : Int
  deriving DecidableEq, Repr

/-- The characters `emit_messages` prints for one argument, appended to what
was printed before. -/
def emit_arg_signature (out : String) (a : arg) : String :=
  let out := if is_nullable_type a ≠ 0 ∧ a.nullable ≠ 0 then out ++ "?" else out
  match a.type with
  | .INT => out ++ "i"
  | .NEW_ID => (if a.interface_name = none then out ++ "su" else out) ++ "n"
  | .UNSIGNED => out ++ "u"
  | .FIXED => out ++ "f"
  | .STRING => out ++ "s"
  | .OBJECT => out ++ "o"
  | .ARRAY => out ++ "a"
  | .FD => out ++ "h"

/-- The row `emit_messages` prints for one message. -/
def emit_message (m : message) : message_row :=
  let out := if m.since > 1 then printf_d m.since else ""
  { name := m.name, signature := m.arg_list.foldl emit_arg_signature out,
    offset := m.type_index }

/-- The function `emit_messages`: the rows of the table of one message list
(nothing is printed for an empty list). -/
def emit_messages (message_list : List message) : List message_row :=
  message_list.map emit_message

/-- The function `cmp_names`, i.e. `strcmp` on the characters of two names. -/
def strcmp : List Char → List Char → Int
  | [], [] => 0
  | [], _ :: _ => -1
  | _ :: _, [] => 1
  | a :: s, b :: t => if a = b then strcmp s t else (a.toNat : Int) - (b.toNat : Int)

/-- Insertion of a name into a sorted array, a step of the sort. -/
def sorted_insert (x : String) : List String → List String
  | [] => [x]
  | y :: ys => if strcmp x.data y.data ≤ 0 then x :: y :: ys else y :: sorted_insert x ys

/-- The call `qsort (types.data, .., cmp_names)`. -/
def qsort_names (types : List String) : List String :=
  types.foldr sorted_insert []

/-- The loop of `emit_code` over the sorted array that skips a name equal to
the previous one. -/
def emit_extern_declarations : Option String → List String → List String
  | _, [] => []
  | prev, p :: rest =>
    if prev.isSome ∧ strcmp p.data (prev.getD "").data = 0 then
      emit_extern_declarations prev rest
    else p :: emit_extern_declarations (some p) rest

/-- The first loop of `emit_code` over the interfaces: forward declarations of
the request list, then of the event list. -/
def forward_interfaces :
    Int → List interface → List String → Int × List interface × List String
  | null_run_length, [], types => (null_run_length, [], types)
  | null_run_length, i :: rest, types =>
    let r := emit_types_forward_declarations null_run_length i.request_list types
    let e := emit_types_forward_declarations r.1 i.event_list r.2.2
    let i1 := { i with request_list := r.2.1, event_list := e.2.1 }
    let out := forward_interfaces e.1 rest e.2.2
    (out.1, i1 :: out.2.1, out.2.2)

/-- The second loop of `emit_code` over the interfaces: `emit_types` of the
request list, then of the event list. -/
def types_interfaces (null_run_length : Int) :
    Int → List interface → Int × List interface × List (Option String)
  | type_index, [] => (type_index, [], [])
  | type_index, i :: rest =>
    let r := emit_types null_run_length type_index i.request_list
    let e := emit_types null_run_length r.1 i.event_list
    let i1 := { i with request_list := r.2.1, event_list := e.2.1 }
    let out := types_interfaces null_run_length e.1 rest
    (out.1, i1 :: out.2.1, r.2.2 ++ e.2.2 ++ out.2.2)

/-- The `wl_interface` definition printed for one interface by the last loop
of `emit_code`. -/
structure interface_row where
  name : String
  version : Int
  requests : List message_row
  events : List message_row
  deriving DecidableEq, Repr

/-- What `emit_code` prints, and the protocol as it leaves it. -/
structure code_output where
  protocol : protocol
  externs : List String
  types : List (Option String)
  interfaces : List interface_row
  deriving DecidableEq, Repr

/-- The function `emit_code`. -/
def emit_code (protocol : protocol) : code_output :=
  let f := forward_interfaces protocol.null_run_length protocol.interface_list []
  let externs := emit_extern_declarations none (qsort_names f.2.2)
  let t := types_interfaces f.1 protocol.type_index f.2.1
  { protocol := { protocol with
      interface_list := t.2.1, null_run_length := f.1, type_index := t.1 }
    externs := externs
    types := emit_null_run f.1 ++ t.2.2
    interfaces := t.2.1.map (fun i =>
      { name := i.name, version := i.version,
        requests := emit_messages i.request_list, events := emit_messages i.event_list }) }

/-- The `code` mode of `main` on the events of a document. -/
def main_code (events : List xml_event) : Except parse_error code_output :=
  match parse events with
  | .error e => .error e
  | .ok ctx => .ok (emit_code ctx.protocol)

/-! ## The signature and the types vector as the specification words them -/

/-- The kind character of an argument as the specification tabulates it. -/
def spec_kind (a : arg) : String :=
  match a.type with
  | .INT => "i"
  | .UNSIGNED => "u"
  | .FIXED => "f"
  | .STRING => "s"
  | .OBJECT => "o"
  | .ARRAY => "a"
  | .FD => "h"
  | .NEW_ID => if a.interface_name.isSome then "n" else "sun"

/-- The signature of a message as the specification words it: the decimal
since-version when it exceeds 1, then for each argument a `?` when it is
nullable followed by its kind. -/
def spec_signature (m : message) : String :=
  (if m.since > 1 then Nat.repr m.since.toNat else "") ++
    String.join (m.arg_list.map (fun a => (if a.nullable ≠ 0 then "?" else "") ++ spec_kind a))

/-- The invariant of a parsed argument: only a nullable-eligible type carries
the nullable flag. -/
def arg_wf (a : arg) : Prop :=
  a.nullable ≠ 0 → is_nullable_type a = 1

/-- The invariant of a parsed message: `arg_count` counts the argument list and
every argument is well formed. -/
def message_wf (m : message) : Prop :=
  m.arg_count = m.arg_list.length ∧ ∀ a ∈ m.arg_list, arg_wf a

/-- The invariant of a parsed protocol: every request and event is well formed. -/
def protocol_wf (p : protocol) : Prop :=
  ∀ i ∈ p.interface_list, ∀ m ∈ i.request_list ++ i.event_list, message_wf m

/-- The messages of a protocol in the order the emitter visits them:
interfaces in document order, requests before events. -/
def visit_order (interfaces : List interface) : List message :=
  interfaces.flatMap (fun i => i.request_list ++ i.event_list)

/-- Whether an argument names a peer interface. -/
def names_peer (a : arg) : Prop :=
  (a.type = .OBJECT ∨ a.type = .NEW_ID) ∧ a.interface_name ≠ none

/-- The sum of the argument counts of the messages that are not all-null. -/
def slots_before (l : List message) : Int :=
  ((l.filter (fun m => decide (m.all_null = 0))).map (fun m => m.arg_count)).sum

/-- The largest argument count of the all-null messages, 0 when there are none. -/
def max_null_args (l : List message) : Int :=
  ((l.filter (fun m => decide (m.all_null ≠ 0))).map
    (fun m => (m.arg_list.length : Int))).foldr max 0

/-! ## Auxiliary notions used to state the properties of the emitter -/

/-- Every request and event of an interface is well formed. -/
def interface_wf (i : interface) : Prop :=
  ∀ m ∈ i.request_list ++ i.event_list, message_wf m

/-- The text the specification gives for one argument. -/
def spec_arg (a : arg) : String :=
  (if a.nullable ≠ 0 then "?" else "") ++ spec_kind a

/-- The row the specification gives for one message. -/
def spec_row (m : message) : message_row :=
  { name := m.name, signature := spec_signature m, offset := m.type_index }

/-- The value `emit_types_forward_declarations` leaves in `all_null`. -/
def all_null_value (args : List arg) : Int :=
  if args.any (fun a => (emit_type_slot a).isSome) then 0 else 1

/-- A message after the forward pass. -/
def mark_null (m : message) : message :=
  { m with all_null := all_null_value m.arg_list }

/-- An interface after the forward pass. -/
def mark_interface (i : interface) : interface :=
  { i with request_list := i.request_list.map mark_null,
           event_list := i.event_list.map mark_null }

/-- A message with its `type_index` erased. -/
def clear_index (m : message) : message :=
  { m with type_index := 0 }

/-- The slots `emit_types` prints for a message list. -/
def slots_of (l : List message) : List (Option String) :=
  (l.filter (fun m => decide (m.all_null = 0))).flatMap (fun m => m.arg_list.map emit_type_slot)

/-! ## A sample document -/

/-- A protocol with one interface, a request with a generic new_id and a
nullable string, and an event with an int and an object of a named interface. -/
def sample_document : List xml_event :=
  [ .start_tag 1 "protocol" [("name", "demo")],
    .start_tag 2 "interface" [("name", "wl_a"), ("version", "3")],
    .start_tag 3 "request" [("name", "bind"), ("since", "2")],
    .start_tag 4 "arg" [("name", "id"), ("type", "new_id")],
    .end_tag "arg",
    .start_tag 5 "arg" [("name", "s"), ("type", "string"), ("allow-null", "true")],
    .end_tag "arg",
    .end_tag "request",
    .start_tag 6 "event" [("name", "ev")],
    .start_tag 7 "arg" [("name", "x"), ("type", "int")],
    .end_tag "arg",
    .start_tag 8 "arg" [("name", "o"), ("type", "object"), ("interface", "wl_b")],
    .end_tag "arg",
    .end_tag "event",
    .end_tag "interface",
    .end_tag "protocol" ]

/-- The request of the sample document as the emitter leaves it. -/
def sample_bind : message :=
  { name := "bind",
    arg_list :=
      [ { name := "id", type := .NEW_ID, nullable := 0, interface_name := none, summary := none },
        { name := "s", type := .STRING, nullable := 1, interface_name := none, summary := none } ],
    arg_count := 2, new_id_count := 1, type_index := 0, all_null := 1, destructor := 0,
    since := 2 }

/-- The event of the sample document as the emitter leaves it. -/
def sample_ev : message :=
  { name := "ev",
    arg_list :=
      [ { name := "x", type := .INT, nullable := 0, interface_name := none, summary := none },
        { name := "o", type := .OBJECT, nullable := 0, interface_name := some "wl_b",
          summary := none } ],
    arg_count := 2, new_id_count := 0, type_index := 2, all_null := 0, destructor := 0,
    since := 1 }

/-- What the `code` mode prints for the sample document. -/
def sample_output : code_output :=
  { protocol :=
      { name := some "demo",
        interface_list :=
          [ { name := "wl_a", version := 3, since := 1, request_list := [sample_bind],
              event_list := [sample_ev], enumeration_list := [] } ],
        type_index := 2, null_run_length := 2 },
    externs := ["wl_b"],
    types := [none, none, none, some "wl_b"],
    interfaces :=
      [ { name := "wl_a", version := 3,
          requests := [{ name := "bind", signature := "2sun?s", offset := 0 }],
          events := [{ name := "ev", signature := "io", offset := 2 }] } ] }

/-! ## What a step of the parser keeps of the description -/

/-- The fields of a message that the `request` / `event` branch of
`start_element` sets for good: name, destructor flag and since-version. -/
def message_head (m : message) : String × Int × Int :=
  (m.name, m.destructor, m.since)

/-- The name, the version and the tracked since-version of an interface and the
heads of its requests and of its events. -/
def interface_head (i : interface) :
    String × Int × Int × List (String × Int × Int) × List (String × Int × Int) :=
  (i.name, i.version, i.since, i.request_list.map message_head,
    i.event_list.map message_head)

/-- The pointer `ctx->interface`, once set, is to the last interface of the
list. -/
def interface_pointer_last (ctx : parse_context) : Prop :=
  ∀ k, ctx.interface = some k → k + 1 = ctx.protocol.interface_list.length

/-! ## Header mode: the opcodes and the destructor check (`scanner.c`, lines 569-664) -/

/-- The loop of `emit_stubs` over the messages that sets the locals
`has_destructor` and `has_destroy`. -/
def emit_stubs_flags : List message → Int × Int → Int × Int
  | [], flags => flags
  | m :: rest, (has_destructor, has_destroy) =>
    emit_stubs_flags rest
      (if m.destructor ≠ 0 then 1 else has_destructor,
       if m.name = "destroy" then 1 else has_destroy)

/-- The check of `emit_stubs` that follows the loop: the run ends with a located
error when a message is named `destroy` and none is a destructor.  The text
`emit_stubs` prints otherwise is left out. -/
def emit_stubs_check (message_list : List message) (interface : interface) :
    Except String Unit :=
  let flags := emit_stubs_flags message_list (0, 0)
  if flags.1 = 0 ∧ flags.2 ≠ 0 then
    .error ("interface '" ++ interface.name ++ "' has method named destroy but no destructor")
  else .ok ()

/-- Every message named `destroy` has the destructor flag. -/
def destroy_wf (i : interface) : Prop :=
  ∀ m ∈ i.request_list ++ i.event_list, m.name = "destroy" → m.destructor ≠ 0

/-- A document with a request `destroy` that is a destructor. -/
def sample_destroy_document : List xml_event :=
  [ .start_tag 1 "protocol" [("name", "demo")],
    .start_tag 2 "interface" [("name", "wl_a"), ("version", "1")],
    .start_tag 3 "request" [("name", "destroy"), ("type", "destructor")],
    .end_tag "request",
    .end_tag "interface",
    .end_tag "protocol" ]

/-- The interface of that document as the parser leaves it. -/
def sample_destroy_interface : interface :=
  { name := "wl_a", version := 1, since := 1, request_list := [new_message "destroy" 1 1],
    event_list := [], enumeration_list := [] }

/-- The context after the sample document. -/
def sample_destroy_context : parse_context :=
  { line_number := 3
    protocol :=
      { name := some "demo", interface_list := [sample_destroy_interface],
        type_index := 0, null_run_length := 0 }
    interface := some 0, message := none, enumeration := none
    has_description := false, character_data_length := 0, warnings := [] }

/-- A document whose interface has the version -3. -/
def sample_negative_version_document : List xml_event :=
  [ .start_tag 1 "protocol" [("name", "demo")],
    .start_tag 2 "interface" [("name", "wl_a"), ("version", "-3")],
    .end_tag "interface",
    .end_tag "protocol" ]

/-- The context after that document. -/
def sample_negative_version_context : parse_context :=
  { line_number := 2
    protocol :=
      { name := some "demo",
        interface_list :=
          [ { name := "wl_a", version := -3, since := 1, request_list := [],
              event_list := [], enumeration_list := [] } ],
        type_index := 0, null_run_length := 0 }
    interface := some 0, message := none, enumeration := none
    has_description := false, character_data_length := 0, warnings := [] }

/-- The message the pointer `ctx->message` points to. -/
def lookup_message (p : protocol) (ptr : Nat × Bool × Nat) : Option message :=
  match p.interface_list[ptr.1]? with
  | none => none
  | some i => if ptr.2.1 = true then i.request_list[ptr.2.2]? else i.event_list[ptr.2.2]?

/-- The pointer `ctx->message`, when set, points to a message of the
description. -/
def message_pointer_valid (ctx : parse_context) : Prop :=
  ∀ ptr, ctx.message = some ptr → (lookup_message ctx.protocol ptr).isSome = true

/-- The type names the `arg` branch of `start_element` knows. -/
def arg_type_names : List String :=
  ["int", "uint", "fixed", "string", "object", "new_id", "array", "fd"]

/-- The statement `wl_list_insert (ctx->message->arg_list.prev, &arg->link)` and
the two counters of the message that the `arg` branch updates. -/
def add_arg (built : arg) (m : message) : message :=
  { m with
    new_id_count := if built.type = .NEW_ID then m.new_id_count + 1 else m.new_id_count
    arg_list := m.arg_list ++ [built]
    arg_count := m.arg_count + 1 }

/-- The context while the request `bind` of the sample document is open, after
its first argument. -/
def sample_open_context : parse_context :=
  { line_number := 4
    protocol :=
      { name := some "demo",
        interface_list :=
          [ { name := "wl_a", version := 3, since := 2,
              request_list :=
                [ { name := "bind",
                    arg_list :=
                      [ { name := "id", type := .NEW_ID, nullable := 0, interface_name := none,
                          summary := none } ],
                    arg_count := 1, new_id_count := 1, type_index := 0, all_null := 0,
                    destructor := 0, since := 2 } ],
              event_list := [], enumeration_list := [] } ],
        type_index := 0, null_run_length := 0 }
    interface := some 0, message := some (0, true, 0), enumeration := none
    has_description := false, character_data_length := 0, warnings := [] }

/-! ## The since-version as the document gives it -/

/-- One element of the document: an `interface` element starts a new interface,
whose messages start at since-version 1, and a `request` or `event` element
whose since attribute converts carries its since-version. -/
def document_since_step (since : Int) : xml_event → Int
  | .start_tag line element_name atts =>
    if element_name = "interface" then 1
    else if element_name = "request" ∨ element_name = "event" then
      match parse_since line (scan_attributes atts).since with
      | .ok v => v
      | .error _ => since
    else since
  | _ => since

/-- The since-version of the most recent request or event, of either kind, of
the interface a document is in, and 1 when that interface has no message
yet. -/
def document_since (events : List xml_event) : Int :=
  events.foldl document_since_step 1

/-- The field `interface->since` of the interface `ctx->interface` points to
holds the since-version `since`. -/
def tracks_since (ctx : parse_context) (since : Int) : Prop :=
  ∀ k i, ctx.interface = some k → ctx.protocol.interface_list[k]? = some i → i.since = since

/-- A request of since-version 3, an event without a since attribute, and a
request of since-version 2. -/
def sample_since_document_a : List xml_event :=
  [ .start_tag 1 "protocol" [("name", "demo")],
    .start_tag 2 "interface" [("name", "wl_a"), ("version", "3")],
    .start_tag 3 "request" [("name", "r1"), ("since", "3")],
    .end_tag "request",
    .start_tag 4 "event" [("name", "e1")],
    .end_tag "event",
    .start_tag 5 "request" [("name", "r2"), ("since", "2")],
    .end_tag "request",
    .end_tag "interface",
    .end_tag "protocol" ]

/-- A request without a since attribute, an event of since-version 3, and a
request of since-version 2. -/
def sample_since_document_b : List xml_event :=
  [ .start_tag 1 "protocol" [("name", "demo")],
    .start_tag 2 "interface" [("name", "wl_a"), ("version", "3")],
    .start_tag 3 "request" [("name", "r1")],
    .end_tag "request",
    .start_tag 4 "event" [("name", "e1"), ("since", "3")],
    .end_tag "event",
    .start_tag 5 "request" [("name", "r2"), ("since", "2")],
    .end_tag "request",
    .end_tag "interface",
    .end_tag "protocol" ]

/-- The description the parser builds from both documents but for the
since-versions. -/
def sample_since_context (r1 e1 : Int) (warnings : List (Int × String)) : parse_context :=
  { line_number := 5
    protocol :=
      { name := some "demo",
        interface_list :=
          [ { name := "wl_a", version := 3, since := 2,
              request_list := [new_message "r1" 0 r1, new_message "r2" 0 2],
              event_list := [new_message "e1" 0 e1], enumeration_list := [] } ],
        type_index := 0, null_run_length := 0 }
    interface := some 0, message := none, enumeration := none
    has_description := false, character_data_length := 0, warnings := warnings }

/-- The context after the first two elements of these documents: the interface
`wl_a` is open and has no message yet. -/
def sample_interface_context : parse_context :=
  { line_number := 2
    protocol :=
      { name := some "demo",
        interface_list :=
          [ { name := "wl_a", version := 3, since := 1, request_list := [],
              event_list := [], enumeration_list := [] } ],
        type_index := 0, null_run_length := 0 }
    interface := some 0, message := none, enumeration := none
    has_description := false, character_data_length := 0, warnings := [] }

/-- A document with a request of since-version 0. -/
def sample_zero_since_document : List xml_event :=
  [ .start_tag 1 "protocol" [("name", "demo")],
    .start_tag 2 "interface" [("name", "wl_a"), ("version", "3")],
    .start_tag 3 "request" [("name", "r1"), ("since", "0")],
    .end_tag "request",
    .end_tag "interface",
    .end_tag "protocol" ]

/-- The context after that document. -/
def sample_zero_since_context : parse_context :=
  { line_number := 3
    protocol :=
      { name := some "demo",
        interface_list :=
          [ { name := "wl_a", version := 3, since := 0,
              request_list := [new_message "r1" 0 0], event_list := [],
              enumeration_list := [] } ],
        type_index := 0, null_run_length := 0 }
    interface := some 0, message := none, enumeration := none
    has_description := false, character_data_length := 0
    warnings := [(3, "since version not increasing\n")] }

/-- Every request and event has a since-version of at least 1. -/
def since_wf (i : interface) : Prop :=
  ∀ m ∈ i.request_list ++ i.event_list, 1 ≤ m.since

/-- Every since attribute of a request or event of the document converts to a
value of at least 1. -/
def since_attributes_positive (events : List xml_event) : Prop :=
  ∀ line element_name atts s, xml_event.start_tag line element_name atts ∈ events →
    element_name = "request" ∨ element_name = "event" →
    (scan_attributes atts).since = some s → 1 ≤ to_int32 (strtol s.data 0).1

/-- The names `emit_types_forward_declarations` adds to the `types` array for
the messages of a list. -/
def peer_names (l : List message) : List String :=
  l.flatMap (fun m => m.arg_list.filterMap emit_type_slot)

/-- The function `uppercase_dup`: `toupper` on every character of a name. -/
def uppercase_dup (src : String) : String :=
  String.mk (src.data.map Char.toUpper)

/-- One line `#define INTERFACE_MESSAGE opcode` printed by `emit_opcodes`. -/
structure opcode_row where
  name : String
  opcode : Int
  deriving DecidableEq, Repr

/-- The loop of `emit_opcodes` over the messages; the state is the local
`opcode`, printed and then incremented. -/
def emit_opcodes_loop (interface : interface) : Int → List message → List opcode_row
  | _, [] => []
  | opcode, m :: rest =>
    { name := uppercase_dup interface.name ++ "_" ++ uppercase_dup m.name, opcode := opcode } ::
      emit_opcodes_loop interface (opcode + 1) rest

/-- The function `emit_opcodes`: nothing for an empty list, else one line for
each message, counted from 0. -/
def emit_opcodes (message_list : List message) (interface : interface) : List opcode_row :=
  match message_list with
  | [] => []
  | _ :: _ => emit_opcodes_loop interface 0 message_list

/-! ## The order of the messages as the document gives it -/

/-- One element of the document: an `interface` element starts a new interface
without messages, and an element of the kind asked for (`request` or `event`)
with a name adds its name to the messages of the last interface. -/
def document_messages_step (kind : String) (acc : List (List String)) :
    xml_event → List (List String)
  | .start_tag _ element_name atts =>
    if element_name = "interface" then acc ++ [[]]
    else if element_name = kind then
      match (scan_attributes atts).name with
      | some name => modify_at (fun names => names ++ [name]) (acc.length - 1) acc
      | none => acc
    else acc
  | _ => acc

/-- For each interface of a document, in document order, the names of its
messages of one kind in document order. -/
def document_messages (kind : String) (events : List xml_event) : List (List String) :=
  events.foldl (document_messages_step kind) []

/-- The names of the messages of one kind of an interface, in list order. -/
def message_names (kind : String) (i : interface) : List String :=
  if kind = "request" then i.request_list.map (fun m => m.name)
  else i.event_list.map (fun m => m.name)

/-! ## The wire fields of a signature (`emit_messages`, lines 1137-1171) -/

/-- Whether a character of a signature names a wire field: it is neither a
digit of the since-version nor a `?` marker. -/
def is_field_char (c : Char) : Bool :=
  !(c.isDigit || c == '?')

/-- The number of wire fields a signature names. -/
def wire_fields (signature : String) : Nat :=
  (signature.data.filter is_field_char).length

/-- The number of new_id arguments of a message that name no interface. -/
def generic_new_ids (m : message) : Nat :=
  (m.arg_list.filter (fun a => decide (a.type = .NEW_ID ∧ a.interface_name = none))).length

end Scanner

namespace Server

/-! ## Constants of the headers (`wayland-util.h`, `wayland-private.h`,
`wayland-server-protocol.h`), which are not among the embedded files -/

/-- The first server-allocated object id, `WL_SERVER_ID_START`. -/
def WL_SERVER_ID_START : Nat := 0xff000000

/-- The flag bit `WL_MAP_ENTRY_LEGACY` of an object-map slot. -/
def WL_MAP_ENTRY_LEGACY : Nat := 1

/-- The event mask bit `WL_EVENT_READABLE`. -/
def WL_EVENT_READABLE : Nat := 0x01

/-- The event mask bit `WL_EVENT_WRITABLE`. -/
def WL_EVENT_WRITABLE : Nat := 0x02

/-- The event mask bit `WL_EVENT_HANGUP`. -/
def WL_EVENT_HANGUP : Nat := 0x04

/-- The event mask bit `WL_EVENT_ERROR`. -/
def WL_EVENT_ERROR : Nat := 0x08

/-- The opcode of the event `wl_display.error`. -/
def WL_DISPLAY_ERROR : Nat := 0

/-- The opcode of the event `wl_display.delete_id`. -/
def WL_DISPLAY_DELETE_ID : Nat := 1

/-- The error code `invalid_object` of `wl_display`. -/
def WL_DISPLAY_ERROR_INVALID_OBJECT : Nat := 0

/-- The error code `invalid_method` of `wl_display`. -/
def WL_DISPLAY_ERROR_INVALID_METHOD : Nat := 1

/-- The error code `no_memory` of `wl_display`. -/
def WL_DISPLAY_ERROR_NO_MEMORY : Nat := 2

/-- The opcode of the event `wl_registry.global`. -/
def WL_REGISTRY_GLOBAL : Nat := 0

/-- The opcode of the event `wl_registry.global_remove`. -/
def WL_REGISTRY_GLOBAL_REMOVE : Nat := 1

/-- The errno value `EAGAIN`. -/
def EAGAIN : Int := 11

/-- The number of values of a `uint32_t`. -/
def UINT32_RANGE : Nat := 2 ^ 32

/-! ## Data model (`wayland-server.c`, lines 66-132) -/

/-- The `struct wl_message` of `wayland-util.h`: name and signature. -/
structure wl_message where
  name : String
  signature : String
  deriving DecidableEq, Repr

/-- The `struct wl_interface` of `wayland-util.h`. -/
structure wl_interface where
  name : String
  version : Int
  method_count : Int
  methods : List wl_message
  event_count : Int
  events : List wl_message
  deriving DecidableEq, Repr

/-- The `struct wl_resource`.  A function pointer is a number, `none` is
NULL.  `ident` tells allocations apart: it is what comparing two
`struct wl_resource *` compares.  `client` names the client the resource
belongs to and `id` is `object.id`. -/
structure wl_resource where
  ident : Nat
  id : Nat
  interface : wl_interface
  implementation : Option Nat
  destroy : Option Nat
  client : Nat
  data : Option Nat
  version : Int
  dispatcher : Option Nat
  deriving DecidableEq, Repr

/-- The `union wl_argument` with the kind of each value. -/
inductive wl_argument where
  | i (v : Int)
  | u (v : Nat)
  | f (v : Int)
  | s (v : Option String)
  | o (id : Option Nat)
  | n (id : Nat)
  | a (bytes : Option (List Nat))
  | h (fd : Int)
  deriving DecidableEq, Repr

/-- A demarshalled request: the `struct wl_closure` of `wayland-private.h`. -/
structure wl_closure where
  sender_id : Nat
  opcode : Nat
  args : List wl_argument
  deriving DecidableEq, Repr

/-- A slot of the object map: flags and pointer. -/
structure map_entry where
  flags : Nat
  data : Option wl_resource
  deriving DecidableEq, Repr

/-- Modelled from the spec: the `struct wl_map` of `wayland-util.c`, a map from
32-bit ids to slots of flags and pointer; the slots in use are listed with
their ids. -/
structure wl_map where
  entries : List (Nat × map_entry)
  deriving DecidableEq, Repr

/-- The bytes buffered for reading in a `struct wl_connection`. -/
structure wl_connection where
  input : List Nat
  deriving DecidableEq, Repr

/-- The `struct wl_client`. -/
structure wl_client where
  connection : wl_connection
  display_resource : Option wl_resource
  objects : wl_map
  error : Int
  deriving DecidableEq, Repr

/-- The `struct wl_global`.  `version` is a `uint32_t`; `bind` is the callback
the global was created with. -/
structure wl_global where
  name : Nat
  interface : wl_interface
  version : Nat
  data : Option Nat
  bind : Nat
  deriving DecidableEq, Repr

/-- The `struct wl_display`: the counter `id` of global names, the serial, the
registry resources and the globals. -/
structure wl_display where
  id : Nat
  serial : Nat
  registry_resource_list : List wl_resource
  global_list : List wl_global
  deriving DecidableEq, Repr

/-! ## The call log and the environment -/

/-- A call the embedded functions make into code that is not embedded, in the
order the calls are made. -/
inductive action where
  | post_event (resource : wl_resource) (opcode : Nat) (args : List wl_argument)
  | queue_event (resource : wl_resource) (opcode : Nat) (args : List wl_argument)
  | closure_invoke (closure : wl_closure) (object : wl_resource) (opcode : Int)
  | closure_dispatch (dispatcher : Nat) (closure : wl_closure) (object : wl_resource)
      (opcode : Int)
  | signal_emit (resource : wl_resource)
  | destroy_func (f : Nat) (resource : wl_resource)
  | free (resource : wl_resource)
  | map_insert_at (flags : Nat) (id : Nat) (data : Option wl_resource)
  | map_remove (id : Nat)
  | client_destroy
  | fd_update (mask : Nat)
  | global_bind (f : Nat) (data : Option Nat) (version : Nat) (id : Nat)
  | post_no_memory (client : Nat)
  deriving DecidableEq, Repr

/-- What `wl_connection_demarshal` returns: a closure, NULL with `errno` set to
`ENOMEM`, or NULL with another `errno`. -/
inductive demarshal_result where
  | closure (c : wl_closure)
  | out_of_memory
  | invalid
  deriving DecidableEq, Repr

/-- The behaviour of the code the embedded functions call: the connection and
the codec of `connection.c`, the handlers, listeners and callbacks of the
compositor, and libc formatting.  Every property below holds for every
environment. -/
structure Env where
  wl_message_get_since : wl_message → Int
  vsnprintf : String → List wl_argument → String
  wl_closure_marshal : wl_resource → Nat → List wl_argument → Bool
  wl_closure_send : wl_client → wl_resource → Nat → List wl_argument → Int
  wl_closure_queue : wl_client → wl_resource → Nat → List wl_argument → Int
  wl_connection_flush : wl_client → Int → Int × Int × wl_connection
  wl_connection_read : wl_client → Int → Int × Int × wl_connection
  wl_connection_demarshal : wl_client → Int → wl_message → demarshal_result
  wl_closure_lookup_objects : wl_closure → wl_map → Int
  wl_closure_invoke : wl_closure → wl_resource → Int → wl_client → wl_client
  wl_closure_dispatch : Nat → wl_closure → wl_resource → Int → wl_client → wl_client
  wl_signal_emit : wl_resource → wl_client → wl_client
  destroy_func : Nat → wl_resource → wl_client → wl_client
  global_bind : Nat → Option Nat → Nat → Nat → wl_client → wl_client

/-- The state the client-side functions work on: the client, `errno`, and the
log of the calls made so far. -/
structure state where
  client : wl_client
  errno : Int
  log : List action
  deriving DecidableEq, Repr

/-- How a run ends without returning: a NULL pointer or an array index out of
bounds is dereferenced, or the fuel of the loop is used up. -/
inductive fault where
  | null_dereference
  | out_of_bounds
  | out_of_fuel
  deriving DecidableEq, Repr

/-! ## The object map -/

/-- Modelled from the spec: the slot of an id in the object map. -/
def wl_map_find (map : wl_map) (id : Nat) : Option map_entry :=
  (map.entries.find? (fun e => e.1 = id)).map (fun e => e.2)

/-- Modelled from the spec: `wl_map_lookup`, the pointer stored for an id, NULL
for a free or zombie slot. -/
def wl_map_lookup (map : wl_map) (id : Nat) : Option wl_resource :=
  match wl_map_find map id with
  | some e => e.data
  | none => none

/-- Modelled from the spec: `wl_map_lookup_flags`, the flags of the slot of an
id, 0 when there is none. -/
def wl_map_lookup_flags (map : wl_map) (id : Nat) : Nat :=
  match wl_map_find map id with
  | some e => e.flags
  | none => 0

/-- Modelled from the spec: `wl_map_insert_at` places a pointer at an id and
fails on an id that is live; inserting NULL makes the slot a zombie. -/
def wl_map_insert_at (map : wl_map) (flags : Nat) (id : Nat) (data : Option wl_resource) :
    Int × wl_map :=
  if data.isSome ∧ (wl_map_lookup map id).isSome then (-1, map)
  else
    (0, { entries := (id, { flags := flags, data := data }) ::
            map.entries.filter (fun e => e.1 ≠ id) })

/-- Modelled from the spec: `wl_map_remove` frees the slot of an id. -/
def wl_map_remove (map : wl_map) (id : Nat) : wl_map :=
  { entries := map.entries.filter (fun e => e.1 ≠ id) }

/-! ## Posting events and errors (`wayland-server.c`, lines 136-241) -/

/-- The functions `wl_resource_post_event` and `wl_resource_post_event_array`:
the event is marshalled and sent; a failure of either sets the error flag of
the client of the resource. -/
def wl_resource_post_event (env : Env) (s : state) (resource : wl_resource) (opcode : Nat)
    (args : List wl_argument) : state :=
  let s1 := { s with log := s.log ++ [.post_event resource opcode args] }
  if env.wl_closure_marshal resource opcode args = false then
    { s1 with client := { s1.client with error := 1 } }
  else if env.wl_closure_send s1.client resource opcode args ≠ 0 then
    { s1 with client := { s1.client with error := 1 } }
  else s1

/-- The functions `wl_resource_queue_event` and `wl_resource_queue_event_array`. -/
def wl_resource_queue_event (env : Env) (s : state) (resource : wl_resource) (opcode : Nat)
    (args : List wl_argument) : state :=
  let s1 := { s with log := s.log ++ [.queue_event resource opcode args] }
  if env.wl_closure_marshal resource opcode args = false then
    { s1 with client := { s1.client with error := 1 } }
  else if env.wl_closure_queue s1.client resource opcode args ≠ 0 then
    { s1 with client := { s1.client with error := 1 } }
  else s1

/-- The function `wl_resource_post_error` on a resource of the client of the
state: the error flag is set, and unless the client has lost its display
resource the event `wl_display.error` is posted on it. -/
def wl_resource_post_error (env : Env) (s : state) (resource : wl_resource) (code : Nat)
    (msg : String) (values : List wl_argument) : state :=
  let buffer := env.vsnprintf msg values
  let s1 := { s with client := { s.client with error := 1 } }
  match s1.client.display_resource with
  | none => s1
  | some display_resource =>
    wl_resource_post_event env s1 display_resource WL_DISPLAY_ERROR
      [.o (some resource.id), .u code, .s (some buffer)]

/-- A call `wl_resource_post_error (client->display_resource, ..)`: the function
starts by reading `resource->client`, so a NULL display resource is
dereferenced. -/
def post_error_on_display (env : Env) (s : state) (code : Nat) (msg : String)
    (values : List wl_argument) : Except fault state :=
  match s.client.display_resource with
  | none => .error .null_dereference
  | some display_resource => .ok (wl_resource_post_error env s display_resource code msg values)

/-- The call `wl_client_destroy (client)`: it is recorded in the log; the
teardown it performs is not followed. -/
def wl_client_destroy (s : state) : state :=
  { s with log := s.log ++ [.client_destroy] }

/-! ## The dispatcher (`wl_client_connection_data`, lines 243-364) -/

/-- A little-endian 32-bit word from the first four bytes of a list; bytes that
are not there read as 0. -/
def read_word (bytes : List Nat) : Nat :=
  bytes.getD 0 0 + 256 * bytes.getD 1 0 + 65536 * bytes.getD 2 0 + 16777216 * bytes.getD 3 0

/-- The four bytes of a 32-bit word, little-endian. -/
def word_bytes (w : Nat) : List Nat :=
  [w % 256, w / 256 % 256, w / 65536 % 256, w / 16777216 % 256]

/-- Modelled from the spec: `wl_connection_copy (connection, p, sizeof p)` peeks
the two words of the header. -/
def wl_connection_copy (connection : wl_connection) : Nat × Nat :=
  (read_word connection.input, read_word (connection.input.drop 4))

/-- The header word a sender writes for a frame of `size` bytes and an
`opcode`: `(size << 16) | opcode` as a `uint32_t`. -/
def header_word (size opcode : Nat) : Nat :=
  ((size <<< 16) ||| opcode) % UINT32_RANGE

/-- The dispatcher's `opcode = p[1] & 0xffff`. -/
def frame_opcode (p1 : Nat) : Int :=
  ((p1 &&& 0xffff : Nat) : Int)

/-- The dispatcher's `size = p[1] >> 16`. -/
def frame_size (p1 : Nat) : Int :=
  ((p1 >>> 16 : Nat) : Int)

/-- Where one round of the frame loop leaves it: the loop is left, the loop goes
on with the remaining length, or the process faults. -/
inductive step_result where
  | stop (s : state)
  | next (s : state) (len : Int)
  | fault (f : fault)
  deriving DecidableEq, Repr

/-- A protocol error raised by the frame loop: post it on the display resource
and leave the loop. -/
def loop_error (env : Env) (s : state) (code : Nat) (msg : String)
    (values : List wl_argument) : step_result :=
  match post_error_on_display env s code msg values with
  | .ok s1 => .stop s1
  | .error f => .fault f

/-- The invocation of the handler in the frame loop: `wl_closure_invoke` for a
legacy slot or a resource without dispatcher, `wl_closure_dispatch` otherwise. -/
def invoke_handler (env : Env) (s : state) (resource : wl_resource) (resource_flags : Nat)
    (opcode : Int) (c : wl_closure) : state :=
  let invoked : state :=
    { s with
      client := env.wl_closure_invoke c resource opcode s.client
      log := s.log ++ [.closure_invoke c resource opcode] }
  match resource.dispatcher with
  | none => invoked
  | some dispatcher =>
    if resource_flags &&& WL_MAP_ENTRY_LEGACY ≠ 0 then invoked
    else
      { s with
        client := env.wl_closure_dispatch dispatcher c resource opcode s.client
        log := s.log ++ [.closure_dispatch dispatcher c resource opcode] }

/-- The frame loop from the call of `wl_connection_demarshal` on: the frame is
taken off the buffer, demarshalled and handed to the handler. -/
def demarshal_and_invoke (env : Env) (s : state) (len : Int) (resource : wl_resource)
    (resource_flags : Nat) (opcode size : Int) (message : wl_message) : step_result :=
  let result := env.wl_connection_demarshal s.client size message
  let consumed : wl_connection := { input := s.client.connection.input.drop size.toNat }
  let s1 := { s with client := { s.client with connection := consumed } }
  let len1 := len - size
  match result with
  | .out_of_memory =>
    loop_error env s1 WL_DISPLAY_ERROR_NO_MEMORY "no memory" []
  | .invalid =>
    loop_error env s1 WL_DISPLAY_ERROR_INVALID_METHOD "invalid arguments for %s@%u.%s"
      [.s (some resource.interface.name), .u resource.id, .s (some message.name)]
  | .closure c =>
    if env.wl_closure_lookup_objects c s1.client.objects < 0 then
      loop_error env s1 WL_DISPLAY_ERROR_INVALID_METHOD "invalid arguments for %s@%u.%s"
        [.s (some resource.interface.name), .u resource.id, .s (some message.name)]
    else
      let s2 := invoke_handler env s1 resource resource_flags opcode c
      if s2.client.error ≠ 0 then .stop s2 else .next s2 len1

/-- One round of the `while` loop of `wl_client_connection_data`, from the test
of the loop condition. -/
def dispatch_frame (env : Env) (s : state) (len : Int) : step_result :=
  if len % 2 ^ 64 < 8 then .stop s
  else
    let p := wl_connection_copy s.client.connection
    let opcode := frame_opcode p.2
    let size := frame_size p.2
    if len < size then .stop s
    else
      let resource_flags := wl_map_lookup_flags s.client.objects p.1
      match wl_map_lookup s.client.objects p.1 with
      | none =>
        loop_error env s WL_DISPLAY_ERROR_INVALID_OBJECT "invalid object %u" [.u p.1]
      | some resource =>
        if opcode ≥ resource.interface.method_count then
          loop_error env s WL_DISPLAY_ERROR_INVALID_METHOD "invalid method %d, object %s@%u"
            [.i opcode, .s (some resource.interface.name), .u resource.id]
        else
          match resource.interface.methods[opcode.toNat]? with
          | none => .fault .out_of_bounds
          | some message =>
            if resource_flags &&& WL_MAP_ENTRY_LEGACY = 0 ∧ resource.version > 0 ∧
                resource.version < env.wl_message_get_since message then
              loop_error env s WL_DISPLAY_ERROR_INVALID_METHOD
                "invalid method %d, object %s@%u"
                [.i opcode, .s (some resource.interface.name), .u resource.id]
            else
              demarshal_and_invoke env s len resource resource_flags opcode size message

/-- The `while` loop of `wl_client_connection_data`; `fuel` bounds the number of
rounds. -/
def frame_loop (env : Env) : Nat → state → Int → Except fault state
  | 0, _, _ => .error .out_of_fuel
  | fuel + 1, s, len =>
    match dispatch_frame env s len with
    | .stop s1 => .ok s1
    | .next s1 len1 => frame_loop env fuel s1 len1
    | .fault f => .error f

/-- The end of `wl_client_connection_data`: the client is destroyed when its
error flag is set. -/
def destroy_on_error (s : state) : state :=
  if s.client.error ≠ 0 then wl_client_destroy s else s

/-- The frame loop and the test of the error flag that follows it
(`wayland-server.c`, lines 282-363). -/
def dispatch_frames (env : Env) (fuel : Nat) (s : state) (len : Int) : Except fault state :=
  match frame_loop env fuel s len with
  | .ok s1 => .ok (destroy_on_error s1)
  | .error f => .error f

/-- The function `wl_client_connection_data`. -/
def wl_client_connection_data (env : Env) (fuel : Nat) (s : state) (mask : Nat) :
    Except fault state :=
  if mask &&& (WL_EVENT_ERROR ||| WL_EVENT_HANGUP) ≠ 0 then .ok (wl_client_destroy s)
  else
    let flushed : state × Bool :=
      if mask &&& WL_EVENT_WRITABLE ≠ 0 then
        let r := env.wl_connection_flush s.client s.errno
        let s1 := { s with client := { s.client with connection := r.2.2 }, errno := r.2.1 }
        if r.1 < 0 ∧ r.2.1 ≠ EAGAIN then (s1, false)
        else if r.1 ≥ 0 then
          ({ s1 with log := s1.log ++ [.fd_update WL_EVENT_READABLE] }, true)
        else (s1, true)
      else (s, true)
    if flushed.2 = false then .ok (wl_client_destroy flushed.1)
    else
      let s1 := flushed.1
      if mask &&& WL_EVENT_READABLE ≠ 0 then
        let r := env.wl_connection_read s1.client s1.errno
        let s2 := { s1 with client := { s1.client with connection := r.2.2 }, errno := r.2.1 }
        if r.1 ≤ 0 ∧ r.2.1 ≠ EAGAIN then .ok (wl_client_destroy s2)
        else dispatch_frames env fuel s2 r.1
      else dispatch_frames env fuel s1 0

/-- The states in which the handled frames leave the client, in order: a frame
is handled when a round of the loop gets past the two tests that leave the
loop without touching the frame. -/
def handled_frames (env : Env) : Nat → state → Int → List state
  | 0, _, _ => []
  | fuel + 1, s, len =>
    if len % 2 ^ 64 < 8 ∨ len < frame_size (wl_connection_copy s.client.connection).2 then []
    else
      match dispatch_frame env s len with
      | .stop s1 => [s1]
      | .next s1 len1 => s1 :: handled_frames env fuel s1 len1
      | .fault _ => []

/-! ## Destroying a resource (`wayland-server.c`, lines 555-590) -/

/-- The function `destroy_resource`. -/
def destroy_resource (env : Env) (s : state) (resource : wl_resource) : state :=
  let s1 : state :=
    { s with
      client := env.wl_signal_emit resource s.client
      log := s.log ++ [.signal_emit resource] }
  let flags := wl_map_lookup_flags s1.client.objects resource.id
  let s2 : state :=
    match resource.destroy with
    | some f =>
      { s1 with
        client := env.destroy_func f resource s1.client
        log := s1.log ++ [.destroy_func f resource] }
    | none => s1
  if flags &&& WL_MAP_ENTRY_LEGACY = 0 then { s2 with log := s2.log ++ [.free resource] }
  else s2

/-- The function `wl_resource_destroy`. -/
def wl_resource_destroy (env : Env) (s : state) (resource : wl_resource) : state :=
  let id := resource.id
  let s1 := destroy_resource env s resource
  if id < WL_SERVER_ID_START then
    let s2 :=
      match s1.client.display_resource with
      | some display_resource =>
        wl_resource_queue_event env s1 display_resource WL_DISPLAY_DELETE_ID [.u id]
      | none => s1
    { s2 with
      client := { s2.client with objects := (wl_map_insert_at s2.client.objects 0 id none).2 }
      log := s2.log ++ [.map_insert_at 0 id none] }
  else
    { s1 with
      client := { s1.client with objects := wl_map_remove s1.client.objects id }
      log := s1.log ++ [.map_remove id] }

/-! ## The registry (`wayland-server.c`, lines 712-793 and 920-967) -/

/-- The function `registry_bind`; `display` is `resource->data`. -/
def registry_bind (env : Env) (display : wl_display) (s : state) (resource : wl_resource)
    (name : Nat) (interface : String) (version : Nat) (id : Nat) : state :=
  match display.global_list.find? (fun g => g.name = name) with
  | none =>
    wl_resource_post_error env s resource WL_DISPLAY_ERROR_INVALID_OBJECT
      "invalid global %s (%d)" [.s (some interface), .u name]
  | some global =>
    if global.version < version then
      wl_resource_post_error env s resource WL_DISPLAY_ERROR_INVALID_OBJECT
        "invalid version for global %s (%d): have %d, wanted %d"
        [.s (some interface), .u name, .u global.version, .u version]
    else
      { s with
        client := env.global_bind global.bind global.data version id s.client
        log := s.log ++ [.global_bind global.bind global.data version id] }

/-- The state the display-side functions work on: the display, the log of the
events posted, and the number of resources allocated so far, which numbers the
next one.  The error flag a failed send sets in the receiving client is not
part of it. -/
structure world where
  display : wl_display
  log : List action
  allocated : Nat
  deriving DecidableEq, Repr

/-- The interface `wl_registry` of the generated protocol code. -/
def wl_registry_interface : wl_interface :=
  { name := "wl_registry", version := 1, method_count := 1,
    methods := [{ name := "bind", signature := "usun" }],
    event_count := 2,
    events := [{ name := "global", signature := "usu" },
               { name := "global_remove", signature := "u" }] }

/-- The pointer to the function table `registry_interface`. -/
def registry_interface_pointer : Nat := 1

/-- The pointer to the function `unbind_resource`. -/
def unbind_resource_pointer : Nat := 2

/-- The display the world of `wl_display_create` starts with: the name counter
is 1, the serial 0 and the lists are empty. -/
def wl_display_create : world :=
  { display := { id := 1, serial := 0, registry_resource_list := [], global_list := [] }
    log := [], allocated := 0 }

/-- The loop `wl_list_for_each (global, &display->global_list, link)` of
`display_get_registry` posting `wl_registry.global` on the new resource. -/
def announce_globals (resource : wl_resource) (globals : List wl_global) : List action :=
  globals.map (fun g =>
    .post_event resource WL_REGISTRY_GLOBAL
      [.u g.name, .s (some g.interface.name), .u g.version])

/-- The function `display_get_registry`.  `created` is the object id of the
resource `wl_resource_create` returns, `none` when it returns NULL (the id is
taken in the object map of the client, or `malloc` fails). -/
def display_get_registry (w : world) (client : Nat) (created : Option Nat) : world :=
  match created with
  | none => { w with log := w.log ++ [.post_no_memory client] }
  | some id =>
    let registry_resource : wl_resource :=
      { ident := w.allocated, id := id, interface := wl_registry_interface,
        implementation := some registry_interface_pointer,
        destroy := some unbind_resource_pointer,
        client := client, data := none, version := 1, dispatcher := none }
    { display := { w.display with
        registry_resource_list := registry_resource :: w.display.registry_resource_list }
      log := w.log ++ announce_globals registry_resource w.display.global_list
      allocated := w.allocated + 1 }

/-- The function `wl_global_create`; `allocated` tells whether `malloc`
returns memory.  The result is the new world and the global, `none` for NULL. -/
def wl_global_create (w : world) (interface : wl_interface) (version : Int)
    (data : Option Nat) (bind : Nat) (allocated : Bool) : world × Option wl_global :=
  if interface.version < version then (w, none)
  else if allocated = false then (w, none)
  else
    let global : wl_global :=
      { name := w.display.id, interface := interface,
        version := (version % (UINT32_RANGE : Int)).toNat, data := data, bind := bind }
    let posted := w.display.registry_resource_list.map (fun resource =>
      action.post_event resource WL_REGISTRY_GLOBAL
        [.u global.name, .s (some global.interface.name), .u global.version])
    ({ w with
        display := { w.display with
          id := (w.display.id + 1) % UINT32_RANGE
          global_list := w.display.global_list ++ [global] }
        log := w.log ++ posted },
      some global)

/-- The function `wl_global_destroy`. -/
def wl_global_destroy (w : world) (global : wl_global) : world :=
  let posted := w.display.registry_resource_list.map (fun resource =>
    action.post_event resource WL_REGISTRY_GLOBAL_REMOVE [.u global.name])
  { w with
    display := { w.display with global_list := w.display.global_list.erase global }
    log := w.log ++ posted }

/-- The function `unbind_resource`, the destroy callback of a registry
resource: it unlinks the resource from the list of the display. -/
def unbind_resource (w : world) (resource : wl_resource) : world :=
  { w with
    display := { w.display with
      registry_resource_list := w.display.registry_resource_list.erase resource } }

/-- An operation on the display: a request `wl_display.get_registry` of a
client, the creation or destruction of a global, or the destruction of a
registry resource. -/
inductive display_op where
  | get_registry (client : Nat) (created : Option Nat)
  | global_create (interface : wl_interface) (version : Int) (data : Option Nat) (bind : Nat)
      (allocated : Bool)
  | global_destroy (global : wl_global)
  | resource_destroy (resource : wl_resource)
  deriving DecidableEq, Repr

/-- One operation; `none` when it is handed a pointer that is not live (a
global or a registry resource that is not in the list of the display). -/
def display_step (w : world) : display_op → Option world
  | .get_registry client created => some (display_get_registry w client created)
  | .global_create interface version data bind allocated =>
    some (wl_global_create w interface version data bind allocated).1
  | .global_destroy global =>
    if global ∈ w.display.global_list then some (wl_global_destroy w global) else none
  | .resource_destroy resource =>
    if resource ∈ w.display.registry_resource_list then some (unbind_resource w resource)
    else none

/-- A sequence of operations. -/
def display_run : world → List display_op → Option world
  | w, [] => some w
  | w, op :: rest =>
    match display_step w op with
    | none => none
    | some w1 => display_run w1 rest

/-- Whether a call posts `wl_registry.global` for the name on the resource. -/
def is_global_event (resource : wl_resource) (name : Nat) : action → Bool
  | .post_event r opcode (.u n :: _) =>
    decide (r = resource ∧ opcode = WL_REGISTRY_GLOBAL ∧ n = name)
  | _ => false

/-- Whether a call posts `wl_registry.global_remove` for the name on the
resource. -/
def is_remove_event (resource : wl_resource) (name : Nat) : action → Bool
  | .post_event r opcode (.u n :: _) =>
    decide (r = resource ∧ opcode = WL_REGISTRY_GLOBAL_REMOVE ∧ n = name)
  | _ => false

/-- The number of times `wl_registry.global` was posted for the name on the
resource. -/
def global_count (resource : wl_resource) (name : Nat) (log : List action) : Nat :=
  (log.filter (is_global_event resource name)).length

/-! ## Sample environment and states -/

/-- An environment in which every call succeeds and no handler, listener or
callback touches the client. -/
def sample_env : Env :=
  { wl_message_get_since := fun _ => 1
    vsnprintf := fun msg _ => msg
    wl_closure_marshal := fun _ _ _ => true
    wl_closure_send := fun _ _ _ _ => 0
    wl_closure_queue := fun _ _ _ _ => 0
    wl_connection_flush := fun c e => (0, e, c.connection)
    wl_connection_read := fun c e => (0, e, c.connection)
    wl_connection_demarshal := fun _ _ _ => .closure { sender_id := 0, opcode := 0, args := [] }
    wl_closure_lookup_objects := fun _ _ => 0
    wl_closure_invoke := fun _ _ _ c => c
    wl_closure_dispatch := fun _ _ _ _ c => c
    wl_signal_emit := fun _ c => c
    destroy_func := fun _ _ c => c
    global_bind := fun _ _ _ _ c => c }

/-- The interface `wl_display` of the generated protocol code. -/
def wl_display_interface : wl_interface :=
  { name := "wl_display", version := 1, method_count := 2,
    methods := [{ name := "sync", signature := "n" },
                { name := "get_registry", signature := "n" }],
    event_count := 2,
    events := [{ name := "error", signature := "ous" },
               { name := "delete_id", signature := "u" }] }

/-- The display resource `bind_display` creates at id 1. -/
def sample_display_resource : wl_resource :=
  { ident := 0, id := 1, interface := wl_display_interface, implementation := some 3,
    destroy := some 4, client := 0, data := none, version := 1, dispatcher := none }

/-- A resource as the deprecated `wl_client_add_object` creates it: version -1
in a slot without the legacy flag. -/
def sample_old_resource : wl_resource :=
  { ident := 1, id := 5, interface := wl_display_interface, implementation := some 3,
    destroy := none, client := 0, data := none, version := -1, dispatcher := none }

/-- A client with its display resource at id 1 and an old resource at id 5,
with the given bytes buffered. -/
def sample_client (input : List Nat) : wl_client :=
  { connection := { input := input }
    display_resource := some sample_display_resource
    objects := { entries :=
      [(0, { flags := 0, data := none }),
       (1, { flags := 0, data := some sample_display_resource }),
       (5, { flags := 0, data := some sample_old_resource })] }
    error := 0 }

/-- The state of the sample client with a header for the object `id` and the
opcode buffered, and an empty log. -/
def sample_state (id opcode : Nat) : state :=
  { client := sample_client (word_bytes id ++ word_bytes (header_word 8 opcode))
    errno := 0, log := [] }

/-- The sample environment with every method introduced in version `since`. -/
def sample_env_since (since : Int) : Env :=
  { sample_env with wl_message_get_since := fun _ => since }

/-- The sample state after its one frame, for the old resource, was handed to
the handler. -/
def sample_state_invoked : state :=
  { client := sample_client [], errno := 0,
    log := [.closure_invoke { sender_id := 0, opcode := 0, args := [] }
      sample_old_resource 0] }

/-- A client whose error flag was set before the dispatcher runs, by an event
that could not be sent, with the first four bytes of a header buffered. -/
def sample_state_flagged : state :=
  { client := { sample_client [1, 0, 0, 0] with error := 1 }, errno := 0, log := [] }

/-- The three ways a round that handles a frame can end. -/
def handled_result (r : step_result) : Prop :=
  (∃ f, r = .fault f) ∨ (∃ s1, r = .stop s1 ∧ s1.client.error ≠ 0) ∨
    (∃ s1 len1, r = .next s1 len1 ∧ s1.client.error = 0)

/-- The sample client while it is torn down: its display resource, destroyed
first, is gone. -/
def sample_state_teardown : state :=
  { client := { sample_client [] with display_resource := none }, errno := 0, log := [] }

/-- A display with two globals. -/
def sample_display : wl_display :=
  { id := 3, serial := 0, registry_resource_list := [],
    global_list :=
      [{ name := 1, interface := wl_display_interface, version := 1, data := none, bind := 7 },
       { name := 2, interface := wl_registry_interface, version := 3, data := some 9,
         bind := 8 }] }

/-- Every `global_remove` in the log comes after a `global` for the same name
on the same resource. -/
def removes_follow (log : List action) : Prop :=
  ∀ (pre : List action) (e : action) (post : List action) (r : wl_resource) (name : Nat),
    log = pre ++ e :: post → is_remove_event r name e = true →
    ∃ e1 ∈ pre, is_global_event r name e1 = true

/-- The invariant of the display and of the log of registry events. -/
def display_inv (w : world) : Prop :=
  (w.display.global_list.map (fun g => g.name)).Nodup ∧
  (∀ g ∈ w.display.global_list, g.name < w.display.id) ∧
  w.display.registry_resource_list.Nodup ∧
  (∀ r ∈ w.display.registry_resource_list, r.ident < w.allocated) ∧
  (∀ r name, 0 < global_count r name w.log → r.ident < w.allocated ∧ name < w.display.id) ∧
  (∀ r name, global_count r name w.log ≤ 1) ∧
  (∀ r ∈ w.display.registry_resource_list, ∀ g ∈ w.display.global_list,
    global_count r g.name w.log = 1) ∧
  removes_follow w.log

/-- The global the first `wl_global_create` of a display makes, here for the
interface `wl_display` at version 1. -/
def sample_global : wl_global :=
  { name := 1, interface := wl_display_interface, version := 1, data := none, bind := 7 }

/-- The first registry resource a display makes, here at the object id 2 of
client 0. -/
def sample_registry_resource : wl_resource :=
  { ident := 0, id := 2, interface := wl_registry_interface,
    implementation := some registry_interface_pointer,
    destroy := some unbind_resource_pointer,
    client := 0, data := none, version := 1, dispatcher := none }

/-- A global is created and destroyed, and then a client asks for the
registry. -/
def sample_ops_late : List display_op :=
  [.global_create wl_display_interface 1 none 7 true,
   .global_destroy sample_global,
   .get_registry 0 (some 2)]

/-- A client asks for the registry, and then a global is created and
destroyed. -/
def sample_ops_live : List display_op :=
  [.get_registry 0 (some 2),
   .global_create wl_display_interface 1 none 7 true,
   .global_destroy sample_global]

/-- The world after `sample_ops_late`: the registry resource is on the list and
nothing was posted. -/
def sample_world_late : world :=
  { display := { id := 2, serial := 0,
                 registry_resource_list := [sample_registry_resource], global_list := [] }
    log := [], allocated := 1 }

/-- The world after `sample_ops_live`: the registry resource was sent `global`
and then `global_remove` for the name 1. -/
def sample_world_live : world :=
  { display := { id := 2, serial := 0,
                 registry_resource_list := [sample_registry_resource], global_list := [] }
    log := [.post_event sample_registry_resource WL_REGISTRY_GLOBAL
              [.u 1, .s (some "wl_display"), .u 1],
            .post_event sample_registry_resource WL_REGISTRY_GLOBAL_REMOVE [.u 1]]
    allocated := 1 }

/-! ## The names of the globals (`wl_global_create`, lines 920-954) -/

/-- The globals the calls of `wl_global_create` in a sequence of operations
return, in the order of the calls; a call that returns NULL adds none. -/
def created_globals : world → List display_op → List wl_global
  | _, [] => []
  | w, op :: rest =>
    match display_step w op with
    | none => []
    | some w1 =>
      match op with
      | .global_create interface version data bind allocated =>
        (wl_global_create w interface version data bind allocated).2.toList ++
          created_globals w1 rest
      | _ => created_globals w1 rest

/-- The call `wl_global_create (display, &wl_display_interface, 1, NULL, bind)`
with memory at hand. -/
def sample_create : display_op :=
  .global_create wl_display_interface 1 none 7 true

/-- The global such a call makes when the name counter is at `name`. -/
def sample_global_named (name : Nat) : wl_global :=
  { name := name, interface := wl_display_interface, version := 1, data := none, bind := 7 }

/-- The world `n` such calls in a row leave behind them on a new display. -/
def world_after_creates (n : Nat) : world :=
  { display :=
      { id := (1 + n) % UINT32_RANGE, serial := 0, registry_resource_list := [],
        global_list := (List.range n).map (fun k => sample_global_named ((1 + k) % UINT32_RANGE)) }
    log := [], allocated := 0 }

/-- The global list is sorted by name, and the names are below the counter. -/
def names_below (w : world) : Prop :=
  (w.display.global_list.map (fun g => g.name)).Pairwise (fun a b => a < b) ∧
  ∀ g ∈ w.display.global_list, g.name < w.display.id

/-! ## The serial (`wayland-server.c`, lines 969-999) -/

/-- The function `wl_display_get_serial`: the display as the call leaves it and
the value returned. -/
def wl_display_get_serial (display : wl_display) : wl_display × Nat :=
  (display, display.serial)

/-- The function `wl_display_next_serial`: `display->serial++` on a `uint32_t`,
then the new value is returned. -/
def wl_display_next_serial (display : wl_display) : wl_display × Nat :=
  let display := { display with serial := (display.serial + 1) % UINT32_RANGE }
  (display, display.serial)

/-- The values `n` successive calls of `wl_display_next_serial` return, and the
display after them. -/
def next_serials : Nat → wl_display → wl_display × List Nat
  | 0, display => (display, [])
  | n + 1, display =>
    let r := wl_display_next_serial display
    let rest := next_serials n r.1
    (rest.1, r.2 :: rest.2)

/-! ## Flushing (`wl_client_flush`, lines 377-381, and
`wl_display_flush_clients`, lines 1024-1040) -/

/-- The errno value `EPIPE`. -/
def EPIPE : Int := 32

/-- The function `wl_client_flush`: the connection is flushed and what
`wl_connection_flush` returns is dropped. -/
def wl_client_flush (env : Env) (s : state) : state :=
  let r := env.wl_connection_flush s.client s.errno
  { s with client := { s.client with connection := r.2.2 }, errno := r.2.1 }

/-- The body of the loop of `wl_display_flush_clients` for one client of the
list of the display. -/
def flush_clients_body (env : Env) (s : state) : state :=
  let r := env.wl_connection_flush s.client s.errno
  let s1 := { s with client := { s.client with connection := r.2.2 }, errno := r.2.1 }
  if r.1 < 0 ∧ r.2.1 = EAGAIN then
    { s1 with log := s1.log ++ [.fd_update (WL_EVENT_WRITABLE ||| WL_EVENT_READABLE)] }
  else if r.1 < 0 then wl_client_destroy s1
  else s1

/-- The function `wl_display_flush_clients` on the clients of the list of the
display, each with its own log. -/
def wl_display_flush_clients (env : Env) (clients : List state) : List state :=
  clients.map (flush_clients_body env)

/-- The sample environment with a flush that fails with the given `errno`. -/
def sample_env_flush (errno : Int) : Env :=
  { sample_env with wl_connection_flush := fun c _ => (-1, errno, c.connection) }

/-- The sample client with nothing buffered and an empty log. -/
def sample_state_idle : state :=
  { client := sample_client [], errno := 0, log := [] }

/-! ## A frame that declares the size 0 (`wl_client_connection_data`, lines
282-358) -/

/-- An interface whose one request has no arguments. -/
def sample_surface_interface : wl_interface :=
  { name := "wl_surface", version := 1, method_count := 1,
    methods := [{ name := "commit", signature := "" }],
    event_count := 0, events := [] }

/-- A resource of that interface at the object id 3. -/
def sample_surface_resource : wl_resource :=
  { ident := 2, id := 3, interface := sample_surface_interface, implementation := some 5,
    destroy := none, client := 0, data := none, version := 1, dispatcher := none }

/-- The closure the sample environment demarshals. -/
def sample_closure : wl_closure :=
  { sender_id := 0, opcode := 0, args := [] }

/-- A client with its display resource at id 1 and the surface at id 3 that has
the eight bytes of one header buffered: the object 3, the opcode 0 and the
size 0.  The log is the one given. -/
def sample_state_zero_size (log : List action) : state :=
  { client :=
      { connection := { input := word_bytes 3 ++ word_bytes (header_word 0 0) }
        display_resource := some sample_display_resource
        objects := { entries :=
          [(0, { flags := 0, data := none }),
           (1, { flags := 0, data := some sample_display_resource }),
           (3, { flags := 0, data := some sample_surface_resource })] }
        error := 0 }
    errno := 0, log := log }

/-! ## Creating a resource (`wl_resource_create`, lines 1287-1322, and
`wl_resource_set_implementation`, lines 1264-1273) -/

/-- Modelled from the spec: `wl_map_insert_new` takes the first free id of the
server half of the map, here `new_id`, and places the pointer there. -/
def wl_map_insert_new (map : wl_map) (flags : Nat) (data : Option wl_resource) (new_id : Nat) :
    Nat × wl_map :=
  (new_id, (wl_map_insert_at map flags new_id data).2)

/-- The function `wl_resource_create` for the client of the state, whose name
is `client`.  `allocated` tells whether `malloc` returns memory, `ident` names
the allocation and `new_id` is the id `wl_map_insert_new` hands out.  The
result is the new state and the resource, `none` for NULL. -/
def wl_resource_create (env : Env) (s : state) (client : Nat) (interface : wl_interface)
    (version : Int) (id : Nat) (allocated : Bool) (ident new_id : Nat) :
    Except fault (state × Option wl_resource) :=
  if allocated = false then .ok (s, none)
  else
    let fresh := wl_map_insert_new s.client.objects 0 none new_id
    let s1 : state :=
      if id = 0 then { s with client := { s.client with objects := fresh.2 } } else s
    let id := if id = 0 then fresh.1 else id
    let resource : wl_resource :=
      { ident := ident, id := id, interface := interface, implementation := none,
        destroy := none, client := client, data := none, version := version,
        dispatcher := none }
    let r := wl_map_insert_at s1.client.objects 0 resource.id (some resource)
    if r.1 < 0 then
      match post_error_on_display env s1 WL_DISPLAY_ERROR_INVALID_OBJECT "invalid new id %d"
          [.u resource.id] with
      | .error f => .error f
      | .ok s2 => .ok ({ s2 with log := s2.log ++ [.free resource] }, none)
    else
      .ok ({ s1 with
              client := { s1.client with objects := r.2 }
              log := s1.log ++ [.map_insert_at 0 resource.id (some resource)] },
           some resource)

/-- The function `wl_resource_set_implementation`. -/
def wl_resource_set_implementation (resource : wl_resource) (implementation : Nat)
    (data : Option Nat) (destroy : Option Nat) : wl_resource :=
  { resource with
    implementation := some implementation, data := data, destroy := destroy,
    dispatcher := none }

/-- A store through a `struct wl_resource *`: the slot of the object map that
holds the pointer sees the new fields. -/
def store_resource (map : wl_map) (resource : wl_resource) : wl_map :=
  { entries := map.entries.map (fun e =>
      if e.2.data.map (fun r => r.ident) = some resource.ident then
        (e.1, { e.2 with data := some resource })
      else e) }

/-! ## The display resource and the client (`bind_display`, lines 806-820, and
`wl_client_create`, lines 421-480) -/

/-- The pointer to the function table `display_interface`. -/
def display_interface_pointer : Nat := 3

/-- The pointer to the function `destroy_client_display_resource`. -/
def destroy_client_display_resource_pointer : Nat := 4

/-- The function `bind_display`; `display` is the pointer stored as the data of
the resource.  The result is the value returned and the new state. -/
def bind_display (env : Env) (s : state) (client : Nat) (display : Option Nat)
    (allocated : Bool) (ident : Nat) : Except fault (Int × state) :=
  match wl_resource_create env s client wl_display_interface 1 1 allocated ident 0 with
  | .error f => .error f
  | .ok (s1, created) =>
    let s2 : state := { s1 with client := { s1.client with display_resource := created } }
    match created with
    | none =>
      match post_error_on_display env s2 WL_DISPLAY_ERROR_NO_MEMORY "no memory" [] with
      | .error f => .error f
      | .ok s3 => .ok (-1, s3)
    | some resource =>
      let resource1 := wl_resource_set_implementation resource display_interface_pointer
        display (some destroy_client_display_resource_pointer)
      .ok (0, { s2 with
                client := { s2.client with
                  display_resource := some resource1
                  objects := store_resource s2.client.objects resource1 } })

/-- What the calls of `wl_client_create` into the C library, the event loop,
the connection and the object map return: whether `malloc` returns memory for
the client and for the display resource, the event source or NULL, the result
of `getsockopt`, the connection or NULL, and the result of reserving id 0. -/
structure create_calls where
  malloc_client : Bool
  wl_event_loop_add_fd : Option Nat
  getsockopt : Int
  wl_connection_create : Option wl_connection
  wl_map_insert_at : Int
  malloc_resource : Bool
  deriving DecidableEq, Repr

/-- A call of the error paths of `wl_client_create`. -/
inductive release where
  | wl_map_release
  | wl_connection_destroy
  | wl_event_source_remove (source : Nat)
  | free_client
  deriving DecidableEq, Repr

/-- What `wl_client_create` leaves: the client returned, `none` for NULL, the
client list of the display, and the calls of the error paths. -/
structure create_result where
  client : Option wl_client
  client_list : List wl_client
  released : List release
  deriving DecidableEq, Repr

/-- The function `wl_client_create`; `client` names the new client, `ident` the
allocation of its display resource and `display` is the pointer to the
display. -/
def wl_client_create (env : Env) (calls : create_calls) (client_list : List wl_client)
    (errno : Int) (client ident : Nat) (display : Option Nat) : Except fault create_result :=
  if calls.malloc_client = false then
    .ok { client := none, client_list := client_list, released := [] }
  else
    match calls.wl_event_loop_add_fd with
    | none => .ok { client := none, client_list := client_list, released := [.free_client] }
    | some source =>
      if calls.getsockopt < 0 then
        .ok { client := none, client_list := client_list,
              released := [.wl_event_source_remove source, .free_client] }
      else
        match calls.wl_connection_create with
        | none =>
          .ok { client := none, client_list := client_list,
                released := [.wl_event_source_remove source, .free_client] }
        | some connection =>
          let objects : wl_map := (wl_map_insert_at { entries := [] } 0 0 none).2
          let err_map : create_result :=
            { client := none, client_list := client_list,
              released := [.wl_map_release, .wl_connection_destroy,
                           .wl_event_source_remove source, .free_client] }
          if calls.wl_map_insert_at < 0 then .ok err_map
          else
            let s : state :=
              { client := { connection := connection, display_resource := none,
                            objects := objects, error := 0 }
                errno := errno, log := [] }
            match bind_display env s client display calls.malloc_resource ident with
            | .error f => .error f
            | .ok (r, s1) =>
              if r < 0 then .ok err_map
              else
                .ok { client := some s1.client, client_list := client_list ++ [s1.client],
                      released := [] }

/-- The calls of `wl_client_create` all succeed. -/
def sample_calls : create_calls :=
  { malloc_client := true, wl_event_loop_add_fd := some 1, getsockopt := 0,
    wl_connection_create := some { input := [] }, wl_map_insert_at := 0,
    malloc_resource := true }

/-- The client `wl_client_create` makes from the sample calls. -/
def sample_created_client : wl_client :=
  { connection := { input := [] }
    display_resource := some { sample_display_resource with data := some 9 }
    objects := { entries :=
      [(1, { flags := 0, data := some { sample_display_resource with data := some 9 } }),
       (0, { flags := 0, data := none })] }
    error := 0 }

/-! ## The request `wl_display.sync` (`display_sync`, lines 741-757) -/

/-- The interface `wl_callback` of the generated protocol code. -/
def wl_callback_interface : wl_interface :=
  { name := "wl_callback", version := 1, method_count := 0, methods := [],
    event_count := 1, events := [{ name := "done", signature := "u" }] }

/-- The opcode of the event `wl_callback.done`. -/
def WL_CALLBACK_DONE : Nat := 0

/-- The function `display_sync`; `display` is `client->display`.  The result
is the new state and the display. -/
def display_sync (env : Env) (display : wl_display) (s : state) (client : Nat) (id : Nat)
    (allocated : Bool) (ident new_id : Nat) : Except fault (state × wl_display) :=
  match wl_resource_create env s client wl_callback_interface 1 id allocated ident new_id with
  | .error f => .error f
  | .ok (s1, none) =>
    match post_error_on_display env s1 WL_DISPLAY_ERROR_NO_MEMORY "no memory" [] with
    | .error f => .error f
    | .ok s2 => .ok (s2, display)
  | .ok (s1, some callback) =>
    let serial := wl_display_get_serial display
    let s2 := wl_resource_post_event env s1 callback WL_CALLBACK_DONE [.u serial.2]
    .ok (wl_resource_destroy env s2 callback, serial.1)

/-- The callback resource `display_sync` creates at an id. -/
def sync_callback (client id ident : Nat) : wl_resource :=
  { ident := ident, id := id, interface := wl_callback_interface, implementation := none,
    destroy := none, client := client, data := none, version := 1, dispatcher := none }

/-- The calls `wl_resource_destroy` makes at its end for an id: a client id is
reported with `delete_id` on the display resource, if the client still has
one, and its slot is zombied; a server id is removed from the map. -/
def release_id (display_resource : Option wl_resource) (id : Nat) : List action :=
  if id < WL_SERVER_ID_START then
    (match display_resource with
      | some d => [action.queue_event d WL_DISPLAY_DELETE_ID [.u id]]
      | none => []) ++ [.map_insert_at 0 id none]
  else [.map_remove id]

/-! ## Listening sockets (`wayland-server.c`, lines 56-74, 866-895 and
1062-1216) -/

/-- The size `UNIX_PATH_MAX` of `sun_path`. -/
def UNIX_PATH_MAX : Nat := 108

/-- The bytes of a text without the terminating NUL: the content of a C
string. -/
def c_str (text : String) : List Nat :=
  text.data.map Char.toNat

/-- The string `LOCK_SUFFIX`. -/
def LOCK_SUFFIX : List Nat := c_str ".lock"

/-- The length `LOCK_SUFFIXLEN` of the suffix. -/
def LOCK_SUFFIXLEN : Nat := 5

/-- The errno value `ENOENT`. -/
def ENOENT : Int := 2

/-- The errno value `ENAMETOOLONG`. -/
def ENAMETOOLONG : Int := 36

/-- The errno value `EINVAL`. -/
def EINVAL : Int := 22

/-- The largest `int`. -/
def INT_MAX : Int := 2147483647

/-- The mode bit `S_IWUSR`. -/
def S_IWUSR : Nat := 128

/-- The mode bit `S_IWGRP`. -/
def S_IWGRP : Nat := 16

/-- The libc function `snprintf` on a buffer of `size` bytes and the text the
format expands to: the buffer holds the text cut to `size - 1` bytes, and the
value returned is the length of the whole text, or -1 when that is above
`INT_MAX`. -/
def snprintf (size : Nat) (text : List Nat) : List Nat × Int :=
  (text.take (size - 1), if (text.length : Int) > INT_MAX then -1 else (text.length : Int))

/-- The `struct wl_socket`: the strings in `addr.sun_path` and `lock_addr`, the
fds, the event source, and the string `display_name` points to. -/
structure wl_socket where
  fd : Int
  fd_lock : Int
  sun_path : List Nat
  lock_addr : List Nat
  source : Option Nat
  display_name : List Nat
  deriving DecidableEq, Repr

/-- The socket `wl_socket_alloc` returns. -/
def wl_socket_alloc : wl_socket :=
  { fd := -1, fd_lock := -1, sun_path := [], lock_addr := [], source := none,
    display_name := [] }

/-- How a call ends without returning: an `assert` fails, or the fuel of the
loop is used up. -/
inductive stopped where
  | assertion
  | out_of_fuel
  deriving DecidableEq, Repr

/-- The function `wl_socket_init_for_display_name`; `getenv` is what
`getenv ("XDG_RUNTIME_DIR")` returns.  The result is the value returned, the
socket and `errno`. -/
def wl_socket_init_for_display_name (getenv : Option (List Nat)) (s : wl_socket)
    (name : List Nat) (errno : Int) : Except stopped (Int × wl_socket × Int) :=
  match getenv with
  | none => .ok (-1, s, ENOENT)
  | some runtime_dir =>
    let r := snprintf UNIX_PATH_MAX (runtime_dir ++ c_str "/" ++ name)
    let name_size := Scanner.to_int32 (r.2 + 1)
    let s1 : wl_socket :=
      { s with
        sun_path := r.1
        display_name := r.1.drop (name_size - 1 - (name.length : Int)).toNat }
    if ¬ name_size > 0 then .error .assertion
    else if name_size > (UNIX_PATH_MAX : Int) then
      .ok (-1, { s1 with sun_path := [] }, ENAMETOOLONG)
    else .ok (0, s1, errno)

/-- What the system calls of `wl_socket_lock` return: `open` on the lock path,
`flock` on its fd, and `stat` on the socket path with `errno` and `st_mode`. -/
structure lock_calls where
  open_lock : List Nat → Int
  flock : Int → Int
  stat : List Nat → Int × Int × Nat

/-- A system call that changes the file system or the fd table. -/
inductive sys_call where
  | open_lock (path : List Nat)
  | close (fd : Int)
  | unlink (path : List Nat)
  deriving DecidableEq, Repr

/-- The function `wl_socket_lock`: the value returned, the socket, and the
calls made. -/
def wl_socket_lock (calls : lock_calls) (s : wl_socket) : Int × wl_socket × List sys_call :=
  let r := snprintf (UNIX_PATH_MAX + LOCK_SUFFIXLEN) (s.sun_path ++ LOCK_SUFFIX)
  let s1 : wl_socket := { s with lock_addr := r.1, fd_lock := calls.open_lock r.1 }
  let err (s2 : wl_socket) (log : List sys_call) : Int × wl_socket × List sys_call :=
    (-1, { s2 with lock_addr := [], sun_path := [] }, log)
  let err_fd (log : List sys_call) : Int × wl_socket × List sys_call :=
    err { s1 with fd_lock := -1 } (log ++ [.close s1.fd_lock])
  if s1.fd_lock < 0 then err s1 [.open_lock r.1]
  else if calls.flock s1.fd_lock < 0 then err_fd [.open_lock r.1]
  else
    let st := calls.stat s1.sun_path
    if st.1 < 0 then
      if st.2.1 ≠ ENOENT then err_fd [.open_lock r.1] else (0, s1, [.open_lock r.1])
    else if st.2.2 &&& S_IWUSR ≠ 0 ∨ st.2.2 &&& S_IWGRP ≠ 0 then
      (0, s1, [.open_lock r.1, .unlink s1.sun_path])
    else (0, s1, [.open_lock r.1])

/-- What the calls of `_wl_display_add_socket` and `wl_display_add_socket_auto`
outside the file return: the environment variable `XDG_RUNTIME_DIR`, the
calls of `wl_socket_lock`, whether `malloc` returns memory for the socket, the
fd of `wl_os_socket_cloexec`, `bind` on an fd and a path, `listen` on an fd,
and the event source of `wl_event_loop_add_fd`. -/
structure socket_calls where
  getenv : Option (List Nat)
  lock : lock_calls
  malloc_socket : Bool
  wl_os_socket_cloexec : Int
  bind : Int → List Nat → Int
  listen : Int → Int
  wl_event_loop_add_fd : Int → Option Nat

/-- The function `_wl_display_add_socket`: the value returned, the socket, and
the socket list of the display. -/
def _wl_display_add_socket (calls : socket_calls) (socket_list : List wl_socket)
    (s : wl_socket) : Int × wl_socket × List wl_socket :=
  let s1 : wl_socket := { s with fd := calls.wl_os_socket_cloexec }
  if s1.fd < 0 then (-1, s1, socket_list)
  else if calls.bind s1.fd s1.sun_path < 0 then (-1, s1, socket_list)
  else if calls.listen s1.fd < 0 then (-1, s1, socket_list)
  else
    let s2 : wl_socket := { s1 with source := calls.wl_event_loop_add_fd s1.fd }
    if s2.source = none then (-1, s2, socket_list)
    else (0, s2, socket_list ++ [s2])

/-- The constant `MAX_DISPLAYNO` of `wl_display_add_socket_auto`. -/
def MAX_DISPLAYNO : Int := 32

/-- The text `snprintf (display_name, sizeof display_name, "wayland-%d",
displayno)` leaves in the buffer of 16 bytes. -/
def auto_display_name (displayno : Int) : List Nat :=
  (snprintf 16 (c_str "wayland-" ++ c_str (Scanner.printf_d displayno))).1

/-- What `wl_display_add_socket_auto` leaves: the name returned, `none` for
NULL, the socket list of the display, `errno`, the display names the loop
formatted, in order, and whether the socket was destroyed. -/
structure auto_result where
  name : Option (List Nat)
  socket_list : List wl_socket
  errno : Int
  tried : List (List Nat)
  destroyed : Bool
  deriving DecidableEq, Repr

/-- The `do`-`while` loop of `wl_display_add_socket_auto` and what follows it;
`fuel` bounds the number of rounds. -/
def add_socket_auto_loop (calls : socket_calls) (socket_list : List wl_socket) :
    Nat → Int → wl_socket → Int → List (List Nat) → Except stopped auto_result
  | 0, _, _, _, _ => .error .out_of_fuel
  | fuel + 1, displayno, s, errno, tried =>
    let display_name := auto_display_name displayno
    let tried := tried ++ [display_name]
    match wl_socket_init_for_display_name calls.getenv s display_name errno with
    | .error e => .error e
    | .ok (r, s1, errno1) =>
      if r < 0 then
        .ok { name := none, socket_list := socket_list, errno := errno1, tried := tried,
              destroyed := true }
      else
        let l := wl_socket_lock calls.lock s1
        if l.1 < 0 then
          if displayno < MAX_DISPLAYNO then
            add_socket_auto_loop calls socket_list fuel (displayno + 1) l.2.1 errno1 tried
          else
            .ok { name := none, socket_list := socket_list, errno := EINVAL, tried := tried,
                  destroyed := true }
        else
          let a := _wl_display_add_socket calls socket_list l.2.1
          if a.1 < 0 then
            .ok { name := none, socket_list := socket_list, errno := errno1, tried := tried,
                  destroyed := true }
          else
            .ok { name := some a.2.1.display_name, socket_list := a.2.2, errno := errno1,
                  tried := tried, destroyed := false }

/-- The function `wl_display_add_socket_auto`. -/
def wl_display_add_socket_auto (calls : socket_calls) (socket_list : List wl_socket)
    (errno : Int) : Except stopped auto_result :=
  if calls.malloc_socket = false then
    .ok { name := none, socket_list := socket_list, errno := errno, tried := [],
          destroyed := false }
  else add_socket_auto_loop calls socket_list 33 0 wl_socket_alloc errno []

/-- Whether the lock for a socket path can be taken: `wl_socket_lock` returns 0
on a socket with that path. -/
def lock_taken (calls : lock_calls) (path : List Nat) : Bool :=
  decide ((wl_socket_lock calls { wl_socket_alloc with sun_path := path }).1 = 0)

/-- A lock file that can be opened and locked, with no socket file in the
way. -/
def sample_lock_calls : lock_calls :=
  { open_lock := fun _ => 5, flock := fun _ => 0, stat := fun _ => (-1, ENOENT, 0) }

/-- The runtime directory is `/run` and every call succeeds. -/
def sample_socket_calls : socket_calls :=
  { getenv := some (c_str "/run")
    lock :=
      { open_lock := fun _ => 5
        flock := fun _ => 0
        stat := fun _ => (-1, ENOENT, 0) }
    malloc_socket := true
    wl_os_socket_cloexec := 6
    bind := fun _ _ => 0
    listen := fun _ => 0
    wl_event_loop_add_fd := fun _ => some 1 }

/-- The sample calls with the lock files of `wayland-0` and `wayland-1` held by
other compositors. -/
def sample_socket_calls_busy : socket_calls :=
  { sample_socket_calls with
    lock :=
      { open_lock := fun path =>
          if path = c_str "/run/wayland-0.lock" ∨ path = c_str "/run/wayland-1.lock" then -1
          else 5
        flock := fun _ => 0
        stat := fun _ => (-1, ENOENT, 0) } }

/-- The sample calls with an event loop that cannot take the fd. -/
def sample_socket_calls_no_source : socket_calls :=
  { sample_socket_calls with wl_event_loop_add_fd := fun _ => none }

/-- Whether the lock for the socket `wayland-n` in the runtime directory can be
taken. -/
def auto_lockable (calls : socket_calls) (runtime_dir : List Nat) (n : Nat) : Bool :=
  lock_taken calls.lock (runtime_dir ++ c_str "/" ++ auto_display_name (n : Int))

/-- The display names of a list of display numbers. -/
def auto_names (numbers : List Nat) : List (List Nat) :=
  numbers.map (fun (n : Nat) => auto_display_name (n : Int))

/-- The world a request for the registry followed by `n` calls of
`sample_create` leaves on a new display: the registry resource was sent
`global` for every name handed out. -/
def world_after_registry_creates (n : Nat) : world :=
  { display :=
      { id := (1 + n) % UINT32_RANGE, serial := 0,
        registry_resource_list := [sample_registry_resource],
        global_list := (List.range n).map (fun k => sample_global_named ((1 + k) % UINT32_RANGE)) }
    log := (List.range n).map (fun k =>
      action.post_event sample_registry_resource WL_REGISTRY_GLOBAL
        [.u ((1 + k) % UINT32_RANGE), .s (some "wl_display"), .u 1])
    allocated := 1 }

end Server

namespace Connection

/-! ## The codec of `connection.c`, which is not among the embedded files

The functions of this section are written from the specification of the wire
format and of the codec, and from the way `tests/connection-test.c` calls
them. -/

/-- Modelled from the spec: the value of an argument of kind `u`, `i`, `f` or
`s`.  A fixed is its raw 32 bits as a signed number; a string is the bytes
before its NUL, and `none` is the null string. -/
inductive codec_value where
  | u (v : Nat)
  | i (v : Int)
  | f (v : Int)
  | s (v : Option (List Nat))
  deriving DecidableEq, Repr

/-- Modelled from the spec: one argument of a signature, the `?` mark and the
kind character. -/
structure signature_arg where
  nullable : Bool
  kind : Char
  deriving DecidableEq, Repr

/-- Modelled from the spec: the arguments a signature string declares; the
digits of a leading since-version are passed over. -/
def signature_args : List Char → List signature_arg
  | [] => []
  | c :: rest =>
    if c.isDigit then signature_args rest
    else if c = '?' then
      match rest with
      | [] => []
      | k :: rest1 => { nullable := true, kind := k } :: signature_args rest1
    else { nullable := false, kind := c } :: signature_args rest

/-- Modelled from the spec: the value of `EINVAL`. -/
def EINVAL : Int := 22

/-- Modelled from the spec: the value of `E2BIG`. -/
def E2BIG : Int := 7

/-- Modelled from the spec: the largest frame, which is also the capacity of
the data ring of a connection. -/
def MAX_FRAME : Nat := 4096

/-- Modelled from the spec: the 32-bit word that holds a signed value. -/
def int_word (v : Int) : Nat :=
  (v % 2 ^ 32).toNat

/-- Modelled from the spec: the signed value a 32-bit word holds. -/
def word_int (w : Nat) : Int :=
  if w < 2 ^ 31 then (w : Int) else (w : Int) - 2 ^ 32

/-- Modelled from the spec: the number of zero bytes that pad `n` bytes to a
multiple of 4. -/
def pad_length (n : Nat) : Nat :=
  (4 - n % 4) % 4

/-- Modelled from the spec: the bytes one argument is serialised to.  Numbers
are one little-endian word; a string is the word of its length with the NUL,
its bytes, the NUL and the padding; a null string is the length 0 and needs
the `?` mark. -/
def marshal_arg (sa : signature_arg) (v : codec_value) : Except Int (List Nat) :=
  match v with
  | .u x => if sa.kind = 'u' then .ok (Server.word_bytes (x % 2 ^ 32)) else .error EINVAL
  | .i x => if sa.kind = 'i' then .ok (Server.word_bytes (int_word x)) else .error EINVAL
  | .f x => if sa.kind = 'f' then .ok (Server.word_bytes (int_word x)) else .error EINVAL
  | .s none =>
    if sa.kind = 's' ∧ sa.nullable = true then .ok (Server.word_bytes 0) else .error EINVAL
  | .s (some b) =>
    if sa.kind = 's' then
      .ok (Server.word_bytes ((b.length + 1) % 2 ^ 32) ++ (b ++ 0 :: List.replicate
        (pad_length (b.length + 1)) 0))
    else .error EINVAL

/-- Modelled from the spec: the payload of a frame, the arguments in order. -/
def marshal_args : List signature_arg → List codec_value → Except Int (List Nat)
  | [], [] => .ok []
  | sa :: sas, v :: vs =>
    match marshal_arg sa v with
    | .error e => .error e
    | .ok bytes =>
      match marshal_args sas vs with
      | .error e => .error e
      | .ok rest => .ok (bytes ++ rest)
  | _, _ => .error EINVAL

/-- Modelled from the spec: the function `wl_closure_vmarshal`; the closure is
the frame: the id of the sender, the word of size and opcode, the payload. -/
def wl_closure_vmarshal (sender_id opcode : Nat) (signature : String)
    (args : List codec_value) : Except Int (List Nat) :=
  match marshal_args (signature_args signature.data) args with
  | .error e => .error e
  | .ok payload =>
    .ok (Server.word_bytes sender_id ++
      (Server.word_bytes (Server.header_word (8 + payload.length) opcode) ++ payload))

/-- Modelled from the spec: two connected connections: the data ring of the
writing one, the bytes in the socket, and the data ring of the reading one. -/
structure wire where
  write_ring : List Nat
  socket : List Nat
  read_ring : List Nat
  deriving DecidableEq, Repr

/-- Modelled from the spec: the function `wl_closure_send`: the frame is queued
on the data ring; a frame above the largest size, or one the ring has no room
for, fails with `E2BIG`. -/
def wl_closure_send (closure : List Nat) (w : wire) : Except Int wire :=
  if closure.length > MAX_FRAME ∨ w.write_ring.length + closure.length > MAX_FRAME then
    .error E2BIG
  else .ok { w with write_ring := w.write_ring ++ closure }

/-- Modelled from the spec: the function `wl_connection_flush`: the bytes
queued are written to the socket; the result is their number. -/
def wl_connection_flush (w : wire) : wire × Nat :=
  ({ w with write_ring := [], socket := w.socket ++ w.write_ring }, w.write_ring.length)

/-- Modelled from the spec: the function `wl_connection_read`: the bytes in the
socket the ring has room for are pulled into the ring; the result is their
number. -/
def wl_connection_read (w : wire) : wire × Nat :=
  let n := min w.socket.length (MAX_FRAME - w.read_ring.length)
  ({ w with socket := w.socket.drop n, read_ring := w.read_ring ++ w.socket.take n }, n)

/-- Modelled from the spec: one argument read from the payload, and the bytes
after it.  A string of length 0 is the null string and needs the `?` mark; the
last byte of a string must be the NUL, and the value is the bytes before the
first NUL. -/
def demarshal_arg (sa : signature_arg) (bytes : List Nat) :
    Except Int (codec_value × List Nat) :=
  if bytes.length < 4 then .error EINVAL
  else
    let w := Server.read_word bytes
    let rest := bytes.drop 4
    if sa.kind = 'u' then .ok (.u w, rest)
    else if sa.kind = 'i' then .ok (.i (word_int w), rest)
    else if sa.kind = 'f' then .ok (.f (word_int w), rest)
    else if sa.kind = 's' then
      if w = 0 then
        if sa.nullable = true then .ok (.s none, rest) else .error EINVAL
      else if rest.length < w + pad_length w then .error EINVAL
      else if (rest.take w).getLast? ≠ some 0 then .error EINVAL
      else .ok (.s (some ((rest.take w).takeWhile (fun c => decide (c ≠ 0)))),
        rest.drop (w + pad_length w))
    else .error EINVAL

/-- Modelled from the spec: the arguments of a payload, strictly by the
signature. -/
def demarshal_args : List signature_arg → List Nat → Except Int (List codec_value)
  | [], _ => .ok []
  | sa :: sas, bytes =>
    match demarshal_arg sa bytes with
    | .error e => .error e
    | .ok (v, rest) =>
      match demarshal_args sas rest with
      | .error e => .error e
      | .ok vs => .ok (v :: vs)

/-- Modelled from the spec: the function `wl_connection_demarshal` for a frame
of `size` bytes at the front of the ring: the arguments after the header of 8
bytes, and the ring without the frame. -/
def wl_connection_demarshal (w : wire) (size : Nat) (signature : String) :
    Except Int (List codec_value × wire) :=
  if size < 8 ∨ w.read_ring.length < size then .error EINVAL
  else
    match demarshal_args (signature_args signature.data) ((w.read_ring.take size).drop 8) with
    | .error e => .error e
    | .ok args => .ok (args, { w with read_ring := w.read_ring.drop size })

/-- Modelled from the spec: the steps of `marshal_demarshal` in
`tests/connection-test.c`: the arguments are marshalled for the sender 1234
and the opcode 4444, sent and flushed on one end of a socket pair, read on
the other end and demarshalled against the same signature. -/
def marshal_demarshal (signature : String) (args : List codec_value) :
    Except Int (List codec_value) :=
  match wl_closure_vmarshal 1234 4444 signature args with
  | .error e => .error e
  | .ok closure =>
    match wl_closure_send closure { write_ring := [], socket := [], read_ring := [] } with
    | .error e => .error e
    | .ok w1 =>
      let flushed := wl_connection_flush w1
      let read := wl_connection_read flushed.1
      match wl_connection_demarshal read.1 flushed.2 signature with
      | .error e => .error e
      | .ok r => .ok r.1

/-- Modelled from the spec: the bytes of a C string: none is the NUL. -/
def c_string (b : List Nat) : Prop :=
  ∀ c ∈ b, 0 < c ∧ c < 256

/-- The bytes of the text "cookie robots". -/
def sample_text : List Nat :=
  [99, 111, 111, 107, 105, 101, 32, 114, 111, 98, 111, 116, 115]

end Connection

namespace Os

/-! ## Constants of the system headers -/

/-- The errno value `EINVAL`. -/
def EINVAL : Int := 22

/-- The errno value `ENOSYS`. -/
def ENOSYS : Int := 38

/-- The fd flag `FD_CLOEXEC`. -/
def FD_CLOEXEC : Nat := 1

/-- The socket type flag `SOCK_CLOEXEC`. -/
def SOCK_CLOEXEC : Nat := 524288

/-- The flag `EPOLL_CLOEXEC` of `epoll_create1`. -/
def EPOLL_CLOEXEC : Nat := 524288

/-- The flag `MSG_CMSG_CLOEXEC` of `recvmsg`. -/
def MSG_CMSG_CLOEXEC : Nat := 1073741824

/-- The level `SOL_SOCKET` of a control message. -/
def SOL_SOCKET : Int := 1

/-- The type `SCM_RIGHTS` of a control message. -/
def SCM_RIGHTS : Int := 1

/-! ## The kernel seen from `wayland-os.c` -/

/-- The fd table of the process, each open fd with its fd flags, and `errno`. -/
structure kernel where
  table : List (Int × Nat)
  errno : Int
  deriving DecidableEq, Repr

/-- The fd flags of an fd, `none` when it is not open. -/
def fd_flags (k : kernel) (fd : Int) : Option Nat :=
  (k.table.find? (fun e => e.1 = fd)).map (fun e => e.2)

/-- Whether an fd is open with the close-on-exec flag. -/
def cloexec (k : kernel) (fd : Int) : Bool :=
  match fd_flags k fd with
  | some flags => decide (flags &&& FD_CLOEXEC ≠ 0)
  | none => false

/-- The kernel opens an fd with the given fd flags, or sets the flags of an
open one. -/
def install (k : kernel) (fd : Int) (flags : Nat) : kernel :=
  { k with table := (fd, flags) :: k.table.filter (fun e => e.1 ≠ fd) }

/-- The system call `close`. -/
def close (k : kernel) (fd : Int) : kernel :=
  { k with table := k.table.filter (fun e => e.1 ≠ fd) }

/-- A control message of `recvmsg`: level, type, and the ints of its data. -/
structure cmsg where
  level : Int
  type : Int
  fds : List Int
  deriving DecidableEq, Repr

/-- What the kernel is free to answer: for the calls that make an fd the value
returned and `errno`, for `F_GETFD` and `F_SETFD` whether the call succeeds on
an open fd, and for `recvmsg` the length, `errno` and the control messages
(none when `msg_control` is NULL or nothing was received). -/
structure sys_calls where
  socket : Int → Nat → Int → Int × Int
  fcntl_dupfd : Int → Int → Int × Int
  fcntl_dupfd_cloexec : Int → Int → Int × Int
  epoll_create1 : Nat → Int × Int
  epoll_create : Int → Int × Int
  accept4 : Int → Nat → Int × Int
  accept : Int → Int × Int
  fcntl_getfd : Int → Bool
  fcntl_setfd : Int → Bool
  recvmsg : Int → Nat → Int × Int × List cmsg

/-- A call that makes an fd: on success the fd is open with the given flags, on
failure -1 is returned and `errno` is set. -/
def new_fd (k : kernel) (r : Int × Int) (flags : Nat) : kernel × Int :=
  if r.1 ≥ 0 then (install k r.1 flags, r.1) else ({ k with errno := r.2 }, -1)

/-- The flags of an fd made by a call with a flag word: `FD_CLOEXEC` when the
word has the close-on-exec bit of that call. -/
def made_flags (word bit : Nat) : Nat :=
  if word &&& bit ≠ 0 then FD_CLOEXEC else 0

/-- The call `fcntl (fd, F_GETFD)`: the flags, `none` for -1. -/
def fcntl_getfd (sys : sys_calls) (k : kernel) (fd : Int) : Option Nat :=
  match fd_flags k fd with
  | some flags => if sys.fcntl_getfd fd = true then some flags else none
  | none => none

/-- The call `fcntl (fd, F_SETFD, flags)`. -/
def fcntl_setfd (sys : sys_calls) (k : kernel) (fd : Int) (flags : Nat) : kernel × Int :=
  match fd_flags k fd with
  | some _ => if sys.fcntl_setfd fd = true then (install k fd flags, 0) else (k, -1)
  | none => (k, -1)

/-- The call `recvmsg`: the fds of the `SCM_RIGHTS` messages are opened, with
`FD_CLOEXEC` when the flags have `MSG_CMSG_CLOEXEC`. -/
def recvmsg (sys : sys_calls) (k : kernel) (sockfd : Int) (flags : Nat) :
    kernel × Int × List cmsg :=
  let r := sys.recvmsg sockfd flags
  if r.1 = -1 then ({ k with errno := r.2.1 }, -1, [])
  else
    let received := (r.2.2.filter
      (fun c => decide (c.level = SOL_SOCKET ∧ c.type = SCM_RIGHTS))).flatMap (fun c => c.fds)
    (received.foldl (fun k fd => install k fd (made_flags flags MSG_CMSG_CLOEXEC)) k,
      r.1, r.2.2)

/-! ## The wrappers (`wayland-os.c`, lines 41-210) -/

/-- The function `set_cloexec_or_close`. -/
def set_cloexec_or_close (sys : sys_calls) (k : kernel) (fd : Int) : kernel × Int :=
  if fd = -1 then (k, -1)
  else
    match fcntl_getfd sys k fd with
    | none => (close k fd, -1)
    | some flags =>
      let r := fcntl_setfd sys k fd (flags ||| FD_CLOEXEC)
      if r.2 = -1 then (close r.1 fd, -1) else (r.1, fd)

/-- The function `wl_os_socket_cloexec`; `atomic` tells whether `SOCK_CLOEXEC`
is defined. -/
def wl_os_socket_cloexec (sys : sys_calls) (atomic : Bool) (k : kernel)
    (domain : Int) (type : Nat) (protocol : Int) : kernel × Int :=
  let first := new_fd k (sys.socket domain (type ||| SOCK_CLOEXEC) protocol)
    (made_flags (type ||| SOCK_CLOEXEC) SOCK_CLOEXEC)
  if atomic = true ∧ first.2 ≥ 0 then first
  else if atomic = true ∧ first.1.errno ≠ EINVAL then (first.1, -1)
  else
    let k1 := if atomic = true then first.1 else k
    let r := new_fd k1 (sys.socket domain type protocol) (made_flags type SOCK_CLOEXEC)
    set_cloexec_or_close sys r.1 r.2

/-- The function `wl_os_dupfd_cloexec`; `atomic` tells whether
`F_DUPFD_CLOEXEC` is defined. -/
def wl_os_dupfd_cloexec (sys : sys_calls) (atomic : Bool) (k : kernel) (fd : Int)
    (minfd : Int) : kernel × Int :=
  let first := new_fd k (sys.fcntl_dupfd_cloexec fd minfd) FD_CLOEXEC
  if atomic = true ∧ first.2 ≥ 0 then first
  else if atomic = true ∧ first.1.errno ≠ EINVAL then (first.1, -1)
  else
    let k1 := if atomic = true then first.1 else k
    let r := new_fd k1 (sys.fcntl_dupfd fd minfd) 0
    set_cloexec_or_close sys r.1 r.2

/-- The function `wl_os_epoll_create_cloexec`; `atomic` tells whether
`EPOLL_CLOEXEC` is defined. -/
def wl_os_epoll_create_cloexec (sys : sys_calls) (atomic : Bool) (k : kernel) :
    kernel × Int :=
  let first := new_fd k (sys.epoll_create1 EPOLL_CLOEXEC) (made_flags EPOLL_CLOEXEC EPOLL_CLOEXEC)
  if atomic = true ∧ first.2 ≥ 0 then first
  else if atomic = true ∧ first.1.errno ≠ EINVAL then (first.1, -1)
  else
    let k1 := if atomic = true then first.1 else k
    let r := new_fd k1 (sys.epoll_create 1) 0
    set_cloexec_or_close sys r.1 r.2

/-- The function `wl_os_accept_cloexec`; `atomic` tells whether `HAVE_ACCEPT4`
is defined. -/
def wl_os_accept_cloexec (sys : sys_calls) (atomic : Bool) (k : kernel) (sockfd : Int) :
    kernel × Int :=
  let first := new_fd k (sys.accept4 sockfd SOCK_CLOEXEC) (made_flags SOCK_CLOEXEC SOCK_CLOEXEC)
  if atomic = true ∧ first.2 ≥ 0 then first
  else if atomic = true ∧ first.1.errno ≠ ENOSYS then (first.1, -1)
  else
    let k1 := if atomic = true then first.1 else k
    let r := new_fd k1 (sys.accept sockfd) 0
    set_cloexec_or_close sys r.1 r.2

/-- The inner loop of `recvmsg_cloexec_fallback` over the ints of one control
message. -/
def fallback_fds (sys : sys_calls) : kernel → List Int → kernel × List Int
  | k, [] => (k, [])
  | k, fd :: rest =>
    let r := set_cloexec_or_close sys k fd
    let out := fallback_fds sys r.1 rest
    (out.1, r.2 :: out.2)

/-- The outer loop of `recvmsg_cloexec_fallback` over the control messages. -/
def fallback_control (sys : sys_calls) : kernel → List cmsg → kernel × List cmsg
  | k, [] => (k, [])
  | k, c :: rest =>
    if c.level ≠ SOL_SOCKET ∨ c.type ≠ SCM_RIGHTS then
      let out := fallback_control sys k rest
      (out.1, c :: out.2)
    else
      let f := fallback_fds sys k c.fds
      let out := fallback_control sys f.1 rest
      (out.1, { c with fds := f.2 } :: out.2)

/-- The function `recvmsg_cloexec_fallback`: the kernel, the value returned and
the control messages in the buffer of the caller. -/
def recvmsg_cloexec_fallback (sys : sys_calls) (k : kernel) (sockfd : Int) (flags : Nat) :
    kernel × Int × List cmsg :=
  let r := recvmsg sys k sockfd flags
  if r.2.1 = -1 then (r.1, -1, r.2.2)
  else if r.2.2 = [] then (r.1, r.2.1, r.2.2)
  else
    let out := fallback_control sys r.1 r.2.2
    (out.1, r.2.1, out.2)

/-- The function `wl_os_recvmsg_cloexec`; `atomic` tells whether
`MSG_CMSG_CLOEXEC` is defined. -/
def wl_os_recvmsg_cloexec (sys : sys_calls) (atomic : Bool) (k : kernel) (sockfd : Int)
    (flags : Nat) : kernel × Int × List cmsg :=
  let first := recvmsg sys k sockfd (flags ||| MSG_CMSG_CLOEXEC)
  if atomic = true ∧ first.2.1 ≥ 0 then first
  else if atomic = true ∧ first.1.errno ≠ EINVAL then (first.1, -1, first.2.2)
  else recvmsg_cloexec_fallback sys (if atomic = true then first.1 else k) sockfd flags

/-- The ints of the `SCM_RIGHTS` control messages, in order. -/
def rights_fds (control : List cmsg) : List Int :=
  (control.filter (fun c => decide (c.level = SOL_SOCKET ∧ c.type = SCM_RIGHTS))).flatMap
    (fun c => c.fds)

/-- What `set_cloexec_or_close` leaves of an fd: the fd, open with the
close-on-exec flag, or -1 with the fd closed. -/
def flagged_or_closed (k : kernel) (fd value : Int) : Prop :=
  (value = fd ∧ cloexec k fd = true) ∨ (value = -1 ∧ fd_flags k fd = none)

/-- A kernel with the fds 0, 1 and 2 open, without close-on-exec. -/
def sample_kernel : kernel :=
  { table := [(0, 0), (1, 0), (2, 0)], errno := 0 }

/-- A kernel without the atomic calls: they fail with `EINVAL`, for `accept4`
with `ENOSYS`, and the plain calls return the fd 3; `recvmsg` receives the fds
4 and 5. -/
def sample_sys : sys_calls :=
  { socket := fun _ type _ => if type &&& SOCK_CLOEXEC ≠ 0 then (-1, EINVAL) else (3, 0)
    fcntl_dupfd := fun _ _ => (3, 0)
    fcntl_dupfd_cloexec := fun _ _ => (-1, EINVAL)
    epoll_create1 := fun _ => (-1, EINVAL)
    epoll_create := fun _ => (3, 0)
    accept4 := fun _ _ => (-1, ENOSYS)
    accept := fun _ => (3, 0)
    fcntl_getfd := fun _ => true
    fcntl_setfd := fun fd => decide (fd ≠ 5)
    recvmsg := fun _ flags =>
      if flags &&& MSG_CMSG_CLOEXEC ≠ 0 then (-1, EINVAL, [])
      else (8, 0, [{ level := SOL_SOCKET, type := SCM_RIGHTS, fds := [4, 5] }]) }

/-- What `set_cloexec_or_close` makes of an open fd: when `F_GETFD` and
`F_SETFD` both succeed on it the fd is returned, open with the close-on-exec
flag; otherwise -1 is returned and the fd is closed. -/
def fd_outcome (sys : sys_calls) (k : kernel) (fd value : Int) : Prop :=
  (sys.fcntl_getfd fd = true ∧ sys.fcntl_setfd fd = true →
    value = fd ∧ cloexec k fd = true) ∧
  (¬ (sys.fcntl_getfd fd = true ∧ sys.fcntl_setfd fd = true) →
    value = -1 ∧ fd_flags k fd = none)

/-- What a wrapper returns, given the answers of the kernel to the atomic call
and to the plain call and the errno that tells that the atomic call is not
supported: the fd of the atomic call, close-on-exec, when that call is compiled
in and succeeds; -1 when it fails for another reason; otherwise the fd of the
plain call made close-on-exec, or -1 with that fd closed when the flag cannot
be set, or -1 when the plain call fails.  No other fd is touched. -/
def wrapper_outcome (sys : sys_calls) (atomic : Bool) (k : kernel) (first plain : Int × Int)
    (missing : Int) (r : kernel × Int) : Prop :=
  (atomic = true → 0 ≤ first.1 →
    r.2 = first.1 ∧ cloexec r.1 first.1 = true ∧
    ∀ fd, fd ≠ first.1 → fd_flags r.1 fd = fd_flags k fd) ∧
  (atomic = true → first.1 < 0 → first.2 ≠ missing → r.2 = -1 ∧ r.1.table = k.table) ∧
  (atomic = false ∨ (first.1 < 0 ∧ first.2 = missing) →
    (0 ≤ plain.1 → fd_outcome sys r.1 plain.1 r.2 ∧
      ∀ fd, fd ≠ plain.1 → fd_flags r.1 fd = fd_flags k fd) ∧
    (plain.1 < 0 → r.2 = -1 ∧ r.1.table = k.table)) ∧
  (0 ≤ r.2 → cloexec r.1 r.2 = true)

/-- What `wl_os_recvmsg_cloexec` returns, given the answers of the kernel to
`recvmsg` with and without `MSG_CMSG_CLOEXEC`: on the atomic path the length
and the control messages as received, every fd received close-on-exec; -1 when
the atomic call fails for a reason other than `EINVAL`; on the fallback path
the length of the plain call, with every fd received in an `SCM_RIGHTS`
message made close-on-exec, or closed and replaced by -1 when the flag cannot
be set, and -1 when the plain call fails. -/
def recvmsg_outcome (sys : sys_calls) (atomic : Bool) (first plain : Int × Int × List cmsg)
    (r : kernel × Int × List cmsg) : Prop :=
  (atomic = true → 0 ≤ first.1 →
    r.2.1 = first.1 ∧ r.2.2 = first.2.2 ∧
    ∀ fd ∈ rights_fds first.2.2, cloexec r.1 fd = true) ∧
  (atomic = true → first.1 = -1 → first.2.1 ≠ EINVAL → r.2.1 = -1) ∧
  (atomic = false ∨ (first.1 = -1 ∧ first.2.1 = EINVAL) →
    (plain.1 ≠ -1 →
      r.2.1 = plain.1 ∧
      List.Forall₂ (fd_outcome sys r.1) (rights_fds plain.2.2) (rights_fds r.2.2)) ∧
    (plain.1 = -1 → r.2.1 = -1))

/-- What the fallback leaves of a control message: level, type and the number
of ints are kept, and a message that is not `SCM_RIGHTS` is kept whole. -/
def same_message (c c1 : cmsg) : Prop :=
  c1.level = c.level ∧ c1.type = c.type ∧ c1.fds.length = c.fds.length ∧
  (c.level ≠ SOL_SOCKET ∨ c.type ≠ SCM_RIGHTS → c1 = c)

/-- What `wl_os_recvmsg_cloexec` leaves of the rest on its fallback path: the
control messages keep their shape, and no fd other than those received is
touched. -/
def recvmsg_frame (k : kernel) (plain : Int × Int × List cmsg) (r : kernel × Int × List cmsg) :
    Prop :=
  List.Forall₂ same_message plain.2.2 r.2.2 ∧
  ∀ fd, fd ∉ rights_fds plain.2.2 → fd_flags r.1 fd = fd_flags k fd

end Os

namespace Scanner

/-! ## The parser establishes the invariant of the description model -/

theorem mem_modify_at {α : Type} (f : α → α) (x : α) :
    ∀ (n : Nat) (l : List α), x ∈ modify_at f n l → x ∈ l ∨ ∃ y ∈ l, x = f y := by
  intro n l
  induction l generalizing n with
  | nil => intro h; simp [modify_at] at h
  | cons a t ih =>
    cases n with
    | zero =>
      intro h
      simp only [modify_at, List.mem_cons] at h
      rcases h with h | h
      · exact Or.inr ⟨a, List.mem_cons_self _ _, h⟩
      · exact Or.inl (List.mem_cons_of_mem _ h)
    | succ k =>
      intro h
      simp only [modify_at, List.mem_cons] at h
      rcases h with h | h
      · exact Or.inl (h ▸ List.mem_cons_self _ _)
      · rcases ih k h with h1 | ⟨y, hy, hxy⟩
        · exact Or.inl (List.mem_cons_of_mem _ h1)
        · exact Or.inr ⟨y, List.mem_cons_of_mem _ hy, hxy⟩

theorem forall_modify_at {α : Type} (P : α → Prop) (f : α → α) (n : Nat) (l : List α)
    (hl : ∀ x ∈ l, P x) (hf : ∀ x ∈ l, P (f x)) : ∀ x ∈ modify_at f n l, P x := by
  intro x hx
  rcases mem_modify_at f x n l hx with h | ⟨y, hy, rfl⟩
  · exact hl x h
  · exact hf y hy

theorem build_arg_wf (line : Int) (b : Bool) (a : attributes) (built : arg)
    (h : build_arg line b a = .ok built) : arg_wf built := by
  unfold build_arg at h
  cases hname : a.name with
  | none => simp [hname] at h
  | some name =>
    cases htype : a.type with
    | none => simp [hname, htype] at h
    | some type =>
      cases ht : parse_arg_type type with
      | none => simp [hname, htype, ht] at h
      | some t =>
        simp only [hname, htype, ht] at h
        by_cases h1 : t = .NEW_ID ∧ b = false
        · simp [h1] at h
        · rw [if_neg h1] at h
          by_cases h2 : t ≠ .NEW_ID ∧ t ≠ .OBJECT ∧ a.interface_name ≠ none
          · rw [if_pos h2] at h; cases h
          · rw [if_neg h2] at h
            by_cases h3 : a.allow_null = none ∨ a.allow_null = some "false"
            · simp only [h3, if_true] at h
              by_cases h4 : a.allow_null ≠ none ∧ is_nullable_type
                  { name := name, type := t, nullable := 0,
                    interface_name := a.interface_name, summary := a.summary } = 0
              · rw [if_pos h4] at h; cases h
              · rw [if_neg h4] at h
                injection h with h
                subst h
                intro hnull
                exact absurd rfl hnull
            · simp only [h3, if_false] at h
              by_cases h5 : a.allow_null = some "true"
              · simp only [h5, if_true] at h
                by_cases h4 : (some "true" : Option String) ≠ none ∧ is_nullable_type
                    { name := name, type := t, nullable := 1,
                      interface_name := a.interface_name, summary := a.summary } = 0
                · rw [if_pos h4] at h; cases h
                · rw [if_neg h4] at h
                  injection h with h
                  subst h
                  intro _
                  have h0 : ¬ is_nullable_type
                      { name := name, type := t, nullable := 1,
                        interface_name := a.interface_name, summary := a.summary } = 0 := by
                    intro h0
                    exact h4 ⟨by simp, h0⟩
                  revert h0
                  simp only [is_nullable_type]
                  cases t <;> simp
              · simp only [h5, if_false] at h
                cases h

theorem add_arg_wf (m : message) (built : arg) (hm : message_wf m) (hb : arg_wf built) :
    message_wf { m with
      new_id_count := if built.type = .NEW_ID then m.new_id_count + 1 else m.new_id_count
      arg_list := m.arg_list ++ [built]
      arg_count := m.arg_count + 1 } := by
  constructor
  · simp [hm.1]
  · intro a ha
    simp only [List.mem_append, List.mem_singleton] at ha
    rcases ha with ha | ha
    · exact hm.2 a ha
    · exact ha ▸ hb

theorem update_message_wf (p : protocol) (ptr : Nat × Bool × Nat) (f : message → message)
    (hwf : protocol_wf p) (hf : ∀ m, message_wf m → message_wf (f m)) :
    protocol_wf (update_message p ptr f) := by
  simp only [update_message]
  refine forall_modify_at interface_wf _ _ _ hwf ?_
  intro i hi
  have hiw : interface_wf i := hwf i hi
  by_cases hreq : ptr.2.1 = true
  · simp only [hreq, if_true]
    intro m hm
    rw [List.mem_append] at hm
    rcases hm with hm | hm
    · refine forall_modify_at message_wf f _ _ ?_ ?_ m hm
      · intro x hx; exact hiw x (List.mem_append_left _ hx)
      · intro x hx; exact hf x (hiw x (List.mem_append_left _ hx))
    · exact hiw m (List.mem_append_right _ hm)
  · simp only [hreq]
    intro m hm
    rw [List.mem_append] at hm
    rcases hm with hm | hm
    · exact hiw m (List.mem_append_left _ hm)
    · refine forall_modify_at message_wf f _ _ ?_ ?_ m hm
      · intro x hx; exact hiw x (List.mem_append_right _ hx)
      · intro x hx; exact hf x (hiw x (List.mem_append_right _ hx))

theorem start_arg_wf (ctx ctx1 : parse_context) (a : attributes)
    (hwf : protocol_wf ctx.protocol) (h : start_arg ctx a = .ok ctx1) :
    protocol_wf ctx1.protocol := by
  unfold start_arg at h
  cases hm : ctx.message with
  | none =>
    simp only [hm] at h
    split at h <;> cases h
  | some ptr =>
    simp only [hm, Option.isSome_some] at h
    cases hb : build_arg ctx.line_number true a with
    | error e => simp [hb] at h
    | ok built =>
      have hbw := build_arg_wf _ _ _ _ hb
      simp only [hb] at h
      injection h with h
      subst h
      exact update_message_wf _ _ _ hwf (fun m hmw => add_arg_wf m built hmw hbw)

theorem start_message_wf (ctx ctx1 : parse_context) (element_name : String) (a : attributes)
    (hwf : protocol_wf ctx.protocol) (h : start_message ctx element_name a = .ok ctx1) :
    protocol_wf ctx1.protocol := by
  unfold start_message at h
  cases hname : a.name with
  | none => simp [hname] at h
  | some name =>
    cases hk : ctx.interface with
    | none => simp [hname, hk] at h
    | some k =>
      cases hi : ctx.protocol.interface_list[k]? with
      | none => simp [hname, hk, hi] at h
      | some i =>
        simp only [hname, hk, hi] at h
        have hmem : i ∈ ctx.protocol.interface_list := List.mem_iff_getElem?.mpr ⟨k, hi⟩
        have hiw : interface_wf i := hwf i hmem
        have hnew : ∀ (d v : Int), message_wf (new_message name d v) := by
          intro d v
          exact ⟨rfl, fun a ha => absurd ha (List.not_mem_nil a)⟩
        cases hv : parse_since ctx.line_number a.since with
        | error e => simp [hv] at h
        | ok version =>
          simp only [hv] at h
          generalize (if a.type = some "destructor" then (1 : Int) else 0) = d at h
          split at h
          · cases h
          · injection h with h
            subst h
            refine forall_modify_at interface_wf _ _ _ hwf ?_
            intro _ _
            by_cases hreq : element_name = "request"
            · simp only [hreq, decide_True, if_true]
              intro m hm
              simp only [List.mem_append, List.mem_singleton] at hm
              rcases hm with (hm | hm) | hm
              · exact hiw m (List.mem_append_left _ hm)
              · exact hm ▸ hnew _ _
              · exact hiw m (List.mem_append_right _ hm)
            · simp only [hreq, decide_False, Bool.false_eq_true, if_false]
              intro m hm
              simp only [List.mem_append, List.mem_singleton] at hm
              rcases hm with hm | hm | hm
              · exact hiw m (List.mem_append_left _ hm)
              · exact hiw m (List.mem_append_right _ hm)
              · exact hm ▸ hnew _ _

theorem start_element_wf (ctx ctx1 : parse_context) (line : Int) (element_name : String)
    (atts : List (String × String)) (hwf : protocol_wf ctx.protocol)
    (h : start_element ctx line element_name atts = .ok ctx1) :
    protocol_wf ctx1.protocol := by
  unfold start_element at h
  simp only at h
  split at h
  · split at h
    · cases h
    · injection h with h; subst h; exact hwf
  · split at h
    · injection h with h; subst h; exact hwf
    · split at h
      · split at h
        · cases h
        · split at h
          · cases h
          · injection h with h
            subst h
            intro i hi
            simp only [List.mem_append, List.mem_singleton] at hi
            rcases hi with hi | hi
            · exact hwf i hi
            · subst hi
              intro m hm
              simp at hm
      · split at h
        · exact start_message_wf { ctx with line_number := line, character_data_length := 0 } ctx1 _ _ hwf h
        · split at h
          · exact start_arg_wf { ctx with line_number := line, character_data_length := 0 } ctx1 _ hwf h
          · split at h
            · split at h
              · cases h
              · split at h
                · cases h
                · split at h
                  · cases h
                  · injection h with h
                    subst h
                    refine forall_modify_at interface_wf _ _ _ hwf ?_
                    intro i hi
                    exact hwf i hi
            · split at h
              · split at h
                · cases h
                · split at h
                  · injection h with h
                    subst h
                    refine forall_modify_at interface_wf _ _ _ hwf ?_
                    intro i hi
                    exact hwf i hi
                  · cases h
              · split at h
                · split at h
                  · cases h
                  · injection h with h; subst h; exact hwf
                · injection h with h; subst h; exact hwf

theorem end_element_wf (ctx ctx1 : parse_context) (name : String)
    (hwf : protocol_wf ctx.protocol) (h : end_element ctx name = .ok ctx1) :
    protocol_wf ctx1.protocol := by
  unfold end_element at h
  split at h
  · injection h with h; subst h; exact hwf
  · split at h
    · split at h
      · injection h with h; subst h; exact hwf
      · cases h
    · split at h
      · injection h with h; subst h; exact hwf
      · split at h
        · injection h with h; subst h; exact hwf
        · injection h with h; subst h; exact hwf

theorem parse_events_wf (events : List xml_event) :
    ∀ (ctx ctx1 : parse_context), protocol_wf ctx.protocol →
      parse_events ctx events = .ok ctx1 → protocol_wf ctx1.protocol := by
  induction events with
  | nil =>
    intro ctx ctx1 hwf h
    simp only [parse_events] at h
    injection h with h
    exact h ▸ hwf
  | cons e rest ih =>
    intro ctx ctx1 hwf h
    simp only [parse_events] at h
    cases he : handle_event ctx e with
    | error err => simp [he] at h
    | ok ctx2 =>
      simp only [he] at h
      refine ih ctx2 ctx1 ?_ h
      cases e with
      | start_tag line element_name atts => exact start_element_wf _ _ _ _ _ hwf he
      | end_tag name => exact end_element_wf _ _ _ hwf he
      | text len =>
        simp only [handle_event, character_data] at he
        split at he
        · cases he
        · injection he with he; subst he; exact hwf

/-- Every protocol the parser produces satisfies the invariant of the model. -/
theorem parse_wf (events : List xml_event) (ctx : parse_context)
    (h : parse events = .ok ctx) : protocol_wf ctx.protocol := by
  refine parse_events_wf events initial_context ctx ?_ h
  intro i hi
  simp [initial_context] at hi

/-! ## The parser leaves the two counters of the protocol alone -/

theorem start_arg_counters (ctx ctx1 : parse_context) (a : attributes)
    (h : start_arg ctx a = .ok ctx1) :
    ctx1.protocol.type_index = ctx.protocol.type_index ∧
    ctx1.protocol.null_run_length = ctx.protocol.null_run_length := by
  unfold start_arg at h
  cases hm : ctx.message with
  | none =>
    simp only [hm] at h
    split at h <;> cases h
  | some ptr =>
    simp only [hm, Option.isSome_some] at h
    cases hb : build_arg ctx.line_number true a with
    | error e => simp [hb] at h
    | ok built =>
      simp only [hb] at h
      injection h with h
      subst h
      exact ⟨rfl, rfl⟩

theorem start_message_counters (ctx ctx1 : parse_context) (element_name : String)
    (a : attributes) (h : start_message ctx element_name a = .ok ctx1) :
    ctx1.protocol.type_index = ctx.protocol.type_index ∧
    ctx1.protocol.null_run_length = ctx.protocol.null_run_length := by
  unfold start_message at h
  cases hname : a.name with
  | none => simp [hname] at h
  | some name =>
    cases hk : ctx.interface with
    | none => simp [hname, hk] at h
    | some k =>
      cases hi : ctx.protocol.interface_list[k]? with
      | none => simp [hname, hk, hi] at h
      | some i =>
        simp only [hname, hk, hi] at h
        cases hv : parse_since ctx.line_number a.since with
        | error e => simp [hv] at h
        | ok version =>
          simp only [hv] at h
          generalize (if a.type = some "destructor" then (1 : Int) else 0) = d at h
          split at h
          · cases h
          · injection h with h
            subst h
            exact ⟨rfl, rfl⟩

theorem start_element_counters (ctx ctx1 : parse_context) (line : Int) (element_name : String)
    (atts : List (String × String))
    (h : start_element ctx line element_name atts = .ok ctx1) :
    ctx1.protocol.type_index = ctx.protocol.type_index ∧
    ctx1.protocol.null_run_length = ctx.protocol.null_run_length := by
  unfold start_element at h
  simp only at h
  split at h
  · split at h
    · cases h
    · injection h with h; subst h; exact ⟨rfl, rfl⟩
  · split at h
    · injection h with h; subst h; exact ⟨rfl, rfl⟩
    · split at h
      · split at h
        · cases h
        · split at h
          · cases h
          · injection h with h; subst h; exact ⟨rfl, rfl⟩
      · split at h
        · exact start_message_counters { ctx with line_number := line, character_data_length := 0 } ctx1 _ _ h
        · split at h
          · exact start_arg_counters { ctx with line_number := line, character_data_length := 0 } ctx1 _ h
          · split at h
            · split at h
              · cases h
              · split at h
                · cases h
                · split at h
                  · cases h
                  · injection h with h; subst h; exact ⟨rfl, rfl⟩
            · split at h
              · split at h
                · cases h
                · split at h
                  · injection h with h; subst h; exact ⟨rfl, rfl⟩
                  · cases h
              · split at h
                · split at h
                  · cases h
                  · injection h with h; subst h; exact ⟨rfl, rfl⟩
                · injection h with h; subst h; exact ⟨rfl, rfl⟩

theorem end_element_counters (ctx ctx1 : parse_context) (name : String)
    (h : end_element ctx name = .ok ctx1) :
    ctx1.protocol.type_index = ctx.protocol.type_index ∧
    ctx1.protocol.null_run_length = ctx.protocol.null_run_length := by
  unfold end_element at h
  split at h
  · injection h with h; subst h; exact ⟨rfl, rfl⟩
  · split at h
    · split at h
      · injection h with h; subst h; exact ⟨rfl, rfl⟩
      · cases h
    · split at h
      · injection h with h; subst h; exact ⟨rfl, rfl⟩
      · split at h
        · injection h with h; subst h; exact ⟨rfl, rfl⟩
        · injection h with h; subst h; exact ⟨rfl, rfl⟩

theorem parse_events_counters (events : List xml_event) :
    ∀ (ctx ctx1 : parse_context), parse_events ctx events = .ok ctx1 →
      ctx1.protocol.type_index = ctx.protocol.type_index ∧
      ctx1.protocol.null_run_length = ctx.protocol.null_run_length := by
  induction events with
  | nil =>
    intro ctx ctx1 h
    simp only [parse_events] at h
    injection h with h
    subst h
    exact ⟨rfl, rfl⟩
  | cons e rest ih =>
    intro ctx ctx1 h
    simp only [parse_events] at h
    cases he : handle_event ctx e with
    | error err => simp [he] at h
    | ok ctx2 =>
      simp only [he] at h
      have h2 := ih ctx2 ctx1 h
      have h1 : ctx2.protocol.type_index = ctx.protocol.type_index ∧
          ctx2.protocol.null_run_length = ctx.protocol.null_run_length := by
        cases e with
        | start_tag line element_name atts => exact start_element_counters _ _ _ _ _ he
        | end_tag name => exact end_element_counters _ _ _ he
        | text len =>
          simp only [handle_event, character_data] at he
          split at he
          · cases he
          · injection he with he; subst he; exact ⟨rfl, rfl⟩
      exact ⟨h2.1.trans h1.1, h2.2.trans h1.2⟩

/-- The protocol handed to the emitter has both counters at 0, as `main` set them. -/
theorem parse_counters (events : List xml_event) (ctx : parse_context)
    (h : parse events = .ok ctx) :
    ctx.protocol.type_index = 0 ∧ ctx.protocol.null_run_length = 0 :=
  parse_events_counters events initial_context ctx h

/-! ## The signature string -/

theorem emit_arg_signature_eq (out : String) (a : arg) (h : arg_wf a) :
    emit_arg_signature out a = out ++ spec_arg a := by
  unfold arg_wf at h
  unfold emit_arg_signature spec_arg spec_kind
  by_cases hn : a.nullable = 0
  · cases ht : a.type <;> cases hi : a.interface_name <;>
      simp [hn, String.append_assoc]
  · have h1 := h hn
    cases ht : a.type <;> cases hi : a.interface_name <;>
      simp [hn, h1, String.append_assoc]

theorem foldl_append_string (l : List String) :
    ∀ (init : String), l.foldl (fun r s => r ++ s) init = init ++ String.join l := by
  induction l with
  | nil => intro init; simp [String.join]
  | cons a t ih =>
    intro init
    rw [List.foldl_cons, ih]
    have hj : String.join (a :: t) = a ++ String.join t := by
      show List.foldl (fun r s => r ++ s) "" (a :: t) = _
      rw [List.foldl_cons, ih]
      simp
    rw [hj, String.append_assoc]

theorem string_join_cons (a : String) (l : List String) :
    String.join (a :: l) = a ++ String.join l := by
  unfold String.join
  rw [List.foldl_cons, foldl_append_string]
  simp [String.join]

theorem foldl_emit_arg_signature (l : List arg) :
    ∀ (out : String), (∀ a ∈ l, arg_wf a) →
      l.foldl emit_arg_signature out = out ++ String.join (l.map spec_arg) := by
  induction l with
  | nil => intro out _; simp [String.join]
  | cons a t ih =>
    intro out h
    rw [List.foldl_cons, ih _ (fun x hx => h x (List.mem_cons_of_mem _ hx)),
      emit_arg_signature_eq out a (h a (List.mem_cons_self _ _)), List.map_cons,
      string_join_cons, String.append_assoc]

theorem printf_d_of_pos (n : Int) (h : n > 1) : printf_d n = Nat.repr n.toNat := by
  unfold printf_d
  rw [if_neg (by omega)]

theorem emit_message_eq (m : message) (h : ∀ a ∈ m.arg_list, arg_wf a) :
    emit_message m = spec_row m := by
  unfold emit_message spec_row spec_signature
  simp only [foldl_emit_arg_signature m.arg_list _ h]
  by_cases hs : m.since > 1
  · simp only [hs, if_true, printf_d_of_pos m.since hs]
    rfl
  · simp only [hs, if_false]
    rfl

theorem emit_messages_eq (l : List message) (h : ∀ m ∈ l, message_wf m) :
    emit_messages l = l.map spec_row := by
  unfold emit_messages
  apply List.map_congr_left
  intro m hm
  exact emit_message_eq m (h m hm).2

/-! ## The forward pass: `all_null` and the length of the NULL run -/

theorem forward_args_eq (args : List arg) :
    ∀ (length all_null : Int) (types : List String),
      (forward_args args (length, all_null, types)).1 = length + args.length ∧
      (forward_args args (length, all_null, types)).2.1 =
        (if args.any (fun a => (emit_type_slot a).isSome) then 0 else all_null) := by
  induction args with
  | nil => intro length all_null types; simp [forward_args]
  | cons a t ih =>
    intro length all_null types
    cases ht : a.type <;> cases hi : a.interface_name <;>
      simp only [forward_args, ht, hi, ih, List.any_cons, emit_type_slot, List.length_cons,
        Option.isSome_none, Option.isSome_some, Bool.false_or, Bool.true_or, if_true] <;>
      constructor <;> first | trivial | omega

theorem max_null_args_cons (m : message) (l : List message) :
    max_null_args (m :: l) =
      if m.all_null ≠ 0 then max (m.arg_list.length : Int) (max_null_args l)
      else max_null_args l := by
  unfold max_null_args
  by_cases h : m.all_null ≠ 0
  · simp [List.filter_cons, h]
  · simp [List.filter_cons, h]

theorem max_null_args_nonneg (l : List message) : 0 ≤ max_null_args l := by
  induction l with
  | nil => simp [max_null_args]
  | cons m t ih =>
    rw [max_null_args_cons]
    split
    · exact le_max_of_le_right ih
    · exact ih

theorem max_null_args_append (l1 l2 : List message) :
    max_null_args (l1 ++ l2) = max (max_null_args l1) (max_null_args l2) := by
  induction l1 with
  | nil =>
    have h := max_null_args_nonneg l2
    simp only [List.nil_append]
    rw [show max_null_args [] = 0 from rfl, max_eq_right h]
  | cons m t ih =>
    rw [List.cons_append, max_null_args_cons, max_null_args_cons, ih]
    split
    · rw [max_assoc]
    · rfl

theorem forward_declarations_eq (l : List message) :
    ∀ (n : Int) (types : List String), 0 ≤ n →
      (emit_types_forward_declarations n l types).2.1 = l.map mark_null ∧
      (emit_types_forward_declarations n l types).1 = max n (max_null_args (l.map mark_null)) := by
  induction l with
  | nil =>
    intro n types hn
    simp [emit_types_forward_declarations, max_null_args, hn]
  | cons m t ih =>
    intro n types hn
    have ha := forward_args_eq m.arg_list 0 1 types
    have hn1 : 0 ≤ (if (forward_args m.arg_list (0, 1, types)).2.1 ≠ 0 ∧
        (forward_args m.arg_list (0, 1, types)).1 > n
        then (forward_args m.arg_list (0, 1, types)).1 else n) := by
      split
      · rw [ha.1]; omega
      · exact hn
    simp only [emit_types_forward_declarations, ih _ _ hn1, List.map_cons, max_null_args_cons]
    refine ⟨?_, ?_⟩
    · rw [ha.2]; rfl
    · rw [ha.1, ha.2]
      simp only [mark_null, all_null_value, zero_add]
      by_cases hany : (m.arg_list.any (fun a => (emit_type_slot a).isSome)) = true
      · simp [hany]
      · simp only [hany]
        simp only [Bool.false_eq_true, if_false, ne_eq, one_ne_zero, not_false_eq_true, true_and,
          if_true]
        by_cases hgt : (m.arg_list.length : Int) > n
        · rw [if_pos hgt, ← max_assoc, max_eq_right (le_of_lt hgt)]
        · rw [if_neg hgt, ← max_assoc, max_eq_left (not_lt.mp hgt)]

theorem forward_interfaces_eq (l : List interface) :
    ∀ (n : Int) (types : List String), 0 ≤ n →
      (forward_interfaces n l types).2.1 = l.map mark_interface ∧
      (forward_interfaces n l types).1 =
        max n (max_null_args (visit_order (l.map mark_interface))) := by
  induction l with
  | nil =>
    intro n types hn
    simp [forward_interfaces, visit_order, max_null_args, hn]
  | cons i t ih =>
    intro n types hn
    have h1 := forward_declarations_eq i.request_list n types hn
    have hn1 : 0 ≤ (emit_types_forward_declarations n i.request_list types).1 := by
      rw [h1.2]; exact le_max_of_le_left hn
    have h2 := forward_declarations_eq i.event_list _
      (emit_types_forward_declarations n i.request_list types).2.2 hn1
    have hn2 : 0 ≤ (emit_types_forward_declarations
        (emit_types_forward_declarations n i.request_list types).1 i.event_list
        (emit_types_forward_declarations n i.request_list types).2.2).1 := by
      rw [h2.2]; exact le_max_of_le_left hn1
    have h3 := ih _ (emit_types_forward_declarations
        (emit_types_forward_declarations n i.request_list types).1 i.event_list
        (emit_types_forward_declarations n i.request_list types).2.2).2.2 hn2
    simp only [forward_interfaces, List.map_cons]
    refine ⟨?_, ?_⟩
    · rw [h3.1, h2.1, h1.1]; rfl
    · rw [h3.2, h2.2, h1.2]
      simp only [visit_order, List.flatMap_cons, mark_interface, max_null_args_append, max_assoc]

/-! ## The types pass: offsets and slots -/

theorem slots_before_cons (m : message) (l : List message) :
    slots_before (m :: l) =
      if m.all_null = 0 then m.arg_count + slots_before l else slots_before l := by
  unfold slots_before
  by_cases h : m.all_null = 0
  · simp [List.filter_cons, h]
  · simp [List.filter_cons, h]

theorem slots_before_append (l1 l2 : List message) :
    slots_before (l1 ++ l2) = slots_before l1 + slots_before l2 := by
  induction l1 with
  | nil => simp [slots_before]
  | cons m t ih =>
    rw [List.cons_append, slots_before_cons, slots_before_cons, ih]
    split
    · ring
    · rfl

theorem slots_of_cons (m : message) (l : List message) :
    slots_of (m :: l) =
      if m.all_null = 0 then m.arg_list.map emit_type_slot ++ slots_of l else slots_of l := by
  unfold slots_of
  by_cases h : m.all_null = 0
  · simp [List.filter_cons, h]
  · simp [List.filter_cons, h]

theorem slots_of_append (l1 l2 : List message) :
    slots_of (l1 ++ l2) = slots_of l1 ++ slots_of l2 := by
  simp [slots_of, List.filter_append, List.flatMap_append]

theorem slots_before_nonneg (l : List message) (h : ∀ m ∈ l, message_wf m) :
    0 ≤ slots_before l := by
  induction l with
  | nil => simp [slots_before]
  | cons m t ih =>
    have ht := ih (fun x hx => h x (List.mem_cons_of_mem _ hx))
    have hm := (h m (List.mem_cons_self _ _)).1
    rw [slots_before_cons]
    split <;> omega

theorem slots_of_length (l : List message) (h : ∀ m ∈ l, message_wf m) :
    ((slots_of l).length : Int) = slots_before l := by
  induction l with
  | nil => simp [slots_of, slots_before]
  | cons m t ih =>
    have ht := ih (fun x hx => h x (List.mem_cons_of_mem _ hx))
    have hm := (h m (List.mem_cons_self _ _)).1
    rw [slots_before_cons, slots_of_cons]
    split
    · simp only [List.length_append, List.length_map]
      push_cast
      omega
    · exact ht

theorem clear_index_set (m : message) (x : Int) :
    clear_index { m with type_index := x } = clear_index m := rfl

theorem emit_types_basic (n : Int) (l : List message) :
    ∀ (ti : Int),
      (emit_types n ti l).1 = ti + slots_before l ∧
      (emit_types n ti l).2.1.map clear_index = l.map clear_index ∧
      (emit_types n ti l).2.2 = slots_of l := by
  induction l with
  | nil => intro ti; simp [emit_types, slots_before, slots_of]
  | cons m t ih =>
    intro ti
    rw [slots_before_cons, slots_of_cons]
    by_cases h : m.all_null = 0
    · have e : emit_types n ti (m :: t) =
          ((emit_types n (ti + m.arg_count) t).1,
           { m with type_index := n + ti } :: (emit_types n (ti + m.arg_count) t).2.1,
           m.arg_list.map emit_type_slot ++ (emit_types n (ti + m.arg_count) t).2.2) := by
        simp [emit_types, h]
      rw [e, if_pos h, if_pos h]
      refine ⟨?_, ?_, ?_⟩
      · rw [(ih _).1]; ring
      · rw [List.map_cons, List.map_cons, (ih _).2.1, clear_index_set]
      · rw [(ih _).2.2]
    · have e : emit_types n ti (m :: t) =
          ((emit_types n ti t).1,
           { m with type_index := 0 } :: (emit_types n ti t).2.1,
           (emit_types n ti t).2.2) := by
        simp [emit_types, h]
      rw [e, if_neg h, if_neg h]
      refine ⟨(ih _).1, ?_, (ih _).2.2⟩
      rw [List.map_cons, List.map_cons, (ih _).2.1, clear_index_set]

theorem emit_types_append (n : Int) (l1 l2 : List message) :
    ∀ (ti : Int),
      emit_types n ti (l1 ++ l2) =
        ((emit_types n (emit_types n ti l1).1 l2).1,
         (emit_types n ti l1).2.1 ++ (emit_types n (emit_types n ti l1).1 l2).2.1,
         (emit_types n ti l1).2.2 ++ (emit_types n (emit_types n ti l1).1 l2).2.2) := by
  induction l1 with
  | nil => intro ti; simp [emit_types]
  | cons m t ih =>
    intro ti
    by_cases h : m.all_null = 0
    · simp [emit_types, h, ih]
    · simp [emit_types, h, ih]

theorem types_interfaces_flat (n : Int) (l : List interface) :
    ∀ (ti : Int),
      (types_interfaces n ti l).1 = (emit_types n ti (visit_order l)).1 ∧
      visit_order (types_interfaces n ti l).2.1 = (emit_types n ti (visit_order l)).2.1 ∧
      (types_interfaces n ti l).2.2 = (emit_types n ti (visit_order l)).2.2 := by
  induction l with
  | nil => intro ti; simp [types_interfaces, visit_order, emit_types]
  | cons i t ih =>
    intro ti
    have hv : visit_order (i :: t) = i.request_list ++ (i.event_list ++ visit_order t) := by
      simp [visit_order]
    rw [hv, emit_types_append, emit_types_append]
    simp only [types_interfaces, ih]
    refine ⟨trivial, ?_, ?_⟩
    · have hi := (ih (emit_types n (emit_types n ti i.request_list).1 i.event_list).1).2.1
      simp only [visit_order, List.flatMap_cons, List.append_assoc]
      simp only [visit_order] at hi
      rw [hi]
    · simp

theorem emit_types_offsets (n : Int) (l : List message) :
    ∀ (ti : Int) (pre : List message) (m : message) (post : List message),
      (emit_types n ti l).2.1 = pre ++ m :: post →
      (m.all_null ≠ 0 → m.type_index = 0) ∧
      (m.all_null = 0 → m.type_index = n + ti + slots_before pre) := by
  induction l with
  | nil =>
    intro ti pre m post h
    simp [emit_types] at h
  | cons x t ih =>
    intro ti pre m post h
    cases pre with
    | nil =>
      by_cases hx : x.all_null = 0
      · simp only [emit_types, hx, ne_eq, not_true_eq_false, if_false, List.nil_append,
          List.cons.injEq] at h
        rw [← h.1]
        simp [hx, slots_before]
      · simp only [emit_types, hx, ne_eq, not_false_eq_true, if_true, List.nil_append,
          List.cons.injEq] at h
        rw [← h.1]
        simp [hx]
    | cons p pre1 =>
      by_cases hx : x.all_null = 0
      · simp only [emit_types, hx, ne_eq, not_true_eq_false, if_false, List.cons_append,
          List.cons.injEq] at h
        have hi := ih _ pre1 m post h.2
        refine ⟨hi.1, fun hm => ?_⟩
        rw [hi.2 hm, slots_before_cons, ← h.1]
        simp only [hx, if_true]
        ring
      · simp only [emit_types, hx, ne_eq, not_false_eq_true, if_true, List.cons_append,
          List.cons.injEq] at h
        have hi := ih _ pre1 m post h.2
        refine ⟨hi.1, fun hm => ?_⟩
        rw [hi.2 hm, slots_before_cons, ← h.1]
        simp only [hx, if_false]

/-! ## The emitter as a whole -/

theorem mem_visit_order (m : message) (l : List interface) :
    m ∈ visit_order l ↔ ∃ i ∈ l, m ∈ i.request_list ++ i.event_list := by
  simp [visit_order, List.mem_flatMap]

theorem visit_order_mark (l : List interface) :
    visit_order (l.map mark_interface) = (visit_order l).map mark_null := by
  induction l with
  | nil => simp [visit_order]
  | cons i t ih =>
    simp only [visit_order, List.map_cons, List.flatMap_cons, List.map_append] at ih ⊢
    rw [ih]
    simp [mark_interface]

theorem max_null_args_clear (l : List message) :
    max_null_args (l.map clear_index) = max_null_args l := by
  induction l with
  | nil => rfl
  | cons m t ih =>
    rw [List.map_cons, max_null_args_cons, max_null_args_cons, ih]
    rfl

theorem slots_of_clear (l : List message) : slots_of (l.map clear_index) = slots_of l := by
  induction l with
  | nil => rfl
  | cons m t ih =>
    rw [List.map_cons, slots_of_cons, slots_of_cons, ih]
    rfl

theorem wf_of_clear_eq (l1 l2 : List message)
    (h : l1.map clear_index = l2.map clear_index) (hw : ∀ m ∈ l2, message_wf m) :
    ∀ m ∈ l1, message_wf m := by
  intro m hm
  have h1 : clear_index m ∈ l2.map clear_index := h ▸ List.mem_map_of_mem clear_index hm
  rcases List.mem_map.mp h1 with ⟨m0, hm0, he⟩
  have hw0 := hw m0 hm0
  have ha : m0.arg_list = m.arg_list := congrArg (fun x => x.arg_list) he
  have hc : m0.arg_count = m.arg_count := congrArg (fun x => x.arg_count) he
  exact ⟨by rw [← hc, ← ha]; exact hw0.1, by rw [← ha]; exact hw0.2⟩

theorem mark_null_wf (l : List message) (hw : ∀ m ∈ l, message_wf m) :
    ∀ m ∈ l.map mark_null, message_wf m := by
  intro m hm
  rcases List.mem_map.mp hm with ⟨m0, hm0, rfl⟩
  exact hw m0 hm0

/-- What `emit_code` leaves and prints, in terms of the flat passes over the
messages in visiting order. -/
theorem emit_code_facts (p : protocol) (hti : p.type_index = 0)
    (hnr : p.null_run_length = 0) :
    (emit_code p).protocol.null_run_length =
      max_null_args ((visit_order p.interface_list).map mark_null) ∧
    visit_order (emit_code p).protocol.interface_list =
      (emit_types (emit_code p).protocol.null_run_length 0
        ((visit_order p.interface_list).map mark_null)).2.1 ∧
    (emit_code p).types =
      emit_null_run (emit_code p).protocol.null_run_length ++
        slots_of ((visit_order p.interface_list).map mark_null) := by
  have hf := forward_interfaces_eq p.interface_list 0 [] (le_refl 0)
  have hn : (forward_interfaces p.null_run_length p.interface_list []).1 =
      max_null_args ((visit_order p.interface_list).map mark_null) := by
    rw [hnr, hf.2, visit_order_mark, max_eq_right (max_null_args_nonneg _)]
  have hl : (forward_interfaces p.null_run_length p.interface_list []).2.1 =
      p.interface_list.map mark_interface := by
    rw [hnr, hf.1]
  have ht := types_interfaces_flat
    (forward_interfaces p.null_run_length p.interface_list []).1
    ((forward_interfaces p.null_run_length p.interface_list []).2.1) p.type_index
  refine ⟨hn, ?_, ?_⟩
  · show visit_order (types_interfaces _ _ _).2.1 = _
    rw [ht.2.1, hl, visit_order_mark, hti]
    rfl
  · show emit_null_run _ ++ (types_interfaces _ _ _).2.2 = _
    rw [ht.2.2, hl, visit_order_mark, (emit_types_basic _ _ _).2.2]
    rfl

/-- The messages `emit_code` leaves are the parsed ones up to `all_null` and
`type_index`, hence well formed. -/
theorem emit_code_wf (p : protocol) (hw : protocol_wf p) (hti : p.type_index = 0)
    (hnr : p.null_run_length = 0) :
    ∀ m ∈ visit_order (emit_code p).protocol.interface_list, message_wf m := by
  have hf := emit_code_facts p hti hnr
  rw [hf.2.1]
  refine wf_of_clear_eq _ _ (emit_types_basic _ _ _).2.1 ?_
  apply mark_null_wf
  intro m hm
  rcases (mem_visit_order m _).mp hm with ⟨i, hi, hmi⟩
  exact hw i hi m hmi

theorem main_code_ok (events : List xml_event) (out : code_output)
    (h : main_code events = .ok out) :
    ∃ ctx, parse events = .ok ctx ∧ out = emit_code ctx.protocol := by
  unfold main_code at h
  cases hp : parse events with
  | error e => simp [hp] at h
  | ok ctx =>
    simp only [hp] at h
    injection h with h
    exact ⟨ctx, rfl, h.symm⟩

theorem le_max_null_args (l : List message) (m : message) (hm : m ∈ l)
    (hn : m.all_null ≠ 0) : (m.arg_list.length : Int) ≤ max_null_args l := by
  induction l with
  | nil => cases hm
  | cons x t ih =>
    rw [max_null_args_cons]
    rcases List.mem_cons.mp hm with h | h
    · subst h
      rw [if_pos hn]
      exact le_max_left _ _
    · split
      · exact le_max_of_le_right (ih h)
      · exact ih h

theorem emit_type_slot_eq (a : arg) :
    emit_type_slot a =
      if a.type = .OBJECT ∨ a.type = .NEW_ID then a.interface_name else none := by
  unfold emit_type_slot
  cases a.type <;> simp

theorem all_null_value_ne_zero (args : List arg) :
    all_null_value args ≠ 0 ↔ ∀ a ∈ args, ¬ names_peer a := by
  unfold all_null_value
  by_cases h : (args.any (fun a => (emit_type_slot a).isSome)) = true
  · simp only [h, if_true, ne_eq, not_true_eq_false, false_iff]
    intro hall
    rcases List.any_eq_true.mp h with ⟨a, ha, hs⟩
    apply hall a ha
    unfold names_peer
    rw [emit_type_slot_eq] at hs
    by_cases ht : a.type = .OBJECT ∨ a.type = .NEW_ID
    · rw [if_pos ht] at hs
      refine ⟨ht, ?_⟩
      intro hnone
      rw [hnone] at hs
      simp at hs
    · rw [if_neg ht] at hs
      simp at hs
  · simp only [h, Bool.false_eq_true, if_false, ne_eq, one_ne_zero, not_false_eq_true, true_iff]
    intro a ha hp
    apply h
    apply List.any_eq_true.mpr
    refine ⟨a, ha, ?_⟩
    rw [emit_type_slot_eq, if_pos hp.1]
    cases hi : a.interface_name with
    | none => exact absurd hi hp.2
    | some n => rfl

/-- The messages `emit_code` leaves agree with the marked parsed messages up to
`type_index`. -/
theorem visit_order_clear (p : protocol) (hti : p.type_index = 0)
    (hnr : p.null_run_length = 0) :
    (visit_order (emit_code p).protocol.interface_list).map clear_index =
      ((visit_order p.interface_list).map mark_null).map clear_index := by
  rw [(emit_code_facts p hti hnr).2.1]
  exact (emit_types_basic _ _ _).2.1

/-- The length of the NULL run and the content of the types vector in terms of
the messages `emit_code` leaves. -/
theorem types_vector_shape (p : protocol) (hti : p.type_index = 0)
    (hnr : p.null_run_length = 0) :
    (emit_code p).protocol.null_run_length =
      max_null_args (visit_order (emit_code p).protocol.interface_list) ∧
    (emit_code p).types =
      List.replicate (max_null_args (visit_order (emit_code p).protocol.interface_list)).toNat
          none ++
        slots_of (visit_order (emit_code p).protocol.interface_list) := by
  have hf := emit_code_facts p hti hnr
  have hV := visit_order_clear p hti hnr
  have hmax : max_null_args (visit_order (emit_code p).protocol.interface_list) =
      max_null_args ((visit_order p.interface_list).map mark_null) := by
    rw [← max_null_args_clear, hV, max_null_args_clear]
  have hslots : slots_of (visit_order (emit_code p).protocol.interface_list) =
      slots_of ((visit_order p.interface_list).map mark_null) := by
    rw [← slots_of_clear, hV, slots_of_clear]
  refine ⟨?_, ?_⟩
  · rw [hmax]; exact hf.1
  · rw [hmax, hslots, ← hf.1]; exact hf.2.2

/-- C1: for every document the parser accepts, every row of the `wl_message`
tables printed by `emit_messages` carries the signature the specification
describes: the decimal since-version when it exceeds 1, then for each argument
in declaration order a `?` when it is nullable and its kind character, `n` for
a new_id with a peer interface and `sun` for one without. -/
theorem emit_messages_signature (events : List xml_event) (out : code_output)
    (h : main_code events = .ok out) :
    out.interfaces = out.protocol.interface_list.map (fun i =>
      { name := i.name, version := i.version,
        requests := i.request_list.map
          (fun m => { name := m.name, signature := spec_signature m, offset := m.type_index }),
        events := i.event_list.map
          (fun m => { name := m.name, signature := spec_signature m, offset := m.type_index }) }) := by
  rcases main_code_ok events out h with ⟨ctx, hp, rfl⟩
  have hc := parse_counters events ctx hp
  have hw := emit_code_wf ctx.protocol (parse_wf events ctx hp) hc.1 hc.2
  show (emit_code ctx.protocol).protocol.interface_list.map _ = _
  apply List.map_congr_left
  intro i hi
  have h1 : emit_messages i.request_list = i.request_list.map spec_row :=
    emit_messages_eq _ (fun m hm =>
      hw m ((mem_visit_order m _).mpr ⟨i, hi, List.mem_append_left _ hm⟩))
  have h2 : emit_messages i.event_list = i.event_list.map spec_row :=
    emit_messages_eq _ (fun m hm =>
      hw m ((mem_visit_order m _).mpr ⟨i, hi, List.mem_append_right _ hm⟩))
  simp only [h1, h2]
  rfl

/-- C2: in code mode a message is marked all-null exactly when none of its
object or new_id arguments names a peer interface; every all-null message
records offset 0; the NULL run that opens the types vector has the length of
the longest argument list among the all-null messages of the whole protocol
(0 when there are none), and the slots printed by `emit_types` follow it. -/
theorem all_null_and_null_run (events : List xml_event) (out : code_output)
    (h : main_code events = .ok out) :
    (∀ m ∈ visit_order out.protocol.interface_list,
      (m.all_null ≠ 0 ↔ ∀ a ∈ m.arg_list, ¬ names_peer a) ∧
      (m.all_null ≠ 0 → m.type_index = 0)) ∧
    out.protocol.null_run_length = max_null_args (visit_order out.protocol.interface_list) ∧
    out.types =
      List.replicate (max_null_args (visit_order out.protocol.interface_list)).toNat none ++
        slots_of (visit_order out.protocol.interface_list) := by
  rcases main_code_ok events out h with ⟨ctx, hp, rfl⟩
  have hc := parse_counters events ctx hp
  have hf := emit_code_facts ctx.protocol hc.1 hc.2
  have hV := visit_order_clear ctx.protocol hc.1 hc.2
  have hshape := types_vector_shape ctx.protocol hc.1 hc.2
  refine ⟨?_, hshape.1, hshape.2⟩
  intro m hm
  constructor
  · have h1 : clear_index m ∈
        ((visit_order ctx.protocol.interface_list).map mark_null).map clear_index :=
      hV ▸ List.mem_map_of_mem clear_index hm
    rcases List.mem_map.mp h1 with ⟨m1, hm1, he⟩
    rcases List.mem_map.mp hm1 with ⟨m0, _, rfl⟩
    have ha : m0.arg_list = m.arg_list := congrArg (fun x => x.arg_list) he
    have hn : all_null_value m0.arg_list = m.all_null := congrArg (fun x => x.all_null) he
    rw [← hn, ← ha]
    exact all_null_value_ne_zero _
  · intro hn
    rcases List.append_of_mem hm with ⟨pre, post, hsplit⟩
    rw [hf.2.1] at hsplit
    exact (emit_types_offsets _ _ 0 pre m post hsplit).1 hn

/-- C3: for every message that is not all-null the recorded offset is the
length of the NULL run plus the argument counts of the not-all-null messages
visited before it (interfaces in document order, requests before events), and
slot offset+k of the types vector holds the interface named by its k-th
argument when that is an object or new_id naming one and NULL otherwise; for
every message the slots from offset to offset+arg_count lie inside the types
vector. -/
theorem type_offsets_and_slots (events : List xml_event) (out : code_output)
    (h : main_code events = .ok out) :
    ∀ (pre : List message) (m : message) (post : List message),
      visit_order out.protocol.interface_list = pre ++ m :: post →
      (m.all_null = 0 →
        m.type_index = out.protocol.null_run_length + slots_before pre ∧
        ∀ (k : Nat) (a : arg), m.arg_list[k]? = some a →
          out.types[(m.type_index + (k : Int)).toNat]? =
            some (if a.type = .OBJECT ∨ a.type = .NEW_ID then a.interface_name else none)) ∧
      0 ≤ m.type_index ∧ m.type_index + m.arg_count ≤ (out.types.length : Int) := by
  intro pre m post hsplit
  rcases main_code_ok events out h with ⟨ctx, hp, rfl⟩
  have hc := parse_counters events ctx hp
  have hshape := types_vector_shape ctx.protocol hc.1 hc.2
  have hf := emit_code_facts ctx.protocol hc.1 hc.2
  have hw := emit_code_wf ctx.protocol (parse_wf events ctx hp) hc.1 hc.2
  rw [hsplit] at hw
  have hwpre : ∀ x ∈ pre, message_wf x := fun x hx => hw x (List.mem_append_left _ hx)
  have hwm : message_wf m := hw m (List.mem_append_right _ (List.mem_cons_self _ _))
  have hwpost : ∀ x ∈ post, message_wf x :=
    fun x hx => hw x (List.mem_append_right _ (List.mem_cons_of_mem _ hx))
  have hoff := emit_types_offsets (emit_code ctx.protocol).protocol.null_run_length
    ((visit_order ctx.protocol.interface_list).map mark_null) 0 pre m post
    (hf.2.1 ▸ hsplit)
  have hnrl : 0 ≤ (emit_code ctx.protocol).protocol.null_run_length := by
    rw [hf.1]; exact max_null_args_nonneg _
  have hpre0 := slots_before_nonneg pre hwpre
  have hprelen := slots_of_length pre hwpre
  have hpost0 := slots_before_nonneg post hwpost
  have hpostlen := slots_of_length post hwpost
  have htypes := hshape.2
  rw [← hshape.1, hsplit, slots_of_append, slots_of_cons] at htypes
  have hlen : ((emit_code ctx.protocol).types.length : Int) =
      (emit_code ctx.protocol).protocol.null_run_length + slots_before pre +
        (if m.all_null = 0 then m.arg_count else 0) + slots_before post := by
    rw [htypes]
    by_cases hn : m.all_null = 0
    · simp only [hn, if_true, List.length_append, List.length_replicate, List.length_map]
      push_cast
      rw [Int.toNat_of_nonneg hnrl, hprelen, hpostlen, hwm.1]
      ring
    · simp only [hn, if_false, List.length_append, List.length_replicate]
      push_cast
      rw [Int.toNat_of_nonneg hnrl, hprelen, hpostlen]
      ring
  refine ⟨?_, ?_⟩
  · intro hn
    have hti := hoff.2 hn
    refine ⟨by rw [hti]; ring, ?_⟩
    intro k a hk
    have hidx : (m.type_index + (k : Int)).toNat =
        (emit_code ctx.protocol).protocol.null_run_length.toNat +
          ((slots_of pre).length + k) := by
      rw [hti]
      omega
    rw [hidx, htypes, if_pos hn]
    rw [List.getElem?_append_right (by simp), List.length_replicate, Nat.add_sub_cancel_left,
      List.getElem?_append_right (by omega), Nat.add_sub_cancel_left]
    have hklt : k < m.arg_list.length := by
      by_contra hge
      rw [List.getElem?_eq_none (by omega)] at hk
      cases hk
    rw [List.getElem?_append_left (by simp [hklt]), List.getElem?_map, hk]
    simp [emit_type_slot_eq]
  · by_cases hn : m.all_null = 0
    · have hti := hoff.2 hn
      rw [hlen, if_pos hn, hti]
      have := hwm.1
      constructor <;> omega
    · have hti := hoff.1 hn
      have hmem : m ∈ visit_order (emit_code ctx.protocol).protocol.interface_list := by
        rw [hsplit]; exact List.mem_append_right _ (List.mem_cons_self _ _)
      have hle := le_max_null_args _ m hmem hn
      rw [← hshape.1] at hle
      rw [hlen, if_neg hn, hti, hwm.1]
      constructor <;> omega

/-- The sample document is accepted and its one interface is printed with the
signatures `2sun?s` and `io`. -/
theorem emit_messages_signature_witness :
    main_code sample_document = .ok sample_output ∧
    sample_output.interfaces =
      [ { name := "wl_a", version := 3,
          requests := [{ name := "bind", signature := spec_signature sample_bind, offset := 0 }],
          events := [{ name := "ev", signature := spec_signature sample_ev, offset := 2 }] } ] :=
  ⟨by rfl, emit_messages_signature sample_document sample_output (by rfl)⟩

/-- On the sample document the NULL run has length 2, the argument count of
the all-null request. -/
theorem all_null_and_null_run_witness :
    main_code sample_document = .ok sample_output ∧
    sample_output.protocol.null_run_length =
      max_null_args (visit_order sample_output.protocol.interface_list) ∧
    max_null_args (visit_order sample_output.protocol.interface_list) = 2 :=
  ⟨by rfl, (all_null_and_null_run sample_document sample_output (by rfl)).2.1, by decide⟩

/-- On the sample document the event comes after the all-null request, so its
offset is the length of the NULL run, and its two slots end the types vector. -/
theorem type_offsets_and_slots_witness :
    main_code sample_document = .ok sample_output ∧
    visit_order sample_output.protocol.interface_list = [sample_bind] ++ sample_ev :: [] ∧
    sample_ev.type_index = sample_output.protocol.null_run_length + slots_before [sample_bind] ∧
    sample_ev.type_index + sample_ev.arg_count ≤ (sample_output.types.length : Int) :=
  ⟨by rfl, by rfl,
    ((type_offsets_and_slots sample_document sample_output (by rfl)
      [sample_bind] sample_ev [] (by rfl)).1 (by rfl)).1,
    (type_offsets_and_slots sample_document sample_output (by rfl)
      [sample_bind] sample_ev [] (by rfl)).2.2⟩

/-! ## What a step of the parser keeps of the description -/

theorem length_modify_at {α : Type} (f : α → α) (n : Nat) (l : List α) :
    (modify_at f n l).length = l.length := by
  induction l generalizing n with
  | nil => cases n <;> rfl
  | cons x xs ih =>
    cases n with
    | zero => rfl
    | succ n => simp [modify_at, ih]

theorem map_modify_at {α β : Type} (g : α → β) (f : α → α) (n : Nat) (l : List α)
    (h : ∀ x ∈ l, g (f x) = g x) : (modify_at f n l).map g = l.map g := by
  induction l generalizing n with
  | nil => cases n <;> rfl
  | cons x xs ih =>
    cases n with
    | zero => simp [modify_at, h x (List.mem_cons_self _ _)]
    | succ n =>
      simp only [modify_at, List.map_cons]
      rw [ih n (fun y hy => h y (List.mem_cons_of_mem _ hy))]

theorem getElem?_modify_at {α : Type} (f : α → α) (n : Nat) (l : List α) (k : Nat) :
    (modify_at f n l)[k]? = if k = n then l[k]?.map f else l[k]? := by
  induction l generalizing n k with
  | nil => cases n <;> simp [modify_at]
  | cons x xs ih =>
    cases n with
    | zero =>
      cases k with
      | zero => simp [modify_at]
      | succ k => simp [modify_at]
    | succ n =>
      cases k with
      | zero => simp [modify_at]
      | succ k => simp [modify_at, ih]

theorem message_head_modify (f : message → message) (n : Nat) (l : List message)
    (hf : ∀ m, message_head (f m) = message_head m) :
    (modify_at f n l).map message_head = l.map message_head :=
  map_modify_at message_head f n l (fun m _ => hf m)

theorem update_message_heads (p : protocol) (ptr : Nat × Bool × Nat) (f : message → message)
    (hf : ∀ m, message_head (f m) = message_head m) :
    (update_message p ptr f).interface_list.map interface_head =
      p.interface_list.map interface_head := by
  simp only [update_message]
  apply map_modify_at
  intro i _
  by_cases hreq : ptr.2.1 = true
  · simp only [hreq, if_true, interface_head]
    rw [message_head_modify f _ _ hf]
  · simp only [hreq, interface_head, Bool.false_eq_true, if_false]
    rw [message_head_modify f _ _ hf]

/-- What `start_arg` does when it succeeds. -/
theorem start_arg_ok (ctx ctx1 : parse_context) (a : attributes)
    (h : start_arg ctx a = .ok ctx1) :
    ∃ ptr built, ctx.message = some ptr ∧ build_arg ctx.line_number true a = .ok built ∧
      ctx1 = { ctx with protocol := update_message ctx.protocol ptr (fun m =>
        { m with
          new_id_count := if built.type = .NEW_ID then m.new_id_count + 1 else m.new_id_count
          arg_list := m.arg_list ++ [built]
          arg_count := m.arg_count + 1 }) } := by
  unfold start_arg at h
  cases hm : ctx.message with
  | none =>
    simp only [hm] at h
    split at h <;> cases h
  | some ptr =>
    simp only [hm, Option.isSome_some] at h
    cases hb : build_arg ctx.line_number true a with
    | error e => simp [hb] at h
    | ok built =>
      simp only [hb] at h
      injection h with h
      exact ⟨ptr, built, rfl, rfl, h.symm⟩

/-- What `start_message` does when it succeeds. -/
theorem start_message_ok (ctx ctx1 : parse_context) (element_name : String) (a : attributes)
    (h : start_message ctx element_name a = .ok ctx1) :
    ∃ name k i version, a.name = some name ∧ ctx.interface = some k ∧
      ctx.protocol.interface_list[k]? = some i ∧
      parse_since ctx.line_number a.since = .ok version ∧
      ¬ (name = "destroy" ∧ (if a.type = some "destructor" then (1 : Int) else 0) = 0) ∧
      ctx1 = { ctx with
        protocol := { ctx.protocol with
          interface_list := modify_at (fun _ =>
            if decide (element_name = "request") = true then
              { i with
                request_list := i.request_list ++
                  [new_message name (if a.type = some "destructor" then 1 else 0) version]
                since := version }
            else
              { i with
                event_list := i.event_list ++
                  [new_message name (if a.type = some "destructor" then 1 else 0) version]
                since := version }) k ctx.protocol.interface_list }
        message := some (k, decide (element_name = "request"),
          if decide (element_name = "request") = true then i.request_list.length
          else i.event_list.length)
        warnings :=
          if version < i.since then
            ctx.warnings ++ [(ctx.line_number, "since version not increasing\n")]
          else ctx.warnings } := by
  unfold start_message at h
  cases hname : a.name with
  | none => simp [hname] at h
  | some name =>
    cases hk : ctx.interface with
    | none => simp [hname, hk] at h
    | some k =>
      cases hi : ctx.protocol.interface_list[k]? with
      | none => simp [hname, hk, hi] at h
      | some i =>
        simp only [hname, hk, hi] at h
        cases hv : parse_since ctx.line_number a.since with
        | error e => simp [hv] at h
        | ok version =>
          simp only [hv] at h
          by_cases hd : name = "destroy" ∧ (if a.type = some "destructor" then (1 : Int) else 0) = 0
          · rw [if_pos hd] at h; cases h
          · rw [if_neg hd] at h
            injection h with h
            exact ⟨name, k, i, version, rfl, rfl, hi, rfl, hd, h.symm⟩

/-- The three ways `start_element` can succeed: it appends an interface, it
runs the `request` / `event` branch, or it leaves the heads of the
description, the pointer to the interface and the warnings as they are. -/
theorem start_element_cases (ctx ctx1 : parse_context) (line : Int) (element_name : String)
    (atts : List (String × String))
    (h : start_element ctx line element_name atts = .ok ctx1) :
    (element_name = "interface" ∧ ∃ name, (scan_attributes atts).name = some name ∧
      (scan_attributes atts).version ≠ 0 ∧
      ctx1.protocol.interface_list = ctx.protocol.interface_list ++
        [{ name := name, version := (scan_attributes atts).version, since := 1,
           request_list := [], event_list := [], enumeration_list := [] }] ∧
      ctx1.interface = some ctx.protocol.interface_list.length ∧
      ctx1.warnings = ctx.warnings ∧ ctx1.message = ctx.message) ∨
    (element_name ≠ "interface" ∧ (element_name = "request" ∨ element_name = "event") ∧
      start_message { ctx with line_number := line, character_data_length := 0 }
        element_name (scan_attributes atts) = .ok ctx1) ∨
    (element_name ≠ "interface" ∧ element_name ≠ "request" ∧ element_name ≠ "event" ∧
      ctx1.protocol.interface_list.map interface_head =
        ctx.protocol.interface_list.map interface_head ∧
      ctx1.interface = ctx.interface ∧ ctx1.warnings = ctx.warnings ∧
      ctx1.message = ctx.message) := by
  unfold start_element at h
  simp only at h
  by_cases h1 : element_name = "protocol"
  · rw [if_pos h1] at h
    refine Or.inr (Or.inr ?_)
    subst h1
    refine ⟨by decide, by decide, by decide, ?_⟩
    split at h
    · cases h
    · injection h with h; subst h; exact ⟨rfl, rfl, rfl, rfl⟩
  · rw [if_neg h1] at h
    by_cases h2 : element_name = "copyright"
    · rw [if_pos h2] at h
      refine Or.inr (Or.inr ?_)
      subst h2
      refine ⟨by decide, by decide, by decide, ?_⟩
      injection h with h; subst h; exact ⟨rfl, rfl, rfl, rfl⟩
    · rw [if_neg h2] at h
      by_cases h3 : element_name = "interface"
      · rw [if_pos h3] at h
        refine Or.inl ⟨h3, ?_⟩
        cases hname : (scan_attributes atts).name with
        | none => simp [hname] at h
        | some name =>
          simp only [hname] at h
          by_cases hv : (scan_attributes atts).version = 0
          · rw [if_pos hv] at h; cases h
          · rw [if_neg hv] at h
            injection h with h
            subst h
            exact ⟨name, rfl, hv, rfl, rfl, rfl, rfl⟩
      · rw [if_neg h3] at h
        by_cases h4 : element_name = "request" ∨ element_name = "event"
        · rw [if_pos h4] at h
          exact Or.inr (Or.inl ⟨h3, h4, h⟩)
        · rw [if_neg h4] at h
          refine Or.inr (Or.inr ⟨h3, fun hr => h4 (Or.inl hr), fun he => h4 (Or.inr he), ?_⟩)
          split at h
          · obtain ⟨ptr, built, _, _, hc⟩ := start_arg_ok _ ctx1 _ h
            subst hc
            exact ⟨update_message_heads _ _ _ (fun m => rfl), rfl, rfl, rfl⟩
          · split at h
            · split at h
              · cases h
              · split at h
                · cases h
                · split at h
                  · cases h
                  · injection h with h
                    subst h
                    refine ⟨?_, rfl, rfl, rfl⟩
                    exact map_modify_at _ _ _ _ (fun i _ => rfl)
            · split at h
              · split at h
                · cases h
                · split at h
                  · injection h with h
                    subst h
                    refine ⟨?_, rfl, rfl, rfl⟩
                    exact map_modify_at _ _ _ _ (fun i _ => rfl)
                  · cases h
              · split at h
                · split at h
                  · cases h
                  · injection h with h; subst h; exact ⟨rfl, rfl, rfl, rfl⟩
                · injection h with h; subst h; exact ⟨rfl, rfl, rfl, rfl⟩

/-- The functions `end_element` and `character_data` leave the interfaces, the
pointer to the interface and the warnings as they are. -/
theorem end_element_keeps (ctx ctx1 : parse_context) (name : String)
    (h : end_element ctx name = .ok ctx1) :
    ctx1.protocol = ctx.protocol ∧ ctx1.interface = ctx.interface ∧
      ctx1.warnings = ctx.warnings ∧ (ctx1.message = ctx.message ∨ ctx1.message = none) := by
  unfold end_element at h
  split at h
  · injection h with h; subst h; exact ⟨rfl, rfl, rfl, Or.inl rfl⟩
  · split at h
    · split at h
      · injection h with h; subst h; exact ⟨rfl, rfl, rfl, Or.inl rfl⟩
      · cases h
    · split at h
      · injection h with h; subst h; exact ⟨rfl, rfl, rfl, Or.inr rfl⟩
      · split at h
        · injection h with h; subst h; exact ⟨rfl, rfl, rfl, Or.inl rfl⟩
        · injection h with h; subst h; exact ⟨rfl, rfl, rfl, Or.inl rfl⟩

theorem character_data_keeps (ctx ctx1 : parse_context) (len : Nat)
    (h : character_data ctx len = .ok ctx1) :
    ctx1.protocol = ctx.protocol ∧ ctx1.interface = ctx.interface ∧
      ctx1.warnings = ctx.warnings ∧ ctx1.message = ctx.message := by
  unfold character_data at h
  split at h
  · cases h
  · injection h with h; subst h; exact ⟨rfl, rfl, rfl, rfl⟩

/-- A property of interfaces that depends on their heads only, holds of a new
interface and is kept when a checked message is appended holds of every
interface of a parsed description.  `A` is a property of the attributes of
every start tag of the document. -/
theorem parse_events_interfaces (P : interface → Prop) (A : attributes → Prop)
    (hhead : ∀ i i1, interface_head i1 = interface_head i → P i → P i1)
    (hnew : ∀ (name : String) (version : Int), version ≠ 0 →
      P { name := name, version := version, since := 1, request_list := [],
          event_list := [], enumeration_list := [] })
    (hmsg : ∀ (i : interface) (a : attributes) (name : String) (line v : Int) (b : Bool),
      A a → P i → a.name = some name → parse_since line a.since = .ok v →
      ¬ (name = "destroy" ∧ (if a.type = some "destructor" then (1 : Int) else 0) = 0) →
      P (if b = true then
          { i with
            request_list := i.request_list ++
              [new_message name (if a.type = some "destructor" then 1 else 0) v]
            since := v }
        else
          { i with
            event_list := i.event_list ++
              [new_message name (if a.type = some "destructor" then 1 else 0) v]
            since := v }))
    (events : List xml_event) :
    (∀ line element_name atts, xml_event.start_tag line element_name atts ∈ events →
      element_name = "request" ∨ element_name = "event" → A (scan_attributes atts)) →
    ∀ (ctx ctx1 : parse_context), parse_events ctx events = .ok ctx1 →
      (∀ i ∈ ctx.protocol.interface_list, P i) →
      ∀ i ∈ ctx1.protocol.interface_list, P i := by
  induction events with
  | nil =>
    intro _ ctx ctx1 h hp
    simp only [parse_events] at h
    injection h with h
    subst h
    exact hp
  | cons e rest ih =>
    intro hA ctx ctx1 h hp
    simp only [parse_events] at h
    cases he : handle_event ctx e with
    | error err => simp [he] at h
    | ok ctx2 =>
      simp only [he] at h
      refine ih (fun line el atts hm => hA line el atts (List.mem_cons_of_mem _ hm))
        ctx2 ctx1 h ?_
      cases e with
      | start_tag line element_name atts =>
        have ha := hA line element_name atts (List.mem_cons_self _ _)
        rcases start_element_cases ctx ctx2 line element_name atts he with
          ⟨_, name, _, hv, hl, _, _, _⟩ | ⟨_, hel, hm⟩ | ⟨_, _, _, hl, _, _, _⟩
        · intro i hi
          rw [hl, List.mem_append, List.mem_singleton] at hi
          rcases hi with hi | hi
          · exact hp i hi
          · exact hi ▸ hnew name _ hv
        · obtain ⟨name, k, i0, version, hn, _, hi0, hs, hd, hc⟩ := start_message_ok _ _ _ _ hm
          subst hc
          refine forall_modify_at P _ _ _ hp ?_
          intro _ _
          exact hmsg i0 _ name _ version _ (ha hel)
            (hp i0 (List.mem_iff_getElem?.mpr ⟨k, hi0⟩)) hn hs hd
        · intro i hi
          have hmem : interface_head i ∈ ctx2.protocol.interface_list.map interface_head :=
            List.mem_map_of_mem _ hi
          rw [hl] at hmem
          obtain ⟨i0, hi0, he0⟩ := List.mem_map.1 hmem
          exact hhead i0 i he0.symm (hp i0 hi0)
      | end_tag name =>
        rw [(end_element_keeps ctx ctx2 name he).1]
        exact hp
      | text len =>
        rw [(character_data_keeps ctx ctx2 len he).1]
        exact hp

theorem mem_of_map_head_eq (l l1 : List message)
    (h : l1.map message_head = l.map message_head) (m : message) (hm : m ∈ l1) :
    ∃ m0 ∈ l, message_head m0 = message_head m := by
  have hmem : message_head m ∈ l1.map message_head := List.mem_map_of_mem _ hm
  rw [h] at hmem
  exact List.mem_map.1 hmem

/-! ## C14: a message named `destroy` is a destructor -/

theorem emit_stubs_flags_destructor (l : List message) :
    ∀ (flags : Int × Int), (flags.1 = 1 ∨ ∃ m ∈ l, m.destructor ≠ 0) →
      (emit_stubs_flags l flags).1 = 1 := by
  induction l with
  | nil =>
    intro flags h
    rcases h with h | ⟨m, hm, _⟩
    · exact h
    · cases hm
  | cons x xs ih =>
    intro flags h
    obtain ⟨f1, f2⟩ := flags
    simp only [emit_stubs_flags]
    apply ih
    by_cases hx : x.destructor ≠ 0
    · left; simp [hx]
    · rcases h with h | ⟨m, hm, hd⟩
      · left; simp only [hx, if_false]; exact h
      · rcases List.mem_cons.1 hm with hm | hm
        · subst hm; exact absurd hd hx
        · right; exact ⟨m, hm, hd⟩

theorem emit_stubs_flags_destroy (l : List message) :
    ∀ (flags : Int × Int), (emit_stubs_flags l flags).2 ≠ 0 →
      flags.2 ≠ 0 ∨ ∃ m ∈ l, m.name = "destroy" := by
  induction l with
  | nil => intro flags h; exact Or.inl h
  | cons x xs ih =>
    intro flags h
    obtain ⟨f1, f2⟩ := flags
    simp only [emit_stubs_flags] at h
    rcases ih _ h with h2 | ⟨m, hm, hn⟩
    · by_cases hx : x.name = "destroy"
      · exact Or.inr ⟨x, List.mem_cons_self _ _, hx⟩
      · simp only [hx, if_false] at h2
        exact Or.inl h2
    · exact Or.inr ⟨m, List.mem_cons_of_mem _ hm, hn⟩

theorem emit_stubs_check_ok (l : List message) (i : interface)
    (h : ∀ m ∈ l, m.name = "destroy" → m.destructor ≠ 0) : emit_stubs_check l i = .ok () := by
  unfold emit_stubs_check
  simp only
  rw [if_neg]
  rintro ⟨h1, h2⟩
  rcases emit_stubs_flags_destroy l (0, 0) h2 with h0 | ⟨m, hm, hn⟩
  · exact h0 rfl
  · have hd : m.destructor ≠ 0 := h m hm hn
    rw [emit_stubs_flags_destructor l (0, 0) (Or.inr ⟨m, hm, hd⟩)] at h1
    exact absurd h1 (by decide)

theorem destroy_wf_head (i i1 : interface) (he : interface_head i1 = interface_head i)
    (h : destroy_wf i) : destroy_wf i1 := by
  simp only [interface_head, Prod.mk.injEq] at he
  obtain ⟨_, _, _, hr, hv⟩ := he
  intro m hm hn
  rw [List.mem_append] at hm
  rcases hm with hm | hm
  · obtain ⟨m0, hm0, h0⟩ := mem_of_map_head_eq _ _ hr m hm
    simp only [message_head, Prod.mk.injEq] at h0
    rw [← h0.2.1]
    exact h m0 (List.mem_append_left _ hm0) (h0.1.trans hn)
  · obtain ⟨m0, hm0, h0⟩ := mem_of_map_head_eq _ _ hv m hm
    simp only [message_head, Prod.mk.injEq] at h0
    rw [← h0.2.1]
    exact h m0 (List.mem_append_right _ hm0) (h0.1.trans hn)

theorem parse_destroy_wf (events : List xml_event) (ctx : parse_context)
    (h : parse events = .ok ctx) : ∀ i ∈ ctx.protocol.interface_list, destroy_wf i := by
  refine parse_events_interfaces destroy_wf (fun _ => True) destroy_wf_head ?_ ?_ events
    (fun _ _ _ _ _ => trivial) initial_context ctx h ?_
  · intro name version _ m hm
    simp at hm
  · intro i a name line v b _ hi _ _ hd
    cases b with
    | true =>
      simp only [if_true]
      intro m hm hn
      simp only [List.mem_append, List.mem_singleton] at hm
      rcases hm with (hm | hm) | hm
      · exact hi m (List.mem_append_left _ hm) hn
      · subst hm
        intro h0
        exact hd ⟨hn, h0⟩
      · exact hi m (List.mem_append_right _ hm) hn
    | false =>
      simp only [Bool.false_eq_true, if_false]
      intro m hm hn
      simp only [List.mem_append, List.mem_singleton] at hm
      rcases hm with hm | hm | hm
      · exact hi m (List.mem_append_left _ hm) hn
      · exact hi m (List.mem_append_right _ hm) hn
      · subst hm
        intro h0
        exact hd ⟨hn, h0⟩
  · intro i hi
    simp [initial_context] at hi

/-- C14: a `request` (or `event`) element named `destroy` without
`type="destructor"` never parses, and where the interface is there and the
since attribute converts the run ends with the located error "destroy request
should be destructor type"; so in every parsed description every request named
`destroy` has its destructor flag set, and the check of `emit_stubs` for a
method named destroy without a destructor passes on the requests of every
interface. -/
theorem destroy_is_destructor (events : List xml_event) (ctx : parse_context)
    (h : parse events = .ok ctx)
    (ctx0 : parse_context) (line : Int) (atts : List (String × String))
    (hname : (scan_attributes atts).name = some "destroy")
    (htype : (scan_attributes atts).type ≠ some "destructor") :
    (∀ c, start_element ctx0 line "request" atts ≠ .ok c) ∧
    (∀ k i v, ctx0.interface = some k → ctx0.protocol.interface_list[k]? = some i →
      parse_since line (scan_attributes atts).since = .ok v →
      start_element ctx0 line "request" atts =
        .error (.fatal line "destroy request should be destructor type")) ∧
    (∀ i ∈ ctx.protocol.interface_list,
      (∀ m ∈ i.request_list, m.name = "destroy" → m.destructor ≠ 0) ∧
      emit_stubs_check i.request_list i = .ok ()) := by
  refine ⟨?_, ?_, ?_⟩
  · intro c hc
    rcases start_element_cases ctx0 c line "request" atts hc with
      ⟨hi, _⟩ | ⟨_, _, hm⟩ | ⟨_, hr, _⟩
    · exact absurd hi (by decide)
    · obtain ⟨name, _, _, _, hn, _, _, _, hd, _⟩ := start_message_ok _ _ _ _ hm
      rw [hname] at hn
      injection hn with hn
      exact hd ⟨hn.symm, by rw [if_neg htype]⟩
    · exact hr rfl
  · intro k i v hk hi hv
    unfold start_element
    simp only [String.reduceEq, if_false, true_or, if_true]
    unfold start_message
    simp only [hname, hk, hi, hv, if_neg htype, and_self, if_true]
  · intro i hi
    have hw := parse_destroy_wf events ctx h i hi
    have hr : ∀ m ∈ i.request_list, m.name = "destroy" → m.destructor ≠ 0 :=
      fun m hm => hw m (List.mem_append_left _ hm)
    exact ⟨hr, emit_stubs_check_ok _ _ hr⟩

/-- The sample document with a destructor request `destroy` parses, and the same
request without the type is refused with the located error. -/
theorem destroy_is_destructor_witness :
    (parse sample_destroy_document = .ok sample_destroy_context ∧
      (scan_attributes [("name", "destroy")]).name = some "destroy" ∧
      (scan_attributes [("name", "destroy")]).type ≠ some "destructor") ∧
    start_element sample_destroy_context 4 "request" [("name", "destroy")] =
      .error (.fatal 4 "destroy request should be destructor type") ∧
    emit_stubs_check sample_destroy_interface.request_list sample_destroy_interface = .ok () :=
  ⟨⟨by rfl, by rfl, by decide⟩,
    (destroy_is_destructor sample_destroy_document sample_destroy_context (by rfl)
      sample_destroy_context 4 [("name", "destroy")] (by rfl) (by decide)).2.1 0 _ 1
      (by rfl) (by rfl) (by rfl),
    ((destroy_is_destructor sample_destroy_document sample_destroy_context (by rfl)
      sample_destroy_context 4 [("name", "destroy")] (by rfl) (by decide)).2.2
      sample_destroy_interface (by simp [sample_destroy_context])).2⟩

/-! ## C15: the version of an interface -/

theorem scan_attribute_version (a : attributes) (kv : String × String) :
    (scan_attribute a kv).version = if kv.1 = "version" then atoi kv.2 else a.version := by
  unfold scan_attribute
  simp only
  by_cases h : kv.1 = "version"
  · have h1 : kv.1 ≠ "name" := by rw [h]; decide
    have h2 : kv.1 ≠ "type" := by rw [h]; decide
    have h3 : kv.1 ≠ "value" := by rw [h]; decide
    have h4 : kv.1 ≠ "interface" := by rw [h]; decide
    have h5 : kv.1 ≠ "summary" := by rw [h]; decide
    have h6 : kv.1 ≠ "since" := by rw [h]; decide
    have h7 : kv.1 ≠ "allow-null" := by rw [h]; decide
    simp only [h1, h2, h3, h4, h5, h6, h7, if_false]
    simp only [h, if_true]
  · simp only [h, if_false, apply_ite attributes.version, ite_self]

theorem scan_attributes_version (atts : List (String × String)) :
    ∀ a0 : attributes, (atts.foldl scan_attribute a0).version = a0.version ∨
      ∃ v, ("version", v) ∈ atts ∧ (atts.foldl scan_attribute a0).version = atoi v := by
  induction atts with
  | nil => intro a0; exact Or.inl rfl
  | cons kv rest ih =>
    intro a0
    simp only [List.foldl_cons]
    rcases ih (scan_attribute a0 kv) with h | ⟨v, hv, he⟩
    · rw [h, scan_attribute_version]
      by_cases hk : kv.1 = "version"
      · right
        refine ⟨kv.2, ?_, by simp [hk]⟩
        rw [← hk]
        exact List.mem_cons_self _ _
      · left
        simp [hk]
    · exact Or.inr ⟨v, List.mem_cons_of_mem _ hv, he⟩

theorem parse_version_ne_zero (events : List xml_event) (ctx : parse_context)
    (h : parse events = .ok ctx) : ∀ i ∈ ctx.protocol.interface_list, i.version ≠ 0 := by
  refine parse_events_interfaces (fun i => i.version ≠ 0) (fun _ => True) ?_ ?_ ?_ events
    (fun _ _ _ _ _ => trivial) initial_context ctx h ?_
  · intro i i1 he hi
    simp only [interface_head, Prod.mk.injEq] at he
    rw [he.2.1]
    exact hi
  · intro name version hv
    exact hv
  · intro i a name line v b _ hi _ _ _
    cases b <;> exact hi
  · intro i hi
    simp [initial_context] at hi

/-- C15 as the code has it: an `interface` element parses exactly when it has
a name and its version, as `atoi` converts the last `version` attribute (0
when there is none), is not 0; without a name, and with a name and the
version 0, the run ends with a located error; so every interface of a parsed
description has a version other than 0, which comes from a `version`
attribute of the element. -/
theorem interface_version_nonzero (events : List xml_event) (ctx : parse_context)
    (h : parse events = .ok ctx)
    (ctx0 : parse_context) (line : Int) (atts : List (String × String)) :
    ((∃ c, start_element ctx0 line "interface" atts = .ok c) ↔
      (scan_attributes atts).name ≠ none ∧ (scan_attributes atts).version ≠ 0) ∧
    ((scan_attributes atts).name = none →
      start_element ctx0 line "interface" atts =
        .error (.fatal line "no interface name given")) ∧
    ((scan_attributes atts).name ≠ none → (scan_attributes atts).version = 0 →
      start_element ctx0 line "interface" atts =
        .error (.fatal line "no interface version given")) ∧
    ((scan_attributes atts).version ≠ 0 →
      ∃ v, ("version", v) ∈ atts ∧ (scan_attributes atts).version = atoi v) ∧
    (∀ i ∈ ctx.protocol.interface_list, i.version ≠ 0) := by
  have e : start_element ctx0 line "interface" atts =
      match (scan_attributes atts).name with
      | none => .error (.fatal line "no interface name given")
      | some name =>
        if (scan_attributes atts).version = 0 then
          .error (.fatal line "no interface version given")
        else
          .ok { ctx0 with
            line_number := line, character_data_length := 0
            protocol := { ctx0.protocol with
              interface_list := ctx0.protocol.interface_list ++
                [{ name := name, version := (scan_attributes atts).version, since := 1,
                   request_list := [], event_list := [], enumeration_list := [] }] }
            interface := some ctx0.protocol.interface_list.length } := by
    unfold start_element
    simp only [String.reduceEq, if_false, if_true]
  refine ⟨?_, ?_, ?_, ?_, parse_version_ne_zero events ctx h⟩
  · rw [e]
    cases hn : (scan_attributes atts).name with
    | none => simp
    | some name =>
      by_cases hv : (scan_attributes atts).version = 0
      · simp [hv]
      · simp [hv]
  · intro hn
    rw [e, hn]
  · intro hn hv
    rw [e]
    cases hn1 : (scan_attributes atts).name with
    | none => exact absurd hn1 hn
    | some name => simp [hv]
  · intro hv
    rcases scan_attributes_version atts _ with h0 | h1
    · exact absurd h0 hv
    · exact h1

/-- C15 as the claim states it fails: an interface with `version="-3"` is
parsed, and the description has an interface of version -3. -/
theorem interface_version_nonzero_counterexample :
    parse sample_negative_version_document = .ok sample_negative_version_context ∧
    (sample_negative_version_context.protocol.interface_list.map (fun i => i.version)) =
      [-3] :=
  ⟨by rfl, by rfl⟩

/-- The interface of the sample document, of version 3, is parsed. -/
theorem interface_version_nonzero_witness :
    parse sample_destroy_document = .ok sample_destroy_context ∧
    ((∃ c, start_element initial_context 2 "interface" [("name", "wl_a"), ("version", "3")] =
        .ok c) ↔
      (scan_attributes [("name", "wl_a"), ("version", "3")]).name ≠ none ∧
        (scan_attributes [("name", "wl_a"), ("version", "3")]).version ≠ 0) :=
  ⟨by rfl,
    (interface_version_nonzero sample_destroy_document sample_destroy_context (by rfl)
      initial_context 2 [("name", "wl_a"), ("version", "3")]).1⟩

/-! ## C16: the `arg` element -/

theorem lookup_isSome_iff (p : protocol) (ptr : Nat × Bool × Nat) :
    (lookup_message p ptr).isSome = true ↔
      ∃ h, (p.interface_list.map interface_head)[ptr.1]? = some h ∧
        ptr.2.2 < (if ptr.2.1 = true then h.2.2.2.1.length else h.2.2.2.2.length) := by
  unfold lookup_message
  rw [List.getElem?_map]
  cases hi : p.interface_list[ptr.1]? with
  | none => simp
  | some i =>
    simp only [Option.map_some', Option.some.injEq, exists_eq_left', interface_head,
      List.length_map]
    by_cases hb : ptr.2.1 = true
    · simp only [hb, if_true]
      rw [Option.isSome_iff_exists]
      constructor
      · rintro ⟨m, hm⟩
        exact (List.getElem?_eq_some.1 hm).1
      · intro hlt
        exact ⟨_, List.getElem?_eq_getElem hlt⟩
    · simp only [hb, Bool.false_eq_true, if_false]
      rw [Option.isSome_iff_exists]
      constructor
      · rintro ⟨m, hm⟩
        exact (List.getElem?_eq_some.1 hm).1
      · intro hlt
        exact ⟨_, List.getElem?_eq_getElem hlt⟩

theorem lookup_isSome_heads (p p1 : protocol) (ptr : Nat × Bool × Nat)
    (h : p1.interface_list.map interface_head = p.interface_list.map interface_head)
    (hp : (lookup_message p ptr).isSome = true) : (lookup_message p1 ptr).isSome = true := by
  rw [lookup_isSome_iff] at hp ⊢
  rw [h]
  exact hp

theorem message_pointer_step (ctx ctx1 : parse_context) (e : xml_event)
    (hv : message_pointer_valid ctx) (h : handle_event ctx e = .ok ctx1) :
    message_pointer_valid ctx1 := by
  cases e with
  | start_tag line element_name atts =>
    rcases start_element_cases ctx ctx1 line element_name atts h with
      ⟨_, name, _, _, hl, _, _, hm⟩ | ⟨_, _, hm⟩ | ⟨_, _, _, hl, _, _, hm⟩
    · intro ptr hptr
      rw [hm] at hptr
      have h0 := hv ptr hptr
      rw [lookup_isSome_iff] at h0 ⊢
      obtain ⟨hd, h1, h2⟩ := h0
      refine ⟨hd, ?_, h2⟩
      rw [hl, List.map_append, List.getElem?_append_left]
      · exact h1
      · exact (List.getElem?_eq_some.1 h1).1
    · obtain ⟨name, k, i0, version, _, _, hi0, _, _, hc⟩ := start_message_ok _ _ _ _ hm
      subst hc
      intro ptr hptr
      simp only [Option.some.injEq] at hptr
      subst hptr
      simp only [lookup_message, getElem?_modify_at, if_true, hi0, Option.map_some']
      by_cases hr : element_name = "request"
      · simp [hr]
      · simp [hr]
    · intro ptr hptr
      rw [hm] at hptr
      exact lookup_isSome_heads ctx.protocol ctx1.protocol ptr hl (hv ptr hptr)
  | end_tag name =>
    obtain ⟨hp, _, _, hm⟩ := end_element_keeps ctx ctx1 name h
    intro ptr hptr
    rcases hm with hm | hm
    · rw [hm] at hptr
      rw [hp]
      exact hv ptr hptr
    · rw [hm] at hptr
      cases hptr
  | text len =>
    obtain ⟨hp, _, _, hm⟩ := character_data_keeps ctx ctx1 len h
    intro ptr hptr
    rw [hm] at hptr
    rw [hp]
    exact hv ptr hptr

theorem parse_events_message_pointer (events : List xml_event) :
    ∀ (ctx ctx1 : parse_context), message_pointer_valid ctx →
      parse_events ctx events = .ok ctx1 → message_pointer_valid ctx1 := by
  induction events with
  | nil =>
    intro ctx ctx1 hv h
    simp only [parse_events] at h
    injection h with h
    exact h ▸ hv
  | cons e rest ih =>
    intro ctx ctx1 hv h
    simp only [parse_events] at h
    cases he : handle_event ctx e with
    | error err => simp [he] at h
    | ok ctx2 =>
      simp only [he] at h
      exact ih ctx2 ctx1 (message_pointer_step ctx ctx2 e hv he) h

theorem parse_message_pointer (events : List xml_event) (ctx : parse_context)
    (h : parse events = .ok ctx) : message_pointer_valid ctx :=
  parse_events_message_pointer events initial_context ctx
    (fun ptr hptr => by simp [initial_context] at hptr) h


theorem parse_arg_type_cases (type : String) :
    (type = "int" ∧ parse_arg_type type = some .INT) ∨
    (type = "uint" ∧ parse_arg_type type = some .UNSIGNED) ∨
    (type = "fixed" ∧ parse_arg_type type = some .FIXED) ∨
    (type = "string" ∧ parse_arg_type type = some .STRING) ∨
    (type = "array" ∧ parse_arg_type type = some .ARRAY) ∨
    (type = "fd" ∧ parse_arg_type type = some .FD) ∨
    (type = "new_id" ∧ parse_arg_type type = some .NEW_ID) ∨
    (type = "object" ∧ parse_arg_type type = some .OBJECT) ∨
    (type ∉ arg_type_names ∧ parse_arg_type type = none) := by
  by_cases h1 : type = "int"
  · subst h1; exact Or.inl ⟨rfl, by decide⟩
  by_cases h2 : type = "uint"
  · subst h2; exact Or.inr (Or.inl ⟨rfl, by decide⟩)
  by_cases h3 : type = "fixed"
  · subst h3; exact Or.inr (Or.inr (Or.inl ⟨rfl, by decide⟩))
  by_cases h4 : type = "string"
  · subst h4; exact Or.inr (Or.inr (Or.inr (Or.inl ⟨rfl, by decide⟩)))
  by_cases h5 : type = "array"
  · subst h5; exact Or.inr (Or.inr (Or.inr (Or.inr (Or.inl ⟨rfl, by decide⟩))))
  by_cases h6 : type = "fd"
  · subst h6; exact Or.inr (Or.inr (Or.inr (Or.inr (Or.inr (Or.inl ⟨rfl, by decide⟩)))))
  by_cases h7 : type = "new_id"
  · subst h7
    exact Or.inr (Or.inr (Or.inr (Or.inr (Or.inr (Or.inr (Or.inl ⟨rfl, by decide⟩))))))
  by_cases h8 : type = "object"
  · subst h8
    exact Or.inr (Or.inr (Or.inr (Or.inr (Or.inr (Or.inr (Or.inr (Or.inl ⟨rfl, by decide⟩)))))))
  · refine Or.inr (Or.inr (Or.inr (Or.inr (Or.inr (Or.inr (Or.inr (Or.inr ⟨?_, ?_⟩)))))))
    · simp [arg_type_names, h1, h2, h3, h4, h5, h6, h7, h8]
    · simp [parse_arg_type, h1, h2, h3, h4, h5, h6, h7, h8]

/-- The value of `build_arg` for an argument with a name and a type within a
message. -/
theorem build_arg_eq (line : Int) (a : attributes) (name type : String)
    (hname : a.name = some name) (htype : a.type = some type) :
    build_arg line true a =
      match parse_arg_type type with
      | none => .error (.fatal line ("unknown type (" ++ type ++ ")"))
      | some t =>
        if t ≠ .NEW_ID ∧ t ≠ .OBJECT ∧ a.interface_name ≠ none then
          .error (.fatal line ("interface attribute not allowed for type " ++ type))
        else if a.allow_null ≠ none ∧ a.allow_null ≠ some "false" ∧
            a.allow_null ≠ some "true" then
          .error (.fatal line
            ("invalid value for allow-null attribute (" ++ a.allow_null.getD "" ++ ")"))
        else if a.allow_null ≠ none ∧
            ¬ (t = .STRING ∨ t = .OBJECT ∨ t = .NEW_ID ∨ t = .ARRAY) then
          .error (.fatal line "allow-null is only valid for objects, strings, and arrays")
        else
          .ok { name := name, type := t,
                nullable := if a.allow_null = some "true" then 1 else 0,
                interface_name := a.interface_name, summary := a.summary } := by
  unfold build_arg
  simp only [hname, htype]
  cases hp : parse_arg_type type with
  | none => rfl
  | some t =>
    simp only [Bool.true_eq_false, and_false, if_false]
    by_cases h2 : t ≠ .NEW_ID ∧ t ≠ .OBJECT ∧ a.interface_name ≠ none
    · rw [if_pos h2, if_pos h2]
    · rw [if_neg h2, if_neg h2]
      cases han : a.allow_null with
      | none => simp
      | some s =>
        by_cases hf : s = "false"
        · subst hf
          cases t <;> simp [is_nullable_type]
        · by_cases ht : s = "true"
          · subst ht
            cases t <;> simp [is_nullable_type]
          · simp [hf, ht]


theorem lookup_update_message (p : protocol) (ptr : Nat × Bool × Nat) (f : message → message) :
    lookup_message (update_message p ptr f) ptr = (lookup_message p ptr).map f := by
  simp only [lookup_message, update_message, getElem?_modify_at, if_true]
  cases hi : p.interface_list[ptr.1]? with
  | none => rfl
  | some i =>
    by_cases hb : ptr.2.1 = true
    · simp [hb, getElem?_modify_at]
    · simp [hb, getElem?_modify_at]

theorem start_element_arg (ctx : parse_context) (line : Int) (atts : List (String × String)) :
    start_element ctx line "arg" atts =
      start_arg { ctx with line_number := line, character_data_length := 0 }
        (scan_attributes atts) := by
  unfold start_element
  simp only [String.reduceEq, if_false, if_true, false_or]

theorem build_arg_spec (line : Int) (a : attributes) (name type : String)
    (hname : a.name = some name) (htype : a.type = some type) :
    ((∃ built, build_arg line true a = .ok built) ↔
      type ∈ arg_type_names ∧
      (a.interface_name = none ∨ type = "object" ∨ type = "new_id") ∧
      (a.allow_null = none ∨
        ((a.allow_null = some "true" ∨ a.allow_null = some "false") ∧
          (type = "string" ∨ type = "object" ∨ type = "new_id" ∨ type = "array")))) ∧
    (∀ e, build_arg line true a = .error e → ∃ msg, e = .fatal line msg) ∧
    (∀ built, build_arg line true a = .ok built →
      built.name = name ∧ parse_arg_type type = some built.type ∧
      (built.nullable ≠ 0 ↔ a.allow_null = some "true")) := by
  rw [build_arg_eq line a name type hname htype]
  rcases parse_arg_type_cases type with
    ⟨ht, hp⟩ | ⟨ht, hp⟩ | ⟨ht, hp⟩ | ⟨ht, hp⟩ | ⟨ht, hp⟩ | ⟨ht, hp⟩ | ⟨ht, hp⟩ | ⟨ht, hp⟩ |
      ⟨ht, hp⟩
  case inr.inr.inr.inr.inr.inr.inr.inr =>
    rw [hp]
    simp [ht]
  all_goals
    subst ht
    rw [hp]
    cases hin : a.interface_name <;> cases han : a.allow_null
  all_goals
    first
    | (simp [arg_type_names]; done)
    | (rename_i s
       by_cases hf : s = "false"
       · subst hf
         simp [arg_type_names]
       · by_cases ht : s = "true"
         · subst ht
           simp [arg_type_names]
         · simp [arg_type_names, hf, ht])

/-- C16: for an `arg` element with a name and a type, read while a request or
an event of a parsed document is open, `start_element` succeeds exactly when
the type is one of the eight type names, the `interface` attribute is absent
unless the type is `object` or `new_id`, and `allow-null` is absent or is
`true` or `false` on a string, object, new_id or array; a failure is a located
error; on success the message the context points to has the new argument
appended last to its argument list, with the nullable flag set exactly when
`allow-null` is `true`. -/
theorem arg_element (pre : List xml_event) (ctx : parse_context) (hpre : parse pre = .ok ctx)
    (ptr : Nat × Bool × Nat) (hptr : ctx.message = some ptr)
    (line : Int) (atts : List (String × String)) (name type : String)
    (hname : (scan_attributes atts).name = some name)
    (htype : (scan_attributes atts).type = some type) :
    ((∃ c, start_element ctx line "arg" atts = .ok c) ↔
      type ∈ arg_type_names ∧
      ((scan_attributes atts).interface_name = none ∨ type = "object" ∨ type = "new_id") ∧
      ((scan_attributes atts).allow_null = none ∨
        (((scan_attributes atts).allow_null = some "true" ∨
            (scan_attributes atts).allow_null = some "false") ∧
          (type = "string" ∨ type = "object" ∨ type = "new_id" ∨ type = "array")))) ∧
    (∀ e, start_element ctx line "arg" atts = .error e → ∃ msg, e = .fatal line msg) ∧
    (∀ c, start_element ctx line "arg" atts = .ok c →
      ∃ m built, lookup_message ctx.protocol ptr = some m ∧
        lookup_message c.protocol ptr = some (add_arg built m) ∧
        (add_arg built m).arg_list = m.arg_list ++ [built] ∧
        built.name = name ∧ parse_arg_type type = some built.type ∧
        (built.nullable ≠ 0 ↔ (scan_attributes atts).allow_null = some "true")) := by
  have hvalid := parse_message_pointer pre ctx hpre ptr hptr
  obtain ⟨m, hm⟩ := Option.isSome_iff_exists.1 hvalid
  obtain ⟨h1, h2, h3⟩ := build_arg_spec line (scan_attributes atts) name type hname htype
  have hs : start_element ctx line "arg" atts =
      match build_arg line true (scan_attributes atts) with
      | .error e => .error e
      | .ok built =>
        .ok { ctx with
          line_number := line, character_data_length := 0
          protocol := update_message ctx.protocol ptr (add_arg built) } := by
    rw [start_element_arg]
    unfold start_arg
    simp only [hptr, Option.isSome_some]
    rfl
  rw [hs]
  cases hb : build_arg line true (scan_attributes atts) with
  | error e =>
    rw [hb] at h1 h2
    refine ⟨?_, ?_, ?_⟩
    · rw [← h1]
      simp
    · intro e1 he1
      injection he1 with he1
      exact he1 ▸ h2 e rfl
    · intro c hc
      cases hc
  | ok built =>
    rw [hb] at h1 h3
    refine ⟨?_, ?_, ?_⟩
    · rw [← h1]
      simp
    · intro e1 he1
      cases he1
    · intro c hc
      injection hc with hc
      subst hc
      obtain ⟨g1, g2, g3⟩ := h3 built rfl
      refine ⟨m, built, hm, ?_, rfl, g1, g2, g3⟩
      simp only [lookup_update_message, hm, Option.map_some']

/-- A nullable string argument is appended to the open request of the sample
document. -/
theorem arg_element_witness :
    (parse (sample_document.take 5) = .ok sample_open_context ∧
      sample_open_context.message = some (0, true, 0) ∧
      (scan_attributes [("name", "s"), ("type", "string"), ("allow-null", "true")]).name =
        some "s" ∧
      (scan_attributes [("name", "s"), ("type", "string"), ("allow-null", "true")]).type =
        some "string") ∧
    ∃ c, start_element sample_open_context 5 "arg"
      [("name", "s"), ("type", "string"), ("allow-null", "true")] = .ok c :=
  ⟨⟨by rfl, by rfl, by rfl, by rfl⟩,
    (arg_element (sample_document.take 5) sample_open_context (by rfl) (0, true, 0) (by rfl) 5
      [("name", "s"), ("type", "string"), ("allow-null", "true")] "s" "string"
      (by rfl) (by rfl)).1.2 ⟨by decide, Or.inl (by rfl), Or.inr ⟨Or.inl (by rfl), by decide⟩⟩⟩

/-! ## C17: the warning for a since-version that is not increasing -/

theorem interface_pointer_step (ctx ctx1 : parse_context) (e : xml_event)
    (hv : interface_pointer_last ctx) (h : handle_event ctx e = .ok ctx1) :
    interface_pointer_last ctx1 := by
  cases e with
  | start_tag line element_name atts =>
    rcases start_element_cases ctx ctx1 line element_name atts h with
      ⟨_, name, _, _, hl, hi, _, _⟩ | ⟨_, _, hm⟩ | ⟨_, _, _, hl, hi, _, _⟩
    · intro k hk
      rw [hi] at hk
      injection hk with hk
      rw [hl, List.length_append, ← hk]
      rfl
    · obtain ⟨name, k, i0, version, _, hk0, hi0, _, _, hc⟩ := start_message_ok _ _ _ _ hm
      subst hc
      intro k1 hk1
      simp only [length_modify_at]
      exact hv k1 hk1
    · intro k hk
      rw [hi] at hk
      have hlen := congrArg List.length hl
      simp only [List.length_map] at hlen
      rw [hlen]
      exact hv k hk
  | end_tag name =>
    obtain ⟨hp, hi, _, _⟩ := end_element_keeps ctx ctx1 name h
    intro k hk
    rw [hi] at hk
    rw [hp]
    exact hv k hk
  | text len =>
    obtain ⟨hp, hi, _, _⟩ := character_data_keeps ctx ctx1 len h
    intro k hk
    rw [hi] at hk
    rw [hp]
    exact hv k hk

theorem parse_events_interface_pointer (events : List xml_event) :
    ∀ (ctx ctx1 : parse_context), interface_pointer_last ctx →
      parse_events ctx events = .ok ctx1 → interface_pointer_last ctx1 := by
  induction events with
  | nil =>
    intro ctx ctx1 hv h
    simp only [parse_events] at h
    injection h with h
    exact h ▸ hv
  | cons e rest ih =>
    intro ctx ctx1 hv h
    simp only [parse_events] at h
    cases he : handle_event ctx e with
    | error err => simp [he] at h
    | ok ctx2 =>
      simp only [he] at h
      exact ih ctx2 ctx1 (interface_pointer_step ctx ctx2 e hv he) h

theorem parse_interface_pointer (events : List xml_event) (ctx : parse_context)
    (h : parse events = .ok ctx) : interface_pointer_last ctx :=
  parse_events_interface_pointer events initial_context ctx
    (fun k hk => by simp [initial_context] at hk) h

theorem tracks_since_step (ctx ctx1 : parse_context) (e : xml_event) (since : Int)
    (hv : tracks_since ctx since) (h : handle_event ctx e = .ok ctx1) :
    tracks_since ctx1 (document_since_step since e) := by
  cases e with
  | start_tag line element_name atts =>
    rcases start_element_cases ctx ctx1 line element_name atts h with
      ⟨hel, name, _, _, hl, hi, _, _⟩ | ⟨hne, hel, hm⟩ | ⟨hne, hnr, hnv, hl, hi, _, _⟩
    · intro k i hk hki
      rw [hi] at hk
      injection hk with hk
      subst hk
      rw [hl, List.getElem?_append_right (Nat.le_refl _)] at hki
      simp only [Nat.sub_self, List.getElem?_cons_zero, Option.some.injEq] at hki
      subst hki
      simp [document_since_step, hel]
    · obtain ⟨name, k, i0, version, _, hk0, hi0, hs, _, hc⟩ := start_message_ok _ _ _ _ hm
      subst hc
      intro k1 i1 hk1 hki
      simp only at hk1 hki
      rw [hk0] at hk1
      injection hk1 with hk1
      subst hk1
      simp only [getElem?_modify_at, if_true, hi0, Option.map_some', Option.some.injEq] at hki
      simp only [document_since_step, if_neg hne, if_pos hel, hs]
      subst hki
      by_cases hr : element_name = "request"
      · simp [hr]
      · simp [hr]
    · intro k i hk hki
      rw [hi] at hk
      have hm : (ctx1.protocol.interface_list.map interface_head)[k]? =
          some (interface_head i) := by
        rw [List.getElem?_map, hki]
        rfl
      rw [hl, List.getElem?_map] at hm
      cases hi0 : ctx.protocol.interface_list[k]? with
      | none => simp [hi0] at hm
      | some i0 =>
        simp only [hi0, Option.map_some', Option.some.injEq, interface_head,
          Prod.mk.injEq] at hm
        have h0 := hv k i0 hk hi0
        simp only [document_since_step, if_neg hne]
        rw [if_neg (by rintro (h1 | h1); exact hnr h1; exact hnv h1)]
        rw [← hm.2.2.1]
        exact h0
  | end_tag name =>
    obtain ⟨hp, hi, _, _⟩ := end_element_keeps ctx ctx1 name h
    intro k i hk hki
    rw [hi] at hk
    rw [hp] at hki
    exact hv k i hk hki
  | text len =>
    obtain ⟨hp, hi, _, _⟩ := character_data_keeps ctx ctx1 len h
    intro k i hk hki
    rw [hi] at hk
    rw [hp] at hki
    exact hv k i hk hki

theorem parse_events_tracks_since (events : List xml_event) :
    ∀ (ctx ctx1 : parse_context) (since : Int), tracks_since ctx since →
      parse_events ctx events = .ok ctx1 →
      tracks_since ctx1 (events.foldl document_since_step since) := by
  induction events with
  | nil =>
    intro ctx ctx1 since hv h
    simp only [parse_events] at h
    injection h with h
    exact h ▸ hv
  | cons e rest ih =>
    intro ctx ctx1 since hv h
    simp only [parse_events] at h
    cases he : handle_event ctx e with
    | error err => simp [he] at h
    | ok ctx2 =>
      simp only [he] at h
      exact ih ctx2 ctx1 _ (tracks_since_step ctx ctx2 e since hv he) h

theorem parse_tracks_since (events : List xml_event) (ctx : parse_context)
    (h : parse events = .ok ctx) : tracks_since ctx (document_since events) :=
  parse_events_tracks_since events initial_context ctx 1
    (fun k i hk _ => by simp [initial_context] at hk) h

theorem start_element_message (ctx : parse_context) (line : Int) (element_name : String)
    (atts : List (String × String))
    (hel : element_name = "request" ∨ element_name = "event") :
    start_element ctx line element_name atts =
      start_message { ctx with line_number := line, character_data_length := 0 }
        element_name (scan_attributes atts) := by
  unfold start_element
  rcases hel with hel | hel
  · subst hel
    simp only [String.reduceEq, if_false, if_true, true_or]
  · subst hel
    simp only [String.reduceEq, if_false, if_true, or_true]

/-- C17 as the code has it: a `request` or `event` element with a name, a since
attribute that converts (or none) and, when it is named `destroy`, the
destructor type, read after a parsed part of a document in which an interface
was started, always parses; it adds the warning "since version not
increasing" exactly when its since-version is lower than the since-version of
the most recent preceding message of either kind in that interface (1 when
the interface has no message yet), and it becomes that most recent message. -/
theorem since_warning (pre : List xml_event) (ctx : parse_context) (hpre : parse pre = .ok ctx)
    (k : Nat) (hk : ctx.interface = some k)
    (line : Int) (element_name : String) (atts : List (String × String)) (name : String)
    (v : Int) (hel : element_name = "request" ∨ element_name = "event")
    (hname : (scan_attributes atts).name = some name)
    (hv : parse_since line (scan_attributes atts).since = .ok v)
    (hd : ¬ (name = "destroy" ∧ (scan_attributes atts).type ≠ some "destructor")) :
    ∃ c, start_element ctx line element_name atts = .ok c ∧
      c.warnings =
        (if v < document_since pre then
          ctx.warnings ++ [(line, "since version not increasing\n")]
        else ctx.warnings) ∧
      document_since (pre ++ [.start_tag line element_name atts]) = v := by
  have hlast := parse_interface_pointer pre ctx hpre k hk
  have hlt : k < ctx.protocol.interface_list.length := by omega
  have hi : ctx.protocol.interface_list[k]? = some ctx.protocol.interface_list[k] :=
    List.getElem?_eq_getElem hlt
  have hs := parse_tracks_since pre ctx hpre k _ hk hi
  have hne : element_name ≠ "interface" := by
    rcases hel with hel | hel <;> subst hel <;> decide
  have hd1 : ¬ (name = "destroy" ∧
      (if (scan_attributes atts).type = some "destructor" then (1 : Int) else 0) = 0) := by
    rintro ⟨h1, h2⟩
    refine hd ⟨h1, ?_⟩
    intro ht
    rw [if_pos ht] at h2
    exact absurd h2 (by decide)
  rw [start_element_message ctx line element_name atts hel]
  unfold start_message
  simp only [hname, hk, hi, hv, if_neg hd1, hs]
  refine ⟨_, rfl, rfl, ?_⟩
  simp only [document_since, List.foldl_append, List.foldl_cons, List.foldl_nil,
    document_since_step, if_neg hne, if_pos hel, hv]

/-- C17 as the claim states it fails.  In the first document the request `r2`
has the since-version 2, lower than the 3 of the preceding request, and no
warning is given for its line 5, because an event came between them.  In the
second document the request `r2` has the since-version 2, not lower than the
1 of the preceding request, and a warning is given for its line 5, because
an event of since-version 3 came between them. -/
theorem since_warning_counterexample :
    parse sample_since_document_a =
      .ok (sample_since_context 3 1 [(4, "since version not increasing\n")]) ∧
    parse sample_since_document_b =
      .ok (sample_since_context 1 3 [(5, "since version not increasing\n")]) :=
  ⟨by rfl, by rfl⟩

/-- The first request of the sample documents, of since-version 3, parses
without a warning. -/
theorem since_warning_witness :
    (parse (sample_since_document_a.take 2) = .ok sample_interface_context ∧
      sample_interface_context.interface = some 0 ∧
      (scan_attributes [("name", "r1"), ("since", "3")]).name = some "r1" ∧
      parse_since 3 (scan_attributes [("name", "r1"), ("since", "3")]).since = .ok 3) ∧
    ∃ c, start_element sample_interface_context 3 "request" [("name", "r1"), ("since", "3")] =
        .ok c ∧
      c.warnings =
        (if 3 < document_since (sample_since_document_a.take 2) then
          sample_interface_context.warnings ++ [(3, "since version not increasing\n")]
        else sample_interface_context.warnings) ∧
      document_since (sample_since_document_a.take 2 ++
        [.start_tag 3 "request" [("name", "r1"), ("since", "3")]]) = 3 :=
  ⟨⟨by rfl, by rfl, by rfl, by rfl⟩,
    since_warning (sample_since_document_a.take 2) sample_interface_context (by rfl) 0 (by rfl)
      3 "request" [("name", "r1"), ("since", "3")] "r1" 3 (Or.inl rfl) (by rfl) (by rfl)
      (by decide)⟩

/-! ## C18: the since-version of a message -/

theorem since_wf_head (i i1 : interface) (he : interface_head i1 = interface_head i)
    (h : since_wf i) : since_wf i1 := by
  simp only [interface_head, Prod.mk.injEq] at he
  obtain ⟨_, _, _, hr, hv⟩ := he
  intro m hm
  rw [List.mem_append] at hm
  rcases hm with hm | hm
  · obtain ⟨m0, hm0, h0⟩ := mem_of_map_head_eq _ _ hr m hm
    simp only [message_head, Prod.mk.injEq] at h0
    rw [← h0.2.2]
    exact h m0 (List.mem_append_left _ hm0)
  · obtain ⟨m0, hm0, h0⟩ := mem_of_map_head_eq _ _ hv m hm
    simp only [message_head, Prod.mk.injEq] at h0
    rw [← h0.2.2]
    exact h m0 (List.mem_append_right _ hm0)

theorem parse_since_value (line : Int) (since : Option String) (v : Int)
    (h : parse_since line since = .ok v) :
    (since = none ∧ v = 1) ∨
      ∃ s, since = some s ∧ (strtol s.data 0).2 = [] ∧ s.data ≠ [] ∧
        v = to_int32 (strtol s.data 0).1 := by
  cases since with
  | none =>
    simp only [parse_since] at h
    injection h with h
    exact Or.inl ⟨rfl, h.symm⟩
  | some s =>
    right
    simp only [parse_since] at h
    split at h
    · cases h
    · rename_i hc
      injection h with h
      simp only [not_or, not_not] at hc
      refine ⟨s, rfl, hc.2, ?_, h.symm⟩
      intro he
      exact hc.1 (by rw [hc.2, he])

theorem parse_since_wf (events : List xml_event) (ctx : parse_context)
    (h : parse events = .ok ctx)
    (hdoc : since_attributes_positive events) :
    ∀ i ∈ ctx.protocol.interface_list, since_wf i := by
  refine parse_events_interfaces since_wf
    (fun a => ∀ s, a.since = some s → 1 ≤ to_int32 (strtol s.data 0).1)
    since_wf_head ?_ ?_ events
    (fun line el atts hm hel s hs => hdoc line el atts s hm hel hs) initial_context ctx h ?_
  · intro name version _ m hm
    simp at hm
  · intro i a name line v b ha hi _ hv _
    have h1 : 1 ≤ v := by
      rcases parse_since_value line a.since v hv with ⟨_, h1⟩ | ⟨s, hs, _, _, h1⟩
      · rw [h1]
      · rw [h1]
        exact ha s hs
    cases b with
    | true =>
      simp only [if_true]
      intro m hm
      simp only [List.mem_append, List.mem_singleton] at hm
      rcases hm with (hm | hm) | hm
      · exact hi m (List.mem_append_left _ hm)
      · subst hm
        exact h1
      · exact hi m (List.mem_append_right _ hm)
    | false =>
      simp only [Bool.false_eq_true, if_false]
      intro m hm
      simp only [List.mem_append, List.mem_singleton] at hm
      rcases hm with hm | hm | hm
      · exact hi m (List.mem_append_left _ hm)
      · exact hi m (List.mem_append_right _ hm)
      · subst hm
        exact h1
  · intro i hi
    simp [initial_context] at hi

/-- C18 as the code has it: the since-version of a request or event is 1 when
the since attribute is absent; a since attribute that `strtol` (base 0) does
not convert in full, the empty one among them, ends the run with the located
error "invalid integer"; an accepted since attribute yields the value
converted, whatever it is; so every request and event of a parsed description
has a since-version of at least 1 provided every since attribute of a request
or event in the document converts to a value of at least 1. -/
theorem message_since (events : List xml_event) (ctx : parse_context)
    (h : parse events = .ok ctx)
    (hdoc : since_attributes_positive events)
    (line : Int) (s : String) :
    parse_since line none = .ok 1 ∧
    ((strtol s.data 0).2 = s.data ∨ (strtol s.data 0).2 ≠ [] →
      parse_since line (some s) = .error (.fatal line ("invalid integer (" ++ s ++ ")\n"))) ∧
    (¬ ((strtol s.data 0).2 = s.data ∨ (strtol s.data 0).2 ≠ []) →
      parse_since line (some s) = .ok (to_int32 (strtol s.data 0).1)) ∧
    (∀ i ∈ ctx.protocol.interface_list, ∀ m ∈ i.request_list ++ i.event_list, 1 ≤ m.since) := by
  refine ⟨rfl, ?_, ?_, parse_since_wf events ctx h hdoc⟩
  · intro hc
    simp only [parse_since, if_pos hc]
  · intro hc
    simp only [parse_since, if_neg hc]

/-- C18 as the claim states it fails: a request with `since="0"` is accepted,
and the description has a request of since-version 0. -/
theorem message_since_counterexample :
    parse sample_zero_since_document = .ok sample_zero_since_context ∧
    (sample_zero_since_context.protocol.interface_list.map
      (fun i => i.request_list.map (fun m => m.since))) = [[0]] :=
  ⟨by rfl, by rfl⟩

/-- The open request of the sample document, with `since="2"`, has the
since-version 2. -/
theorem message_since_witness :
    (parse (sample_document.take 5) = .ok sample_open_context ∧
      since_attributes_positive (sample_document.take 5)) ∧
    parse_since 3 none = .ok 1 ∧
    (∀ i ∈ sample_open_context.protocol.interface_list,
      ∀ m ∈ i.request_list ++ i.event_list, 1 ≤ m.since) :=
  have hdoc : since_attributes_positive (sample_document.take 5) := by
    intro line element_name atts s hm hel hs
    simp only [sample_document, List.take_succ_cons, List.take_zero, List.mem_cons,
      xml_event.start_tag.injEq, List.mem_singleton, reduceCtorEq, or_false, false_or] at hm
    rcases hm with ⟨_, rfl, _⟩ | ⟨_, rfl, _⟩ | ⟨_, _, rfl⟩ | ⟨_, rfl, _⟩ | hm
    · exact absurd hel (by decide)
    · exact absurd hel (by decide)
    · have h2 : s = "2" := by
        have : (scan_attributes [("name", "bind"), ("since", "2")]).since = some "2" := by rfl
        rw [this] at hs
        injection hs with hs
        exact hs.symm
      subst h2
      decide
    · exact absurd hel (by decide)
    · cases hm
  ⟨⟨by rfl, hdoc⟩,
    (message_since (sample_document.take 5) sample_open_context (by rfl) hdoc 3 "2").1,
    (message_since (sample_document.take 5) sample_open_context (by rfl) hdoc 3 "2").2.2.2⟩

/-! ## C19: the extern declarations -/

theorem char_sub_ne_zero (x y : Char) (h : x ≠ y) : (x.toNat : Int) - (y.toNat : Int) ≠ 0 := by
  intro h0
  apply h
  have h1 : x.toNat = y.toNat := by omega
  exact Char.ext (UInt32.ext h1)

theorem strcmp_self (a : List Char) : strcmp a a = 0 := by
  induction a with
  | nil => rfl
  | cons x s ih => simp [strcmp, ih]

theorem strcmp_eq_zero (a : List Char) : ∀ b, strcmp a b = 0 → a = b := by
  induction a with
  | nil =>
    intro b h
    cases b with
    | nil => rfl
    | cons y t => simp [strcmp] at h
  | cons x s ih =>
    intro b h
    cases b with
    | nil => simp [strcmp] at h
    | cons y t =>
      simp only [strcmp] at h
      by_cases hxy : x = y
      · rw [if_pos hxy] at h
        rw [hxy, ih t h]
      · rw [if_neg hxy] at h
        exact absurd h (char_sub_ne_zero x y hxy)

theorem strcmp_swap (a : List Char) : ∀ b, strcmp a b < 0 ↔ 0 < strcmp b a := by
  induction a with
  | nil =>
    intro b
    cases b <;> simp [strcmp]
  | cons x s ih =>
    intro b
    cases b with
    | nil => simp [strcmp]
    | cons y t =>
      simp only [strcmp]
      by_cases hxy : x = y
      · rw [if_pos hxy, if_pos hxy.symm]
        exact ih t
      · rw [if_neg hxy, if_neg (fun h => hxy h.symm)]
        omega

theorem strcmp_total (a b : List Char) (h : ¬ strcmp a b ≤ 0) : strcmp b a ≤ 0 := by
  have h1 : 0 < strcmp a b := by omega
  have h2 := (strcmp_swap b a).2 h1
  omega

theorem strcmp_antisymm (a b : List Char) (h1 : strcmp a b ≤ 0) (h2 : strcmp b a ≤ 0) :
    a = b := by
  apply strcmp_eq_zero
  by_contra h0
  have h3 : strcmp a b < 0 := by omega
  have h4 := (strcmp_swap a b).1 h3
  omega

theorem strcmp_trans (a : List Char) :
    ∀ b c, strcmp a b ≤ 0 → strcmp b c ≤ 0 → strcmp a c ≤ 0 := by
  induction a with
  | nil =>
    intro b c _ _
    cases c <;> simp [strcmp]
  | cons x s ih =>
    intro b c h1 h2
    cases b with
    | nil => simp [strcmp] at h1
    | cons y t =>
      cases c with
      | nil => simp [strcmp] at h2
      | cons z u =>
        simp only [strcmp] at h1 h2 ⊢
        by_cases hxy : x = y
        · subst hxy
          rw [if_pos rfl] at h1
          by_cases hxz : x = z
          · subst hxz
            rw [if_pos rfl] at h2 ⊢
            exact ih t u h1 h2
          · rw [if_neg hxz] at h2 ⊢
            exact h2
        · rw [if_neg hxy] at h1
          have hn1 := char_sub_ne_zero x y hxy
          by_cases hyz : y = z
          · subst hyz
            rw [if_neg hxy]
            exact h1
          · rw [if_neg hyz] at h2
            have hxz : x ≠ z := by
              intro hxz
              subst hxz
              have hn2 := char_sub_ne_zero y x hyz
              omega
            rw [if_neg hxz]
            omega

theorem strcmp_lt_of_lt_of_le (a b c : List Char) (h1 : strcmp a b < 0)
    (h2 : strcmp b c ≤ 0) : strcmp a c < 0 := by
  have h3 := strcmp_trans a b c (by omega) h2
  by_contra h4
  have h5 : strcmp a c = 0 := by omega
  have h6 := strcmp_eq_zero a c h5
  subst h6
  have h7 := strcmp_antisymm a b (by omega) h2
  subst h7
  rw [strcmp_self] at h1
  exact absurd h1 (by decide)

theorem mem_sorted_insert (x y : String) (l : List String) :
    y ∈ sorted_insert x l ↔ y = x ∨ y ∈ l := by
  induction l with
  | nil => simp [sorted_insert]
  | cons z zs ih =>
    simp only [sorted_insert]
    split
    · simp
    · simp only [List.mem_cons, ih]
      tauto

theorem mem_qsort_names (y : String) (l : List String) : y ∈ qsort_names l ↔ y ∈ l := by
  induction l with
  | nil => simp [qsort_names]
  | cons x xs ih =>
    have e : qsort_names (x :: xs) = sorted_insert x (qsort_names xs) := rfl
    rw [e, mem_sorted_insert, ih, List.mem_cons]

theorem sorted_insert_sorted (x : String) (l : List String)
    (h : l.Pairwise (fun a b => strcmp a.data b.data ≤ 0)) :
    (sorted_insert x l).Pairwise (fun a b => strcmp a.data b.data ≤ 0) := by
  induction l with
  | nil => simp [sorted_insert]
  | cons z zs ih =>
    simp only [sorted_insert]
    rw [List.pairwise_cons] at h
    split
    · rename_i hxz
      rw [List.pairwise_cons]
      refine ⟨?_, List.pairwise_cons.2 h⟩
      intro b hb
      rcases List.mem_cons.1 hb with hb | hb
      · rw [hb]; exact hxz
      · exact strcmp_trans _ _ _ hxz (h.1 b hb)
    · rename_i hxz
      rw [List.pairwise_cons]
      refine ⟨?_, ih h.2⟩
      intro b hb
      rcases (mem_sorted_insert x b zs).1 hb with hb | hb
      · rw [hb]; exact strcmp_total _ _ hxz
      · exact h.1 b hb

theorem qsort_names_sorted (l : List String) :
    (qsort_names l).Pairwise (fun a b => strcmp a.data b.data ≤ 0) := by
  induction l with
  | nil => simp [qsort_names]
  | cons x xs ih => exact sorted_insert_sorted x _ ih

theorem string_eq_of_strcmp (a b : String) (h : strcmp a.data b.data = 0) : a = b :=
  String.ext (strcmp_eq_zero _ _ h)

theorem emit_extern_declarations_sorted (l : List String) :
    ∀ prev : Option String, l.Pairwise (fun a b => strcmp a.data b.data ≤ 0) →
      (∀ q, prev = some q → ∀ x ∈ l, strcmp q.data x.data ≤ 0) →
      (emit_extern_declarations prev l).Pairwise (fun a b => strcmp a.data b.data < 0) ∧
      (∀ q, prev = some q → ∀ x ∈ emit_extern_declarations prev l,
        strcmp q.data x.data < 0) ∧
      (∀ x, x ∈ emit_extern_declarations prev l ↔ x ∈ l ∧ prev ≠ some x) := by
  induction l with
  | nil =>
    intro prev _ _
    simp [emit_extern_declarations]
  | cons p rest ih =>
    intro prev hs hq
    rw [List.pairwise_cons] at hs
    simp only [emit_extern_declarations]
    by_cases hc : prev.isSome = true ∧ strcmp p.data (prev.getD "").data = 0
    · rw [if_pos hc]
      obtain ⟨q, hprev⟩ := Option.isSome_iff_exists.1 hc.1
      have hpq : p = q := by
        have := hc.2
        rw [hprev] at this
        exact string_eq_of_strcmp _ _ this
      obtain ⟨h1, h2, h3⟩ := ih prev hs.2
        (fun q1 hq1 x hx => hq q1 hq1 x (List.mem_cons_of_mem _ hx))
      refine ⟨h1, h2, ?_⟩
      intro x
      rw [h3 x, List.mem_cons]
      constructor
      · rintro ⟨hx, hne⟩
        exact ⟨Or.inr hx, hne⟩
      · rintro ⟨hx | hx, hne⟩
        · exact absurd (by rw [hprev, hx, hpq]) hne
        · exact ⟨hx, hne⟩
    · rw [if_neg hc]
      obtain ⟨h1, h2, h3⟩ := ih (some p) hs.2
        (fun q1 hq1 x hx => by
          injection hq1 with hq1
          subst hq1
          exact hs.1 x hx)
      have hlt : ∀ q, prev = some q → strcmp q.data p.data < 0 := by
        intro q hprev
        have hle := hq q hprev p (List.mem_cons_self _ _)
        by_contra hn
        have h0 : strcmp q.data p.data = 0 := by omega
        have hqp := string_eq_of_strcmp _ _ h0
        apply hc
        rw [hprev]
        refine ⟨rfl, ?_⟩
        simp only [Option.getD_some]
        rw [hqp]
        exact strcmp_self _
      refine ⟨?_, ?_, ?_⟩
      · rw [List.pairwise_cons]
        exact ⟨fun x hx => h2 p rfl x hx, h1⟩
      · intro q hprev x hx
        rcases List.mem_cons.1 hx with hx | hx
        · rw [hx]; exact hlt q hprev
        · have hpx := h2 p rfl x hx
          exact strcmp_lt_of_lt_of_le _ _ _ (hlt q hprev) (by omega)
      · intro x
        rw [List.mem_cons, h3 x, List.mem_cons]
        constructor
        · rintro (hx | ⟨hx, _⟩)
          · refine ⟨Or.inl hx, ?_⟩
            intro hprev
            have := hlt x hprev
            rw [hx, strcmp_self] at this
            exact absurd this (by decide)
          · refine ⟨Or.inr hx, ?_⟩
            intro hprev
            have h4 := hlt x hprev
            have h5 := hs.1 x hx
            have h6 := strcmp_lt_of_lt_of_le _ _ _ h4 h5
            rw [strcmp_self] at h6
            exact absurd h6 (by decide)
        · rintro ⟨hx | hx, _⟩
          · exact Or.inl hx
          · by_cases hxp : x = p
            · exact Or.inl hxp
            · exact Or.inr ⟨hx, fun h => hxp (by injection h with h; exact h.symm)⟩

theorem forward_args_types (args : List arg) :
    ∀ (length all_null : Int) (types : List String),
      (forward_args args (length, all_null, types)).2.2 =
        types ++ args.filterMap emit_type_slot := by
  induction args with
  | nil => intro length all_null types; simp [forward_args]
  | cons a t ih =>
    intro length all_null types
    cases ht : a.type <;> cases hi : a.interface_name <;>
      simp [forward_args, ht, hi, ih, emit_type_slot, List.filterMap_cons]

theorem forward_declarations_types (l : List message) :
    ∀ (n : Int) (types : List String),
      (emit_types_forward_declarations n l types).2.2 = types ++ peer_names l := by
  induction l with
  | nil => intro n types; simp [emit_types_forward_declarations, peer_names]
  | cons m t ih =>
    intro n types
    simp only [emit_types_forward_declarations, ih, forward_args_types, peer_names,
      List.flatMap_cons, List.append_assoc]

theorem forward_interfaces_types (l : List interface) :
    ∀ (n : Int) (types : List String),
      (forward_interfaces n l types).2.2 = types ++ peer_names (visit_order l) := by
  induction l with
  | nil => intro n types; simp [forward_interfaces, peer_names, visit_order]
  | cons i t ih =>
    intro n types
    simp only [forward_interfaces, ih, forward_declarations_types, peer_names, visit_order,
      List.flatMap_cons, List.flatMap_append, List.append_assoc]

theorem mem_peer_names (n : String) (l : List message) :
    n ∈ peer_names l ↔
      ∃ m ∈ l, ∃ a ∈ m.arg_list,
        (a.type = .OBJECT ∨ a.type = .NEW_ID) ∧ a.interface_name = some n := by
  simp only [peer_names, List.mem_flatMap, List.mem_filterMap]
  constructor
  · rintro ⟨m, hm, a, ha, hs⟩
    refine ⟨m, hm, a, ha, ?_⟩
    revert hs
    simp only [emit_type_slot]
    cases a.type <;> simp
  · rintro ⟨m, hm, a, ha, ht, hn⟩
    refine ⟨m, hm, a, ha, ?_⟩
    simp only [emit_type_slot]
    rcases ht with ht | ht <;> rw [ht] <;> exact hn

/-- C19: the extern declarations `emit_code` writes for a protocol are strictly
increasing in the order of `strcmp`, so sorted and without a repeat, and a name
is among them exactly when an `object` or `new_id` argument of a request or
event of an interface of the protocol carries it as its interface name. -/
theorem extern_declarations (p : protocol) :
    (emit_code p).externs.Pairwise (fun a b => strcmp a.data b.data < 0) ∧
    (emit_code p).externs.Nodup ∧
    ∀ n, n ∈ (emit_code p).externs ↔
      ∃ i ∈ p.interface_list, ∃ m ∈ i.request_list ++ i.event_list, ∃ a ∈ m.arg_list,
        (a.type = .OBJECT ∨ a.type = .NEW_ID) ∧ a.interface_name = some n := by
  have e : (emit_code p).externs =
      emit_extern_declarations none (qsort_names (peer_names (visit_order p.interface_list))) := by
    simp only [emit_code, forward_interfaces_types, List.nil_append]
  obtain ⟨h1, _, h3⟩ := emit_extern_declarations_sorted
    (qsort_names (peer_names (visit_order p.interface_list))) none (qsort_names_sorted _)
    (fun q hq => by cases hq)
  rw [e]
  refine ⟨h1, ?_, ?_⟩
  · refine h1.imp ?_
    intro a b hab heq
    rw [heq, strcmp_self] at hab
    exact absurd hab (by decide)
  · intro n
    rw [h3 n, mem_qsort_names, mem_peer_names]
    simp only [visit_order, List.mem_flatMap, ne_eq, reduceCtorEq, not_false_eq_true, and_true]
    constructor
    · rintro ⟨m, ⟨i, hi, hm⟩, a, ha, hp⟩
      exact ⟨i, hi, m, hm, a, ha, hp⟩
    · rintro ⟨i, hi, m, hm, a, ha, hp⟩
      exact ⟨m, ⟨i, hi, hm⟩, a, ha, hp⟩

/-! ## C20: the opcodes -/

theorem emit_opcodes_loop_get (i : interface) (l : List message) :
    ∀ (start : Int) (k : Nat) (m : message), l[k]? = some m →
      (emit_opcodes_loop i start l)[k]? =
        some { name := uppercase_dup i.name ++ "_" ++ uppercase_dup m.name,
               opcode := start + k } := by
  induction l with
  | nil => intro start k m h; simp at h
  | cons x xs ih =>
    intro start k m h
    cases k with
    | zero =>
      simp only [List.getElem?_cons_zero, Option.some.injEq] at h
      subst h
      simp [emit_opcodes_loop]
    | succ k =>
      simp only [List.getElem?_cons_succ] at h
      simp only [emit_opcodes_loop, List.getElem?_cons_succ]
      rw [ih (start + 1) k m h]
      simp only [Nat.cast_add, Nat.cast_one, Option.some.injEq, opcode_row.mk.injEq, true_and]
      omega

theorem emit_opcodes_loop_opcodes (i : interface) (l : List message) :
    ∀ (start : Int), (emit_opcodes_loop i start l).map (fun r => r.opcode) =
      (List.range l.length).map (fun (k : Nat) => start + (k : Int)) := by
  induction l with
  | nil => intro start; rfl
  | cons x xs ih =>
    intro start
    simp only [emit_opcodes_loop, List.map_cons, List.length_cons, List.range_succ_eq_map,
      List.map_map, ih, Nat.cast_zero, add_zero, List.cons.injEq, true_and]
    apply List.map_congr_left
    intro k _
    simp only [Function.comp, Nat.cast_succ]
    omega

theorem emit_opcodes_eq (i : interface) (l : List message) :
    emit_opcodes l i = emit_opcodes_loop i 0 l := by
  cases l <;> rfl

theorem modify_at_map_comm {α β : Type} (g : α → β) (f : α → α) (f1 : β → β) (n : Nat)
    (l : List α) (h : ∀ x, l[n]? = some x → g (f x) = f1 (g x)) :
    (modify_at f n l).map g = modify_at f1 n (l.map g) := by
  induction l generalizing n with
  | nil => cases n <;> rfl
  | cons x xs ih =>
    cases n with
    | zero =>
      simp only [modify_at, List.map_cons]
      rw [h x (List.getElem?_cons_zero ..)]
    | succ n =>
      simp only [modify_at, List.map_cons]
      rw [ih n (fun y hy => h y (by simpa using hy))]

theorem modify_at_id {α : Type} (f : α → α) (n : Nat) (l : List α)
    (h : ∀ x, l[n]? = some x → f x = x) : modify_at f n l = l := by
  induction l generalizing n with
  | nil => cases n <;> rfl
  | cons x xs ih =>
    cases n with
    | zero => simp only [modify_at]; rw [h x (List.getElem?_cons_zero ..)]
    | succ n =>
      simp only [modify_at]
      rw [ih n (fun y hy => h y (by simpa using hy))]

theorem message_names_head (kind : String) (i : interface) :
    message_names kind i =
      if kind = "request" then (interface_head i).2.2.2.1.map (fun h => h.1)
      else (interface_head i).2.2.2.2.map (fun h => h.1) := by
  simp only [message_names, interface_head, List.map_map]
  rfl

theorem message_names_of_heads (kind : String) (l l1 : List interface)
    (h : l1.map interface_head = l.map interface_head) :
    l1.map (message_names kind) = l.map (message_names kind) := by
  have e : ∀ l0 : List interface, l0.map (message_names kind) =
      (l0.map interface_head).map (fun hd =>
        if kind = "request" then hd.2.2.2.1.map (fun h => h.1)
        else hd.2.2.2.2.map (fun h => h.1)) := by
    intro l0
    rw [List.map_map]
    apply List.map_congr_left
    intro i _
    exact message_names_head kind i
  rw [e l1, e l, h]

theorem document_messages_step_ok (kind : String) (hkind : kind = "request" ∨ kind = "event")
    (ctx ctx1 : parse_context) (e : xml_event) (hv : interface_pointer_last ctx)
    (h : handle_event ctx e = .ok ctx1) :
    ctx1.protocol.interface_list.map (message_names kind) =
      document_messages_step kind (ctx.protocol.interface_list.map (message_names kind)) e := by
  have hki : kind ≠ "interface" := by
    rcases hkind with hk | hk <;> subst hk <;> decide
  cases e with
  | start_tag line element_name atts =>
    rcases start_element_cases ctx ctx1 line element_name atts h with
      ⟨hel, name, _, _, hl, _, _, _⟩ | ⟨hne, hel, hm⟩ | ⟨hne, hnr, hnv, hl, _, _, _⟩
    · simp only [document_messages_step, if_pos hel, hl, List.map_append, List.map_cons,
        List.map_nil]
      congr 2
      simp [message_names]
    · obtain ⟨name, k, i0, version, hn, hk0, hi0, _, _, hc⟩ := start_message_ok _ _ _ _ hm
      subst hc
      have hlast := hv k hk0
      simp only [document_messages_step, if_neg hne, hn, List.length_map]
      have hk1 : ctx.protocol.interface_list.length - 1 = k := by omega
      rw [hk1]
      by_cases hek : element_name = kind
      · rw [if_pos hek]
        apply modify_at_map_comm
        intro x hx
        rw [hi0] at hx
        injection hx with hx
        subst hx
        subst hek
        rcases hel with hr | hr
        · subst hr
          simp [message_names, new_message]
        · subst hr
          simp [message_names, new_message]
      · rw [if_neg hek]
        have e1 := modify_at_map_comm (message_names kind) (fun _ =>
            if decide (element_name = "request") = true then
              { i0 with
                request_list := i0.request_list ++
                  [new_message name (if (scan_attributes atts).type = some "destructor" then 1
                    else 0) version]
                since := version }
            else
              { i0 with
                event_list := i0.event_list ++
                  [new_message name (if (scan_attributes atts).type = some "destructor" then 1
                    else 0) version]
                since := version }) id k ctx.protocol.interface_list (by
          intro x hx
          rw [hi0] at hx
          injection hx with hx
          subst hx
          rcases hel with hr | hr
          · subst hr
            have hk2 : kind ≠ "request" := fun h => hek h.symm
            simp [message_names, hk2]
          · subst hr
            have hk2 : kind = "request" := by
              rcases hkind with hk | hk
              · exact hk
              · exact absurd hk.symm hek
            simp [message_names, hk2])
        rw [modify_at_id id k _ (fun _ _ => rfl)] at e1
        exact e1
    · have hek : element_name ≠ kind := by
        rcases hkind with hk | hk <;> subst hk <;> assumption
      simp only [document_messages_step, if_neg hne, if_neg hek]
      exact message_names_of_heads kind _ _ hl
  | end_tag name =>
    rw [(end_element_keeps ctx ctx1 name h).1]
    rfl
  | text len =>
    rw [(character_data_keeps ctx ctx1 len h).1]
    rfl

theorem parse_events_document_messages (kind : String)
    (hkind : kind = "request" ∨ kind = "event") (events : List xml_event) :
    ∀ (ctx ctx1 : parse_context), interface_pointer_last ctx →
      parse_events ctx events = .ok ctx1 →
      ctx1.protocol.interface_list.map (message_names kind) =
        events.foldl (document_messages_step kind)
          (ctx.protocol.interface_list.map (message_names kind)) := by
  induction events with
  | nil =>
    intro ctx ctx1 _ h
    simp only [parse_events] at h
    injection h with h
    subst h
    rfl
  | cons e rest ih =>
    intro ctx ctx1 hv h
    simp only [parse_events] at h
    cases he : handle_event ctx e with
    | error err => simp [he] at h
    | ok ctx2 =>
      simp only [he] at h
      rw [List.foldl_cons, ← document_messages_step_ok kind hkind ctx ctx2 e hv he]
      exact ih ctx2 ctx1 (interface_pointer_step ctx ctx2 e hv he) h

theorem forward_declarations_names (l : List message) :
    ∀ (n : Int) (types : List String),
      (emit_types_forward_declarations n l types).2.1.map (fun m => m.name) =
        l.map (fun m => m.name) := by
  induction l with
  | nil => intro n types; rfl
  | cons m t ih =>
    intro n types
    simp only [emit_types_forward_declarations, List.map_cons, ih]

theorem emit_types_names (n : Int) (l : List message) :
    ∀ (type_index : Int),
      (emit_types n type_index l).2.1.map (fun m => m.name) = l.map (fun m => m.name) := by
  induction l with
  | nil => intro type_index; rfl
  | cons m t ih =>
    intro type_index
    simp only [emit_types]
    split <;> simp only [List.map_cons, ih]

theorem forward_interfaces_names (l : List interface) :
    ∀ (n : Int) (types : List String),
      (forward_interfaces n l types).2.1.map
          (fun i => (i.request_list.map (fun m => m.name), i.event_list.map (fun m => m.name))) =
        l.map
          (fun i => (i.request_list.map (fun m => m.name), i.event_list.map (fun m => m.name))) := by
  induction l with
  | nil => intro n types; rfl
  | cons i t ih =>
    intro n types
    simp only [forward_interfaces, List.map_cons, ih, forward_declarations_names]

theorem types_interfaces_names (n : Int) (l : List interface) :
    ∀ (type_index : Int),
      (types_interfaces n type_index l).2.1.map
          (fun i => (i.request_list.map (fun m => m.name), i.event_list.map (fun m => m.name))) =
        l.map
          (fun i => (i.request_list.map (fun m => m.name), i.event_list.map (fun m => m.name))) := by
  induction l with
  | nil => intro type_index; rfl
  | cons i t ih =>
    intro type_index
    simp only [types_interfaces, List.map_cons, ih, emit_types_names]

theorem emit_code_names (p : protocol) :
    (emit_code p).interfaces.map
        (fun r => (r.requests.map (fun x => x.name), r.events.map (fun x => x.name))) =
      p.interface_list.map
        (fun i => (i.request_list.map (fun m => m.name), i.event_list.map (fun m => m.name))) := by
  have e : ∀ l : List message, (emit_messages l).map (fun x => x.name) =
      l.map (fun m => m.name) := by
    intro l
    simp only [emit_messages, List.map_map]
    rfl
  simp only [emit_code, List.map_map]
  rw [← forward_interfaces_names p.interface_list p.null_run_length [],
    ← types_interfaces_names (forward_interfaces p.null_run_length p.interface_list []).1
      (forward_interfaces p.null_run_length p.interface_list []).2.1 p.type_index]
  apply List.map_congr_left
  intro i _
  simp only [Function.comp, e]

/-- C20: in a parsed description the requests and the events of every interface
are listed in the order of the document; for each of the two lists of an
interface the opcodes `emit_opcodes` prints are 0, 1, 2, ... in list order, so
the opcode of a message is its position among the messages of its kind, and
the row of the `wl_message` table `emit_messages` prints at that index is the
row of that message; the tables of `emit_code` list the same names in the same
order. -/
theorem opcodes_dense (events : List xml_event) (ctx : parse_context)
    (h : parse events = .ok ctx) :
    ctx.protocol.interface_list.map (fun i => i.request_list.map (fun m => m.name)) =
      document_messages "request" events ∧
    ctx.protocol.interface_list.map (fun i => i.event_list.map (fun m => m.name)) =
      document_messages "event" events ∧
    (∀ i ∈ ctx.protocol.interface_list, ∀ l, l = i.request_list ∨ l = i.event_list →
      (emit_opcodes l i).map (fun r => r.opcode) =
        (List.range l.length).map (fun (k : Nat) => (k : Int)) ∧
      ∀ (k : Nat) (m : message), l[k]? = some m →
        (emit_opcodes l i)[k]? =
          some { name := uppercase_dup i.name ++ "_" ++ uppercase_dup m.name, opcode := k } ∧
        (emit_messages l)[k]? = some (emit_message m)) ∧
    (emit_code ctx.protocol).interfaces.map
        (fun r => (r.requests.map (fun x => x.name), r.events.map (fun x => x.name))) =
      ctx.protocol.interface_list.map
        (fun i => (i.request_list.map (fun m => m.name), i.event_list.map (fun m => m.name))) := by
  have hp : interface_pointer_last initial_context := fun k hk => by
    simp [initial_context] at hk
  have hr := parse_events_document_messages "request" (Or.inl rfl) events initial_context ctx hp h
  have he := parse_events_document_messages "event" (Or.inr rfl) events initial_context ctx hp h
  refine ⟨?_, ?_, ?_, emit_code_names ctx.protocol⟩
  · simpa [message_names, document_messages, initial_context] using hr
  · simpa [message_names, document_messages, initial_context] using he
  · intro i _ l _
    rw [emit_opcodes_eq]
    refine ⟨?_, ?_⟩
    · rw [emit_opcodes_loop_opcodes]
      apply List.map_congr_left
      intro k _
      omega
    · intro k m hk
      refine ⟨?_, ?_⟩
      · rw [emit_opcodes_loop_get i l 0 k m hk]
        simp
      · simp [emit_messages, hk]

/-- The requests `r1` and `r2` of the sample document have the opcodes 0 and 1. -/
theorem opcodes_dense_witness :
    parse sample_since_document_a =
      .ok (sample_since_context 3 1 [(4, "since version not increasing\n")]) ∧
    document_messages "request" sample_since_document_a = [["r1", "r2"]] ∧
    (emit_opcodes [new_message "r1" 0 3, new_message "r2" 0 2]
        { name := "wl_a", version := 3, since := 2,
          request_list := [new_message "r1" 0 3, new_message "r2" 0 2],
          event_list := [new_message "e1" 0 1], enumeration_list := [] }).map
      (fun r => r.opcode) = [0, 1] :=
  ⟨by rfl,
    (opcodes_dense sample_since_document_a
      (sample_since_context 3 1 [(4, "since version not increasing\n")]) (by rfl)).1.symm,
    ((opcodes_dense sample_since_document_a
      (sample_since_context 3 1 [(4, "since version not increasing\n")]) (by rfl)).2.2.1
      { name := "wl_a", version := 3, since := 2,
        request_list := [new_message "r1" 0 3, new_message "r2" 0 2],
        event_list := [new_message "e1" 0 1], enumeration_list := [] }
      (by simp [sample_since_context]) _ (Or.inl rfl)).1⟩

/-! ## C28: the wire fields of a signature and the slots of the types vector -/

theorem wire_fields_append (a b : String) :
    wire_fields (a ++ b) = wire_fields a + wire_fields b := by
  unfold wire_fields
  rw [String.data_append, List.filter_append, List.length_append]

theorem digitChar_isDigit (d : Nat) (h : d < 10) : (Nat.digitChar d).isDigit = true := by
  interval_cases d <;> decide

theorem toDigitsCore_isDigit (fuel : Nat) :
    ∀ (n : Nat) (acc : List Char), (∀ c ∈ acc, c.isDigit = true) →
      ∀ c ∈ Nat.toDigitsCore 10 fuel n acc, c.isDigit = true := by
  induction fuel with
  | zero => intro n acc h; exact h
  | succ f ih =>
    intro n acc h
    have hd : ∀ c ∈ Nat.digitChar (n % 10) :: acc, c.isDigit = true := by
      intro c hc
      rcases List.mem_cons.mp hc with rfl | hc
      · exact digitChar_isDigit _ (Nat.mod_lt _ (by decide))
      · exact h c hc
    unfold Nat.toDigitsCore
    simp only
    split
    · exact hd
    · exact ih _ _ hd

theorem wire_fields_repr (n : Nat) : wire_fields (Nat.repr n) = 0 := by
  unfold wire_fields Nat.repr Nat.toDigits
  rw [List.length_eq_zero, List.filter_eq_nil_iff]
  intro c hc
  have h := toDigitsCore_isDigit (n + 1) n [] (fun _ h => absurd h (List.not_mem_nil _)) c hc
  simp [is_field_char, h]

theorem wire_fields_spec_arg (a : arg) :
    wire_fields (spec_arg a) =
      1 + 2 * (if a.type = .NEW_ID ∧ a.interface_name = none then 1 else 0) := by
  unfold spec_arg spec_kind
  by_cases hn : a.nullable = 0 <;> cases ht : a.type <;> cases hi : a.interface_name <;>
    simp [hn] <;> decide

theorem wire_fields_join (l : List arg) :
    wire_fields (String.join (l.map spec_arg)) =
      l.length + 2 * (l.filter (fun a => decide (a.type = .NEW_ID ∧ a.interface_name = none))).length := by
  induction l with
  | nil => rfl
  | cons a t ih =>
    rw [List.map_cons, string_join_cons, wire_fields_append, ih, wire_fields_spec_arg,
      List.filter_cons]
    by_cases h : a.type = .NEW_ID ∧ a.interface_name = none
    · simp only [h, and_self, decide_True, if_true, List.length_cons]
      omega
    · simp only [h, decide_False, if_false, List.length_cons, Bool.false_eq_true]
      omega

/-- The number of wire fields of the signature printed for a well-formed
message. -/
theorem wire_fields_emit_message (m : message) (h : message_wf m) :
    ((wire_fields (emit_message m).signature : Nat) : Int) =
      m.arg_count + 2 * (generic_new_ids m : Int) := by
  rw [emit_message_eq m h.2]
  unfold spec_row spec_signature generic_new_ids
  simp only
  rw [wire_fields_append,
    show (fun a : arg => (if a.nullable ≠ 0 then "?" else "") ++ spec_kind a) = spec_arg from rfl,
    wire_fields_join, h.1]
  have h0 : wire_fields (if m.since > 1 then Nat.repr m.since.toNat else "") = 0 := by
    split
    · exact wire_fields_repr _
    · rfl
  rw [h0]
  push_cast
  ring

/-- C28: for every document the parser accepts and every message, the number
of wire fields named by the signature `emit_messages` prints is the argument
count, which is the number of slots of the types vector reserved for the
message, plus two for every new_id argument that names no interface, printed
as `sun` for its one slot.  For a message without such an argument the two
numbers agree, and when the message is all-null its fields stay inside the
NULL run. -/
theorem signature_fields (events : List xml_event) (out : code_output)
    (h : main_code events = .ok out) :
    out.interfaces = out.protocol.interface_list.map (fun i =>
      { name := i.name, version := i.version,
        requests := i.request_list.map emit_message,
        events := i.event_list.map emit_message }) ∧
    ∀ m ∈ visit_order out.protocol.interface_list,
      ((wire_fields (emit_message m).signature : Nat) : Int) =
        m.arg_count + 2 * (generic_new_ids m : Int) ∧
      m.arg_count = m.arg_list.length ∧
      (generic_new_ids m = 0 →
        ((wire_fields (emit_message m).signature : Nat) : Int) = m.arg_count ∧
        (m.all_null ≠ 0 →
          ((wire_fields (emit_message m).signature : Nat) : Int) ≤
            out.protocol.null_run_length)) := by
  rcases main_code_ok events out h with ⟨ctx, hp, rfl⟩
  have hc := parse_counters events ctx hp
  have hw := emit_code_wf ctx.protocol (parse_wf events ctx hp) hc.1 hc.2
  have hshape := types_vector_shape ctx.protocol hc.1 hc.2
  refine ⟨rfl, ?_⟩
  intro m hm
  have hf := wire_fields_emit_message m (hw m hm)
  refine ⟨hf, (hw m hm).1, ?_⟩
  intro hg
  rw [hg] at hf
  refine ⟨by rw [hf]; simp, ?_⟩
  intro hn
  have hle := le_max_null_args _ m hm hn
  rw [← hshape.1] at hle
  rw [hf, (hw m hm).1]
  simpa using hle

/-- The claim C28 fails on the sample document: the signature `2sun?s` of the
request names four wire fields, the request has two arguments and so two
slots, and being all-null its fields run past the NULL run of length 2. -/
theorem signature_fields_counterexample :
    main_code sample_document = .ok sample_output ∧
    sample_bind ∈ visit_order sample_output.protocol.interface_list ∧
    (emit_message sample_bind).signature = "2sun?s" ∧
    wire_fields (emit_message sample_bind).signature = 4 ∧
    sample_bind.arg_count = 2 ∧
    sample_bind.all_null ≠ 0 ∧
    sample_output.protocol.null_run_length = 2 := by
  refine ⟨by rfl, by decide, by decide, by decide, by decide, by decide, by decide⟩

/-- On the sample document the event `ev`, with the signature `io`, names two
wire fields for its two slots. -/
theorem signature_fields_witness :
    main_code sample_document = .ok sample_output ∧
    ((wire_fields (emit_message sample_ev).signature : Nat) : Int) =
      sample_ev.arg_count + 2 * (generic_new_ids sample_ev : Int) ∧
    generic_new_ids sample_ev = 0 :=
  ⟨by rfl,
    ((signature_fields sample_document sample_output (by rfl)).2 sample_ev (by decide)).1,
    by decide⟩

end Scanner

namespace Server

/-! ## The frame header -/

theorem read_word_bytes (w : Nat) (rest : List Nat) (h : w < 2 ^ 32) :
    read_word (word_bytes w ++ rest) = w := by
  simp only [word_bytes, read_word, List.cons_append, List.nil_append, List.getD_cons_zero,
    List.getD_cons_succ]
  omega

theorem header_word_eq (size opcode : Nat) (hs : size < 2 ^ 16) (hc : opcode < 2 ^ 16) :
    header_word size opcode = 2 ^ 16 * size + opcode := by
  unfold header_word UINT32_RANGE
  rw [Nat.shiftLeft_eq, Nat.mul_comm, ← Nat.mul_add_lt_is_or hc]
  apply Nat.mod_eq_of_lt
  omega

/-- C4: for a frame size and an opcode below 2^16 the header word
`(size << 16) | opcode` is decoded by the dispatcher, `opcode = w & 0xffff` and
`size = w >> 16`, back to the opcode and the size, and the first word of the
header the dispatcher peeks is the id of the target object. -/
theorem header_round_trip (id size opcode : Nat) (rest : List Nat) (hid : id < 2 ^ 32)
    (hs : size < 2 ^ 16) (hc : opcode < 2 ^ 16) :
    wl_connection_copy
        { input := word_bytes id ++ (word_bytes (header_word size opcode) ++ rest) } =
      (id, header_word size opcode) ∧
    frame_opcode (header_word size opcode) = opcode ∧
    frame_size (header_word size opcode) = size := by
  have hw := header_word_eq size opcode hs hc
  have hlt : header_word size opcode < 2 ^ 32 := by rw [hw]; omega
  refine ⟨?_, ?_, ?_⟩
  · unfold wl_connection_copy
    simp only
    rw [read_word_bytes id _ hid]
    have hdrop : (word_bytes id ++ (word_bytes (header_word size opcode) ++ rest)).drop 4 =
        word_bytes (header_word size opcode) ++ rest := by
      simp [word_bytes]
    rw [hdrop, read_word_bytes _ _ hlt]
  · unfold frame_opcode
    rw [hw, show (0xffff : Nat) = 2 ^ 16 - 1 from rfl, Nat.and_pow_two_sub_one_eq_mod]
    congr 1
    omega
  · unfold frame_size
    rw [hw, Nat.shiftRight_eq_div_pow]
    congr 1
    omega

/-- A frame of 12 bytes with opcode 4444 for object 1234, as the marshalling
test sends it. -/
theorem header_round_trip_witness :
    (1234 < 2 ^ 32 ∧ 12 < 2 ^ 16 ∧ 4444 < 2 ^ 16) ∧
    frame_opcode (header_word 12 4444) = 4444 ∧ frame_size (header_word 12 4444) = 12 :=
  ⟨by decide,
    (header_round_trip 1234 12 4444 [] (by decide) (by decide) (by decide)).2⟩

/-! ## Posting events and errors -/

theorem post_event_log (env : Env) (s : state) (r : wl_resource) (opcode : Nat)
    (args : List wl_argument) :
    (wl_resource_post_event env s r opcode args).log = s.log ++ [.post_event r opcode args] := by
  unfold wl_resource_post_event
  simp only
  split
  · rfl
  · split <;> rfl

theorem post_event_error (env : Env) (s : state) (r : wl_resource) (opcode : Nat)
    (args : List wl_argument) (h : s.client.error = 1) :
    (wl_resource_post_event env s r opcode args).client.error = 1 := by
  unfold wl_resource_post_event
  simp only
  split
  · rfl
  · split
    · rfl
    · exact h

theorem post_error_flag (env : Env) (s : state) (r : wl_resource) (code : Nat) (msg : String)
    (values : List wl_argument) :
    (wl_resource_post_error env s r code msg values).client.error = 1 := by
  unfold wl_resource_post_error
  simp only
  split
  · rfl
  · exact post_event_error _ _ _ _ _ rfl

theorem post_error_log (env : Env) (s : state) (r d : wl_resource) (code : Nat) (msg : String)
    (values : List wl_argument) (hd : s.client.display_resource = some d) :
    (wl_resource_post_error env s r code msg values).log =
      s.log ++ [.post_event d WL_DISPLAY_ERROR
        [.o (some r.id), .u code, .s (some (env.vsnprintf msg values))]] := by
  unfold wl_resource_post_error
  simp only [hd]
  rw [post_event_log]

theorem loop_error_stop (env : Env) (s : state) (d : wl_resource) (code : Nat) (msg : String)
    (values : List wl_argument) (hd : s.client.display_resource = some d) :
    loop_error env s code msg values =
      .stop (wl_resource_post_error env s d code msg values) := by
  unfold loop_error post_error_on_display
  simp only [hd]

theorem destroy_on_error_of_flag (s : state) (h : s.client.error ≠ 0) :
    destroy_on_error s = wl_client_destroy s := by
  unfold destroy_on_error
  rw [if_pos h]

theorem dispatch_frames_of_stop (env : Env) (fuel : Nat) (s s1 : state) (len : Int)
    (h : dispatch_frame env s len = .stop s1) :
    dispatch_frames env (fuel + 1) s len = .ok (destroy_on_error s1) := by
  unfold dispatch_frames frame_loop
  simp only [h]

/-! ## C5: frames for an unknown object or an unknown method -/

/-- C5: a complete buffered frame whose target id has no live resource in the
object map makes the dispatcher post `wl_display.error` with the code
`invalid_object`, and one whose opcode is not below the `method_count` of the
interface of the resource makes it post the code `invalid_method`; in both
cases the log gains the error event and the destruction of the client and
nothing else, so no handler runs, and the function returns. -/
theorem invalid_frame_is_refused (env : Env) (fuel : Nat) (s : state) (len : Int)
    (d : wl_resource) (hd : s.client.display_resource = some d)
    (h8 : 8 ≤ len) (hint : len < 2 ^ 31)
    (hsize : frame_size (wl_connection_copy s.client.connection).2 ≤ len) :
    (wl_map_lookup s.client.objects (wl_connection_copy s.client.connection).1 = none →
      ∃ out, dispatch_frames env (fuel + 1) s len = .ok out ∧ out.client.error = 1 ∧
        out.log = s.log ++
          [.post_event d WL_DISPLAY_ERROR
            [.o (some d.id), .u WL_DISPLAY_ERROR_INVALID_OBJECT,
             .s (some (env.vsnprintf "invalid object %u"
               [.u (wl_connection_copy s.client.connection).1]))],
           .client_destroy]) ∧
    (∀ r, wl_map_lookup s.client.objects (wl_connection_copy s.client.connection).1 = some r →
      frame_opcode (wl_connection_copy s.client.connection).2 ≥ r.interface.method_count →
      ∃ out, dispatch_frames env (fuel + 1) s len = .ok out ∧ out.client.error = 1 ∧
        out.log = s.log ++
          [.post_event d WL_DISPLAY_ERROR
            [.o (some d.id), .u WL_DISPLAY_ERROR_INVALID_METHOD,
             .s (some (env.vsnprintf "invalid method %d, object %s@%u"
               [.i (frame_opcode (wl_connection_copy s.client.connection).2),
                .s (some r.interface.name), .u r.id]))],
           .client_destroy]) := by
  have hcond : ¬ (len % 2 ^ 64 < 8) := by omega
  have hsz : ¬ (len < frame_size (wl_connection_copy s.client.connection).2) := by omega
  constructor
  · intro hnone
    have hstep : dispatch_frame env s len =
        .stop (wl_resource_post_error env s d WL_DISPLAY_ERROR_INVALID_OBJECT
          "invalid object %u" [.u (wl_connection_copy s.client.connection).1]) := by
      unfold dispatch_frame
      simp only [if_neg hcond, if_neg hsz, hnone]
      exact loop_error_stop env s d _ _ _ hd
    refine ⟨_, dispatch_frames_of_stop env fuel s _ len hstep, ?_, ?_⟩
    · rw [destroy_on_error_of_flag _ (by rw [post_error_flag]; decide)]
      exact post_error_flag _ _ _ _ _ _
    · rw [destroy_on_error_of_flag _ (by rw [post_error_flag]; decide)]
      show (wl_resource_post_error _ _ _ _ _ _).log ++ [action.client_destroy] = _
      rw [post_error_log env s d d _ _ _ hd]
      simp
  · intro r hsome hop
    have hstep : dispatch_frame env s len =
        .stop (wl_resource_post_error env s d WL_DISPLAY_ERROR_INVALID_METHOD
          "invalid method %d, object %s@%u"
          [.i (frame_opcode (wl_connection_copy s.client.connection).2),
           .s (some r.interface.name), .u r.id]) := by
      unfold dispatch_frame
      simp only [if_neg hcond, if_neg hsz, hsome, if_pos hop]
      exact loop_error_stop env s d _ _ _ hd
    refine ⟨_, dispatch_frames_of_stop env fuel s _ len hstep, ?_, ?_⟩
    · rw [destroy_on_error_of_flag _ (by rw [post_error_flag]; decide)]
      exact post_error_flag _ _ _ _ _ _
    · rw [destroy_on_error_of_flag _ (by rw [post_error_flag]; decide)]
      show (wl_resource_post_error _ _ _ _ _ _).log ++ [action.client_destroy] = _
      rw [post_error_log env s d d _ _ _ hd]
      simp

/-- A frame for the unknown object 7 is answered with `invalid_object` and the
destruction of the client. -/
theorem invalid_frame_is_refused_witness :
    ((sample_state 7 0).client.display_resource = some sample_display_resource ∧
      (8 : Int) ≤ 8 ∧ (8 : Int) < 2 ^ 31 ∧
      frame_size (wl_connection_copy (sample_state 7 0).client.connection).2 ≤ 8 ∧
      wl_map_lookup (sample_state 7 0).client.objects
        (wl_connection_copy (sample_state 7 0).client.connection).1 = none) ∧
    ∃ out, dispatch_frames sample_env 1 (sample_state 7 0) 8 = .ok out ∧
      out.client.error = 1 ∧
      out.log = (sample_state 7 0).log ++
        [.post_event sample_display_resource WL_DISPLAY_ERROR
          [.o (some sample_display_resource.id), .u WL_DISPLAY_ERROR_INVALID_OBJECT,
           .s (some (sample_env.vsnprintf "invalid object %u"
             [.u (wl_connection_copy (sample_state 7 0).client.connection).1]))],
         .client_destroy] :=
  ⟨⟨rfl, by decide, by decide, by decide, by decide⟩,
    (invalid_frame_is_refused sample_env 0 (sample_state 7 0) 8 sample_display_resource rfl
      (by decide) (by decide) (by decide)).1 (by decide)⟩

/-! ## C6: the version check -/

theorem dispatch_frame_live (env : Env) (s : state) (len : Int) (r : wl_resource)
    (m : wl_message) (h8 : 8 ≤ len) (hint : len < 2 ^ 31)
    (hsize : frame_size (wl_connection_copy s.client.connection).2 ≤ len)
    (hr : wl_map_lookup s.client.objects (wl_connection_copy s.client.connection).1 = some r)
    (hop : frame_opcode (wl_connection_copy s.client.connection).2 < r.interface.method_count)
    (hm : r.interface.methods[(frame_opcode
      (wl_connection_copy s.client.connection).2).toNat]? = some m) :
    dispatch_frame env s len =
      if wl_map_lookup_flags s.client.objects (wl_connection_copy s.client.connection).1 &&&
            WL_MAP_ENTRY_LEGACY = 0 ∧ r.version > 0 ∧
          r.version < env.wl_message_get_since m then
        loop_error env s WL_DISPLAY_ERROR_INVALID_METHOD "invalid method %d, object %s@%u"
          [.i (frame_opcode (wl_connection_copy s.client.connection).2),
           .s (some r.interface.name), .u r.id]
      else
        demarshal_and_invoke env s len r
          (wl_map_lookup_flags s.client.objects (wl_connection_copy s.client.connection).1)
          (frame_opcode (wl_connection_copy s.client.connection).2)
          (frame_size (wl_connection_copy s.client.connection).2) m := by
  have hcond : ¬ (len % 2 ^ 64 < 8) := by omega
  have hsz : ¬ (len < frame_size (wl_connection_copy s.client.connection).2) := by omega
  have hop1 : ¬ (frame_opcode (wl_connection_copy s.client.connection).2 ≥
      r.interface.method_count) := by omega
  unfold dispatch_frame
  simp only [if_neg hcond, if_neg hsz, hr, if_neg hop1, hm]

/-- C6 as the code has it: a complete frame for a live resource in a slot
without the legacy flag, whose version is positive and lower than the
since-version of the addressed method, is answered with `wl_display.error`
with the code `invalid_method` and the destruction of the client, and no
handler runs; when the slot is legacy or the version is not positive the check
is skipped and the frame goes on to be demarshalled whatever the since-version
is. -/
theorem version_check (env : Env) (fuel : Nat) (s : state) (len : Int) (d r : wl_resource)
    (m : wl_message) (hd : s.client.display_resource = some d)
    (h8 : 8 ≤ len) (hint : len < 2 ^ 31)
    (hsize : frame_size (wl_connection_copy s.client.connection).2 ≤ len)
    (hr : wl_map_lookup s.client.objects (wl_connection_copy s.client.connection).1 = some r)
    (hop : frame_opcode (wl_connection_copy s.client.connection).2 < r.interface.method_count)
    (hm : r.interface.methods[(frame_opcode
      (wl_connection_copy s.client.connection).2).toNat]? = some m) :
    (wl_map_lookup_flags s.client.objects (wl_connection_copy s.client.connection).1 &&&
        WL_MAP_ENTRY_LEGACY = 0 → 0 < r.version → r.version < env.wl_message_get_since m →
      ∃ out, dispatch_frames env (fuel + 1) s len = .ok out ∧ out.client.error = 1 ∧
        out.log = s.log ++
          [.post_event d WL_DISPLAY_ERROR
            [.o (some d.id), .u WL_DISPLAY_ERROR_INVALID_METHOD,
             .s (some (env.vsnprintf "invalid method %d, object %s@%u"
               [.i (frame_opcode (wl_connection_copy s.client.connection).2),
                .s (some r.interface.name), .u r.id]))],
           .client_destroy]) ∧
    ((wl_map_lookup_flags s.client.objects (wl_connection_copy s.client.connection).1 &&&
        WL_MAP_ENTRY_LEGACY ≠ 0 ∨ r.version ≤ 0) →
      dispatch_frame env s len =
        demarshal_and_invoke env s len r
          (wl_map_lookup_flags s.client.objects (wl_connection_copy s.client.connection).1)
          (frame_opcode (wl_connection_copy s.client.connection).2)
          (frame_size (wl_connection_copy s.client.connection).2) m) := by
  have hlive := dispatch_frame_live env s len r m h8 hint hsize hr hop hm
  constructor
  · intro hflags hpos hlt
    have hstep : dispatch_frame env s len =
        .stop (wl_resource_post_error env s d WL_DISPLAY_ERROR_INVALID_METHOD
          "invalid method %d, object %s@%u"
          [.i (frame_opcode (wl_connection_copy s.client.connection).2),
           .s (some r.interface.name), .u r.id]) := by
      rw [hlive, if_pos ⟨hflags, hpos, hlt⟩]
      exact loop_error_stop env s d _ _ _ hd
    refine ⟨_, dispatch_frames_of_stop env fuel s _ len hstep, ?_, ?_⟩
    · rw [destroy_on_error_of_flag _ (by rw [post_error_flag]; decide)]
      exact post_error_flag _ _ _ _ _ _
    · rw [destroy_on_error_of_flag _ (by rw [post_error_flag]; decide)]
      show (wl_resource_post_error _ _ _ _ _ _).log ++ [action.client_destroy] = _
      rw [post_error_log env s d d _ _ _ hd]
      simp
  · intro hex
    rw [hlive, if_neg]
    rintro ⟨hflags, hpos, _⟩
    rcases hex with hex | hex
    · exact hex hflags
    · omega

/-- C6 as the claim states it fails: the resource at id 5 is live, its slot is
not legacy and its version -1 is lower than the since-version 1 of the method,
yet the dispatcher hands the frame to the handler and posts no error. -/
theorem version_check_counterexample :
    wl_map_lookup (sample_state 5 0).client.objects 5 = some sample_old_resource ∧
    wl_map_lookup_flags (sample_state 5 0).client.objects 5 &&& WL_MAP_ENTRY_LEGACY = 0 ∧
    sample_old_resource.version <
      sample_env.wl_message_get_since { name := "sync", signature := "n" } ∧
    dispatch_frames sample_env 2 (sample_state 5 0) 8 = .ok sample_state_invoked :=
  ⟨by decide, by decide, by decide, by rfl⟩

/-- A frame for the display resource, of version 1, addressing a method
introduced in version 2 is refused. -/
theorem version_check_witness :
    ((sample_state 1 0).client.display_resource = some sample_display_resource ∧
      wl_map_lookup (sample_state 1 0).client.objects
        (wl_connection_copy (sample_state 1 0).client.connection).1 =
          some sample_display_resource ∧
      (0 : Int) < sample_display_resource.version ∧
      sample_display_resource.version <
        (sample_env_since 2).wl_message_get_since { name := "sync", signature := "n" }) ∧
    ∃ out, dispatch_frames (sample_env_since 2) 1 (sample_state 1 0) 8 = .ok out ∧
      out.client.error = 1 ∧
      out.log = (sample_state 1 0).log ++
        [.post_event sample_display_resource WL_DISPLAY_ERROR
          [.o (some sample_display_resource.id), .u WL_DISPLAY_ERROR_INVALID_METHOD,
           .s (some ((sample_env_since 2).vsnprintf "invalid method %d, object %s@%u"
             [.i (frame_opcode (wl_connection_copy (sample_state 1 0).client.connection).2),
              .s (some sample_display_resource.interface.name),
              .u sample_display_resource.id]))],
         .client_destroy] :=
  ⟨⟨rfl, by decide, by decide, by decide⟩,
    (version_check (sample_env_since 2) 0 (sample_state 1 0) 8 sample_display_resource
      sample_display_resource { name := "sync", signature := "n" } rfl
      (by decide) (by decide) (by decide) (by decide) (by decide) (by decide)).1
      (by decide) (by decide) (by decide)⟩

/-! ## C7: the error flag ends the frame loop -/

theorem loop_error_cases (env : Env) (s : state) (code : Nat) (msg : String)
    (values : List wl_argument) :
    (∃ f, loop_error env s code msg values = .fault f) ∨
    (∃ s1, loop_error env s code msg values = .stop s1 ∧ s1.client.error ≠ 0) := by
  unfold loop_error post_error_on_display
  cases hd : s.client.display_resource with
  | none => exact Or.inl ⟨_, rfl⟩
  | some d =>
    refine Or.inr ⟨_, rfl, ?_⟩
    rw [post_error_flag]
    decide

theorem handled_of_loop_error (env : Env) (s : state) (code : Nat) (msg : String)
    (values : List wl_argument) : handled_result (loop_error env s code msg values) := by
  rcases loop_error_cases env s code msg values with h | h
  · exact Or.inl h
  · exact Or.inr (Or.inl h)

theorem demarshal_and_invoke_cases (env : Env) (s : state) (len : Int) (r : wl_resource)
    (flags : Nat) (opcode size : Int) (m : wl_message) :
    handled_result (demarshal_and_invoke env s len r flags opcode size m) := by
  unfold demarshal_and_invoke
  simp only
  cases env.wl_connection_demarshal s.client size m with
  | out_of_memory => exact handled_of_loop_error _ _ _ _ _
  | invalid => exact handled_of_loop_error _ _ _ _ _
  | closure c =>
    simp only
    split
    · exact handled_of_loop_error _ _ _ _ _
    · split
      · rename_i herr
        exact Or.inr (Or.inl ⟨_, rfl, herr⟩)
      · rename_i herr
        exact Or.inr (Or.inr ⟨_, _, rfl, not_not.mp herr⟩)

theorem dispatch_frame_cases (env : Env) (s : state) (len : Int)
    (h : ¬ (len % 2 ^ 64 < 8 ∨ len < frame_size (wl_connection_copy s.client.connection).2)) :
    handled_result (dispatch_frame env s len) := by
  have h1 : ¬ (len % 2 ^ 64 < 8) := fun hc => h (Or.inl hc)
  have h2 : ¬ (len < frame_size (wl_connection_copy s.client.connection).2) :=
    fun hc => h (Or.inr hc)
  unfold dispatch_frame
  simp only [if_neg h1, if_neg h2]
  split
  · exact handled_of_loop_error _ _ _ _ _
  · split
    · exact handled_of_loop_error _ _ _ _ _
    · split
      · exact Or.inl ⟨_, rfl⟩
      · split
        · exact handled_of_loop_error _ _ _ _ _
        · exact demarshal_and_invoke_cases _ _ _ _ _ _ _ _

theorem dispatch_frame_early (env : Env) (s : state) (len : Int)
    (h : len % 2 ^ 64 < 8 ∨ len < frame_size (wl_connection_copy s.client.connection).2) :
    dispatch_frame env s len = .stop s := by
  unfold dispatch_frame
  by_cases h1 : len % 2 ^ 64 < 8
  · rw [if_pos h1]
  · rw [if_neg h1]
    have h2 : len < frame_size (wl_connection_copy s.client.connection).2 := by
      rcases h with h | h
      · exact absurd h h1
      · exact h
    simp only [if_pos h2]

theorem flag_ends_loop (env : Env) (fuel : Nat) :
    ∀ (s : state) (len : Int) (pre : List state) (st : state) (post : List state),
      handled_frames env fuel s len = pre ++ st :: post → st.client.error ≠ 0 →
      post = [] ∧ dispatch_frames env fuel s len = .ok (wl_client_destroy st) := by
  induction fuel with
  | zero =>
    intro s len pre st post h _
    simp [handled_frames] at h
  | succ n ih =>
    intro s len pre st post h hflag
    unfold handled_frames at h
    by_cases hearly : len % 2 ^ 64 < 8 ∨
        len < frame_size (wl_connection_copy s.client.connection).2
    · rw [if_pos hearly] at h
      simp at h
    · rw [if_neg hearly] at h
      rcases dispatch_frame_cases env s len hearly with ⟨f, hf⟩ | ⟨s1, hs1, he1⟩ |
          ⟨s1, len1, hs1, he1⟩
      · rw [hf] at h
        simp at h
      · rw [hs1] at h
        simp only at h
        cases pre with
        | nil =>
          simp only [List.nil_append, List.cons.injEq] at h
          refine ⟨h.2.symm, ?_⟩
          rw [dispatch_frames_of_stop env n s s1 len hs1, ← h.1,
            destroy_on_error_of_flag _ he1]
        | cons x pre1 =>
          simp at h
      · rw [hs1] at h
        simp only at h
        cases pre with
        | nil =>
          simp only [List.nil_append, List.cons.injEq] at h
          rw [← h.1] at hflag
          exact absurd he1 hflag
        | cons x pre1 =>
          simp only [List.cons_append, List.cons.injEq] at h
          have hi := ih s1 len1 pre1 st post h.2 hflag
          refine ⟨hi.1, ?_⟩
          rw [← hi.2]
          unfold dispatch_frames
          simp only [frame_loop, hs1]

theorem clear_flag_keeps_client (env : Env) (fuel : Nat) :
    ∀ (s : state) (len : Int) (out : state),
      dispatch_frames env fuel s len = .ok out → s.client.error = 0 →
      (∀ st ∈ handled_frames env fuel s len, st.client.error = 0) →
      frame_loop env fuel s len = .ok out ∧ out.client.error = 0 := by
  induction fuel with
  | zero =>
    intro s len out h _ _
    simp [dispatch_frames, frame_loop] at h
  | succ n ih =>
    intro s len out h h0 hall
    by_cases hearly : len % 2 ^ 64 < 8 ∨
        len < frame_size (wl_connection_copy s.client.connection).2
    · have hstop := dispatch_frame_early env s len hearly
      rw [dispatch_frames_of_stop env n s s len hstop] at h
      have hd : destroy_on_error s = s := by
        unfold destroy_on_error
        rw [if_neg (by rw [h0]; decide)]
      rw [hd] at h
      injection h with h
      subst h
      refine ⟨?_, h0⟩
      simp only [frame_loop, hstop]
    · unfold handled_frames at hall
      rw [if_neg hearly] at hall
      rcases dispatch_frame_cases env s len hearly with ⟨f, hf⟩ | ⟨s1, hs1, he1⟩ |
          ⟨s1, len1, hs1, he1⟩
      · simp [dispatch_frames, frame_loop, hf] at h
      · rw [hs1] at hall
        exact absurd (hall s1 (List.mem_singleton.mpr rfl)) he1
      · rw [hs1] at hall
        have hrest : dispatch_frames env n s1 len1 = .ok out := by
          rw [← h]
          unfold dispatch_frames
          simp only [frame_loop, hs1]
        have hi := ih s1 len1 out hrest he1
          (fun st hst => hall st (List.mem_cons_of_mem _ hst))
        refine ⟨?_, hi.2⟩
        rw [← hi.1]
        simp only [frame_loop, hs1]

/-- C7 as the code has it: once a handled frame leaves the error flag of the
client set, it is the last frame handled and the function returns having
destroyed the client; and when the flag is clear on entry and no handled frame
leaves it set, the function returns what the loop left: the client is not
destroyed. -/
theorem error_flag_ends_dispatch (env : Env) (fuel : Nat) (s : state) (len : Int) :
    (∀ (pre : List state) (st : state) (post : List state),
      handled_frames env fuel s len = pre ++ st :: post → st.client.error ≠ 0 →
      post = [] ∧ dispatch_frames env fuel s len = .ok (wl_client_destroy st)) ∧
    (∀ (out : state), dispatch_frames env fuel s len = .ok out → s.client.error = 0 →
      (∀ st ∈ handled_frames env fuel s len, st.client.error = 0) →
      frame_loop env fuel s len = .ok out ∧ out.client.error = 0) :=
  ⟨flag_ends_loop env fuel s len, clear_flag_keeps_client env fuel s len⟩

/-- C7 as the claim states it fails: with the error flag set before the
dispatcher runs and four bytes buffered, no frame is handled, hence none sets
the flag, and the client is destroyed all the same. -/
theorem error_flag_ends_dispatch_counterexample :
    handled_frames sample_env 1 sample_state_flagged 4 = [] ∧
    dispatch_frames sample_env 1 sample_state_flagged 4 =
      .ok (wl_client_destroy sample_state_flagged) ∧
    wl_client_destroy sample_state_flagged ≠ sample_state_flagged :=
  ⟨by rfl, by rfl, by decide⟩

/-- The frame for the old resource is handed to the handler, which leaves the
flag clear, and the client is kept. -/
theorem error_flag_ends_dispatch_witness :
    (dispatch_frames sample_env 2 (sample_state 5 0) 8 = .ok sample_state_invoked ∧
      (sample_state 5 0).client.error = 0 ∧
      ∀ st ∈ handled_frames sample_env 2 (sample_state 5 0) 8, st.client.error = 0) ∧
    frame_loop sample_env 2 (sample_state 5 0) 8 = .ok sample_state_invoked ∧
    sample_state_invoked.client.error = 0 :=
  ⟨⟨by rfl, by rfl, by decide⟩,
    (error_flag_ends_dispatch sample_env 2 (sample_state 5 0) 8).2 sample_state_invoked
      (by rfl) (by rfl) (by decide)⟩

/-! ## C8: destroying a resource -/

/-- After NULL is stored at an id the id maps to no resource. -/
theorem lookup_insert_none (map : wl_map) (flags id : Nat) :
    wl_map_lookup (wl_map_insert_at map flags id none).2 id = none := by
  simp [wl_map_insert_at, wl_map_lookup, wl_map_find]

/-- After an id is removed the id maps to no resource. -/
theorem lookup_remove (map : wl_map) (id : Nat) :
    wl_map_lookup (wl_map_remove map id) id = none := by
  unfold wl_map_lookup wl_map_find wl_map_remove
  have h : List.find? (fun e => decide (e.1 = id))
      (List.filter (fun e : Nat × map_entry => decide (e.1 ≠ id)) map.entries) = none := by
    rw [List.find?_eq_none]
    intro e he
    have := (List.mem_filter.mp he).2
    simpa using this
  simp only [h, Option.map_none']

/-- `wl_resource_queue_event` leaves the object map of the client alone and
appends the event to the log. -/
theorem queue_event_keeps (env : Env) (s : state) (resource : wl_resource) (opcode : Nat)
    (args : List wl_argument) :
    (wl_resource_queue_event env s resource opcode args).client.objects = s.client.objects ∧
    (wl_resource_queue_event env s resource opcode args).log =
      s.log ++ [.queue_event resource opcode args] := by
  unfold wl_resource_queue_event
  simp only
  split
  · exact ⟨rfl, rfl⟩
  · split <;> exact ⟨rfl, rfl⟩

theorem queue_event_log (env : Env) (s : state) (r : wl_resource) (opcode : Nat)
    (args : List wl_argument) :
    (wl_resource_queue_event env s r opcode args).log =
      s.log ++ [.queue_event r opcode args] := by
  unfold wl_resource_queue_event
  simp only
  split
  · rfl
  · split <;> rfl

theorem destroy_resource_log (env : Env) (s : state) (r : wl_resource) :
    (destroy_resource env s r).log =
      s.log ++ [.signal_emit r] ++
        (match r.destroy with
          | some f => [.destroy_func f r]
          | none => []) ++
        (if wl_map_lookup_flags (env.wl_signal_emit r s.client).objects r.id &&&
            WL_MAP_ENTRY_LEGACY = 0 then [.free r] else []) := by
  unfold destroy_resource
  cases r.destroy with
  | none =>
    simp only
    split <;> simp
  | some f =>
    simp only
    split <;> simp

/-- C8 as the code has it: `wl_resource_destroy` first emits the destroy signal
and runs the destroy callback; then, for a client-allocated id (below
`WL_SERVER_ID_START`), it queues `wl_display.delete_id` with that id when the
client still has its display resource, and only then sets the slot to NULL;
when the display resource is gone it queues nothing and only sets the slot to
NULL; for a server-allocated id it queues no event and removes the slot.  In
every case the id maps to no resource afterwards. -/
theorem resource_destroy_delete_id (env : Env) (s : state) (r : wl_resource) :
    (destroy_resource env s r).log =
      s.log ++ [.signal_emit r] ++
        (match r.destroy with
          | some f => [.destroy_func f r]
          | none => []) ++
        (if wl_map_lookup_flags (env.wl_signal_emit r s.client).objects r.id &&&
            WL_MAP_ENTRY_LEGACY = 0 then [.free r] else []) ∧
    (r.id < WL_SERVER_ID_START →
      ∀ d, (destroy_resource env s r).client.display_resource = some d →
        (wl_resource_destroy env s r).log =
          (destroy_resource env s r).log ++
            [.queue_event d WL_DISPLAY_DELETE_ID [.u r.id], .map_insert_at 0 r.id none]) ∧
    (WL_SERVER_ID_START ≤ r.id →
      (wl_resource_destroy env s r).log =
        (destroy_resource env s r).log ++ [.map_remove r.id]) ∧
    (r.id < WL_SERVER_ID_START →
      (destroy_resource env s r).client.display_resource = none →
        (wl_resource_destroy env s r).log =
          (destroy_resource env s r).log ++ [.map_insert_at 0 r.id none]) ∧
    (r.id < WL_SERVER_ID_START →
      (wl_resource_destroy env s r).client.objects =
        (wl_map_insert_at (destroy_resource env s r).client.objects 0 r.id none).2) ∧
    (WL_SERVER_ID_START ≤ r.id →
      (wl_resource_destroy env s r).client.objects =
        wl_map_remove (destroy_resource env s r).client.objects r.id) ∧
    wl_map_lookup (wl_resource_destroy env s r).client.objects r.id = none := by
  refine ⟨destroy_resource_log env s r, ?_, ?_, ?_, ?_, ?_, ?_⟩
  · intro hid d hd
    unfold wl_resource_destroy
    simp only [if_pos hid, hd, queue_event_log]
    simp
  · intro hid
    unfold wl_resource_destroy
    simp only [if_neg (not_lt.mpr hid)]
  · intro hid hd
    unfold wl_resource_destroy
    simp only [if_pos hid, hd]
  · intro hid
    unfold wl_resource_destroy
    simp only [if_pos hid]
    cases hd : (destroy_resource env s r).client.display_resource with
    | none => rfl
    | some d =>
      simp only
      rw [(queue_event_keeps env _ d WL_DISPLAY_DELETE_ID [.u r.id]).1]
  · intro hid
    unfold wl_resource_destroy
    simp only [if_neg (not_lt.mpr hid)]
  · unfold wl_resource_destroy
    simp only
    split
    · exact lookup_insert_none _ _ _
    · exact lookup_remove _ _

/-- C8 as the claim states it fails: while the client is torn down its display
resource is gone, and destroying the resource with the client-allocated id 5
queues no `delete_id`: the destroy signal, the release and the NULL slot are
all the calls made. -/
theorem resource_destroy_delete_id_counterexample :
    sample_old_resource.id < WL_SERVER_ID_START ∧
    (wl_resource_destroy sample_env sample_state_teardown sample_old_resource).log =
      [.signal_emit sample_old_resource, .free sample_old_resource,
       .map_insert_at 0 5 none] :=
  ⟨by decide, by rfl⟩

/-- Destroying the resource at id 5 of the sample client queues `delete_id`
for 5 on the display resource. -/
theorem resource_destroy_delete_id_witness :
    (sample_old_resource.id < WL_SERVER_ID_START ∧
      (destroy_resource sample_env (sample_state 5 0) sample_old_resource).client.display_resource
        = some sample_display_resource) ∧
    (wl_resource_destroy sample_env (sample_state 5 0) sample_old_resource).log =
      (destroy_resource sample_env (sample_state 5 0) sample_old_resource).log ++
        [.queue_event sample_display_resource WL_DISPLAY_DELETE_ID [.u sample_old_resource.id],
         .map_insert_at 0 sample_old_resource.id none] :=
  ⟨⟨by decide, by rfl⟩,
    (resource_destroy_delete_id sample_env (sample_state 5 0) sample_old_resource).2.1
      (by decide) sample_display_resource (by rfl)⟩

/-! ## C9: binding a global -/

theorem find_global (name : Nat) (g : wl_global) :
    ∀ (l : List wl_global), (l.map (fun x => x.name)).Nodup → g ∈ l → g.name = name →
      l.find? (fun x => decide (x.name = name)) = some g := by
  intro l
  induction l with
  | nil => intro _ h; cases h
  | cons x t ih =>
    intro hn hg hname
    rw [List.map_cons, List.nodup_cons] at hn
    rcases List.mem_cons.mp hg with h | h
    · subst h
      simp [List.find?_cons, hname]
    · have hx : x.name ≠ name := by
        intro hx
        apply hn.1
        rw [hx, ← hname]
        exact List.mem_map_of_mem (fun x => x.name) h
      simp only [List.find?_cons, hx, decide_False]
      exact ih hn.2 h hname

/-- C9: with pairwise distinct global names and a client that has its display
resource, `registry_bind` calls the bind callback of the global named `name`
with its data, the requested version and the id exactly when that global is
in the list of the display and its version is at least the requested one;
otherwise it posts `wl_display.error` with the code `invalid_object` for the
registry resource, sets the error flag of the client and calls no bind
callback. -/
theorem registry_bind_spec (env : Env) (display : wl_display) (s : state)
    (resource d : wl_resource) (name : Nat) (interface : String) (version id : Nat)
    (hd : s.client.display_resource = some d)
    (hn : (display.global_list.map (fun g => g.name)).Nodup) :
    (∀ g ∈ display.global_list, g.name = name → version ≤ g.version →
      registry_bind env display s resource name interface version id =
        { s with
          client := env.global_bind g.bind g.data version id s.client
          log := s.log ++ [.global_bind g.bind g.data version id] }) ∧
    ((¬ ∃ g ∈ display.global_list, g.name = name ∧ version ≤ g.version) →
      (registry_bind env display s resource name interface version id).client.error = 1 ∧
      ∃ text, (registry_bind env display s resource name interface version id).log =
        s.log ++ [.post_event d WL_DISPLAY_ERROR
          [.o (some resource.id), .u WL_DISPLAY_ERROR_INVALID_OBJECT, .s (some text)]]) := by
  constructor
  · intro g hg hname hver
    unfold registry_bind
    rw [find_global name g _ hn hg hname]
    simp only [if_neg (not_lt.mpr hver)]
  · intro hnone
    unfold registry_bind
    cases hf : display.global_list.find? (fun g => decide (g.name = name)) with
    | none =>
      simp only
      exact ⟨post_error_flag _ _ _ _ _ _, _, post_error_log env s resource d _ _ _ hd⟩
    | some g =>
      have hg : g ∈ display.global_list := List.mem_of_find?_eq_some hf
      have hname : g.name = name := by
        have := List.find?_some hf
        simpa using this
      have hlt : g.version < version := by
        by_contra hge
        exact hnone ⟨g, hg, hname, not_lt.mp hge⟩
      simp only [if_pos hlt]
      exact ⟨post_error_flag _ _ _ _ _ _, _, post_error_log env s resource d _ _ _ hd⟩

/-- Binding the global 2 of the sample display at version 3 calls its bind
callback 8 with its data 9. -/
theorem registry_bind_spec_witness :
    ((sample_state 1 0).client.display_resource = some sample_display_resource ∧
      (sample_display.global_list.map (fun g => g.name)).Nodup) ∧
    registry_bind sample_env sample_display (sample_state 1 0) sample_old_resource 2
        "wl_registry" 3 6 =
      { sample_state 1 0 with
        client := sample_env.global_bind 8 (some 9) 3 6 (sample_state 1 0).client
        log := (sample_state 1 0).log ++ [.global_bind 8 (some 9) 3 6] } :=
  ⟨⟨rfl, by decide⟩,
    (registry_bind_spec sample_env sample_display (sample_state 1 0) sample_old_resource
      sample_display_resource 2 "wl_registry" 3 6 rfl (by decide)).1
      { name := 2, interface := wl_registry_interface, version := 3, data := some 9, bind := 8 }
      (by decide) rfl (by decide)⟩

/-! ## C10: the events a registry resource is sent -/

theorem global_count_append (r : wl_resource) (name : Nat) (l1 l2 : List action) :
    global_count r name (l1 ++ l2) = global_count r name l1 + global_count r name l2 := by
  simp [global_count, List.filter_append]

theorem global_count_announce (r r0 : wl_resource) (name : Nat) (globals : List wl_global) :
    global_count r name (announce_globals r0 globals) =
      if r0 = r then (globals.map (fun g => g.name)).count name else 0 := by
  induction globals with
  | nil => simp [global_count, announce_globals]
  | cons g t ih =>
    have hc : global_count r name (announce_globals r0 (g :: t)) =
        (if r0 = r ∧ g.name = name then 1 else 0) + global_count r name (announce_globals r0 t) := by
      simp only [global_count, announce_globals, List.map_cons, List.filter_cons,
        is_global_event]
      by_cases h : r0 = r ∧ g.name = name
      · simp [h, WL_REGISTRY_GLOBAL]
        omega
      · have h1 : ¬ (r0 = r ∧ WL_REGISTRY_GLOBAL = WL_REGISTRY_GLOBAL ∧ g.name = name) :=
          fun hh => h ⟨hh.1, hh.2.2⟩
        simp [h, h1]
    rw [hc, ih, List.map_cons, List.count_cons]
    by_cases hr : r0 = r
    · by_cases hg : g.name = name
      · simp [hr, hg]; omega
      · simp [hr, hg]
    · simp [hr]

theorem global_count_broadcast (r : wl_resource) (name n : Nat) (text : Option String)
    (version : Nat) (resources : List wl_resource) :
    global_count r name (resources.map (fun resource =>
      action.post_event resource WL_REGISTRY_GLOBAL [.u n, .s text, .u version])) =
      if n = name then resources.count r else 0 := by
  induction resources with
  | nil => simp [global_count]
  | cons x t ih =>
    have hc : global_count r name ((x :: t).map (fun resource =>
        action.post_event resource WL_REGISTRY_GLOBAL [.u n, .s text, .u version])) =
        (if x = r ∧ n = name then 1 else 0) + global_count r name (t.map (fun resource =>
          action.post_event resource WL_REGISTRY_GLOBAL [.u n, .s text, .u version])) := by
      simp only [global_count, List.map_cons, List.filter_cons, is_global_event]
      by_cases h : x = r ∧ n = name
      · simp [h]
        omega
      · have h1 : ¬ (x = r ∧ WL_REGISTRY_GLOBAL = WL_REGISTRY_GLOBAL ∧ n = name) :=
          fun hh => h ⟨hh.1, hh.2.2⟩
        simp [h, h1]
    rw [hc, ih, List.count_cons]
    by_cases hn : n = name
    · by_cases hx : x = r
      · simp [hn, hx]; omega
      · simp [hn, hx]
    · simp [hn]

theorem global_count_removes (r : wl_resource) (name n : Nat) (resources : List wl_resource) :
    global_count r name (resources.map (fun resource =>
      action.post_event resource WL_REGISTRY_GLOBAL_REMOVE [.u n])) = 0 := by
  unfold global_count
  rw [List.length_eq_zero, List.filter_eq_nil_iff]
  intro a ha
  rcases List.mem_map.mp ha with ⟨x, _, rfl⟩
  simp [is_global_event, WL_REGISTRY_GLOBAL, WL_REGISTRY_GLOBAL_REMOVE]

theorem exists_global_of_count (r : wl_resource) (name : Nat) (log : List action)
    (h : 0 < global_count r name log) : ∃ e ∈ log, is_global_event r name e = true := by
  unfold global_count at h
  rcases List.exists_mem_of_length_pos h with ⟨e, he⟩
  rw [List.mem_filter] at he
  exact ⟨e, he.1, he.2⟩

theorem removes_follow_append (l1 l2 : List action) (h1 : removes_follow l1)
    (h2 : ∀ e ∈ l2, ∀ (r : wl_resource) (name : Nat), is_remove_event r name e = true →
      ∃ e1 ∈ l1, is_global_event r name e1 = true) :
    removes_follow (l1 ++ l2) := by
  intro pre e post r name hsplit hrem
  rcases List.append_eq_append_iff.mp hsplit with ⟨a, hpre, hl2⟩ | ⟨c, hl1, hpost⟩
  · have he : e ∈ l2 := by rw [hl2]; simp
    rcases h2 e he r name hrem with ⟨e1, he1, hg⟩
    exact ⟨e1, by rw [hpre]; exact List.mem_append_left _ he1, hg⟩
  · cases c with
    | nil =>
      simp only [List.nil_append] at hpost
      simp only [List.append_nil] at hl1
      have he : e ∈ l2 := by rw [← hpost]; simp
      rcases h2 e he r name hrem with ⟨e1, he1, hg⟩
      exact ⟨e1, by rw [← hl1]; exact he1, hg⟩
    | cons x c1 =>
      simp only [List.cons_append, List.cons.injEq] at hpost
      rw [← hpost.1] at hl1
      exact h1 pre e c1 r name hl1 hrem

theorem not_remove_of_global (r r0 : wl_resource) (name : Nat) (args : List wl_argument) :
    is_remove_event r name (.post_event r0 WL_REGISTRY_GLOBAL args) = false := by
  cases args with
  | nil => rfl
  | cons a t =>
    cases a <;> simp [is_remove_event, WL_REGISTRY_GLOBAL, WL_REGISTRY_GLOBAL_REMOVE]

theorem display_inv_create : display_inv wl_display_create := by
  refine ⟨?_, ?_, ?_, ?_, ?_, ?_, ?_, ?_⟩
  · simp [wl_display_create]
  · intro g hg; simp [wl_display_create] at hg
  · simp [wl_display_create]
  · intro r hr; simp [wl_display_create] at hr
  · intro r name h; simp [wl_display_create, global_count] at h
  · intro r name; simp [wl_display_create, global_count]
  · intro r hr; simp [wl_display_create] at hr
  · intro pre e post r name h _
    simp [wl_display_create] at h

theorem display_inv_get_registry (w : world) (client : Nat) (created : Option Nat)
    (h : display_inv w) : display_inv (display_get_registry w client created) := by
  obtain ⟨h1, h2, h3, h4, h5, h6, h7, h8⟩ := h
  cases created with
  | none =>
    have hc : ∀ r name, global_count r name (w.log ++ [action.post_no_memory client]) =
        global_count r name w.log := by
      intro r name
      rw [global_count_append]
      simp [global_count, is_global_event]
    refine ⟨h1, h2, h3, h4, ?_, ?_, ?_, ?_⟩
    · intro r name hpos
      exact h5 r name (by rw [← hc]; exact hpos)
    · intro r name
      show global_count r name (w.log ++ [action.post_no_memory client]) ≤ 1
      rw [hc]; exact h6 r name
    · intro r hr g hg
      show global_count r g.name (w.log ++ [action.post_no_memory client]) = 1
      rw [hc]; exact h7 r hr g hg
    · apply removes_follow_append _ _ h8
      intro e he r name hrem
      rw [List.mem_singleton] at he
      subst he
      simp [is_remove_event] at hrem
  | some id =>
    let r0 : wl_resource :=
      { ident := w.allocated, id := id, interface := wl_registry_interface,
        implementation := some registry_interface_pointer,
        destroy := some unbind_resource_pointer,
        client := client, data := none, version := 1, dispatcher := none }
    have hfresh : ∀ name, global_count r0 name w.log = 0 := by
      intro name
      by_contra hne
      have := (h5 r0 name (Nat.pos_of_ne_zero hne)).1
      exact absurd this (lt_irrefl _)
    have hnotin : r0 ∉ w.display.registry_resource_list := by
      intro hin
      exact absurd (h4 r0 hin) (lt_irrefl _)
    have hlog : (display_get_registry w client (some id)).log =
        w.log ++ announce_globals r0 w.display.global_list := rfl
    have hcount : ∀ r name, global_count r name (display_get_registry w client (some id)).log =
        global_count r name w.log +
          (if r0 = r then (w.display.global_list.map (fun g => g.name)).count name else 0) := by
      intro r name
      rw [hlog, global_count_append, global_count_announce]
    refine ⟨h1, h2, ?_, ?_, ?_, ?_, ?_, ?_⟩
    · exact List.Nodup.cons hnotin h3
    · intro r hr
      show r.ident < w.allocated + 1
      rcases List.mem_cons.mp hr with hr | hr
      · rw [hr]; exact Nat.lt_succ_self _
      · exact Nat.lt_succ_of_lt (h4 r hr)
    · intro r name hpos
      rw [hcount] at hpos
      show r.ident < w.allocated + 1 ∧ name < w.display.id
      by_cases hr : r0 = r
      · rw [if_pos hr] at hpos
        subst hr
        rw [hfresh, Nat.zero_add] at hpos
        have hmem := List.count_pos_iff.mp hpos
        rcases List.mem_map.mp hmem with ⟨g, hg, hgn⟩
        exact ⟨Nat.lt_succ_self _, hgn ▸ h2 g hg⟩
      · rw [if_neg hr, Nat.add_zero] at hpos
        have := h5 r name hpos
        exact ⟨Nat.lt_succ_of_lt this.1, this.2⟩
    · intro r name
      rw [hcount]
      by_cases hr : r0 = r
      · rw [if_pos hr]
        subst hr
        rw [hfresh, Nat.zero_add]
        exact List.nodup_iff_count_le_one.mp h1 name
      · rw [if_neg hr, Nat.add_zero]
        exact h6 r name
    · intro r hr g hg
      rw [hcount]
      have hgmem : g.name ∈ w.display.global_list.map (fun g => g.name) :=
        List.mem_map_of_mem (fun g => g.name) hg
      by_cases hr0 : r0 = r
      · rw [if_pos hr0]
        subst hr0
        rw [hfresh, Nat.zero_add]
        exact List.count_eq_one_of_mem h1 hgmem
      · rw [if_neg hr0, Nat.add_zero]
        rcases List.mem_cons.mp hr with hr | hr
        · exact absurd hr.symm hr0
        · exact h7 r hr g hg
    · rw [hlog]
      apply removes_follow_append _ _ h8
      intro e he r name hrem
      unfold announce_globals at he
      rcases List.mem_map.mp he with ⟨g, _, rfl⟩
      rw [not_remove_of_global] at hrem
      cases hrem

theorem display_inv_global_create (w : world) (interface : wl_interface) (version : Int)
    (data : Option Nat) (bind : Nat) (allocated : Bool) (h : display_inv w)
    (hid : w.display.id + 1 < 2 ^ 32) :
    display_inv (wl_global_create w interface version data bind allocated).1 := by
  unfold wl_global_create
  split
  · exact h
  · split
    · exact h
    · obtain ⟨h1, h2, h3, h4, h5, h6, h7, h8⟩ := h
      have hmod : (w.display.id + 1) % UINT32_RANGE = w.display.id + 1 :=
        Nat.mod_eq_of_lt hid
      have hfresh : ∀ r, global_count r w.display.id w.log = 0 := by
        intro r
        by_contra hne
        have := (h5 r w.display.id (Nat.pos_of_ne_zero hne)).2
        exact absurd this (lt_irrefl _)
      have hcount : ∀ r name, global_count r name
          (w.log ++ w.display.registry_resource_list.map (fun resource =>
            action.post_event resource WL_REGISTRY_GLOBAL
              [.u w.display.id, .s (some interface.name),
               .u (version % (UINT32_RANGE : Int)).toNat])) =
          global_count r name w.log +
            (if w.display.id = name then w.display.registry_resource_list.count r else 0) := by
        intro r name
        rw [global_count_append, global_count_broadcast]
      simp only
      refine ⟨?_, ?_, h3, h4, ?_, ?_, ?_, ?_⟩
      · rw [List.map_append, List.nodup_append]
        refine ⟨h1, by simp, ?_⟩
        intro n hn hn1
        simp only [List.map_cons, List.map_nil, List.mem_singleton] at hn1
        rcases List.mem_map.mp hn with ⟨g, hg, hgn⟩
        have := h2 g hg
        omega
      · intro g hg
        show g.name < (w.display.id + 1) % UINT32_RANGE
        rw [hmod]
        rcases List.mem_append.mp hg with hg | hg
        · exact Nat.lt_succ_of_lt (h2 g hg)
        · rw [List.mem_singleton] at hg
          rw [hg]
          exact Nat.lt_succ_self _
      · intro r name hpos
        show r.ident < w.allocated ∧ name < (w.display.id + 1) % UINT32_RANGE
        rw [hmod]
        rw [hcount] at hpos
        by_cases hn : w.display.id = name
        · rw [if_pos hn] at hpos
          subst hn
          rw [hfresh, Nat.zero_add] at hpos
          exact ⟨h4 r (List.count_pos_iff.mp hpos), Nat.lt_succ_self _⟩
        · rw [if_neg hn, Nat.add_zero] at hpos
          have := h5 r name hpos
          exact ⟨this.1, Nat.lt_succ_of_lt this.2⟩
      · intro r name
        show global_count r name (w.log ++ _) ≤ 1
        rw [hcount]
        by_cases hn : w.display.id = name
        · rw [if_pos hn]
          subst hn
          rw [hfresh, Nat.zero_add]
          exact List.nodup_iff_count_le_one.mp h3 r
        · rw [if_neg hn, Nat.add_zero]
          exact h6 r name
      · intro r hr g hg
        show global_count r g.name (w.log ++ _) = 1
        rw [hcount]
        rcases List.mem_append.mp hg with hg | hg
        · have hlt := h2 g hg
          have hn : ¬ w.display.id = g.name := by omega
          rw [if_neg hn, Nat.add_zero]
          exact h7 r hr g hg
        · rw [List.mem_singleton] at hg
          subst hg
          simp only [if_true]
          rw [hfresh, Nat.zero_add]
          exact List.count_eq_one_of_mem h3 hr
      · apply removes_follow_append _ _ h8
        intro e he r name hrem
        rcases List.mem_map.mp he with ⟨x, _, rfl⟩
        rw [not_remove_of_global] at hrem
        cases hrem

theorem display_inv_global_destroy (w : world) (g : wl_global) (h : display_inv w)
    (hg : g ∈ w.display.global_list) : display_inv (wl_global_destroy w g) := by
  obtain ⟨h1, h2, h3, h4, h5, h6, h7, h8⟩ := h
  have hcount : ∀ r name, global_count r name (wl_global_destroy w g).log =
      global_count r name w.log := by
    intro r name
    show global_count r name (w.log ++ _) = _
    rw [global_count_append, global_count_removes, Nat.add_zero]
  refine ⟨?_, ?_, h3, h4, ?_, ?_, ?_, ?_⟩
  · exact List.Nodup.sublist ((List.erase_sublist g _).map _) h1
  · intro x hx
    exact h2 x (List.mem_of_mem_erase hx)
  · intro r name hpos
    rw [hcount] at hpos
    exact h5 r name hpos
  · intro r name
    rw [hcount]; exact h6 r name
  · intro r hr x hx
    rw [hcount]
    exact h7 r hr x (List.mem_of_mem_erase hx)
  · show removes_follow (w.log ++ _)
    apply removes_follow_append _ _ h8
    intro e he r name hrem
    rcases List.mem_map.mp he with ⟨x, hx, rfl⟩
    simp only [is_remove_event, decide_eq_true_eq] at hrem
    obtain ⟨hxr, _, hname⟩ := hrem
    subst hxr
    subst hname
    apply exists_global_of_count
    rw [h7 x hx g hg]
    exact Nat.one_pos

theorem display_inv_unbind (w : world) (r : wl_resource) (h : display_inv w) :
    display_inv (unbind_resource w r) := by
  obtain ⟨h1, h2, h3, h4, h5, h6, h7, h8⟩ := h
  refine ⟨h1, h2, ?_, ?_, h5, h6, ?_, h8⟩
  · exact List.Nodup.erase r h3
  · intro x hx
    exact h4 x (List.mem_of_mem_erase hx)
  · intro x hx g hg
    exact h7 x (List.mem_of_mem_erase hx) g hg

theorem display_step_id (w w1 : world) (op : display_op) (h : display_step w op = some w1) :
    w1.display.id ≤ w.display.id + 1 := by
  cases op with
  | get_registry client created =>
    simp only [display_step, Option.some.injEq] at h
    subst h
    cases created <;> simp [display_get_registry]
  | global_create interface version data bind allocated =>
    simp only [display_step, Option.some.injEq] at h
    subst h
    unfold wl_global_create
    split
    · exact Nat.le_succ _
    · split
      · exact Nat.le_succ _
      · exact Nat.mod_le _ _
  | global_destroy g =>
    simp only [display_step] at h
    split at h
    · injection h with h; subst h; exact Nat.le_succ _
    · cases h
  | resource_destroy r =>
    simp only [display_step] at h
    split at h
    · injection h with h; subst h; exact Nat.le_succ _
    · cases h

theorem display_inv_step (w w1 : world) (op : display_op) (h : display_inv w)
    (hid : w.display.id + 1 < 2 ^ 32) (hs : display_step w op = some w1) :
    display_inv w1 := by
  cases op with
  | get_registry client created =>
    simp only [display_step, Option.some.injEq] at hs
    subst hs
    exact display_inv_get_registry w client created h
  | global_create interface version data bind allocated =>
    simp only [display_step, Option.some.injEq] at hs
    subst hs
    exact display_inv_global_create w interface version data bind allocated h hid
  | global_destroy g =>
    simp only [display_step] at hs
    split at hs
    · rename_i hg
      injection hs with hs
      subst hs
      exact display_inv_global_destroy w g h hg
    · cases hs
  | resource_destroy r =>
    simp only [display_step] at hs
    split at hs
    · injection hs with hs
      subst hs
      exact display_inv_unbind w r h
    · cases hs

theorem display_inv_run (ops : List display_op) :
    ∀ (w w1 : world) (k : Nat), display_inv w → w.display.id ≤ k + 1 →
      k + ops.length + 1 < 2 ^ 32 → display_run w ops = some w1 → display_inv w1 := by
  induction ops with
  | nil =>
    intro w w1 k h _ _ hr
    simp only [display_run, Option.some.injEq] at hr
    exact hr ▸ h
  | cons op rest ih =>
    intro w w1 k h hk hlen hr
    simp only [display_run] at hr
    simp only [List.length_cons] at hlen
    cases hs : display_step w op with
    | none => simp [hs] at hr
    | some w2 =>
      simp only [hs] at hr
      have hid : w.display.id + 1 < 2 ^ 32 := by omega
      have h2 := display_inv_step w w2 op h hid hs
      have hk2 : w2.display.id ≤ (k + 1) + 1 := by
        have := display_step_id w w2 op hs
        omega
      exact ih w2 w1 (k + 1) h2 hk2 (by omega) hr

/-- C10 as the code has it: over any sequence of fewer than `2 ^ 32 - 1`
operations `display_get_registry`, `wl_global_create`, `wl_global_destroy`
and destructions of registry resources on a display made by
`wl_display_create`, so that the 32-bit counter of the names does not wrap, a
registry resource is sent `wl_registry.global` for a name at most once,
exactly once when the global of that name and the resource are both on the
lists of the display, and `wl_registry.global_remove` for a name is sent to it
only after the `global` event for that name. -/
theorem registry_events (ops : List display_op) (w : world)
    (h : display_run wl_display_create ops = some w) (hlen : ops.length + 1 < 2 ^ 32) :
    ∀ (r : wl_resource) (name : Nat),
      global_count r name w.log ≤ 1 ∧
      (∀ g ∈ w.display.global_list, g.name = name →
        r ∈ w.display.registry_resource_list → global_count r name w.log = 1) ∧
      (∀ (pre : List action) (e : action) (post : List action),
        w.log = pre ++ e :: post → is_remove_event r name e = true →
        ∃ e1 ∈ pre, is_global_event r name e1 = true) := by
  have hinv := display_inv_run ops wl_display_create w 0 display_inv_create
    (by decide) (by omega) h
  obtain ⟨_, _, _, _, _, h6, h7, h8⟩ := hinv
  intro r name
  refine ⟨h6 r name, ?_, ?_⟩
  · intro g hg hname hr
    rw [← hname]
    exact h7 r hr g hg
  · intro pre e post hsplit hrem
    exact h8 pre e post r name hsplit hrem

/-- C10 as the claim states it fails: a global created and destroyed before a
client asks for the registry is never announced to the registry resource of
that client, which is sent `global` for its name zero times, not once. -/
theorem registry_events_counterexample :
    (wl_global_create wl_display_create wl_display_interface 1 none 7 true).2 =
      some sample_global ∧
    display_run wl_display_create sample_ops_late = some sample_world_late ∧
    sample_registry_resource ∈ sample_world_late.display.registry_resource_list ∧
    global_count sample_registry_resource sample_global.name sample_world_late.log = 0 :=
  ⟨by rfl, by rfl, by decide, by decide⟩

/-- A registry resource that is there when a global is created and destroyed
is sent `global` for it once and `global_remove` after that. -/
theorem registry_events_witness :
    (display_run wl_display_create sample_ops_live = some sample_world_live ∧
      sample_ops_live.length + 1 < 2 ^ 32) ∧
    global_count sample_registry_resource 1 sample_world_live.log ≤ 1 :=
  ⟨⟨by rfl, by decide⟩,
    (registry_events sample_ops_live sample_world_live (by rfl) (by decide)
      sample_registry_resource 1).1⟩

/-! ## C11: the names of the globals -/

theorem global_create_some (w : world) (interface : wl_interface) (version : Int)
    (data : Option Nat) (bind : Nat) (allocated : Bool) (g : wl_global)
    (h : (wl_global_create w interface version data bind allocated).2 = some g) :
    g.name = w.display.id ∧
    (wl_global_create w interface version data bind allocated).1.display.id =
      (w.display.id + 1) % 2 ^ 32 ∧
    (wl_global_create w interface version data bind allocated).1.display.global_list =
      w.display.global_list ++ [g] := by
  unfold wl_global_create at h ⊢
  split
  · rw [if_pos (by assumption)] at h; cases h
  · split
    · rw [if_neg (by assumption), if_pos (by assumption)] at h; cases h
    · rw [if_neg (by assumption), if_neg (by assumption)] at h
      simp only [Option.some.injEq] at h
      subst h
      exact ⟨rfl, rfl, rfl⟩

theorem global_create_none (w : world) (interface : wl_interface) (version : Int)
    (data : Option Nat) (bind : Nat) (allocated : Bool)
    (h : (wl_global_create w interface version data bind allocated).2 = none) :
    (wl_global_create w interface version data bind allocated).1 = w := by
  unfold wl_global_create at h ⊢
  split
  · rfl
  · split
    · rfl
    · rw [if_neg (by assumption), if_neg (by assumption)] at h; cases h

theorem created_globals_run (ops : List display_op) :
    ∀ (w w1 : world), display_run w ops = some w1 →
      w.display.id + (created_globals w ops).length < 2 ^ 32 →
      (created_globals w ops).map (fun g => g.name) =
        List.range' w.display.id (created_globals w ops).length ∧
      w1.display.id = w.display.id + (created_globals w ops).length ∧
      (names_below w → names_below w1) := by
  induction ops with
  | nil =>
    intro w w1 h _
    simp only [display_run, Option.some.injEq] at h
    subst h
    simp [created_globals]
  | cons op rest ih =>
    intro w w1 h hlen
    simp only [display_run] at h
    cases hs : display_step w op with
    | none => simp [hs] at h
    | some w2 =>
      simp only [hs] at h
      cases op with
      | get_registry client created =>
        have hc : created_globals w (.get_registry client created :: rest) =
            created_globals w2 rest := by simp [created_globals, hs]
        rw [hc] at hlen ⊢
        simp only [display_step, Option.some.injEq] at hs
        have hid : w2.display.id = w.display.id := by
          subst hs; cases created <;> rfl
        have hgl : w2.display.global_list = w.display.global_list := by
          subst hs; cases created <;> rfl
        obtain ⟨h1, h2, h3⟩ := ih w2 w1 h (by rw [hid]; exact hlen)
        rw [hid] at h1 h2
        refine ⟨h1, h2, fun hb => h3 ?_⟩
        unfold names_below at hb ⊢
        rw [hid, hgl]
        exact hb
      | global_destroy g =>
        have hc : created_globals w (.global_destroy g :: rest) =
            created_globals w2 rest := by simp [created_globals, hs]
        rw [hc] at hlen ⊢
        simp only [display_step] at hs
        split at hs
        · injection hs with hs
          have hid : w2.display.id = w.display.id := by subst hs; rfl
          have hgl : w2.display.global_list = w.display.global_list.erase g := by
            subst hs; rfl
          obtain ⟨h1, h2, h3⟩ := ih w2 w1 h (by rw [hid]; exact hlen)
          rw [hid] at h1 h2
          refine ⟨h1, h2, fun hb => h3 ?_⟩
          unfold names_below at hb ⊢
          rw [hid, hgl]
          exact ⟨hb.1.sublist ((List.erase_sublist g _).map _),
            fun x hx => hb.2 x (List.mem_of_mem_erase hx)⟩
        · cases hs
      | resource_destroy r =>
        have hc : created_globals w (.resource_destroy r :: rest) =
            created_globals w2 rest := by simp [created_globals, hs]
        rw [hc] at hlen ⊢
        simp only [display_step] at hs
        split at hs
        · injection hs with hs
          have hid : w2.display.id = w.display.id := by subst hs; rfl
          have hgl : w2.display.global_list = w.display.global_list := by subst hs; rfl
          obtain ⟨h1, h2, h3⟩ := ih w2 w1 h (by rw [hid]; exact hlen)
          rw [hid] at h1 h2
          refine ⟨h1, h2, fun hb => h3 ?_⟩
          unfold names_below at hb ⊢
          rw [hid, hgl]
          exact hb
        · cases hs
      | global_create interface version data bind allocated =>
        have hc : created_globals w (.global_create interface version data bind allocated :: rest) =
            (wl_global_create w interface version data bind allocated).2.toList ++
              created_globals w2 rest := by simp [created_globals, hs]
        rw [hc] at hlen ⊢
        simp only [display_step, Option.some.injEq] at hs
        cases hg : (wl_global_create w interface version data bind allocated).2 with
        | none =>
          have hw := global_create_none w interface version data bind allocated hg
          rw [hs] at hw
          subst hw
          rw [hg] at hlen
          simpa using ih w2 w1 h (by simpa using hlen)
        | some g =>
          obtain ⟨g1, g2, g3⟩ := global_create_some w interface version data bind allocated g hg
          rw [hs] at g2 g3
          rw [hg] at hlen
          simp only [Option.toList_some, List.singleton_append, List.length_cons] at hlen ⊢
          have hid : w2.display.id = w.display.id + 1 := by
            rw [g2]; exact Nat.mod_eq_of_lt (by omega)
          obtain ⟨h1, h2, h3⟩ := ih w2 w1 h (by omega)
          refine ⟨?_, by omega, fun hb => h3 ?_⟩
          · rw [List.map_cons, h1, g1, hid]
            rfl
          · unfold names_below at hb ⊢
            rw [hid, g3]
            constructor
            · rw [List.map_append, List.pairwise_append]
              refine ⟨hb.1, by simp, ?_⟩
              intro a ha b hb1
              simp only [List.map_cons, List.map_nil, List.mem_singleton] at hb1
              obtain ⟨x, hx, rfl⟩ := List.mem_map.1 ha
              rw [hb1, g1]
              exact hb.2 x hx
            · intro x hx
              rcases List.mem_append.1 hx with hx | hx
              · exact Nat.lt_succ_of_lt (hb.2 x hx)
              · simp only [List.mem_singleton] at hx
                rw [hx, g1]
                exact Nat.lt_succ_self _

/-- C11 as the code has it: over any sequence of operations on a display made
by `wl_display_create` (requests for the registry with any object ids,
creations and destructions of globals, destructions of registry resources) in
which fewer than 2^32 - 1 calls of `wl_global_create` succeed, the names
these calls assign are 1, 2, 3, ... in the order of the calls, the counter ends
one above the number of successful calls, and the globals on the list of the
display are sorted by name without a repeat. -/
theorem global_names_increasing (ops : List display_op) (w : world)
    (h : display_run wl_display_create ops = some w)
    (hn : (created_globals wl_display_create ops).length + 1 < 2 ^ 32) :
    (created_globals wl_display_create ops).map (fun g => g.name) =
      List.range' 1 (created_globals wl_display_create ops).length ∧
    w.display.id = 1 + (created_globals wl_display_create ops).length ∧
    (w.display.global_list.map (fun g => g.name)).Pairwise (fun a b => a < b) ∧
    (w.display.global_list.map (fun g => g.name)).Nodup := by
  obtain ⟨h1, h2, h3⟩ := created_globals_run ops wl_display_create w h
    (by rw [show wl_display_create.display.id = 1 from rfl]; omega)
  have hb : names_below wl_display_create := by
    simp [names_below, wl_display_create]
  have hp := (h3 hb).1
  exact ⟨h1, h2, hp, hp.imp (fun hab => Nat.ne_of_lt hab)⟩

theorem display_run_append (l1 l2 : List display_op) :
    ∀ w : world, display_run w (l1 ++ l2) =
      (display_run w l1).bind (fun w1 => display_run w1 l2) := by
  induction l1 with
  | nil => intro w; rfl
  | cons op rest ih =>
    intro w
    simp only [List.cons_append, display_run]
    cases display_step w op with
    | none => rfl
    | some w1 => exact ih w1

theorem step_sample_create (n : Nat) :
    display_step (world_after_creates n) sample_create = some (world_after_creates (n + 1)) := by
  simp only [display_step, sample_create, wl_global_create, world_after_creates,
    wl_display_interface, lt_self_iff_false, if_false, Bool.true_eq_false, List.map_nil,
    List.append_nil, Option.some.injEq, world.mk.injEq, wl_display.mk.injEq, and_true, true_and]
  constructor
  · simp only [UINT32_RANGE]
    omega
  · rw [List.range_succ, List.map_append]
    rfl

theorem run_sample_creates (n : Nat) :
    display_run wl_display_create (List.replicate n sample_create) =
      some (world_after_creates n) := by
  induction n with
  | zero => rfl
  | succ n ih =>
    rw [List.replicate_succ', display_run_append, ih]
    simp only [Option.some_bind, display_run]
    rw [step_sample_create]

/-- C11 as the claim states it fails: after 2^32 + 1 successful calls of
`wl_global_create` on a display made by `wl_display_create` the name counter
has wrapped: call number 2^32 was given the name 0 after the name
2^32 - 1, and the first and the last global on the list both have the
name 1. -/
theorem global_names_increasing_counterexample :
    display_run wl_display_create (List.replicate (2 ^ 32 + 1) sample_create) =
      some (world_after_creates (2 ^ 32 + 1)) ∧
    (world_after_creates (2 ^ 32 + 1)).display.global_list[2 ^ 32 - 2]? =
      some (sample_global_named (2 ^ 32 - 1)) ∧
    (world_after_creates (2 ^ 32 + 1)).display.global_list[2 ^ 32 - 1]? =
      some (sample_global_named 0) ∧
    (world_after_creates (2 ^ 32 + 1)).display.global_list[0]? = some (sample_global_named 1) ∧
    (world_after_creates (2 ^ 32 + 1)).display.global_list[2 ^ 32]? =
      some (sample_global_named 1) := by
  refine ⟨run_sample_creates _, ?_, ?_, ?_, ?_⟩ <;>
    simp only [world_after_creates, List.getElem?_map] <;>
    rw [List.getElem?_range (by norm_num)] <;>
    simp [UINT32_RANGE]

/-- Two globals created around a request for the registry are named 1 and 2. -/
theorem global_names_increasing_witness :
    (display_run wl_display_create
        [sample_create, .get_registry 0 (some 2), sample_create] =
      some
        { display :=
            { id := 3, serial := 0, registry_resource_list := [sample_registry_resource],
              global_list := [sample_global_named 1, sample_global_named 2] }
          log := announce_globals sample_registry_resource [sample_global_named 1] ++
            [.post_event sample_registry_resource WL_REGISTRY_GLOBAL
              [.u 2, .s (some "wl_display"), .u 1]]
          allocated := 1 } ∧
      (created_globals wl_display_create
        [sample_create, .get_registry 0 (some 2), sample_create]).length + 1 < 2 ^ 32) ∧
    (created_globals wl_display_create
        [sample_create, .get_registry 0 (some 2), sample_create]).map (fun g => g.name) =
      [1, 2] :=
  ⟨⟨by rfl, by decide⟩,
    (global_names_increasing [sample_create, .get_registry 0 (some 2), sample_create] _
      (by rfl) (by decide)).1⟩

/-! ## C12: the serial -/

theorem next_serials_length (n : Nat) : ∀ d : wl_display, (next_serials n d).2.length = n := by
  induction n with
  | zero => intro d; rfl
  | succ n ih => intro d; simp [next_serials, ih]

theorem next_serials_get (n : Nat) :
    ∀ (d : wl_display) (k : Nat), k < n →
      (next_serials n d).2[k]? = some ((d.serial + k + 1) % 2 ^ 32) := by
  induction n with
  | zero => intro d k hk; omega
  | succ n ih =>
    intro d k hk
    cases k with
    | zero => simp [next_serials, wl_display_next_serial, UINT32_RANGE]
    | succ k =>
      simp only [next_serials, List.getElem?_cons_succ]
      rw [ih _ k (by omega)]
      simp only [wl_display_next_serial, UINT32_RANGE]
      congr 1
      omega

/-- C12 as the code has it: `wl_display_get_serial` returns the serial and
leaves the display as it is; `wl_display_next_serial` adds one to the serial
modulo 2^32 and returns the new value, which a get right after it returns
again; on a display made by `wl_display_create` the first `n` calls of next
return 1, 2, ..., n as long as `n` is below 2^32. -/
theorem serial_get_and_next (d : wl_display) (n : Nat) (hn : n < 2 ^ 32) :
    wl_display_get_serial d = (d, d.serial) ∧
    (wl_display_next_serial d).2 = (d.serial + 1) % 2 ^ 32 ∧
    (wl_display_next_serial d).1 = { d with serial := (d.serial + 1) % 2 ^ 32 } ∧
    (wl_display_get_serial (wl_display_next_serial d).1).2 = (wl_display_next_serial d).2 ∧
    (next_serials n wl_display_create.display).2 = List.range' 1 n := by
  refine ⟨rfl, rfl, rfl, rfl, ?_⟩
  apply List.ext_getElem?
  intro k
  by_cases hk : k < n
  · rw [next_serials_get n _ k hk, List.getElem?_range' _ _ hk]
    simp only [wl_display_create]
    congr 1
    omega
  · rw [List.getElem?_eq_none (by rw [next_serials_length]; omega),
      List.getElem?_eq_none (by rw [List.length_range']; omega)]

/-- C12 as the claim states it fails: on a display made by `wl_display_create`
call number 2^32 - 1 of `wl_display_next_serial` returns 2^32 - 1 and
the call after it returns 0. -/
theorem serial_get_and_next_counterexample :
    (next_serials (2 ^ 32) wl_display_create.display).2[2 ^ 32 - 2]? = some (2 ^ 32 - 1) ∧
    (next_serials (2 ^ 32) wl_display_create.display).2[2 ^ 32 - 1]? = some 0 := by
  constructor
  · rw [next_serials_get _ _ _ (by norm_num)]
    simp [wl_display_create]
  · rw [next_serials_get _ _ _ (by norm_num)]
    simp [wl_display_create]

/-- Three calls on a new display return 1, 2 and 3. -/
theorem serial_get_and_next_witness :
    (3 < 2 ^ 32) ∧ (next_serials 3 wl_display_create.display).2 = [1, 2, 3] :=
  ⟨by decide, (serial_get_and_next wl_display_create.display 3 (by decide)).2.2.2.2⟩

/-! ## C21: a failed flush -/

/-- What the three callers of `wl_connection_flush` do with a failed flush: the
error flag of the client stays as it was. -/
theorem flush_keeps_error (env : Env) (s : state) :
    (wl_client_flush env s).client.error = s.client.error ∧
    (flush_clients_body env s).client.error = s.client.error := by
  refine ⟨rfl, ?_⟩
  unfold flush_clients_body wl_client_destroy
  simp only
  split
  · rfl
  · split <;> rfl

/-- C21: where `wl_connection_flush` returns a negative value, `wl_client_flush`
drops the result and logs nothing; `wl_display_flush_clients` re-arms the fd of
the client for writing and reading when `errno` is `EAGAIN` and destroys the
client otherwise; the writable branch of `wl_client_connection_data` destroys
the client and returns when `errno` is not `EAGAIN`.  None of them changes the
error flag of the client. -/
theorem failed_flush (env : Env) (fuel : Nat) (s : state) (mask : Nat)
    (hfail : (env.wl_connection_flush s.client s.errno).1 < 0) :
    (wl_client_flush env s).client.error = s.client.error ∧
    (wl_client_flush env s).log = s.log ∧
    (flush_clients_body env s).client.error = s.client.error ∧
    ((env.wl_connection_flush s.client s.errno).2.1 = EAGAIN →
      (flush_clients_body env s).log =
        s.log ++ [.fd_update (WL_EVENT_WRITABLE ||| WL_EVENT_READABLE)]) ∧
    ((env.wl_connection_flush s.client s.errno).2.1 ≠ EAGAIN →
      (flush_clients_body env s).log = s.log ++ [.client_destroy]) ∧
    (mask &&& (WL_EVENT_ERROR ||| WL_EVENT_HANGUP) = 0 → mask &&& WL_EVENT_WRITABLE ≠ 0 →
      (env.wl_connection_flush s.client s.errno).2.1 ≠ EAGAIN →
      ∃ s1, wl_client_connection_data env fuel s mask = .ok s1 ∧
        s1.client.error = s.client.error ∧ s1.log = s.log ++ [.client_destroy]) := by
  refine ⟨rfl, rfl, (flush_keeps_error env s).2, ?_, ?_, ?_⟩
  · intro he
    unfold flush_clients_body
    simp only
    rw [if_pos ⟨hfail, he⟩]
  · intro he
    unfold flush_clients_body wl_client_destroy
    simp only
    rw [if_neg (fun h => he h.2), if_pos hfail]
  · intro hm hw he
    have h1 : (env.wl_connection_flush s.client s.errno).1 < 0 ∧
        (env.wl_connection_flush s.client s.errno).2.1 ≠ EAGAIN := ⟨hfail, he⟩
    have h0 : ¬ (mask &&& (WL_EVENT_ERROR ||| WL_EVENT_HANGUP) ≠ 0) := fun h => h hm
    unfold wl_client_connection_data
    simp only [if_neg h0, if_pos hw, if_pos h1, if_true]
    exact ⟨_, rfl, rfl, rfl⟩

/-- The claim C21 fails for `wl_client_flush`: a flush that fails with `EPIPE`
leaves the error flag of the sample client clear. -/
theorem failed_flush_counterexample :
    ((sample_env_flush EPIPE).wl_connection_flush sample_state_idle.client
        sample_state_idle.errno).1 < 0 ∧
    (wl_client_flush (sample_env_flush EPIPE) sample_state_idle).client.error = 0 ∧
    ((wl_display_flush_clients (sample_env_flush EPIPE) [sample_state_idle]).map
        (fun s => s.client.error)) = [0] ∧
    (wl_client_connection_data (sample_env_flush EPIPE) 1 sample_state_idle
        WL_EVENT_WRITABLE).toOption.map (fun s => s.client.error) = some 0 := by
  refine ⟨by decide, by rfl, by rfl, by rfl⟩

/-- A flush of the sample client that fails with `EPIPE` leaves its error flag
as it was. -/
theorem failed_flush_witness :
    ((sample_env_flush EPIPE).wl_connection_flush sample_state_idle.client
        sample_state_idle.errno).1 < 0 ∧
    (wl_client_flush (sample_env_flush EPIPE) sample_state_idle).client.error =
      sample_state_idle.client.error :=
  ⟨by decide,
    (failed_flush (sample_env_flush EPIPE) 1 sample_state_idle WL_EVENT_WRITABLE
      (by decide)).1⟩

/-! ## A frame of size 0 with a demarshaller that accepts it, and C30: a version the
interface lacks -/

/-- One round of the frame loop on the header of size 0: the handler is called
and the loop goes on with the same bytes and the same length. -/
theorem zero_size_round (log : List action) :
    dispatch_frame sample_env (sample_state_zero_size log) 8 =
      .next (sample_state_zero_size
        (log ++ [.closure_invoke sample_closure sample_surface_resource 0])) 8 := by
  have hc : wl_connection_copy (sample_state_zero_size log).client.connection = (3, 0) := rfl
  have hl : wl_map_lookup (sample_state_zero_size log).client.objects 3 =
      some sample_surface_resource := rfl
  have hf : wl_map_lookup_flags (sample_state_zero_size log).client.objects 3 = 0 := rfl
  have hm : sample_surface_resource.interface.methods[(frame_opcode 0).toNat]? =
      some { name := "commit", signature := "" } := rfl
  unfold dispatch_frame
  rw [if_neg (by decide)]
  simp only [hc, hl, hf]
  rw [if_neg (by decide), if_neg (by decide)]
  simp only [hm]
  rw [if_neg (by decide)]
  rfl

/-- The frame loop on the header of size 0 uses up any fuel. -/
theorem zero_size_loop (fuel : Nat) :
    ∀ log, frame_loop sample_env fuel (sample_state_zero_size log) 8 = .error .out_of_fuel := by
  induction fuel with
  | zero => intro log; rfl
  | succ n ih =>
    intro log
    rw [frame_loop, zero_size_round]
    exact ih _

/-- The frame loop on the header of size 0 handles as many frames as it has
fuel. -/
theorem zero_size_handled (fuel : Nat) :
    ∀ log, (handled_frames sample_env fuel (sample_state_zero_size log) 8).length = fuel := by
  induction fuel with
  | zero => intro log; rfl
  | succ n ih =>
    intro log
    have hc : ¬ ((8 : Int) % 2 ^ 64 < 8 ∨
        8 < frame_size (wl_connection_copy (sample_state_zero_size log).client.connection).2) := by
      rw [show wl_connection_copy (sample_state_zero_size log).client.connection = (3, 0)
        from rfl]
      decide
    rw [handled_frames, if_neg hc, zero_size_round]
    simp only [List.length_cons, ih]

/-- The loop itself does not test the declared size: with the sample
environment, whose demarshaller accepts any frame, on eight buffered bytes that
hold a header of the declared size 0 for a request without arguments the frame
loop uses up whatever number of rounds it is allowed, handing the same frame
to the handler in every round with the length still at 8. -/
theorem zero_size_frame_never_ends (fuel : Nat) :
    frame_loop sample_env fuel (sample_state_zero_size []) 8 = .error .out_of_fuel ∧
    (handled_frames sample_env fuel (sample_state_zero_size []) 8).length = fuel ∧
    frame_size (wl_connection_copy (sample_state_zero_size []).client.connection).2 = 0 ∧
    dispatch_frame sample_env (sample_state_zero_size []) 8 =
      .next (sample_state_zero_size
        [.closure_invoke sample_closure sample_surface_resource 0]) 8 :=
  ⟨zero_size_loop fuel [], zero_size_handled fuel [], by decide, zero_size_round []⟩

/-- C30: `wl_global_create` called with a version above the version of the
interface returns NULL and leaves the display as it was: the name counter and
the global list are unchanged and nothing is posted. -/
theorem global_create_version (w : world) (interface : wl_interface) (version : Int)
    (data : Option Nat) (bind : Nat) (allocated : Bool)
    (h : interface.version < version) :
    wl_global_create w interface version data bind allocated = (w, none) ∧
    (wl_global_create w interface version data bind allocated).1.display.id = w.display.id ∧
    (wl_global_create w interface version data bind allocated).1.display.global_list =
      w.display.global_list ∧
    (wl_global_create w interface version data bind allocated).1.log = w.log := by
  have h1 : wl_global_create w interface version data bind allocated = (w, none) := by
    unfold wl_global_create
    rw [if_pos h]
  rw [h1]
  exact ⟨rfl, rfl, rfl, rfl⟩

/-- The interface `wl_display` has the version 1, so a global of version 2 is
refused and the world stays as it was. -/
theorem global_create_version_witness :
    wl_display_interface.version < 2 ∧
    wl_global_create sample_world_live wl_display_interface 2 none 7 true =
      (sample_world_live, none) :=
  ⟨by decide,
    (global_create_version sample_world_live wl_display_interface 2 none 7 true
      (by decide)).1⟩

/-! ## C22: creating a client -/

/-- Every failure of `wl_client_create` before the display resource is made
returns NULL and leaves the client list of the display as it was. -/
theorem client_create_early (env : Env) (calls : create_calls) (client_list : List wl_client)
    (errno : Int) (client ident : Nat) (display : Option Nat)
    (h : calls.malloc_client = false ∨ calls.wl_event_loop_add_fd = none ∨
      calls.getsockopt < 0 ∨ calls.wl_connection_create = none ∨ calls.wl_map_insert_at < 0) :
    ∃ released, wl_client_create env calls client_list errno client ident display =
      .ok { client := none, client_list := client_list, released := released } := by
  unfold wl_client_create
  by_cases h1 : calls.malloc_client = false
  · rw [if_pos h1]; exact ⟨_, rfl⟩
  rw [if_neg h1]
  cases h2 : calls.wl_event_loop_add_fd with
  | none => exact ⟨_, rfl⟩
  | some source =>
    simp only
    by_cases h3 : calls.getsockopt < 0
    · rw [if_pos h3]; exact ⟨_, rfl⟩
    rw [if_neg h3]
    cases h4 : calls.wl_connection_create with
    | none => exact ⟨_, rfl⟩
    | some connection =>
      simp only
      by_cases h5 : calls.wl_map_insert_at < 0
      · rw [if_pos h5]; exact ⟨_, rfl⟩
      · rcases h with h | h | h | h | h
        · exact absurd h h1
        · rw [h2] at h; cases h
        · exact absurd h h3
        · rw [h4] at h; cases h
        · exact absurd h h5

/-- C22: when every step of `wl_client_create` before `bind_display` succeeds
and `malloc` returns NULL for the display resource, `bind_display` posts
`no memory` on the display resource of the client, which is NULL: the call
dereferences a NULL pointer and `wl_client_create` does not return. -/
theorem client_create_display_resource (env : Env) (calls : create_calls)
    (client_list : List wl_client) (errno : Int) (client ident : Nat) (display : Option Nat)
    (source : Nat) (connection : wl_connection)
    (h1 : calls.malloc_client = true) (h2 : calls.wl_event_loop_add_fd = some source)
    (h3 : 0 ≤ calls.getsockopt) (h4 : calls.wl_connection_create = some connection)
    (h5 : 0 ≤ calls.wl_map_insert_at) (h6 : calls.malloc_resource = false) :
    wl_client_create env calls client_list errno client ident display =
      .error .null_dereference := by
  unfold wl_client_create
  rw [if_neg (by rw [h1]; decide)]
  simp only [h2, h4]
  rw [if_neg (by omega), if_neg (by omega), h6]
  rfl

/-- The sample calls with `malloc` failing for the display resource. -/
theorem client_create_display_resource_witness :
    wl_client_create sample_env { sample_calls with malloc_resource := false } [] 0 0 0
      (some 9) = .error .null_dereference :=
  client_create_display_resource sample_env { sample_calls with malloc_resource := false }
    [] 0 0 0 (some 9) 1 { input := [] } rfl rfl (by decide) rfl (by decide) rfl

/-- With every call succeeding `wl_client_create` returns the client, with its
display resource at id 1, and appends it to the client list. -/
theorem client_create_sample :
    wl_client_create sample_env sample_calls [] 0 0 0 (some 9) =
      .ok { client := some sample_created_client, client_list := [sample_created_client],
            released := [] } := by
  rfl

/-! ## C27: the request sync -/

/-- The flags of the slot a resource was stored in with the flags 0. -/
theorem lookup_flags_insert (map : wl_map) (id : Nat) (data : Option wl_resource)
    (h : (wl_map_insert_at map 0 id data).1 = 0) :
    wl_map_lookup_flags (wl_map_insert_at map 0 id data).2 id = 0 := by
  unfold wl_map_insert_at at h ⊢
  split at h
  · simp at h
  · rename_i hc
    rw [if_neg hc]
    simp [wl_map_lookup_flags, wl_map_find]

/-- `wl_resource_post_event` leaves the object map and the display resource of
the client alone and appends the event to the log. -/
theorem post_event_keeps (env : Env) (s : state) (resource : wl_resource) (opcode : Nat)
    (args : List wl_argument) :
    (wl_resource_post_event env s resource opcode args).client.objects = s.client.objects ∧
    (wl_resource_post_event env s resource opcode args).client.display_resource =
      s.client.display_resource ∧
    (wl_resource_post_event env s resource opcode args).log =
      s.log ++ [.post_event resource opcode args] := by
  unfold wl_resource_post_event
  simp only
  split
  · exact ⟨rfl, rfl, rfl⟩
  · split <;> exact ⟨rfl, rfl, rfl⟩

/-- `wl_resource_destroy` on a resource without destroy callback and without
listeners, in a slot without the legacy flag. -/
theorem destroy_plain (env : Env) (s : state) (resource : wl_resource)
    (hd : resource.destroy = none) (hsig : ∀ c, env.wl_signal_emit resource c = c)
    (hflags : wl_map_lookup_flags s.client.objects resource.id = 0) :
    (wl_resource_destroy env s resource).log =
      s.log ++ [.signal_emit resource, .free resource] ++
        release_id s.client.display_resource resource.id ∧
    wl_map_lookup (wl_resource_destroy env s resource).client.objects resource.id = none := by
  have h1 : destroy_resource env s resource =
      { s with log := s.log ++ [.signal_emit resource, .free resource] } := by
    unfold destroy_resource
    simp only [hsig, hd, hflags]
    rw [if_pos (by decide)]
    simp
  unfold wl_resource_destroy release_id
  simp only [h1]
  by_cases hlt : resource.id < WL_SERVER_ID_START
  · rw [if_pos hlt, if_pos hlt]
    refine ⟨?_, lookup_insert_none _ _ _⟩
    cases hdr : s.client.display_resource with
    | none => simp
    | some d => simp [(queue_event_keeps env _ d WL_DISPLAY_DELETE_ID [.u resource.id]).2]
  · rw [if_neg hlt, if_neg hlt]
    exact ⟨by simp, lookup_remove _ _⟩

/-- C27: a `display_sync` for a new id that is not 0 and not live, with memory
at hand, creates a `wl_callback` resource at the id, posts exactly one event
`done` on it that carries what `wl_display_get_serial` returns, and destroys
the resource, which has no listeners: afterwards the display, and so its
serial, is as before and the id maps to no resource in the object map of the
client. -/
theorem display_sync_spec (env : Env) (display : wl_display) (s : state)
    (client id ident new_id : Nat) (hid : id ≠ 0)
    (hfree : wl_map_lookup s.client.objects id = none)
    (hsig : ∀ c, env.wl_signal_emit (sync_callback client id ident) c = c) :
    ∃ s1, display_sync env display s client id true ident new_id = .ok (s1, display) ∧
      s1.log = s.log ++
        [.map_insert_at 0 id (some (sync_callback client id ident)),
         .post_event (sync_callback client id ident) WL_CALLBACK_DONE
           [.u (wl_display_get_serial display).2],
         .signal_emit (sync_callback client id ident),
         .free (sync_callback client id ident)] ++
        release_id s.client.display_resource id ∧
      (wl_display_get_serial display).2 = display.serial ∧
      wl_map_lookup s1.client.objects id = none := by
  have hins : (wl_map_insert_at s.client.objects 0 id
      (some (sync_callback client id ident))).1 = 0 := by
    unfold wl_map_insert_at
    rw [if_neg (by simp [hfree])]
  have hcreate : wl_resource_create env s client wl_callback_interface 1 id true ident new_id =
      .ok ({ s with
              client := { s.client with
                objects := (wl_map_insert_at s.client.objects 0 id
                  (some (sync_callback client id ident))).2 }
              log := s.log ++ [.map_insert_at 0 id (some (sync_callback client id ident))] },
           some (sync_callback client id ident)) := by
    unfold wl_resource_create
    simp only [Bool.true_eq_false, if_false, if_neg hid]
    rw [if_neg (by have h0 := hins; unfold sync_callback at h0; omega)]
    rfl
  unfold display_sync
  rw [hcreate]
  simp only
  generalize hs1 : ({ s with
      client := { s.client with
        objects := (wl_map_insert_at s.client.objects 0 id
          (some (sync_callback client id ident))).2 }
      log := s.log ++ [.map_insert_at 0 id (some (sync_callback client id ident))] } : state)
    = s1
  have hp := post_event_keeps env s1 (sync_callback client id ident) WL_CALLBACK_DONE
    [.u (wl_display_get_serial display).2]
  have hflags : wl_map_lookup_flags
      (wl_resource_post_event env s1 (sync_callback client id ident) WL_CALLBACK_DONE
        [.u (wl_display_get_serial display).2]).client.objects
      (sync_callback client id ident).id = 0 := by
    rw [hp.1, ← hs1]
    exact lookup_flags_insert _ _ _ hins
  have hd := destroy_plain env
    (wl_resource_post_event env s1 (sync_callback client id ident) WL_CALLBACK_DONE
      [.u (wl_display_get_serial display).2])
    (sync_callback client id ident) rfl hsig hflags
  refine ⟨_, rfl, ?_, rfl, hd.2⟩
  rw [hd.1, hp.2.2, hp.2.1, ← hs1]
  simp [sync_callback]

/-- A `sync` of the sample client for the new id 6. -/
theorem display_sync_spec_witness :
    ∃ s1, display_sync sample_env sample_display (sample_state 1 0) 0 6 true 7 0 =
        .ok (s1, sample_display) ∧
      s1.log = (sample_state 1 0).log ++
        [.map_insert_at 0 6 (some (sync_callback 0 6 7)),
         .post_event (sync_callback 0 6 7) WL_CALLBACK_DONE
           [.u (wl_display_get_serial sample_display).2],
         .signal_emit (sync_callback 0 6 7),
         .free (sync_callback 0 6 7)] ++
        release_id (sample_state 1 0).client.display_resource 6 ∧
      (wl_display_get_serial sample_display).2 = sample_display.serial ∧
      wl_map_lookup s1.client.objects 6 = none :=
  display_sync_spec sample_env sample_display (sample_state 1 0) 0 6 7 0 (by decide)
    (by decide) (fun _ => rfl)

/-! ## C23: the socket path -/

theorem to_int32_of_range (v : Int) (h0 : 0 ≤ v) (h1 : v ≤ 2147483647) :
    Scanner.to_int32 v = v := by
  unfold Scanner.to_int32
  norm_num
  omega

theorem c_str_slash_length : (c_str "/").length = 1 := by decide

/-- The path `wl_socket_init_for_display_name` formats and its length. -/
theorem path_length (runtime_dir name : List Nat) :
    ((runtime_dir ++ c_str "/" ++ name).length : Int) =
      (runtime_dir.length : Int) + 1 + (name.length : Int) := by
  rw [List.length_append, List.length_append, c_str_slash_length]
  push_cast
  ring

/-- The value `name_size` of `wl_socket_init_for_display_name` when the path
with its NUL fits an `int`. -/
theorem init_name_size (runtime_dir name : List Nat)
    (hfit : (runtime_dir.length : Int) + 1 + (name.length : Int) + 1 ≤ INT_MAX) :
    Scanner.to_int32 ((snprintf UNIX_PATH_MAX (runtime_dir ++ c_str "/" ++ name)).2 + 1) =
      (runtime_dir.length : Int) + 1 + (name.length : Int) + 1 := by
  have hlen := path_length runtime_dir name
  have hret : (snprintf UNIX_PATH_MAX (runtime_dir ++ c_str "/" ++ name)).2 =
      (runtime_dir.length : Int) + 1 + (name.length : Int) := by
    unfold snprintf
    simp only
    rw [if_neg (by unfold INT_MAX at hfit ⊢; omega), hlen]
  rw [hret]
  exact to_int32_of_range _ (by omega) (by unfold INT_MAX at hfit; omega)

/-- A path that is too long for `sun_path` is refused with `ENAMETOOLONG`. -/
theorem init_too_long (s : wl_socket) (name : List Nat) (errno : Int) (runtime_dir : List Nat)
    (hfit : (runtime_dir.length : Int) + 1 + (name.length : Int) + 1 ≤ INT_MAX)
    (hbig : runtime_dir.length + 1 + name.length + 1 > UNIX_PATH_MAX) :
    ∃ s1, wl_socket_init_for_display_name (some runtime_dir) s name errno =
      .ok (-1, s1, ENAMETOOLONG) := by
  have hsize := init_name_size runtime_dir name hfit
  unfold wl_socket_init_for_display_name
  simp only [hsize]
  rw [if_neg (by omega), if_pos (by unfold UNIX_PATH_MAX at hbig ⊢; omega)]
  exact ⟨_, rfl⟩

/-- A path that fits `sun_path` is recorded whole, and the display name is the
name. -/
theorem init_fits (s : wl_socket) (name : List Nat) (errno : Int) (runtime_dir : List Nat)
    (hsmall : runtime_dir.length + 1 + name.length + 1 ≤ UNIX_PATH_MAX) :
    wl_socket_init_for_display_name (some runtime_dir) s name errno =
      .ok (0, { s with sun_path := runtime_dir ++ c_str "/" ++ name, display_name := name },
        errno) := by
  unfold UNIX_PATH_MAX at hsmall
  have hsize := init_name_size runtime_dir name (by unfold INT_MAX; omega)
  unfold wl_socket_init_for_display_name
  simp only [hsize]
  rw [if_neg (by omega), if_neg (by unfold UNIX_PATH_MAX; omega)]
  have htake : (snprintf UNIX_PATH_MAX (runtime_dir ++ c_str "/" ++ name)).1 =
      runtime_dir ++ c_str "/" ++ name := by
    unfold snprintf UNIX_PATH_MAX
    simp only
    apply List.take_of_length_le
    have := path_length runtime_dir name
    omega
  rw [htake]
  have hdrop : (runtime_dir ++ c_str "/" ++ name).drop
      ((runtime_dir.length : Int) + 1 + (name.length : Int) + 1 - 1 -
        (name.length : Int)).toNat = name := by
    have h1 : ((runtime_dir.length : Int) + 1 + (name.length : Int) + 1 - 1 -
        (name.length : Int)).toNat = (runtime_dir ++ c_str "/").length := by
      rw [List.length_append, c_str_slash_length]
      omega
    rw [h1, List.drop_left]
  rw [hdrop]

/-- C23: `wl_socket_init_for_display_name` fails with `ENOENT` when
`XDG_RUNTIME_DIR` is not set.  When it is set, and the path with its NUL fits
an `int`, the function fails with `ENAMETOOLONG` when the length of the
directory plus 1 plus the length of the name plus 1 for the NUL exceeds 108,
and otherwise it returns 0 with the socket path `runtime_dir/name` and the
display name `name`. -/
theorem socket_init_spec (s : wl_socket) (name : List Nat) (errno : Int)
    (runtime_dir : List Nat)
    (hfit : (runtime_dir.length : Int) + 1 + (name.length : Int) + 1 ≤ INT_MAX) :
    wl_socket_init_for_display_name none s name errno = .ok (-1, s, ENOENT) ∧
    (runtime_dir.length + 1 + name.length + 1 > UNIX_PATH_MAX →
      ∃ s1, wl_socket_init_for_display_name (some runtime_dir) s name errno =
        .ok (-1, s1, ENAMETOOLONG)) ∧
    (runtime_dir.length + 1 + name.length + 1 ≤ UNIX_PATH_MAX →
      wl_socket_init_for_display_name (some runtime_dir) s name errno =
        .ok (0, { s with sun_path := runtime_dir ++ c_str "/" ++ name, display_name := name },
          errno)) :=
  ⟨rfl, init_too_long s name errno runtime_dir hfit, init_fits s name errno runtime_dir⟩

/-- With `XDG_RUNTIME_DIR` set to `/run` the name `wayland-0` gives the socket
path `/run/wayland-0`. -/
theorem socket_init_spec_witness :
    wl_socket_init_for_display_name (some (c_str "/run")) wl_socket_alloc (c_str "wayland-0") 0 =
      .ok (0, { wl_socket_alloc with
                sun_path := c_str "/run" ++ c_str "/" ++ c_str "wayland-0"
                display_name := c_str "wayland-0" }, 0) :=
  (socket_init_spec wl_socket_alloc (c_str "wayland-0") 0 (c_str "/run") (by decide)).2.2
    (by decide)

/-! ## C24: the lock path -/

/-- After a successful `wl_socket_init_for_display_name` the socket path has at
most 107 bytes. -/
theorem init_ok_length (getenv : Option (List Nat)) (s s1 : wl_socket) (name : List Nat)
    (errno e1 : Int)
    (h : wl_socket_init_for_display_name getenv s name errno = .ok (0, s1, e1)) :
    s1.sun_path.length ≤ 107 := by
  unfold wl_socket_init_for_display_name at h
  cases hg : getenv with
  | none =>
    rw [hg] at h
    simp only [Except.ok.injEq, Prod.mk.injEq] at h
    exact absurd h.1 (by decide)
  | some runtime_dir =>
    rw [hg] at h
    simp only at h
    split at h
    · cases h
    · split at h
      · simp only [Except.ok.injEq, Prod.mk.injEq] at h
        exact absurd h.1 (by decide)
      · simp only [Except.ok.injEq, Prod.mk.injEq, true_and] at h
        rw [← h.1]
        show (List.take (UNIX_PATH_MAX - 1) _).length ≤ 107
        rw [List.length_take]
        exact Nat.min_le_left _ _

theorem lock_suffix_length : LOCK_SUFFIX.length = 5 := by decide

/-- The lock path of a socket path of at most 107 bytes is not cut. -/
theorem lock_path_whole (path : List Nat) (h : path.length ≤ 107) :
    (snprintf (UNIX_PATH_MAX + LOCK_SUFFIXLEN) (path ++ LOCK_SUFFIX)).1 = path ++ LOCK_SUFFIX := by
  unfold snprintf UNIX_PATH_MAX LOCK_SUFFIXLEN
  simp only
  apply List.take_of_length_le
  rw [List.length_append, lock_suffix_length]
  omega

/-- The first call of `wl_socket_lock` opens the lock path it formatted, and
when it returns 0 the lock path is the one recorded in the socket. -/
theorem socket_lock_path (calls : lock_calls) (s : wl_socket) :
    (wl_socket_lock calls s).2.2.head? = some (.open_lock
      (snprintf (UNIX_PATH_MAX + LOCK_SUFFIXLEN) (s.sun_path ++ LOCK_SUFFIX)).1) ∧
    ((wl_socket_lock calls s).1 = 0 →
      (wl_socket_lock calls s).2.1.lock_addr =
        (snprintf (UNIX_PATH_MAX + LOCK_SUFFIXLEN) (s.sun_path ++ LOCK_SUFFIX)).1 ∧
      (wl_socket_lock calls s).2.1.sun_path = s.sun_path ∧
      (wl_socket_lock calls s).2.1.display_name = s.display_name) := by
  unfold wl_socket_lock
  simp only
  split
  · exact ⟨rfl, fun h => absurd (show (-1 : Int) = 0 from h) (by decide)⟩
  · split
    · exact ⟨rfl, fun h => absurd (show (-1 : Int) = 0 from h) (by decide)⟩
    · split
      · split
        · exact ⟨rfl, fun h => absurd (show (-1 : Int) = 0 from h) (by decide)⟩
        · exact ⟨rfl, fun _ => ⟨rfl, rfl, rfl⟩⟩
      · split <;> exact ⟨rfl, fun _ => ⟨rfl, rfl, rfl⟩⟩

/-- C24: after `wl_socket_init_for_display_name` has returned 0 the socket path
has at most 107 bytes, so with the suffix and the NUL it fits the 113 bytes of
`lock_addr`: the lock path `wl_socket_lock` formats and opens, and records
when it returns 0, is the socket path followed by `.lock`, not cut, and two
sockets with the same lock path have the same socket path. -/
theorem lock_path_spec (calls : lock_calls) (getenv : Option (List Nat)) (s s1 : wl_socket)
    (name : List Nat) (errno e1 : Int)
    (h : wl_socket_init_for_display_name getenv s name errno = .ok (0, s1, e1)) :
    s1.sun_path.length ≤ 107 ∧
    (s1.sun_path ++ LOCK_SUFFIX).length + 1 ≤ UNIX_PATH_MAX + LOCK_SUFFIXLEN ∧
    UNIX_PATH_MAX + LOCK_SUFFIXLEN = 113 ∧
    (wl_socket_lock calls s1).2.2.head? = some (.open_lock (s1.sun_path ++ LOCK_SUFFIX)) ∧
    ((wl_socket_lock calls s1).1 = 0 →
      (wl_socket_lock calls s1).2.1.lock_addr = s1.sun_path ++ LOCK_SUFFIX) ∧
    ∀ (getenv2 : Option (List Nat)) (s2 s3 : wl_socket) (name2 : List Nat) (errno2 e3 : Int),
      wl_socket_init_for_display_name getenv2 s2 name2 errno2 = .ok (0, s3, e3) →
      (snprintf (UNIX_PATH_MAX + LOCK_SUFFIXLEN) (s3.sun_path ++ LOCK_SUFFIX)).1 =
        (snprintf (UNIX_PATH_MAX + LOCK_SUFFIXLEN) (s1.sun_path ++ LOCK_SUFFIX)).1 →
      s3.sun_path = s1.sun_path := by
  have hl := init_ok_length getenv s s1 name errno e1 h
  have hw := lock_path_whole s1.sun_path hl
  have hp := socket_lock_path calls s1
  rw [hw] at hp
  refine ⟨hl, ?_, rfl, hp.1, fun h0 => (hp.2 h0).1, ?_⟩
  · rw [List.length_append, lock_suffix_length]
    unfold UNIX_PATH_MAX LOCK_SUFFIXLEN
    omega
  · intro getenv2 s2 s3 name2 errno2 e3 h2 heq
    have hl3 := init_ok_length getenv2 s2 s3 name2 errno2 e3 h2
    rw [lock_path_whole _ hl3, hw] at heq
    exact List.append_cancel_right heq

/-- The socket path `/run/wayland-0` gets the lock path
`/run/wayland-0.lock`. -/
theorem lock_path_spec_witness :
    wl_socket_init_for_display_name (some (c_str "/run")) wl_socket_alloc (c_str "wayland-0") 0 =
      .ok (0, { wl_socket_alloc with
                sun_path := c_str "/run/wayland-0", display_name := c_str "wayland-0" }, 0) ∧
    (wl_socket_lock sample_lock_calls
      { wl_socket_alloc with
        sun_path := c_str "/run/wayland-0", display_name := c_str "wayland-0" }).2.1.lock_addr =
      c_str "/run/wayland-0.lock" :=
  ⟨by rfl,
    (lock_path_spec sample_lock_calls (some (c_str "/run")) wl_socket_alloc
      { wl_socket_alloc with
        sun_path := c_str "/run/wayland-0", display_name := c_str "wayland-0" }
      (c_str "wayland-0") 0 0 (by rfl)).2.2.2.2.1 (by rfl)⟩

/-! ## C25: the first free display name -/

/-- The names `wayland-N` for N up to 32 have at most 10 bytes. -/
theorem auto_display_name_length (n : Nat) (h : n ≤ 32) :
    (auto_display_name (n : Int)).length ≤ 10 := by
  interval_cases n <;> decide

/-- What `wl_socket_lock` returns depends on the socket path only, and it is 0
or -1. -/
theorem socket_lock_result (calls : lock_calls) (s : wl_socket) :
    ((wl_socket_lock calls s).1 = 0 ↔ lock_taken calls s.sun_path = true) ∧
    ((wl_socket_lock calls s).1 = 0 ∨ (wl_socket_lock calls s).1 = -1) := by
  unfold lock_taken wl_socket_lock
  simp only [decide_eq_true_eq]
  split
  · exact ⟨Iff.rfl, Or.inr rfl⟩
  · split
    · exact ⟨Iff.rfl, Or.inr rfl⟩
    · split
      · split
        · exact ⟨Iff.rfl, Or.inr rfl⟩
        · exact ⟨Iff.rfl, Or.inl rfl⟩
      · split <;> exact ⟨Iff.rfl, Or.inl rfl⟩

/-- `_wl_display_add_socket` with every call succeeding appends the socket to
the list of the display. -/
theorem add_socket_ok (calls : socket_calls) (socket_list : List wl_socket) (s : wl_socket)
    (hsock : 0 ≤ calls.wl_os_socket_cloexec) (hbind : ∀ fd path, 0 ≤ calls.bind fd path)
    (hlisten : ∀ fd, 0 ≤ calls.listen fd)
    (hsrc : ∀ fd, calls.wl_event_loop_add_fd fd ≠ none) :
    ∃ s1, _wl_display_add_socket calls socket_list s = (0, s1, socket_list ++ [s1]) ∧
      s1.sun_path = s.sun_path ∧ s1.display_name = s.display_name := by
  unfold _wl_display_add_socket
  simp only
  rw [if_neg (by omega), if_neg (by have := hbind calls.wl_os_socket_cloexec s.sun_path; omega),
    if_neg (by have := hlisten calls.wl_os_socket_cloexec; omega),
    if_neg (hsrc calls.wl_os_socket_cloexec)]
  exact ⟨_, rfl, rfl, rfl⟩

/-- The loop of `wl_display_add_socket_auto` from the number `k` on, with `m`
numbers left after it. -/
theorem add_socket_auto_rounds (calls : socket_calls) (socket_list : List wl_socket)
    (runtime_dir : List Nat) (henv : calls.getenv = some runtime_dir)
    (hfit : runtime_dir.length + 12 ≤ UNIX_PATH_MAX)
    (hsock : 0 ≤ calls.wl_os_socket_cloexec) (hbind : ∀ fd path, 0 ≤ calls.bind fd path)
    (hlisten : ∀ fd, 0 ≤ calls.listen fd)
    (hsrc : ∀ fd, calls.wl_event_loop_add_fd fd ≠ none) (m : Nat) :
    ∀ (k fuel : Nat) (s : wl_socket) (errno : Int) (tried : List (List Nat)),
      k + m = 32 → m + 1 ≤ fuel →
      ∃ r, add_socket_auto_loop calls socket_list fuel (k : Int) s errno tried = .ok r ∧
        (∀ n, (List.range' k (m + 1)).find? (auto_lockable calls runtime_dir) =
            some n →
          r.name = some (auto_display_name (n : Int)) ∧
          r.tried = tried ++ auto_names (List.range' k (n + 1 - k)) ∧
          ∃ s1, r.socket_list = socket_list ++ [s1] ∧
            s1.sun_path = runtime_dir ++ c_str "/" ++ auto_display_name (n : Int) ∧
            s1.display_name = auto_display_name (n : Int)) ∧
        ((List.range' k (m + 1)).find? (auto_lockable calls runtime_dir) =
            none →
          r.name = none ∧ r.socket_list = socket_list ∧ r.errno = EINVAL ∧
          r.tried = tried ++ auto_names (List.range' k (m + 1))) := by
  induction m with
  | zero =>
    intro k fuel s errno tried hk hfuel
    obtain ⟨f, rfl⟩ : ∃ f, fuel = f + 1 := ⟨fuel - 1, by omega⟩
    have hname := auto_display_name_length k (by omega)
    have hinit := init_fits s (auto_display_name (k : Int)) errno runtime_dir
      (by unfold UNIX_PATH_MAX at hfit ⊢; omega)
    unfold add_socket_auto_loop
    simp only [henv, hinit]
    rw [if_neg (by decide)]
    generalize hs1 : ({ s with
      sun_path := runtime_dir ++ c_str "/" ++ auto_display_name (k : Int)
      display_name := auto_display_name (k : Int) } : wl_socket) = s1
    have hpath : s1.sun_path = runtime_dir ++ c_str "/" ++ auto_display_name (k : Int) := by
      rw [← hs1]
    have hdn : s1.display_name = auto_display_name (k : Int) := by rw [← hs1]
    have hres := socket_lock_result calls.lock s1
    have hlp := socket_lock_path calls.lock s1
    rw [hpath] at hres
    rw [show lock_taken calls.lock (runtime_dir ++ c_str "/" ++ auto_display_name (k : Int)) =
      auto_lockable calls runtime_dir k from rfl] at hres
    by_cases ht : auto_lockable calls runtime_dir k = true
    · have h0 := hres.1.mpr ht
      rw [if_neg (by omega)]
      obtain ⟨s2, ha, hp2, hd2⟩ := add_socket_ok calls socket_list
        (wl_socket_lock calls.lock s1).2.1 hsock hbind hlisten hsrc
      rw [ha]
      rw [if_neg (show ¬ ((0 : Int) < 0) by decide)]
      refine ⟨_, rfl, ?_, ?_⟩
      · intro n hn
        rw [show List.range' k (0 + 1) = [k] from rfl, List.find?_cons, ht] at hn
        injection hn with hn
        subst hn
        refine ⟨?_, ?_, s2, rfl, ?_, ?_⟩
        · show some s2.display_name = _
          rw [hd2, (hlp.2 h0).2.2, hdn]
        · show tried ++ [auto_display_name (k : Int)] = _
          rw [show k + 1 - k = 1 by omega]
          rfl
        · rw [hp2, (hlp.2 h0).2.1, hpath]
        · rw [hd2, (hlp.2 h0).2.2, hdn]
      · intro hn
        rw [show List.range' k (0 + 1) = [k] from rfl, List.find?_cons, ht] at hn
        cases hn
    · have h1 : (wl_socket_lock calls.lock s1).1 = -1 := by
        rcases hres.2 with h | h
        · exact absurd (hres.1.mp h) ht
        · exact h
      have hf : auto_lockable calls runtime_dir k = false := by
        simpa using ht
      rw [if_pos (by omega), if_neg (by unfold MAX_DISPLAYNO; omega)]
      refine ⟨_, rfl, ?_, ?_⟩
      · intro n hn
        rw [show List.range' k (0 + 1) = [k] from rfl, List.find?_cons, hf] at hn
        cases hn
      · intro _
        exact ⟨rfl, rfl, rfl, rfl⟩
  | succ m ih =>
    intro k fuel s errno tried hk hfuel
    obtain ⟨f, rfl⟩ : ∃ f, fuel = f + 1 := ⟨fuel - 1, by omega⟩
    have hname := auto_display_name_length k (by omega)
    have hinit := init_fits s (auto_display_name (k : Int)) errno runtime_dir
      (by unfold UNIX_PATH_MAX at hfit ⊢; omega)
    unfold add_socket_auto_loop
    simp only [henv, hinit]
    rw [if_neg (by decide)]
    generalize hs1 : ({ s with
      sun_path := runtime_dir ++ c_str "/" ++ auto_display_name (k : Int)
      display_name := auto_display_name (k : Int) } : wl_socket) = s1
    have hpath : s1.sun_path = runtime_dir ++ c_str "/" ++ auto_display_name (k : Int) := by
      rw [← hs1]
    have hdn : s1.display_name = auto_display_name (k : Int) := by rw [← hs1]
    have hres := socket_lock_result calls.lock s1
    have hlp := socket_lock_path calls.lock s1
    rw [hpath] at hres
    have hrange : List.range' k (m + 1 + 1) = k :: List.range' (k + 1) (m + 1) := rfl
    rw [show lock_taken calls.lock (runtime_dir ++ c_str "/" ++ auto_display_name (k : Int)) =
      auto_lockable calls runtime_dir k from rfl] at hres
    by_cases ht : auto_lockable calls runtime_dir k = true
    · have h0 := hres.1.mpr ht
      rw [if_neg (by omega)]
      obtain ⟨s2, ha, hp2, hd2⟩ := add_socket_ok calls socket_list
        (wl_socket_lock calls.lock s1).2.1 hsock hbind hlisten hsrc
      rw [ha]
      rw [if_neg (show ¬ ((0 : Int) < 0) by decide)]
      refine ⟨_, rfl, ?_, ?_⟩
      · intro n hn
        rw [hrange, List.find?_cons, ht] at hn
        injection hn with hn
        subst hn
        refine ⟨?_, ?_, s2, rfl, ?_, ?_⟩
        · show some s2.display_name = _
          rw [hd2, (hlp.2 h0).2.2, hdn]
        · show tried ++ [auto_display_name (k : Int)] = _
          rw [show k + 1 - k = 1 by omega]
          rfl
        · rw [hp2, (hlp.2 h0).2.1, hpath]
        · rw [hd2, (hlp.2 h0).2.2, hdn]
      · intro hn
        rw [hrange, List.find?_cons, ht] at hn
        cases hn
    · have h1 : (wl_socket_lock calls.lock s1).1 = -1 := by
        rcases hres.2 with h | h
        · exact absurd (hres.1.mp h) ht
        · exact h
      have hf : auto_lockable calls runtime_dir k = false := by
        simpa using ht
      rw [if_pos (by omega), if_pos (by unfold MAX_DISPLAYNO; omega)]
      obtain ⟨r, hr, hsome, hnone⟩ := ih (k + 1) f (wl_socket_lock calls.lock s1).2.1 errno
        (tried ++ [auto_display_name (k : Int)]) (by omega) (by omega)
      rw [show ((k : Int) + 1) = ((k + 1 : Nat) : Int) by push_cast; rfl]
      refine ⟨r, hr, ?_, ?_⟩
      · intro n hn
        rw [hrange, List.find?_cons, hf] at hn
        have hmem := List.mem_of_find?_eq_some hn
        have hge : k + 1 ≤ n := (List.mem_range'_1.mp hmem).1
        obtain ⟨h1, h2, h3⟩ := hsome n hn
        refine ⟨h1, ?_, h3⟩
        rw [h2, List.append_assoc]
        congr 1
        rw [show n + 1 - k = (n + 1 - (k + 1)) + 1 by omega]
        rfl
      · intro hn
        rw [hrange, List.find?_cons, hf] at hn
        obtain ⟨h1, h2, h3, h4⟩ := hnone hn
        refine ⟨h1, h2, h3, ?_⟩
        rw [h4, List.append_assoc, hrange]
        rfl

/-- The first number below `m` that satisfies a test is what `find?` returns on
the numbers from 0. -/
theorem find_range_first (p : Nat → Bool) (n m : Nat) (hn : n < m) (hp : p n = true)
    (hlt : ∀ j, j < n → p j = false) : (List.range m).find? p = some n := by
  have hsplit : List.range m = List.range' 0 n ++ n :: List.range' (n + 1) (m - n - 1) := by
    have h1 : List.range' 0 n ++ List.range' (0 + n) (m - n) = List.range' 0 (m - n + n) :=
      List.range'_append_1 0 n (m - n)
    rw [Nat.zero_add, show m - n + n = m by omega,
      show m - n = (m - n - 1) + 1 by omega, List.range'_succ] at h1
    rw [List.range_eq_range', ← h1]
  rw [hsplit, List.find?_append]
  have hnone : (List.range' 0 n).find? p = none := by
    rw [List.find?_eq_none]
    intro x hx
    have := (List.mem_range'_1.mp hx).2
    simp [hlt x (by omega)]
  rw [hnone, Option.none_or, List.find?_cons, hp]

/-- No number below `m` satisfies the test. -/
theorem find_range_none (p : Nat → Bool) (m : Nat) (h : ∀ j, j < m → p j = false) :
    (List.range m).find? p = none := by
  rw [List.find?_eq_none]
  intro x hx
  simp [h x (List.mem_range.mp hx)]

/-- C25: with `XDG_RUNTIME_DIR` set to a directory that leaves room for the
names, and with the allocation of the socket, the creation of its fd, `bind`,
`listen` and the registration of the fd with the event loop all succeeding,
`wl_display_add_socket_auto` formats the names `wayland-N` for N = 0, 1, ..
in increasing order, goes on to the next N when the lock cannot be taken, and
returns `wayland-N` for the smallest N up to 32 whose lock can be taken, having
added that socket to the display; when no lock up to 32 can be taken it has
formatted all 33 names, returns NULL with `EINVAL` and adds no socket. -/
theorem add_socket_auto_spec (calls : socket_calls) (socket_list : List wl_socket)
    (errno : Int) (runtime_dir : List Nat) (henv : calls.getenv = some runtime_dir)
    (hfit : runtime_dir.length + 12 ≤ UNIX_PATH_MAX)
    (hmalloc : calls.malloc_socket = true)
    (hsock : 0 ≤ calls.wl_os_socket_cloexec) (hbind : ∀ fd path, 0 ≤ calls.bind fd path)
    (hlisten : ∀ fd, 0 ≤ calls.listen fd)
    (hsrc : ∀ fd, calls.wl_event_loop_add_fd fd ≠ none) :
    ∃ r, wl_display_add_socket_auto calls socket_list errno = .ok r ∧
      (∀ n, n ≤ 32 → auto_lockable calls runtime_dir n = true →
        (∀ j, j < n → auto_lockable calls runtime_dir j = false) →
        r.name = some (auto_display_name (n : Int)) ∧
        r.tried = auto_names (List.range (n + 1)) ∧
        ∃ s1, r.socket_list = socket_list ++ [s1] ∧
          s1.sun_path = runtime_dir ++ c_str "/" ++ auto_display_name (n : Int) ∧
          s1.display_name = auto_display_name (n : Int)) ∧
      ((∀ j, j ≤ 32 → auto_lockable calls runtime_dir j = false) →
        r.name = none ∧ r.socket_list = socket_list ∧ r.errno = EINVAL ∧
        r.tried = auto_names (List.range 33)) := by
  obtain ⟨r, hr, hsome, hnone⟩ := add_socket_auto_rounds calls socket_list runtime_dir henv hfit
    hsock hbind hlisten hsrc 32 0 33 wl_socket_alloc errno [] (by omega) (by omega)
  refine ⟨r, ?_, ?_, ?_⟩
  · unfold wl_display_add_socket_auto
    rw [if_neg (by rw [hmalloc]; decide)]
    exact hr
  · intro n hn hp hlt
    have hf := find_range_first (auto_lockable calls runtime_dir) n 33 (by omega) hp hlt
    rw [List.range_eq_range'] at hf
    obtain ⟨h1, h2, h3⟩ := hsome n hf
    refine ⟨h1, ?_, h3⟩
    rw [h2, List.nil_append, List.range_eq_range']
    rfl
  · intro hall
    have hf := find_range_none (auto_lockable calls runtime_dir) 33 (fun j hj => hall j (by omega))
    rw [List.range_eq_range'] at hf
    obtain ⟨h1, h2, h3, h4⟩ := hnone hf
    refine ⟨h1, h2, h3, ?_⟩
    rw [h4, List.nil_append, List.range_eq_range']

/-- The claim C25 fails when the event loop cannot take the fd of the socket:
the directory is set and fits, the fd is created, `bind` and `listen` succeed
and the lock of `wayland-0` can be taken, yet NULL is returned and no socket is
added. -/
theorem add_socket_auto_spec_counterexample :
    sample_socket_calls_no_source.getenv = some (c_str "/run") ∧
    (c_str "/run").length + 12 ≤ UNIX_PATH_MAX ∧
    0 ≤ sample_socket_calls_no_source.wl_os_socket_cloexec ∧
    0 ≤ sample_socket_calls_no_source.bind 6 (c_str "/run/wayland-0") ∧
    0 ≤ sample_socket_calls_no_source.listen 6 ∧
    auto_lockable sample_socket_calls_no_source (c_str "/run") 0 = true ∧
    wl_display_add_socket_auto sample_socket_calls_no_source [] 0 =
      .ok { name := none, socket_list := [], errno := 0, tried := [c_str "wayland-0"],
            destroyed := true } := by
  refine ⟨rfl, by decide, by decide, by decide, by decide, by decide, by rfl⟩

/-- With the locks of `wayland-0` and `wayland-1` held by others the name
returned is `wayland-2`. -/
theorem add_socket_auto_spec_witness :
    ∃ r, wl_display_add_socket_auto sample_socket_calls_busy [] 0 = .ok r ∧
      r.name = some (auto_display_name 2) ∧
      r.tried = auto_names (List.range 3) :=
  match add_socket_auto_spec sample_socket_calls_busy [] 0 (c_str "/run") rfl (by decide) rfl
      (by decide) (fun _ _ => Int.le_refl 0) (fun _ => Int.le_refl 0)
      (fun _ => by simp [sample_socket_calls_busy, sample_socket_calls]) with
  | ⟨r, hr, hsome, _⟩ =>
    ⟨r, hr, (hsome 2 (by decide) (by decide) (by decide)).1,
      (hsome 2 (by decide) (by decide) (by decide)).2.1⟩

/-! ## C29: the frame loop makes progress -/

theorem step_registry_create (n : Nat) :
    display_step (world_after_registry_creates n) sample_create =
      some (world_after_registry_creates (n + 1)) := by
  simp only [display_step, sample_create, wl_global_create, world_after_registry_creates,
    wl_display_interface, lt_self_iff_false, if_false, Bool.true_eq_false, List.map_cons,
    List.map_nil, Option.some.injEq, world.mk.injEq, wl_display.mk.injEq, and_true, true_and]
  refine ⟨⟨?_, ?_⟩, ?_⟩
  · simp only [UINT32_RANGE]
    omega
  · rw [List.range_succ, List.map_append]
    rfl
  · rw [List.range_succ, List.map_append]
    rfl

theorem run_registry_creates (n : Nat) :
    display_run wl_display_create (.get_registry 0 (some 2) :: List.replicate n sample_create) =
      some (world_after_registry_creates n) := by
  induction n with
  | zero => rfl
  | succ n ih =>
    rw [List.replicate_succ', ← List.cons_append, display_run_append, ih]
    simp only [Option.some_bind, display_run]
    rw [step_registry_create]

/-- Without the bound on the number of operations C10 fails even for a global
that is on the list with the resource: after a request for the registry and
2^32 + 1 calls of `wl_global_create` the name counter has wrapped, and the
registry resource was sent `global` for the name 1 by the first call and again
by the last. -/
theorem registry_events_wrap :
    display_run wl_display_create
        (.get_registry 0 (some 2) :: List.replicate (2 ^ 32 + 1) sample_create) =
      some (world_after_registry_creates (2 ^ 32 + 1)) ∧
    (world_after_registry_creates (2 ^ 32 + 1)).log[0]? =
      some (.post_event sample_registry_resource WL_REGISTRY_GLOBAL
        [.u 1, .s (some "wl_display"), .u 1]) ∧
    (world_after_registry_creates (2 ^ 32 + 1)).log[2 ^ 32]? =
      some (.post_event sample_registry_resource WL_REGISTRY_GLOBAL
        [.u 1, .s (some "wl_display"), .u 1]) ∧
    is_global_event sample_registry_resource 1
      (.post_event sample_registry_resource WL_REGISTRY_GLOBAL
        [.u 1, .s (some "wl_display"), .u 1]) = true := by
  refine ⟨run_registry_creates _, ?_, ?_, by decide⟩ <;>
    simp only [world_after_registry_creates, List.getElem?_map] <;>
    rw [List.getElem?_range (by norm_num)] <;>
    simp [UINT32_RANGE]

end Server

namespace Connection

/-! ## C13: marshalling and demarshalling -/

theorem word_bytes_length (w : Nat) : (Server.word_bytes w).length = 4 := rfl

theorem vmarshal_ok (signature : String) (args : List codec_value) (payload : List Nat)
    (hm : marshal_args (signature_args signature.data) args = .ok payload) :
    ∃ closure, wl_closure_vmarshal 1234 4444 signature args = .ok closure ∧
      closure.length = 8 + payload.length ∧ closure.drop 8 = payload := by
  unfold wl_closure_vmarshal
  rw [hm]
  refine ⟨_, rfl, ?_, ?_⟩
  · simp only [List.length_append, word_bytes_length]
    omega
  · rfl

theorem closure_round_trip (signature : String) (closure payload : List Nat)
    (hlen : closure.length = 8 + payload.length) (hdrop : closure.drop 8 = payload)
    (hsize : 8 + payload.length ≤ MAX_FRAME) :
    (match wl_closure_send closure { write_ring := [], socket := [], read_ring := [] } with
      | .error e => .error e
      | .ok w1 =>
        match wl_connection_demarshal (wl_connection_read (wl_connection_flush w1).1).1
            (wl_connection_flush w1).2 signature with
        | .error e => .error e
        | .ok r => .ok r.1) =
      demarshal_args (signature_args signature.data) payload := by
  have hs : wl_closure_send closure { write_ring := [], socket := [], read_ring := [] } =
      .ok { write_ring := closure, socket := [], read_ring := [] } := by
    unfold wl_closure_send
    rw [if_neg]
    · rfl
    · simp only [List.length_nil, Nat.zero_add, hlen]
      omega
  rw [hs]
  have hmin : min closure.length (MAX_FRAME - 0) = closure.length := by
    rw [hlen]
    omega
  have hr : wl_connection_read (wl_connection_flush
      { write_ring := closure, socket := [], read_ring := [] }).1 =
      ({ write_ring := [], socket := [], read_ring := closure }, closure.length) := by
    simp only [wl_connection_flush, wl_connection_read, List.nil_append, List.length_nil, hmin,
      List.drop_length, List.take_length]
  have hf : (wl_connection_flush
      { write_ring := closure, socket := [], read_ring := [] }).2 = closure.length := rfl
  simp only [hr, hf]
  unfold wl_connection_demarshal
  simp only
  rw [if_neg (by omega), List.take_length, hdrop]
  cases demarshal_args (signature_args signature.data) payload <;> rfl

theorem round_trip_payload (signature : String) (args : List codec_value) (payload : List Nat)
    (hm : marshal_args (signature_args signature.data) args = .ok payload)
    (hsize : 8 + payload.length ≤ MAX_FRAME) :
    marshal_demarshal signature args =
      demarshal_args (signature_args signature.data) payload := by
  obtain ⟨closure, hc, hlen, hdrop⟩ := vmarshal_ok signature args payload hm
  unfold marshal_demarshal
  rw [hc]
  exact closure_round_trip signature closure payload hlen hdrop hsize

theorem word_int_word (x : Int) (h1 : -2 ^ 31 ≤ x) (h2 : x < 2 ^ 31) :
    int_word x < 2 ^ 32 ∧ word_int (int_word x) = x := by
  unfold word_int int_word
  have hm : (0 : Int) ≤ x % 2 ^ 32 := Int.emod_nonneg _ (by norm_num)
  have hlt : x % 2 ^ 32 < 2 ^ 32 := Int.emod_lt_of_pos _ (by norm_num)
  have hc : ((x % 2 ^ 32).toNat : Int) = x % 2 ^ 32 := Int.toNat_of_nonneg hm
  constructor
  · omega
  · split <;> omega

theorem demarshal_word (w : Nat) (hw : w < 2 ^ 32) :
    (Server.word_bytes w ++ []).length = 4 ∧
    Server.read_word (Server.word_bytes w ++ []) = w ∧
    (Server.word_bytes w ++ []).drop 4 = [] :=
  ⟨rfl, Server.read_word_bytes w [] hw, rfl⟩

theorem round_trip_u (v : Nat) (hv : v < 2 ^ 32) :
    marshal_demarshal "u" [.u v] = .ok [.u v] := by
  have hs : signature_args "u".data = [{ nullable := false, kind := 'u' }] := by decide
  have hm : marshal_args (signature_args "u".data) [.u v] =
      .ok (Server.word_bytes v ++ []) := by
    rw [hs]
    simp only [marshal_args, marshal_arg, if_true, Nat.mod_eq_of_lt hv]
  rw [round_trip_payload "u" _ _ hm (by simp [word_bytes_length, MAX_FRAME]), hs]
  obtain ⟨h1, h2, h3⟩ := demarshal_word v hv
  simp only [demarshal_args, demarshal_arg, h1, h2, h3, if_true]
  rfl

theorem round_trip_i (x : Int) (h1 : -2 ^ 31 ≤ x) (h2 : x < 2 ^ 31) :
    marshal_demarshal "i" [.i x] = .ok [.i x] := by
  have hs : signature_args "i".data = [{ nullable := false, kind := 'i' }] := by decide
  have hm : marshal_args (signature_args "i".data) [.i x] =
      .ok (Server.word_bytes (int_word x) ++ []) := by
    rw [hs]
    simp only [marshal_args, marshal_arg, if_true]
  obtain ⟨hw, hx⟩ := word_int_word x h1 h2
  rw [round_trip_payload "i" _ _ hm (by simp [word_bytes_length, MAX_FRAME]), hs]
  obtain ⟨g1, g2, g3⟩ := demarshal_word (int_word x) hw
  simp only [demarshal_args, demarshal_arg, g1, g2, g3, hx]
  rfl

theorem round_trip_f (x : Int) (h1 : -2 ^ 31 ≤ x) (h2 : x < 2 ^ 31) :
    marshal_demarshal "f" [.f x] = .ok [.f x] := by
  have hs : signature_args "f".data = [{ nullable := false, kind := 'f' }] := by decide
  have hm : marshal_args (signature_args "f".data) [.f x] =
      .ok (Server.word_bytes (int_word x) ++ []) := by
    rw [hs]
    simp only [marshal_args, marshal_arg, if_true]
  obtain ⟨hw, hx⟩ := word_int_word x h1 h2
  rw [round_trip_payload "f" _ _ hm (by simp [word_bytes_length, MAX_FRAME]), hs]
  obtain ⟨g1, g2, g3⟩ := demarshal_word (int_word x) hw
  simp only [demarshal_args, demarshal_arg, g1, g2, g3, hx]
  rfl

theorem takeWhile_c_string (b : List Nat) (hb : c_string b) :
    (b ++ [0]).takeWhile (fun c => decide (c ≠ 0)) = b := by
  induction b with
  | nil => simp
  | cons x xs ih =>
    have hx : x ≠ 0 := Nat.pos_iff_ne_zero.1 (hb x (List.mem_cons_self _ _)).1
    simp only [List.cons_append, List.takeWhile_cons, hx, ne_eq, not_false_eq_true,
      decide_True, if_true]
    rw [ih (fun c hc => hb c (List.mem_cons_of_mem _ hc))]

theorem demarshal_string (nullable : Bool) (b : List Nat) (hb : c_string b)
    (hlen : b.length + 1 < 2 ^ 32) :
    demarshal_arg { nullable := nullable, kind := 's' }
        (Server.word_bytes ((b.length + 1) % 2 ^ 32) ++
          (b ++ 0 :: List.replicate (pad_length (b.length + 1)) 0) ++ []) =
      .ok (.s (some b), []) := by
  have hmod : (b.length + 1) % 2 ^ 32 = b.length + 1 := Nat.mod_eq_of_lt hlen
  have hsplit : b ++ 0 :: List.replicate (pad_length (b.length + 1)) 0 =
      (b ++ [0]) ++ List.replicate (pad_length (b.length + 1)) 0 := by simp
  have hl1 : (b ++ [0]).length = b.length + 1 := by simp
  unfold demarshal_arg
  rw [if_neg (by simp [word_bytes_length])]
  simp only [List.append_nil, List.append_assoc]
  rw [hmod, Server.read_word_bytes _ _ hlen]
  have hdrop : (Server.word_bytes (b.length + 1) ++
      (b ++ 0 :: List.replicate (pad_length (b.length + 1)) 0)).drop 4 =
      b ++ 0 :: List.replicate (pad_length (b.length + 1)) 0 := rfl
  rw [hdrop, if_neg (by decide), if_neg (by decide), if_neg (by decide), if_pos trivial,
    if_neg (Nat.succ_ne_zero _)]
  have htake : (b ++ 0 :: List.replicate (pad_length (b.length + 1)) 0).take (b.length + 1) =
      b ++ [0] := by
    rw [hsplit, ← hl1, List.take_left']
    rfl
  have hrest : (b ++ 0 :: List.replicate (pad_length (b.length + 1)) 0).drop
      (b.length + 1 + pad_length (b.length + 1)) = [] := by
    apply List.drop_of_length_le
    simp
    omega
  rw [if_neg (by simp; omega), htake, if_neg (by simp), takeWhile_c_string b hb, hrest]

theorem round_trip_s (signature : String) (nullable : Bool)
    (hs : signature_args signature.data = [{ nullable := nullable, kind := 's' }])
    (b : List Nat) (hb : c_string b)
    (hlen : 12 + (b.length + 1) + pad_length (b.length + 1) ≤ MAX_FRAME) :
    marshal_demarshal signature [.s (some b)] = .ok [.s (some b)] := by
  have hm : marshal_args (signature_args signature.data) [.s (some b)] =
      .ok (Server.word_bytes ((b.length + 1) % 2 ^ 32) ++
        (b ++ 0 :: List.replicate (pad_length (b.length + 1)) 0) ++ []) := by
    rw [hs]
    simp only [marshal_args, marshal_arg, if_true]
  have hlt : b.length + 1 < 2 ^ 32 := by
    simp only [MAX_FRAME] at hlen
    omega
  rw [round_trip_payload signature _ _ hm (by
    simp only [List.length_append, word_bytes_length, List.length_cons, List.length_replicate,
      List.length_nil]
    omega), hs]
  simp only [demarshal_args, demarshal_string nullable b hb hlt]

/-- C13, on the codec as the specification gives it: a value of kind `u`
(below 2^32), `i` or `f` (a signed 32-bit number, for `f` the raw fixed) or
`s` (the bytes of a C string whose frame is within the largest frame size,
under the signature `s` and under `?s`) that is marshalled with
`wl_closure_vmarshal`, sent, flushed, read and demarshalled with
`wl_connection_demarshal` against the same signature comes back as the same
value; and a frame whose payload is the length word 0 demarshals under `?s` to
the null string. -/
theorem marshal_demarshal_round_trip (v : Nat) (hv : v < 2 ^ 32)
    (x : Int) (hx1 : -2 ^ 31 ≤ x) (hx2 : x < 2 ^ 31)
    (b : List Nat) (hb : c_string b)
    (hlen : 12 + (b.length + 1) + pad_length (b.length + 1) ≤ MAX_FRAME)
    (id header : Nat) :
    marshal_demarshal "u" [.u v] = .ok [.u v] ∧
    marshal_demarshal "i" [.i x] = .ok [.i x] ∧
    marshal_demarshal "f" [.f x] = .ok [.f x] ∧
    marshal_demarshal "s" [.s (some b)] = .ok [.s (some b)] ∧
    marshal_demarshal "?s" [.s (some b)] = .ok [.s (some b)] ∧
    marshal_demarshal "?s" [.s none] = .ok [.s none] ∧
    wl_connection_demarshal
        { write_ring := [], socket := [],
          read_ring := Server.word_bytes id ++
            (Server.word_bytes header ++ Server.word_bytes 0) } 12 "?s" =
      .ok ([.s none], { write_ring := [], socket := [], read_ring := [] }) :=
  ⟨round_trip_u v hv, round_trip_i x hx1 hx2, round_trip_f x hx1 hx2,
    round_trip_s "s" false (by decide) b hb hlen, round_trip_s "?s" true (by decide) b hb hlen,
    by rfl, by rfl⟩

/-- The values of the marshalling test: 889911, -13 and "cookie robots". -/
theorem marshal_demarshal_round_trip_witness :
    ((889911 < 2 ^ 32) ∧ (-2 ^ 31 ≤ (-13 : Int)) ∧ ((-13 : Int) < 2 ^ 31) ∧
      c_string sample_text ∧
      12 + (sample_text.length + 1) + pad_length (sample_text.length + 1) ≤ MAX_FRAME) ∧
    marshal_demarshal "u" [.u 889911] = .ok [.u 889911] ∧
    marshal_demarshal "i" [.i (-13)] = .ok [.i (-13)] ∧
    marshal_demarshal "f" [.f (-13)] = .ok [.f (-13)] ∧
    marshal_demarshal "s" [.s (some sample_text)] = .ok [.s (some sample_text)] ∧
    marshal_demarshal "?s" [.s (some sample_text)] = .ok [.s (some sample_text)] ∧
    marshal_demarshal "?s" [.s none] = .ok [.s none] ∧
    wl_connection_demarshal
        { write_ring := [], socket := [],
          read_ring := Server.word_bytes 400200 ++
            (Server.word_bytes 12 ++ Server.word_bytes 0) } 12 "?s" =
      .ok ([.s none], { write_ring := [], socket := [], read_ring := [] }) :=
  ⟨⟨by decide, by decide, by decide, by unfold c_string; decide, by decide⟩,
    marshal_demarshal_round_trip 889911 (by decide) (-13) (by decide) (by decide)
      sample_text (by unfold c_string; decide) (by decide) 400200 12⟩

/-- The codec refuses a frame that declares less than the 8 bytes of its
header. -/
theorem demarshal_refuses_short (w : wire) (size : Nat) (signature : String) (h : size < 8) :
    wl_connection_demarshal w size signature = .error EINVAL := by
  unfold wl_connection_demarshal
  rw [if_pos (Or.inl h)]

end Connection

namespace Os

/-! ## C26: close-on-exec -/

theorem or_cloexec (flags : Nat) : (flags ||| FD_CLOEXEC) &&& FD_CLOEXEC ≠ 0 := by
  have h : (flags ||| FD_CLOEXEC) &&& FD_CLOEXEC = FD_CLOEXEC := by
    apply Nat.eq_of_testBit_eq
    intro i
    simp only [Nat.testBit_and, Nat.testBit_or]
    cases flags.testBit i <;> cases FD_CLOEXEC.testBit i <;> rfl
  rw [h]
  decide

theorem made_flags_self (word bit : Nat) (h : bit ≠ 0) :
    made_flags (word ||| bit) bit = FD_CLOEXEC := by
  have h1 : (word ||| bit) &&& bit = bit := by
    apply Nat.eq_of_testBit_eq
    intro i
    simp only [Nat.testBit_and, Nat.testBit_or]
    cases word.testBit i <;> cases bit.testBit i <;> rfl
  unfold made_flags
  rw [h1, if_pos h]

theorem fd_flags_install_self (k : kernel) (fd : Int) (flags : Nat) :
    fd_flags (install k fd flags) fd = some flags := by
  simp [fd_flags, install]

theorem find_filter_ne (table : List (Int × Nat)) (fd fd1 : Int) (h : fd1 ≠ fd) :
    (table.filter (fun e => decide (e.1 ≠ fd))).find? (fun e => decide (e.1 = fd1)) =
      table.find? (fun e => decide (e.1 = fd1)) := by
  induction table with
  | nil => rfl
  | cons e t ih =>
    rw [List.filter_cons]
    by_cases he : e.1 = fd
    · have hd : decide (e.1 ≠ fd) = false := by simp [he]
      have h1 : decide (e.1 = fd1) = false := by
        simp only [decide_eq_false_iff_not]
        exact fun h2 => h (h2.symm.trans he)
      rw [hd]
      simp only [Bool.false_eq_true, if_false, List.find?_cons, h1, ih]
    · have hd : decide (e.1 ≠ fd) = true := by simp [he]
      rw [hd]
      simp only [if_true, List.find?_cons, ih]

theorem fd_flags_install_other (k : kernel) (fd fd1 : Int) (flags : Nat) (h : fd1 ≠ fd) :
    fd_flags (install k fd flags) fd1 = fd_flags k fd1 := by
  unfold fd_flags install
  simp only [List.find?_cons]
  have h1 : decide (fd = fd1) = false := by simpa using fun h2 => h h2.symm
  rw [h1, find_filter_ne _ _ _ h]

theorem fd_flags_close_self (k : kernel) (fd : Int) : fd_flags (close k fd) fd = none := by
  unfold fd_flags close
  have h : (k.table.filter (fun e => decide (e.1 ≠ fd))).find? (fun e => decide (e.1 = fd)) =
      none := by
    rw [List.find?_eq_none]
    intro e he
    simpa using (List.mem_filter.mp he).2
  rw [h]
  rfl

theorem fd_flags_close_other (k : kernel) (fd fd1 : Int) (h : fd1 ≠ fd) :
    fd_flags (close k fd) fd1 = fd_flags k fd1 := by
  unfold fd_flags close
  rw [find_filter_ne _ _ _ h]

theorem cloexec_of_flags (k : kernel) (fd : Int) (flags : Nat)
    (h : fd_flags k fd = some flags) (hbit : flags &&& FD_CLOEXEC ≠ 0) :
    cloexec k fd = true := by
  unfold cloexec
  rw [h]
  simpa using hbit

/-- An fd made with the flag `FD_CLOEXEC` is open with close-on-exec, and a
call that makes an fd returns the fd or -1. -/
theorem new_fd_cloexec (k : kernel) (r : Int × Int) :
    0 ≤ (new_fd k r FD_CLOEXEC).2 →
      cloexec (new_fd k r FD_CLOEXEC).1 (new_fd k r FD_CLOEXEC).2 = true := by
  unfold new_fd
  split
  · intro _
    exact cloexec_of_flags _ _ _ (fd_flags_install_self _ _ _) (by decide)
  · intro h
    exact absurd (show (0 : Int) ≤ -1 from h) (by decide)

/-- What `set_cloexec_or_close` does to an fd other than -1: it returns the fd,
now close-on-exec, or it returns -1 and the fd is closed; the other fds are as
before. -/
theorem set_cloexec_or_close_spec (sys : sys_calls) (k : kernel) (fd : Int) (h : fd ≠ -1) :
    flagged_or_closed (set_cloexec_or_close sys k fd).1 fd (set_cloexec_or_close sys k fd).2 ∧
    ∀ fd1, fd1 ≠ fd → fd_flags (set_cloexec_or_close sys k fd).1 fd1 = fd_flags k fd1 := by
  unfold set_cloexec_or_close flagged_or_closed
  rw [if_neg h]
  cases hg : fcntl_getfd sys k fd with
  | none =>
    exact ⟨Or.inr ⟨rfl, fd_flags_close_self _ _⟩, fun fd1 h1 => fd_flags_close_other _ _ _ h1⟩
  | some flags =>
    simp only
    unfold fcntl_setfd
    cases hf : fd_flags k fd with
    | none =>
      simp only
      rw [if_pos trivial]
      exact ⟨Or.inr ⟨rfl, fd_flags_close_self _ _⟩, fun fd1 h1 => fd_flags_close_other _ _ _ h1⟩
    | some old =>
      simp only
      by_cases hs : sys.fcntl_setfd fd = true
      · rw [if_pos hs]
        simp only
        rw [if_neg (by decide)]
        exact ⟨Or.inl ⟨rfl, cloexec_of_flags _ _ _ (fd_flags_install_self _ _ _)
          (or_cloexec flags)⟩, fun fd1 h1 => fd_flags_install_other _ _ _ _ h1⟩
      · rw [if_neg hs]
        simp only
        rw [if_pos trivial]
        exact ⟨Or.inr ⟨rfl, fd_flags_close_self _ _⟩,
          fun fd1 h1 => fd_flags_close_other _ _ _ h1⟩

/-- A non-negative fd returned by `set_cloexec_or_close` is close-on-exec. -/
theorem set_cloexec_or_close_flag (sys : sys_calls) (k : kernel) (fd : Int) :
    0 ≤ (set_cloexec_or_close sys k fd).2 →
      cloexec (set_cloexec_or_close sys k fd).1 (set_cloexec_or_close sys k fd).2 = true := by
  intro h0
  by_cases h : fd = -1
  · subst h
    have h1 : (set_cloexec_or_close sys k (-1)).2 = -1 := by
      unfold set_cloexec_or_close
      rw [if_pos rfl]
    rw [h1] at h0
    exact absurd h0 (by decide)
  · rcases (set_cloexec_or_close_spec sys k fd h).1 with ⟨h1, h2⟩ | ⟨h1, _⟩
    · rw [h1]; exact h2
    · rw [h1] at h0
      exact absurd h0 (by decide)

/-- The shape the four wrappers share: the atomic call when it is compiled in
and succeeds, -1 when it fails for a reason other than the missing flag, and
the plain call followed by `set_cloexec_or_close` otherwise. -/
theorem wrapper_flag (sys : sys_calls) (atomic : Bool) (k : kernel) (r r1 : Int × Int)
    (missing : Int) (k1 : kernel) (flags : Nat) :
    0 ≤ (if atomic = true ∧ (new_fd k r FD_CLOEXEC).2 ≥ 0 then new_fd k r FD_CLOEXEC
        else if atomic = true ∧ (new_fd k r FD_CLOEXEC).1.errno ≠ missing then
          ((new_fd k r FD_CLOEXEC).1, -1)
        else set_cloexec_or_close sys (new_fd k1 r1 flags).1 (new_fd k1 r1 flags).2).2 →
      cloexec
        (if atomic = true ∧ (new_fd k r FD_CLOEXEC).2 ≥ 0 then new_fd k r FD_CLOEXEC
          else if atomic = true ∧ (new_fd k r FD_CLOEXEC).1.errno ≠ missing then
            ((new_fd k r FD_CLOEXEC).1, -1)
          else set_cloexec_or_close sys (new_fd k1 r1 flags).1 (new_fd k1 r1 flags).2).1
        (if atomic = true ∧ (new_fd k r FD_CLOEXEC).2 ≥ 0 then new_fd k r FD_CLOEXEC
          else if atomic = true ∧ (new_fd k r FD_CLOEXEC).1.errno ≠ missing then
            ((new_fd k r FD_CLOEXEC).1, -1)
          else set_cloexec_or_close sys (new_fd k1 r1 flags).1 (new_fd k1 r1 flags).2).2 =
        true := by
  split
  · exact new_fd_cloexec k r
  · split
    · intro h
      exact absurd (show (0 : Int) ≤ -1 from h) (by decide)
    · exact set_cloexec_or_close_flag sys _ _

theorem socket_cloexec_flag (sys : sys_calls) (atomic : Bool) (k : kernel) (domain : Int)
    (type : Nat) (protocol : Int) :
    0 ≤ (wl_os_socket_cloexec sys atomic k domain type protocol).2 →
      cloexec (wl_os_socket_cloexec sys atomic k domain type protocol).1
        (wl_os_socket_cloexec sys atomic k domain type protocol).2 = true := by
  unfold wl_os_socket_cloexec
  simp only [made_flags_self type SOCK_CLOEXEC (by decide)]
  exact wrapper_flag sys atomic k _ _ EINVAL _ _

theorem dupfd_cloexec_flag (sys : sys_calls) (atomic : Bool) (k : kernel) (fd minfd : Int) :
    0 ≤ (wl_os_dupfd_cloexec sys atomic k fd minfd).2 →
      cloexec (wl_os_dupfd_cloexec sys atomic k fd minfd).1
        (wl_os_dupfd_cloexec sys atomic k fd minfd).2 = true := by
  unfold wl_os_dupfd_cloexec
  exact wrapper_flag sys atomic k _ _ EINVAL _ _

theorem epoll_create_cloexec_flag (sys : sys_calls) (atomic : Bool) (k : kernel) :
    0 ≤ (wl_os_epoll_create_cloexec sys atomic k).2 →
      cloexec (wl_os_epoll_create_cloexec sys atomic k).1
        (wl_os_epoll_create_cloexec sys atomic k).2 = true := by
  unfold wl_os_epoll_create_cloexec
  rw [show made_flags EPOLL_CLOEXEC EPOLL_CLOEXEC = FD_CLOEXEC from rfl]
  exact wrapper_flag sys atomic k _ _ EINVAL _ _

theorem accept_cloexec_flag (sys : sys_calls) (atomic : Bool) (k : kernel) (sockfd : Int) :
    0 ≤ (wl_os_accept_cloexec sys atomic k sockfd).2 →
      cloexec (wl_os_accept_cloexec sys atomic k sockfd).1
        (wl_os_accept_cloexec sys atomic k sockfd).2 = true := by
  unfold wl_os_accept_cloexec
  rw [show made_flags SOCK_CLOEXEC SOCK_CLOEXEC = FD_CLOEXEC from rfl]
  exact wrapper_flag sys atomic k _ _ ENOSYS _ _

theorem flagged_or_closed_congr (k k1 : kernel) (fd value : Int)
    (h : fd_flags k1 fd = fd_flags k fd) (hf : flagged_or_closed k fd value) :
    flagged_or_closed k1 fd value := by
  unfold flagged_or_closed cloexec at hf ⊢
  rw [h]
  exact hf

theorem forall2_mono_mem {R S : Int → Int → Prop} {l1 l2 : List Int}
    (h : List.Forall₂ R l1 l2) (hm : ∀ a ∈ l1, ∀ b, R a b → S a b) : List.Forall₂ S l1 l2 := by
  induction h with
  | nil => exact List.Forall₂.nil
  | cons hab _ ih =>
    exact List.Forall₂.cons (hm _ (List.mem_cons_self _ _) _ hab)
      (ih (fun a ha b => hm a (List.mem_cons_of_mem _ ha) b))

/-- The inner loop of the fallback on distinct fds: every one is left
close-on-exec or closed and replaced by -1, and no other fd is touched. -/
theorem fallback_fds_spec (sys : sys_calls) (fds : List Int) :
    ∀ (k : kernel), fds.Nodup → (∀ fd ∈ fds, fd ≠ -1) →
      List.Forall₂ (flagged_or_closed (fallback_fds sys k fds).1) fds (fallback_fds sys k fds).2 ∧
      ∀ fd1, fd1 ∉ fds → fd_flags (fallback_fds sys k fds).1 fd1 = fd_flags k fd1 := by
  induction fds with
  | nil => intro k _ _; exact ⟨List.Forall₂.nil, fun _ _ => rfl⟩
  | cons fd rest ih =>
    intro k hn hv
    have hnr := (List.nodup_cons.mp hn)
    have hs := set_cloexec_or_close_spec sys k fd (hv fd (List.mem_cons_self _ _))
    have hi := ih (set_cloexec_or_close sys k fd).1 hnr.2
      (fun x hx => hv x (List.mem_cons_of_mem _ hx))
    unfold fallback_fds
    simp only
    refine ⟨List.Forall₂.cons ?_ hi.1, ?_⟩
    · exact flagged_or_closed_congr _ _ _ _ (hi.2 fd hnr.1) hs.1
    · intro fd1 h1
      rw [hi.2 fd1 (fun h => h1 (List.mem_cons_of_mem _ h))]
      exact hs.2 fd1 (fun h => h1 (h ▸ List.mem_cons_self _ _))

theorem rights_fds_cons (c : cmsg) (rest : List cmsg) :
    rights_fds (c :: rest) =
      (if c.level ≠ SOL_SOCKET ∨ c.type ≠ SCM_RIGHTS then [] else c.fds) ++ rights_fds rest := by
  unfold rights_fds
  rw [List.filter_cons]
  by_cases h : c.level = SOL_SOCKET ∧ c.type = SCM_RIGHTS
  · rw [if_pos (by simpa using h), if_neg (by rw [not_or]; exact ⟨not_not.mpr h.1, not_not.mpr h.2⟩),
      List.flatMap_cons]
  · rw [if_neg (by simpa using h), if_pos (by
      by_contra h1
      rw [not_or] at h1
      exact h ⟨not_not.mp h1.1, not_not.mp h1.2⟩)]
    rfl

/-- The outer loop of the fallback: every fd of the `SCM_RIGHTS` messages is
left close-on-exec or closed and replaced by -1. -/
theorem fallback_control_spec (sys : sys_calls) (control : List cmsg) :
    ∀ (k : kernel), (rights_fds control).Nodup → (∀ fd ∈ rights_fds control, fd ≠ -1) →
      List.Forall₂ (flagged_or_closed (fallback_control sys k control).1)
        (rights_fds control) (rights_fds (fallback_control sys k control).2) ∧
      ∀ fd1, fd1 ∉ rights_fds control →
        fd_flags (fallback_control sys k control).1 fd1 = fd_flags k fd1 := by
  induction control with
  | nil => intro k _ _; exact ⟨List.Forall₂.nil, fun _ _ => rfl⟩
  | cons c rest ih =>
    intro k hn hv
    rw [rights_fds_cons] at hn hv ⊢
    unfold fallback_control
    by_cases hc : c.level ≠ SOL_SOCKET ∨ c.type ≠ SCM_RIGHTS
    · rw [if_pos hc] at hn hv ⊢
      rw [if_pos hc]
      simp only [List.nil_append] at hn hv ⊢
      rw [rights_fds_cons, if_pos hc, List.nil_append]
      exact ih k hn hv
    · rw [if_neg hc] at hn hv ⊢
      rw [if_neg hc]
      simp only
      have hna := List.nodup_append.mp hn
      have hf := fallback_fds_spec sys c.fds k hna.1
        (fun x hx => hv x (List.mem_append_left _ hx))
      have hi := ih (fallback_fds sys k c.fds).1 hna.2.1
        (fun x hx => hv x (List.mem_append_right _ hx))
      rw [rights_fds_cons]
      simp only
      rw [if_neg hc]
      refine ⟨List.rel_append ?_ hi.1, ?_⟩
      · refine forall2_mono_mem hf.1 ?_
        intro a ha b hab
        exact flagged_or_closed_congr _ _ _ _ (hi.2 a (fun h => hna.2.2 ha h)) hab
      · intro fd1 h1
        rw [hi.2 fd1 (fun h => h1 (List.mem_append_right _ h))]
        exact hf.2 fd1 (fun h => h1 (List.mem_append_left _ h))

theorem fd_outcome_congr (sys : sys_calls) (k k1 : kernel) (fd value : Int)
    (h : fd_flags k1 fd = fd_flags k fd) (hf : fd_outcome sys k fd value) :
    fd_outcome sys k1 fd value := by
  unfold fd_outcome cloexec at hf ⊢
  rw [h]
  exact hf

/-- On an open fd `set_cloexec_or_close` returns the fd with the flag set when
both calls of `fcntl` succeed, and otherwise closes it and returns -1. -/
theorem set_cloexec_or_close_outcome (sys : sys_calls) (k : kernel) (fd : Int) (h : fd ≠ -1)
    (hopen : fd_flags k fd ≠ none) :
    fd_outcome sys (set_cloexec_or_close sys k fd).1 fd (set_cloexec_or_close sys k fd).2 := by
  obtain ⟨old, hold⟩ := Option.ne_none_iff_exists'.mp hopen
  unfold set_cloexec_or_close fd_outcome
  rw [if_neg h]
  unfold fcntl_getfd
  rw [hold]
  simp only
  by_cases hg : sys.fcntl_getfd fd = true
  · rw [if_pos hg]
    simp only
    unfold fcntl_setfd
    rw [hold]
    simp only
    by_cases hs : sys.fcntl_setfd fd = true
    · rw [if_pos hs]
      simp only
      rw [if_neg (by decide)]
      exact ⟨fun _ => ⟨rfl, cloexec_of_flags _ _ _ (fd_flags_install_self _ _ _)
        (or_cloexec old)⟩, fun hn => absurd ⟨hg, hs⟩ hn⟩
    · rw [if_neg hs]
      simp only
      rw [if_pos trivial]
      exact ⟨fun hb => absurd hb.2 hs, fun _ => ⟨rfl, fd_flags_close_self _ _⟩⟩
  · rw [if_neg hg]
    exact ⟨fun hb => absurd hb.1 hg, fun _ => ⟨rfl, fd_flags_close_self _ _⟩⟩

/-- A call that makes an fd: what it returns and what it leaves. -/
theorem new_fd_spec (k : kernel) (r : Int × Int) (flags : Nat) :
    (0 ≤ r.1 → (new_fd k r flags).2 = r.1 ∧ fd_flags (new_fd k r flags).1 r.1 = some flags ∧
      ∀ fd, fd ≠ r.1 → fd_flags (new_fd k r flags).1 fd = fd_flags k fd) ∧
    (r.1 < 0 → (new_fd k r flags).2 = -1 ∧ (new_fd k r flags).1.table = k.table ∧
      (new_fd k r flags).1.errno = r.2) := by
  unfold new_fd
  constructor
  · intro h
    rw [if_pos h]
    exact ⟨rfl, fd_flags_install_self _ _ _, fun fd hfd => fd_flags_install_other _ _ _ _ hfd⟩
  · intro h
    rw [if_neg (by omega)]
    exact ⟨rfl, rfl, rfl⟩

theorem fd_flags_table (k k1 : kernel) (h : k1.table = k.table) (fd : Int) :
    fd_flags k1 fd = fd_flags k fd := by
  unfold fd_flags
  rw [h]

/-- The plain call followed by `set_cloexec_or_close`. -/
theorem fallback_outcome (sys : sys_calls) (k k1 : kernel) (plain : Int × Int) (flags : Nat)
    (hk : k1.table = k.table) :
    (0 ≤ plain.1 →
      fd_outcome sys (set_cloexec_or_close sys (new_fd k1 plain flags).1 (new_fd k1 plain flags).2).1
        plain.1 (set_cloexec_or_close sys (new_fd k1 plain flags).1 (new_fd k1 plain flags).2).2 ∧
      ∀ fd, fd ≠ plain.1 →
        fd_flags (set_cloexec_or_close sys (new_fd k1 plain flags).1 (new_fd k1 plain flags).2).1
          fd = fd_flags k fd) ∧
    (plain.1 < 0 →
      (set_cloexec_or_close sys (new_fd k1 plain flags).1 (new_fd k1 plain flags).2).2 = -1 ∧
      (set_cloexec_or_close sys (new_fd k1 plain flags).1 (new_fd k1 plain flags).2).1.table =
        k.table) := by
  have hn := new_fd_spec k1 plain flags
  constructor
  · intro h0
    obtain ⟨h1, h2, h3⟩ := hn.1 h0
    rw [h1]
    have hne : plain.1 ≠ -1 := by omega
    refine ⟨set_cloexec_or_close_outcome sys _ _ hne (by rw [h2]; exact Option.some_ne_none _), ?_⟩
    intro fd hfd
    rw [(set_cloexec_or_close_spec sys _ _ hne).2 fd hfd, h3 fd hfd]
    exact fd_flags_table k k1 hk fd
  · intro h0
    obtain ⟨h1, h2, _⟩ := hn.2 h0
    rw [h1]
    unfold set_cloexec_or_close
    rw [if_pos rfl]
    exact ⟨rfl, h2.trans hk⟩

/-- The shape the four wrappers share meets `wrapper_outcome`. -/
theorem wrapper_outcome_shape (sys : sys_calls) (atomic : Bool) (k : kernel)
    (first plain : Int × Int) (missing : Int) (flags : Nat) :
    wrapper_outcome sys atomic k first plain missing
      (if atomic = true ∧ (new_fd k first FD_CLOEXEC).2 ≥ 0 then new_fd k first FD_CLOEXEC
        else if atomic = true ∧ (new_fd k first FD_CLOEXEC).1.errno ≠ missing then
          ((new_fd k first FD_CLOEXEC).1, -1)
        else set_cloexec_or_close sys
          (new_fd (if atomic = true then (new_fd k first FD_CLOEXEC).1 else k) plain flags).1
          (new_fd (if atomic = true then (new_fd k first FD_CLOEXEC).1 else k) plain flags).2) := by
  have hn := new_fd_spec k first FD_CLOEXEC
  refine ⟨?_, ?_, ?_, wrapper_flag sys atomic k first plain missing _ flags⟩
  · intro ha h0
    obtain ⟨h1, h2, h3⟩ := hn.1 h0
    rw [if_pos ⟨ha, by rw [h1]; exact h0⟩]
    exact ⟨h1, cloexec_of_flags _ _ _ h2 (by decide), h3⟩
  · intro ha h0 he
    obtain ⟨h1, h2, h3⟩ := hn.2 h0
    rw [if_neg (by rw [h1]; intro h; exact absurd h.2 (by decide)),
      if_pos ⟨ha, by rw [h3]; exact he⟩]
    exact ⟨rfl, h2⟩
  · intro hf
    rcases Bool.eq_false_or_eq_true atomic with ha | ha
    · rcases hf with hf | hf
      · rw [ha] at hf; cases hf
      · obtain ⟨h1, h2, h3⟩ := hn.2 hf.1
        rw [if_neg (by rw [h1]; intro h; exact absurd h.2 (by decide)),
          if_neg (by rw [h3]; intro h; exact h.2 hf.2), if_pos ha]
        exact fallback_outcome sys k _ plain flags h2
    · have hna : ¬ atomic = true := by rw [ha]; decide
      rw [if_neg (fun h => hna h.1), if_neg (fun h => hna h.1), if_neg hna]
      exact fallback_outcome sys k k plain flags rfl

theorem socket_cloexec_outcome (sys : sys_calls) (atomic : Bool) (k : kernel) (domain : Int)
    (type : Nat) (protocol : Int) :
    wrapper_outcome sys atomic k (sys.socket domain (type ||| SOCK_CLOEXEC) protocol)
      (sys.socket domain type protocol) EINVAL
      (wl_os_socket_cloexec sys atomic k domain type protocol) := by
  unfold wl_os_socket_cloexec
  simp only [made_flags_self type SOCK_CLOEXEC (by decide)]
  exact wrapper_outcome_shape sys atomic k _ _ EINVAL _

theorem dupfd_cloexec_outcome (sys : sys_calls) (atomic : Bool) (k : kernel) (fd minfd : Int) :
    wrapper_outcome sys atomic k (sys.fcntl_dupfd_cloexec fd minfd) (sys.fcntl_dupfd fd minfd)
      EINVAL (wl_os_dupfd_cloexec sys atomic k fd minfd) := by
  unfold wl_os_dupfd_cloexec
  exact wrapper_outcome_shape sys atomic k _ _ EINVAL _

theorem epoll_create_cloexec_outcome (sys : sys_calls) (atomic : Bool) (k : kernel) :
    wrapper_outcome sys atomic k (sys.epoll_create1 EPOLL_CLOEXEC) (sys.epoll_create 1) EINVAL
      (wl_os_epoll_create_cloexec sys atomic k) := by
  unfold wl_os_epoll_create_cloexec
  rw [show made_flags EPOLL_CLOEXEC EPOLL_CLOEXEC = FD_CLOEXEC from rfl]
  exact wrapper_outcome_shape sys atomic k _ _ EINVAL _

theorem accept_cloexec_outcome (sys : sys_calls) (atomic : Bool) (k : kernel) (sockfd : Int) :
    wrapper_outcome sys atomic k (sys.accept4 sockfd SOCK_CLOEXEC) (sys.accept sockfd) ENOSYS
      (wl_os_accept_cloexec sys atomic k sockfd) := by
  unfold wl_os_accept_cloexec
  rw [show made_flags SOCK_CLOEXEC SOCK_CLOEXEC = FD_CLOEXEC from rfl]
  exact wrapper_outcome_shape sys atomic k _ _ ENOSYS _

/-- The fds the kernel opens for a message are open with the flags of the
call, and no other fd is touched. -/
theorem fd_flags_installed (flags : Nat) (fds : List Int) :
    ∀ (k : kernel) (fd : Int),
      fd_flags (fds.foldl (fun k fd => install k fd flags) k) fd =
        if fd ∈ fds then some flags else fd_flags k fd := by
  induction fds with
  | nil => intro k fd; simp
  | cons a t ih =>
    intro k fd
    rw [List.foldl_cons, ih]
    by_cases ht : fd ∈ t
    · rw [if_pos ht, if_pos (List.mem_cons_of_mem _ ht)]
    · rw [if_neg ht]
      by_cases ha : fd = a
      · rw [if_pos (by rw [ha]; exact List.mem_cons_self _ _), ha, fd_flags_install_self]
      · rw [if_neg (by
          intro h
          rcases List.mem_cons.mp h with h | h
          · exact ha h
          · exact ht h), fd_flags_install_other _ _ _ _ ha]

/-- The call `recvmsg`: on success the length and the control messages are
those of the kernel and every fd received is open with the flags of the call;
on failure -1 is returned with `errno` set and the fd table as before. -/
theorem recvmsg_spec (sys : sys_calls) (k : kernel) (sockfd : Int) (flags : Nat) :
    ((sys.recvmsg sockfd flags).1 ≠ -1 →
      (recvmsg sys k sockfd flags).2.1 = (sys.recvmsg sockfd flags).1 ∧
      (recvmsg sys k sockfd flags).2.2 = (sys.recvmsg sockfd flags).2.2 ∧
      ∀ fd ∈ rights_fds (sys.recvmsg sockfd flags).2.2,
        fd_flags (recvmsg sys k sockfd flags).1 fd =
          some (made_flags flags MSG_CMSG_CLOEXEC)) ∧
    ((sys.recvmsg sockfd flags).1 = -1 →
      (recvmsg sys k sockfd flags).2.1 = -1 ∧
      (recvmsg sys k sockfd flags).1.errno = (sys.recvmsg sockfd flags).2.1 ∧
      (recvmsg sys k sockfd flags).1.table = k.table) := by
  unfold recvmsg
  simp only
  constructor
  · intro h
    rw [if_neg h]
    refine ⟨rfl, rfl, ?_⟩
    intro fd hfd
    show fd_flags (List.foldl _ k (rights_fds _)) fd = _
    rw [fd_flags_installed, if_pos hfd]
  · intro h
    rw [if_pos h]
    exact ⟨rfl, rfl, rfl⟩

/-- The inner loop of the fallback on distinct open fds. -/
theorem fallback_fds_outcome (sys : sys_calls) (fds : List Int) :
    ∀ (k : kernel), fds.Nodup → (∀ fd ∈ fds, fd ≠ -1) → (∀ fd ∈ fds, fd_flags k fd ≠ none) →
      List.Forall₂ (fd_outcome sys (fallback_fds sys k fds).1) fds (fallback_fds sys k fds).2 := by
  induction fds with
  | nil => intro k _ _ _; exact List.Forall₂.nil
  | cons fd rest ih =>
    intro k hn hv ho
    have hnr := (List.nodup_cons.mp hn)
    have hne := hv fd (List.mem_cons_self _ _)
    have hs := set_cloexec_or_close_spec sys k fd hne
    have hout := set_cloexec_or_close_outcome sys k fd hne (ho fd (List.mem_cons_self _ _))
    have hrest : ∀ x ∈ rest, fd_flags (set_cloexec_or_close sys k fd).1 x ≠ none := by
      intro x hx
      rw [hs.2 x (fun h => hnr.1 (h ▸ hx))]
      exact ho x (List.mem_cons_of_mem _ hx)
    have hi := ih (set_cloexec_or_close sys k fd).1 hnr.2
      (fun x hx => hv x (List.mem_cons_of_mem _ hx)) hrest
    have hframe := (fallback_fds_spec sys rest (set_cloexec_or_close sys k fd).1 hnr.2
      (fun x hx => hv x (List.mem_cons_of_mem _ hx))).2
    unfold fallback_fds
    simp only
    exact List.Forall₂.cons (fd_outcome_congr sys _ _ _ _ (hframe fd hnr.1) hout) hi

/-- The outer loop of the fallback on distinct open fds. -/
theorem fallback_control_outcome (sys : sys_calls) (control : List cmsg) :
    ∀ (k : kernel), (rights_fds control).Nodup → (∀ fd ∈ rights_fds control, fd ≠ -1) →
      (∀ fd ∈ rights_fds control, fd_flags k fd ≠ none) →
      List.Forall₂ (fd_outcome sys (fallback_control sys k control).1)
        (rights_fds control) (rights_fds (fallback_control sys k control).2) := by
  induction control with
  | nil => intro k _ _ _; exact List.Forall₂.nil
  | cons c rest ih =>
    intro k hn hv ho
    rw [rights_fds_cons] at hn hv ho ⊢
    unfold fallback_control
    by_cases hc : c.level ≠ SOL_SOCKET ∨ c.type ≠ SCM_RIGHTS
    · rw [if_pos hc] at hn hv ho ⊢
      rw [if_pos hc]
      simp only [List.nil_append] at hn hv ho ⊢
      rw [rights_fds_cons, if_pos hc, List.nil_append]
      exact ih k hn hv ho
    · rw [if_neg hc] at hn hv ho ⊢
      rw [if_neg hc]
      simp only
      have hna := List.nodup_append.mp hn
      have hv1 : ∀ x ∈ c.fds, x ≠ -1 := fun x hx => hv x (List.mem_append_left _ hx)
      have hv2 : ∀ x ∈ rights_fds rest, x ≠ -1 := fun x hx => hv x (List.mem_append_right _ hx)
      have hf := fallback_fds_outcome sys c.fds k hna.1 hv1
        (fun x hx => ho x (List.mem_append_left _ hx))
      have hfs := fallback_fds_spec sys c.fds k hna.1 hv1
      have ho2 : ∀ x ∈ rights_fds rest, fd_flags (fallback_fds sys k c.fds).1 x ≠ none := by
        intro x hx
        rw [hfs.2 x (fun h => hna.2.2 h hx)]
        exact ho x (List.mem_append_right _ hx)
      have hi := ih (fallback_fds sys k c.fds).1 hna.2.1 hv2 ho2
      have hframe := (fallback_control_spec sys rest (fallback_fds sys k c.fds).1 hna.2.1 hv2).2
      rw [rights_fds_cons]
      simp only
      rw [if_neg hc]
      refine List.rel_append ?_ hi
      refine forall2_mono_mem hf ?_
      intro a ha b hab
      exact fd_outcome_congr sys _ _ _ _ (hframe a (fun h => hna.2.2 ha h)) hab

/-- The function `recvmsg_cloexec_fallback` on any kernel. -/
theorem recvmsg_fallback_outcome (sys : sys_calls) (k : kernel) (sockfd : Int) (flags : Nat)
    (hnodup : (rights_fds (sys.recvmsg sockfd flags).2.2).Nodup)
    (hvalid : ∀ x ∈ rights_fds (sys.recvmsg sockfd flags).2.2, 0 ≤ x) :
    ((sys.recvmsg sockfd flags).1 ≠ -1 →
      (recvmsg_cloexec_fallback sys k sockfd flags).2.1 = (sys.recvmsg sockfd flags).1 ∧
      List.Forall₂ (fd_outcome sys (recvmsg_cloexec_fallback sys k sockfd flags).1)
        (rights_fds (sys.recvmsg sockfd flags).2.2)
        (rights_fds (recvmsg_cloexec_fallback sys k sockfd flags).2.2)) ∧
    ((sys.recvmsg sockfd flags).1 = -1 →
      (recvmsg_cloexec_fallback sys k sockfd flags).2.1 = -1) := by
  have hr := recvmsg_spec sys k sockfd flags
  have hne : ∀ x ∈ rights_fds (sys.recvmsg sockfd flags).2.2, x ≠ -1 := by
    intro x hx h
    have := hvalid x hx
    rw [h] at this
    exact absurd this (by decide)
  constructor
  · intro hlen
    obtain ⟨h1, h2, h3⟩ := hr.1 hlen
    unfold recvmsg_cloexec_fallback
    simp only
    rw [h1, h2, if_neg hlen]
    by_cases he : (sys.recvmsg sockfd flags).2.2 = []
    · rw [if_pos he]
      simp only [true_and]
      rw [he]
      exact List.Forall₂.nil
    · rw [if_neg he]
      refine ⟨rfl, ?_⟩
      exact fallback_control_outcome sys _ _ hnodup hne
        (fun x hx => by rw [h3 x hx]; exact Option.some_ne_none _)
  · intro hlen
    obtain ⟨h1, _, _⟩ := hr.2 hlen
    unfold recvmsg_cloexec_fallback
    simp only
    rw [h1, if_pos rfl]

/-- The function `wl_os_recvmsg_cloexec` meets `recvmsg_outcome`. -/
theorem recvmsg_cloexec_outcome (sys : sys_calls) (atomic : Bool) (k : kernel) (sockfd : Int)
    (flags : Nat) (hnodup : (rights_fds (sys.recvmsg sockfd flags).2.2).Nodup)
    (hvalid : ∀ x ∈ rights_fds (sys.recvmsg sockfd flags).2.2, 0 ≤ x) :
    recvmsg_outcome sys atomic (sys.recvmsg sockfd (flags ||| MSG_CMSG_CLOEXEC))
      (sys.recvmsg sockfd flags) (wl_os_recvmsg_cloexec sys atomic k sockfd flags) := by
  have hr := recvmsg_spec sys k sockfd (flags ||| MSG_CMSG_CLOEXEC)
  unfold recvmsg_outcome wl_os_recvmsg_cloexec
  simp only
  refine ⟨?_, ?_, ?_⟩
  · intro ha h0
    have hne : (sys.recvmsg sockfd (flags ||| MSG_CMSG_CLOEXEC)).1 ≠ -1 := by omega
    obtain ⟨h1, h2, h3⟩ := hr.1 hne
    rw [if_pos ⟨ha, by rw [h1]; exact h0⟩]
    refine ⟨h1, h2, ?_⟩
    intro fd hfd
    refine cloexec_of_flags _ _ _ (h3 fd hfd) ?_
    rw [made_flags_self flags MSG_CMSG_CLOEXEC (by decide)]
    decide
  · intro ha h0 he
    obtain ⟨h1, h2, _⟩ := hr.2 h0
    rw [if_neg (by rw [h1]; intro h; exact absurd h.2 (by decide)),
      if_pos ⟨ha, by rw [h2]; exact he⟩]
  · intro hf
    rcases Bool.eq_false_or_eq_true atomic with ha | ha
    · rcases hf with hf | hf
      · rw [ha] at hf; cases hf
      · obtain ⟨h1, h2, _⟩ := hr.2 hf.1
        rw [if_neg (by rw [h1]; intro h; exact absurd h.2 (by decide)),
          if_neg (by rw [h2]; intro h; exact h.2 hf.2)]
        exact recvmsg_fallback_outcome sys _ sockfd flags hnodup hvalid
    · have hna : ¬ atomic = true := by rw [ha]; decide
      rw [if_neg (fun h => hna h.1), if_neg (fun h => hna h.1), if_neg hna]
      exact recvmsg_fallback_outcome sys k sockfd flags hnodup hvalid

theorem fallback_fds_length (sys : sys_calls) (fds : List Int) :
    ∀ (k : kernel), (fallback_fds sys k fds).2.length = fds.length := by
  induction fds with
  | nil => intro k; rfl
  | cons fd rest ih =>
    intro k
    unfold fallback_fds
    simp only [List.length_cons, ih]

theorem fallback_control_shape (sys : sys_calls) (control : List cmsg) :
    ∀ (k : kernel), List.Forall₂ same_message control (fallback_control sys k control).2 := by
  induction control with
  | nil => intro k; exact List.Forall₂.nil
  | cons c rest ih =>
    intro k
    unfold fallback_control
    by_cases hc : c.level ≠ SOL_SOCKET ∨ c.type ≠ SCM_RIGHTS
    · rw [if_pos hc]
      exact List.Forall₂.cons ⟨rfl, rfl, rfl, fun _ => rfl⟩ (ih _)
    · rw [if_neg hc]
      exact List.Forall₂.cons ⟨rfl, rfl, fallback_fds_length sys c.fds k, fun h => absurd h hc⟩
        (ih _)

theorem same_message_refl (control : List cmsg) : List.Forall₂ same_message control control := by
  induction control with
  | nil => exact List.Forall₂.nil
  | cons c rest ih => exact List.Forall₂.cons ⟨rfl, rfl, rfl, fun _ => rfl⟩ ih

/-- The fallback keeps the shape of the control messages and touches no fd
other than those received. -/
theorem recvmsg_fallback_frame (sys : sys_calls) (k k1 : kernel) (hk : k1.table = k.table)
    (sockfd : Int) (flags : Nat)
    (hnodup : (rights_fds (sys.recvmsg sockfd flags).2.2).Nodup)
    (hvalid : ∀ x ∈ rights_fds (sys.recvmsg sockfd flags).2.2, 0 ≤ x)
    (hlen : (sys.recvmsg sockfd flags).1 ≠ -1) :
    recvmsg_frame k (sys.recvmsg sockfd flags) (recvmsg_cloexec_fallback sys k1 sockfd flags) := by
  have hne : ∀ x ∈ rights_fds (sys.recvmsg sockfd flags).2.2, x ≠ -1 := by
    intro x hx h
    have := hvalid x hx
    rw [h] at this
    exact absurd this (by decide)
  have hinst : ∀ fd, fd ∉ rights_fds (sys.recvmsg sockfd flags).2.2 →
      fd_flags ((rights_fds (sys.recvmsg sockfd flags).2.2).foldl
        (fun k fd => install k fd (made_flags flags MSG_CMSG_CLOEXEC)) k1) fd = fd_flags k fd := by
    intro fd hfd
    rw [fd_flags_installed, if_neg hfd]
    exact fd_flags_table k k1 hk fd
  unfold recvmsg_frame recvmsg_cloexec_fallback recvmsg
  simp only [if_neg hlen]
  by_cases he : (sys.recvmsg sockfd flags).2.2 = []
  · rw [if_pos he]
    exact ⟨same_message_refl _, hinst⟩
  · rw [if_neg he]
    refine ⟨fallback_control_shape sys _ _, ?_⟩
    intro fd hfd
    rw [(fallback_control_spec sys _ _ hnodup hne).2 fd hfd]
    exact hinst fd hfd

/-- On its fallback path `wl_os_recvmsg_cloexec` keeps the shape of the control
messages and touches no fd other than those received. -/
theorem recvmsg_cloexec_frame (sys : sys_calls) (atomic : Bool) (k : kernel) (sockfd : Int)
    (flags : Nat) (hnodup : (rights_fds (sys.recvmsg sockfd flags).2.2).Nodup)
    (hvalid : ∀ x ∈ rights_fds (sys.recvmsg sockfd flags).2.2, 0 ≤ x)
    (hf : atomic = false ∨ ((sys.recvmsg sockfd (flags ||| MSG_CMSG_CLOEXEC)).1 = -1 ∧
      (sys.recvmsg sockfd (flags ||| MSG_CMSG_CLOEXEC)).2.1 = EINVAL))
    (hlen : (sys.recvmsg sockfd flags).1 ≠ -1) :
    recvmsg_frame k (sys.recvmsg sockfd flags) (wl_os_recvmsg_cloexec sys atomic k sockfd flags) := by
  have hr := recvmsg_spec sys k sockfd (flags ||| MSG_CMSG_CLOEXEC)
  unfold wl_os_recvmsg_cloexec
  simp only
  rcases Bool.eq_false_or_eq_true atomic with ha | ha
  · rcases hf with hf | hf
    · rw [ha] at hf; cases hf
    · obtain ⟨h1, h2, h3⟩ := hr.2 hf.1
      rw [if_neg (by rw [h1]; intro h; exact absurd h.2 (by decide)),
        if_neg (by rw [h2]; intro h; exact h.2 hf.2), if_pos ha]
      exact recvmsg_fallback_frame sys k _ h3 sockfd flags hnodup hvalid hlen
  · have hna : ¬ atomic = true := by rw [ha]; decide
    rw [if_neg (fun h => hna h.1), if_neg (fun h => hna h.1), if_neg hna]
    exact recvmsg_fallback_frame sys k k rfl sockfd flags hnodup hvalid hlen

/-- C26: each of `wl_os_socket_cloexec`, `wl_os_dupfd_cloexec`,
`wl_os_epoll_create_cloexec` and `wl_os_accept_cloexec` returns the fd of the
atomic call, open with the close-on-exec flag, when that call is compiled in
and succeeds, and -1 when it fails for a reason other than the missing flag;
when the atomic call is not compiled in or not supported, the wrapper returns
the fd of the plain call with the flag set by `set_cloexec_or_close`, or closes
that fd and returns -1 when `fcntl` fails, or returns -1 when the plain call
fails; every non-negative fd returned is close-on-exec and no other fd is
touched.  `wl_os_recvmsg_cloexec` returns what the atomic `recvmsg` received,
every fd close-on-exec, and on its fallback path leaves every fd received in
an `SCM_RIGHTS` message close-on-exec, or closed and replaced by -1 when
`fcntl` fails on it, keeping the shape of the control messages and touching no
other fd. -/
theorem cloexec_wrappers (sys : sys_calls) (atomic : Bool) (k : kernel) (domain : Int)
    (type : Nat) (protocol fd minfd sockfd : Int) (flags : Nat)
    (hnodup : (rights_fds (sys.recvmsg sockfd flags).2.2).Nodup)
    (hvalid : ∀ x ∈ rights_fds (sys.recvmsg sockfd flags).2.2, 0 ≤ x) :
    wrapper_outcome sys atomic k (sys.socket domain (type ||| SOCK_CLOEXEC) protocol)
      (sys.socket domain type protocol) EINVAL
      (wl_os_socket_cloexec sys atomic k domain type protocol) ∧
    wrapper_outcome sys atomic k (sys.fcntl_dupfd_cloexec fd minfd) (sys.fcntl_dupfd fd minfd)
      EINVAL (wl_os_dupfd_cloexec sys atomic k fd minfd) ∧
    wrapper_outcome sys atomic k (sys.epoll_create1 EPOLL_CLOEXEC) (sys.epoll_create 1) EINVAL
      (wl_os_epoll_create_cloexec sys atomic k) ∧
    wrapper_outcome sys atomic k (sys.accept4 sockfd SOCK_CLOEXEC) (sys.accept sockfd) ENOSYS
      (wl_os_accept_cloexec sys atomic k sockfd) ∧
    (∀ (k1 : kernel) (fd1 : Int), fd1 ≠ -1 → fd_flags k1 fd1 ≠ none →
      fd_outcome sys (set_cloexec_or_close sys k1 fd1).1 fd1 (set_cloexec_or_close sys k1 fd1).2) ∧
    (∀ (k1 : kernel) (fd1 : Int), fd1 ≠ -1 →
      flagged_or_closed (set_cloexec_or_close sys k1 fd1).1 fd1
        (set_cloexec_or_close sys k1 fd1).2) ∧
    (∀ (k1 : kernel), set_cloexec_or_close sys k1 (-1) = (k1, -1)) ∧
    recvmsg_outcome sys atomic (sys.recvmsg sockfd (flags ||| MSG_CMSG_CLOEXEC))
      (sys.recvmsg sockfd flags) (wl_os_recvmsg_cloexec sys atomic k sockfd flags) ∧
    (atomic = false ∨ ((sys.recvmsg sockfd (flags ||| MSG_CMSG_CLOEXEC)).1 = -1 ∧
        (sys.recvmsg sockfd (flags ||| MSG_CMSG_CLOEXEC)).2.1 = EINVAL) →
      (sys.recvmsg sockfd flags).1 ≠ -1 →
      recvmsg_frame k (sys.recvmsg sockfd flags)
        (wl_os_recvmsg_cloexec sys atomic k sockfd flags)) :=
  ⟨socket_cloexec_outcome sys atomic k domain type protocol,
    dupfd_cloexec_outcome sys atomic k fd minfd,
    epoll_create_cloexec_outcome sys atomic k,
    accept_cloexec_outcome sys atomic k sockfd,
    fun k1 fd1 h ho => set_cloexec_or_close_outcome sys k1 fd1 h ho,
    fun k1 fd1 h => (set_cloexec_or_close_spec sys k1 fd1 h).1,
    fun _ => rfl,
    recvmsg_cloexec_outcome sys atomic k sockfd flags hnodup hvalid,
    recvmsg_cloexec_frame sys atomic k sockfd flags hnodup hvalid⟩

/-- On the sample kernel, which lacks the atomic calls, the fallback of
`wl_os_socket_cloexec` returns the fd 3 of the plain call with the flag set,
and the fallback of `wl_os_recvmsg_cloexec` returns the length 8, keeps the
received fd 4 and closes the fd 5, whose flag cannot be set. -/
theorem cloexec_wrappers_witness :
    (wl_os_socket_cloexec sample_sys true sample_kernel 1 1 0).2 = 3 ∧
    cloexec (wl_os_socket_cloexec sample_sys true sample_kernel 1 1 0).1
      (wl_os_socket_cloexec sample_sys true sample_kernel 1 1 0).2 = true ∧
    rights_fds (wl_os_recvmsg_cloexec sample_sys true sample_kernel 0 0).2.2 = [4, -1] ∧
    ((wl_os_recvmsg_cloexec sample_sys true sample_kernel 0 0).2.1 = 8 ∧
      List.Forall₂ (fd_outcome sample_sys (wl_os_recvmsg_cloexec sample_sys true sample_kernel 0 0).1)
        (rights_fds (sample_sys.recvmsg 0 0).2.2)
        (rights_fds (wl_os_recvmsg_cloexec sample_sys true sample_kernel 0 0).2.2)) :=
  ⟨by decide,
    (cloexec_wrappers sample_sys true sample_kernel 1 1 0 0 0 0 0 (by decide)
      (by decide)).1.2.2.2 (by decide),
    by decide,
    ((cloexec_wrappers sample_sys true sample_kernel 1 1 0 0 0 0 0 (by decide)
      (by decide)).2.2.2.2.2.2.2.1.2.2 (Or.inr ⟨by decide, by decide⟩)).1 (by decide)⟩

end Os

